import Mathlib

/-!
# ASGarD numerical core: solver and kronmult helpers

A shallow embedding of `src/solver.cpp` and `src/kronmult.cpp`.

Conventions of the embedding

* The floating-point precision `P` is read as exact rational arithmetic (`ℚ`);
  a division by zero follows Lean's convention `x / 0 = 0`.
* `fk::vector<P>` is a `List ℚ`; `v[i] = e` is `List.set`, a read `v[i]` is
  `List.getD v i 0`. A matrix is the list of its columns.
* A counted loop `for (int i = 0; i < n; ++i) body` is `forLoop n body`; a `while`
  loop is a recursion on the number of passes it can make at most, and the
  theorems show that it is left with its condition false.
* Vendor BLAS/LAPACK routines whose result is not rational (`nrm2`, `rotg`,
  `tpsv`, `pttrs`, the Gauss-Legendre table), the helper `get_MB` and the
  sentinels of the option parser are parameters of the functions that use them.
* A solver call returns a `solver_result`: the iterate `x` it leaves, the number
  of applications of the operator and of the preconditioner, and the info record
  or the way the call ended without one (a failed `expect`, an exception, an
  integer `%` with divisor zero).
* Timers and console output are left out; the guard of the inner-residual print
  of `simple_gmres` is kept, because its divisor `restart / 3` can be zero.
-/

set_option autoImplicit false

namespace Asgard

/-! ## Loops and vectors -/

/-- The counted loop `for (int i = 0; i < n; ++i) s = body(i, s)`. -/
def forLoop {σ : Type} (n : Nat) (body : Nat → σ → σ) (s : σ) : σ :=
  (List.range n).foldl (fun acc i => body i acc) s

/-- The accumulation `acc = init; for (q = 0; q < n; ++q) acc += term(q)`. -/
def sumLoop (n : Nat) (term : Nat → ℚ) (init : ℚ) : ℚ :=
  forLoop n (fun q acc => acc + term q) init

/-- Read of `v[i]`. -/
def rd (v : List ℚ) (i : Nat) : ℚ := v.getD i 0

/-! ## `poisson_solver` (solver.cpp, lines 469-575) -/

/-- The boundary condition tag `poisson_bc`. -/
inductive poisson_bc where
  | dirichlet
  | periodic
deriving DecidableEq, Repr

/-- The single-element branch of `poisson_solver` (lines 487-497): the loop over
the `degree + 1` quadrature nodes, writing `phi[k]` and `E[k]`. -/
def poisson_single (lgwt : Nat → Nat → ℚ) (phi E : List ℚ) (degree : Nat)
    (dx x_min x_max phi_min phi_max : ℚ) : List ℚ × List ℚ :=
  forLoop (degree + 1)
    (fun k st =>
      let x_k := x_min + (1 / 2) * dx * (1 + lgwt 0 k)
      (st.1.set k (((phi_max - phi_min) / (x_max - x_min)) * (x_k - x_min) + x_min),
       st.2.set k (-(phi_max - phi_min) / (x_max - x_min))))
    (phi, E)

/-- The load vector of `poisson_solver` (lines 499-527): the periodic average of
the source and the `N_nodes` entries of `b`. -/
def poisson_load (lgwt : Nat → Nat → ℚ) (source : List ℚ) (degree N_elements : Nat)
    (dx x_min x_max : ℚ) (bc : poisson_bc) : List ℚ :=
  let N_nodes := N_elements - 1
  let ave_source : ℚ :=
    match bc with
    | poisson_bc.periodic =>
      (forLoop N_elements
        (fun i acc =>
          sumLoop (degree + 1)
            (fun q => (1 / 2) * dx * lgwt 1 q * rd source (i * (degree + 1) + q)) acc)
        0) / (x_max - x_min)
    | poisson_bc.dirichlet => 0
  forLoop N_nodes
    (fun i b =>
      b.set i
        (sumLoop (degree + 1)
          (fun q =>
            (1 / 4) * dx * lgwt 1 q *
              (rd source (i * (degree + 1) + q) * (1 + lgwt 0 q) +
               rd source ((i + 1) * (degree + 1) + q) * (1 - lgwt 0 q) -
               2 * ave_source))
          0))
    (List.replicate N_nodes 0)

/-- The function `poisson_solver`: returns the pair `(phi, E)` it leaves in its
two output arguments. `lgwt 0` is the table of Gauss-Legendre nodes on `[-1, 1]`
and `lgwt 1` the table of weights (`legendre_weights(degree + 1, -1, 1)`);
`pttrs A_D A_E b` is the LAPACK tridiagonal solve. -/
def poisson_solver (lgwt : Nat → Nat → ℚ) (pttrs : List ℚ → List ℚ → List ℚ → List ℚ)
    (source A_D A_E phi E : List ℚ) (degree N_elements : Nat)
    (x_min x_max phi_min phi_max : ℚ) (bc : poisson_bc) : List ℚ × List ℚ :=
  let dx := (x_max - x_min) / (N_elements : ℚ)
  if N_elements = 1 then
    poisson_single lgwt phi E degree dx x_min x_max phi_min phi_max
  else
    let b := pttrs A_D A_E (poisson_load lgwt source degree N_elements dx x_min x_max bc)
    let dg := (phi_max - phi_min) / (x_max - x_min)
    -- first element
    let st1 := forLoop (degree + 1)
      (fun k (st : List ℚ × List ℚ) =>
        let x_k := x_min + (1 / 2) * dx * (1 + lgwt 0 k)
        let g_k := phi_min + dg * (x_k - x_min)
        (st.1.set k ((1 / 2) * rd b 0 * (1 + lgwt 0 k) + g_k),
         st.2.set k (-(rd b 0) / dx - dg)))
      (phi, E)
    -- interior elements
    let st2 := forLoop (N_elements - 1 - 1)
      (fun i0 (st : List ℚ × List ℚ) =>
        let i := i0 + 1
        forLoop (degree + 1)
          (fun q (st : List ℚ × List ℚ) =>
            let k := i * (degree + 1) + q
            let x_k := (x_min + (i : ℚ) * dx) + (1 / 2) * dx * (1 + lgwt 0 q)
            let g_k := phi_min + dg * (x_k - x_min)
            (st.1.set k
               ((1 / 2) * (rd b (i - 1) * (1 - lgwt 0 q) + rd b i * (1 + lgwt 0 q)) + g_k),
             st.2.set k (-(rd b i - rd b (i - 1)) / dx - dg)))
          st)
      st1
    -- last element
    let i := N_elements - 1
    forLoop (degree + 1)
      (fun q (st : List ℚ × List ℚ) =>
        let k := i * (degree + 1) + q
        let x_k := (x_min + (i : ℚ) * dx) + (1 / 2) * dx * (1 + lgwt 0 q)
        let g_k := phi_min + dg * (x_k - x_min)
        (st.1.set k ((1 / 2) * rd b (i - 1) * (1 - lgwt 0 q) + g_k),
         st.2.set k (rd b (i - 1) / dx - dg)))
      st2

/-- The one-point Gauss-Legendre rule on `[-1, 1]`: node `0`, weight `2`. -/
def lgwt_one_point : Nat → Nat → ℚ :=
  fun r _ => if r = 0 then 0 else 2

/-! ## Externals of the solvers -/

/-- The routines and constants that `solver.cpp` takes from elsewhere: the BLAS
calls whose results are not rational, the byte-size helper `get_MB<P>` and the
"unset" sentinels of the option parser. -/
structure externals where
  /-- Value of `std::is_same_v<float, P>`. -/
  is_float : Bool
  /-- Value of `std::numeric_limits<P>::epsilon()`. -/
  epsilon : ℚ
  /-- Value of `parser::NO_USER_VALUE`. -/
  NO_USER_VALUE : Int
  /-- Value of `parser::NO_USER_VALUE_FP`. -/
  NO_USER_VALUE_FP : ℚ
  /-- The helper `get_MB<P>(num_elems)`. -/
  get_MB : Int → ℚ
  /-- The Euclidean norm `fm::nrm2`. -/
  nrm2 : List ℚ → ℚ
  /-- The routine `lib_dispatch::rotg(a, b, c, s)`: returns `(a, b, c, s)` after the call. -/
  rotg : ℚ → ℚ → ℚ × ℚ × ℚ × ℚ
  /-- The packed triangular solve `fm::tpsv(proj, s)`: returns `s` after the call. -/
  tpsv : List ℚ → List ℚ → List ℚ

/-- Ways a solver call ends without an info record. -/
inductive solver_error where
  /-- A failed `expect(...)`. The macro `expect` is declared outside the sources at
  hand; following the spec (invalid arguments are "reported immediately", a
  tolerance below machine epsilon "is rejected") a failed check ends the call. -/
  | expect_failed
  /-- The exception `std::invalid_argument`. -/
  | invalid_argument
  /-- The exception `std::runtime_error("BiCGSTAB method failed. rho_1 == 0")`. -/
  | rho_breakdown
  /-- The exception `std::runtime_error("BiCGSTAB method failed. omega == 0")`. -/
  | omega_breakdown
  /-- An integer `%` evaluated with divisor zero (undefined behaviour). -/
  | modulo_by_zero
deriving DecidableEq, Repr

/-- The record `gmres_info<P>{residual, iterations}`. -/
structure gmres_info where
  residual : ℚ
  iterations : Int
deriving DecidableEq, Repr

/-- What a solver call leaves behind: the iterate `x` (a view that the solver
mutates in place), how often the operator and the preconditioner were applied,
and either the returned info record or the error that ended the call. -/
structure solver_result where
  x : List ℚ
  mat_calls : Nat
  prec_calls : Nat
  outcome : Except solver_error gmres_info

/-- Equality of two outcomes of a solver call is decidable. -/
instance decEqOutcome : DecidableEq (Except solver_error gmres_info)
  | Except.ok a, Except.ok b =>
    if h : a = b then isTrue (by rw [h]) else isFalse (fun h2 => h (by cases h2; rfl))
  | Except.error a, Except.error b =>
    if h : a = b then isTrue (by rw [h]) else isFalse (fun h2 => h (by cases h2; rfl))
  | Except.ok _, Except.error _ => isFalse (fun h => by cases h)
  | Except.error _, Except.ok _ => isFalse (fun h => by cases h)

/-- One pass through a loop body: go on with a new state, or leave the function. -/
inductive loop_step (σ : Type) where
  | next (s : σ)
  | done (r : solver_result)

/-- The dot product `x * y` of two `fk::vector`s. -/
def dot (x y : List ℚ) : ℚ :=
  sumLoop x.length (fun i => rd x i * rd y i) 0

/-- The update `lib_dispatch::axpy(n, alpha, x, 1, y, 1)`: `y[i] += alpha * x[i]` for `i < n`. -/
def axpy (n : Nat) (alpha : ℚ) (x y : List ℚ) : List ℚ :=
  forLoop n (fun i acc => acc.set i (rd acc i + alpha * rd x i)) y

/-- The update `fm::axpy(x, y, alpha)`: `y += alpha * x`. -/
def fm_axpy (x y : List ℚ) (alpha : ℚ) : List ℚ :=
  axpy y.length alpha x y

/-- The member `scale(alpha)` of `fk::vector`. -/
def scale (v : List ℚ) (alpha : ℚ) : List ℚ :=
  v.map (fun e => e * alpha)

/-- The cast `static_cast<int>(q)`: truncation toward zero. -/
def trunc_int (q : ℚ) : Int :=
  if 0 ≤ q then Int.floor q else Int.ceil q

/-- The function `std::clamp(v, lo, hi)`. -/
def clamp (v lo hi : Int) : Int :=
  if v < lo then lo else if hi < v then hi else v

/-! ## Preconditioner and implicit-Euler operator (solver.cpp, lines 95-159) -/

/-- The host `apply_diagonal_precond(pc, dt, x)`: the loop
`for (i = 0; i < pc.size(); i++) x[i] /= (1.0 - dt * pc[i])`. -/
def apply_diagonal_precond (pc : List ℚ) (dt : ℚ) (x : List ℚ) : List ℚ :=
  forLoop pc.length (fun i acc => acc.set i (rd acc i / (1 - dt * rd pc i))) x

/-- The lambda that `simple_gmres_euler` and `bicgstab_euler` pass as the linear
operator: `ops.apply(imex, -dt * alpha, x_in, beta, y)` followed by
`axpy(y.size(), alpha, x_in, 1, y, 1)`. The argument `ops_apply a x b y` is the
vector that `ops.apply<resrc>(imex, a, x, b, y)` leaves in `y`. -/
def euler_operator (dt : ℚ) (ops_apply : ℚ → List ℚ → ℚ → List ℚ → List ℚ)
    (alpha : ℚ) (x_in : List ℚ) (beta : ℚ) (y : List ℚ) : List ℚ :=
  let y1 := ops_apply (-dt * alpha) x_in beta y
  axpy y1.length alpha x_in y1

/-- The lambda that `simple_gmres_euler` and `bicgstab_euler` pass as the
preconditioner. -/
def euler_preconditioner (pc : List ℚ) (dt : ℚ) (x_in : List ℚ) : List ℚ :=
  apply_diagonal_precond pc dt x_in

/-! ## `default_gmres_restarts` and `pos_from_indices` (solver.cpp, lines 161-177) -/

/-- The function `default_gmres_restarts<P>(num_cols)`. -/
def default_gmres_restarts (ext : externals) (num_cols : Int) : Int :=
  let minimum := min 10 num_cols
  let maximum := min 200 num_cols
  clamp (trunc_int (512 / ext.get_MB num_cols)) minimum maximum

/-- The function `pos_from_indices(i, j)`. -/
def pos_from_indices (i j : Nat) : Nat := i + j * (j + 1) / 2

/-! ## `bicgstab` (solver.cpp, lines 343-437) -/

/-- The variables of `bicgstab` that live across iterations of its loop. -/
structure bicg_state where
  x : List ℚ
  r : List ℚ
  p : List ℚ
  phat : List ℚ
  s : List ℚ
  shat : List ℚ
  t : List ℚ
  v : List ℚ
  rho_2 : ℚ
  alpha : ℚ
  omega : ℚ
  resid : ℚ
  mat_calls : Nat
  prec_calls : Nat

/-- The tolerance after lines 351-352 (and 188-189): the sentinel is replaced by
the default of the precision. -/
def effective_tolerance (ext : externals) (tol : ℚ) : ℚ :=
  if tol = ext.NO_USER_VALUE_FP then
    (if ext.is_float then 1 / 1000000 else 1 / 1000000000000)
  else tol

/-- The iteration budget after lines 358-359 (and 206-207): the sentinel is
replaced by `n`. -/
def effective_max_iter (ext : externals) (max_iter n : Int) : Int :=
  if max_iter = ext.NO_USER_VALUE then n else max_iter

/-- The value `rho_1 = rtilde * r` of an iteration entered in state `st` (line 384). -/
def bicg_rho_1 (rtilde : List ℚ) (st : bicg_state) : ℚ := dot rtilde st.r

/-- First half of an iteration (lines 389-408), after the `rho_1` check: the new
`p`, `phat`, `v`, `alpha`, `s` and the residual of `s`. The quotients are those
of the rationals: they are the values of the program as long as the divisors
`rho_2`, `omega` and `rtilde * v` are not zero (the first two never are in an
iteration that is entered; for the third see `bicg_divisors_nonzero`). With
`rtilde * v = 0` the program computes `alpha = inf`, which no rational stands for. -/
def bicg_first_half (ext : externals) (mat : ℚ → List ℚ → ℚ → List ℚ → List ℚ)
    (precondition : List ℚ → List ℚ) (normb : ℚ) (rtilde : List ℚ) (i : Nat)
    (st : bicg_state) : bicg_state :=
  let rho_1 := bicg_rho_1 rtilde st
  let p :=
    if i = 1 then st.r
    else
      let beta := (rho_1 / st.rho_2) * (st.alpha / st.omega)
      let phat := fm_axpy st.v st.p (-1 * st.omega)
      fm_axpy phat st.r beta
  let phat := precondition p
  let v := mat 1 phat 0 st.v
  let alpha := rho_1 / dot rtilde v
  let s := fm_axpy v st.r (-1 * alpha)
  { st with
    p := p, phat := phat, v := v, alpha := alpha, s := s,
    resid := ext.nrm2 s / normb,
    mat_calls := st.mat_calls + 1, prec_calls := st.prec_calls + 1 }

/-- Second half of an iteration (lines 414-425), entered in the state that the
first half left: `shat`, `t`, `omega`, the update of `x` and `r`, `rho_2` and the
residual of `r`. The quotient `omega` is that of the rationals: it is the value
of the program as long as `t * t` is not zero (see `bicg_divisors_nonzero`). With
`t * t = 0` the program computes `omega = NaN`, which no rational stands for. -/
def bicg_second_half (ext : externals) (mat : ℚ → List ℚ → ℚ → List ℚ → List ℚ)
    (precondition : List ℚ → List ℚ) (normb : ℚ) (rho_1 : ℚ)
    (st : bicg_state) : bicg_state :=
  let shat := precondition st.s
  let t := mat 1 shat 0 st.t
  let omega := dot t st.s / dot t t
  let x := fm_axpy shat (fm_axpy st.phat st.x st.alpha) omega
  let r := fm_axpy t st.s (-1 * omega)
  { st with
    shat := shat, t := t, omega := omega, x := x, r := r, rho_2 := rho_1,
    resid := ext.nrm2 r / normb,
    mat_calls := st.mat_calls + 1, prec_calls := st.prec_calls + 1 }

/-- The body of the loop `for (int i = 1; i <= max_iter; i++)` (lines 383-434). -/
def bicg_body (ext : externals) (mat : ℚ → List ℚ → ℚ → List ℚ → List ℚ)
    (precondition : List ℚ → List ℚ) (tol normb : ℚ) (rtilde : List ℚ) (i : Nat)
    (st : bicg_state) : loop_step bicg_state :=
  let rho_1 := bicg_rho_1 rtilde st
  if rho_1 = 0 then
    loop_step.done ⟨st.x, st.mat_calls, st.prec_calls, Except.error solver_error.rho_breakdown⟩
  else
    let st1 := bicg_first_half ext mat precondition normb rtilde i st
    if st1.resid < tol then
      loop_step.done ⟨fm_axpy st1.phat st1.x st1.alpha, st1.mat_calls, st1.prec_calls,
        Except.ok ⟨st1.resid, i⟩⟩
    else
      let st2 := bicg_second_half ext mat precondition normb rho_1 st1
      if st2.resid < tol then
        loop_step.done ⟨st2.x, st2.mat_calls, st2.prec_calls, Except.ok ⟨st2.resid, i⟩⟩
      else if st2.omega = 0 then
        loop_step.done ⟨st2.x, st2.mat_calls, st2.prec_calls,
          Except.error solver_error.omega_breakdown⟩
      else loop_step.next st2

/-- The loop `for (int i = 1; i <= max_iter; i++)` with `remaining` passes left
and the counter at `i`, followed by the return of line 436. -/
def bicg_loop (ext : externals) (mat : ℚ → List ℚ → ℚ → List ℚ → List ℚ)
    (precondition : List ℚ → List ℚ) (tol normb : ℚ) (rtilde : List ℚ) (max_iter : Int) :
    Nat → Nat → bicg_state → solver_result
  | 0, _, st => ⟨st.x, st.mat_calls, st.prec_calls, Except.ok ⟨st.resid, max_iter⟩⟩
  | remaining + 1, i, st =>
    match bicg_body ext mat precondition tol normb rtilde i st with
    | loop_step.done r => r
    | loop_step.next st2 =>
      bicg_loop ext mat precondition tol normb rtilde max_iter remaining (i + 1) st2

/-- The state in which the loop of `bicgstab` is entered (lines 362-379). -/
def bicg_init (ext : externals) (mat : ℚ → List ℚ → ℚ → List ℚ → List ℚ)
    (x b : List ℚ) (normb : ℚ) : bicg_state :=
  let n := b.length
  let zeros := List.replicate n (0 : ℚ)
  let r := mat (-1) x 1 b
  { x := x, r := r, p := zeros, phat := zeros, s := zeros, shat := zeros, t := zeros,
    v := zeros, rho_2 := 0, alpha := 0, omega := 0, resid := ext.nrm2 r / normb,
    mat_calls := 1, prec_calls := 0 }

/-- The value of `normb` after lines 364 and 370-371. -/
def bicg_normb (ext : externals) (b : List ℚ) : ℚ :=
  if ext.nrm2 b = 0 then 1 else ext.nrm2 b

/-- The function `bicgstab(mat, x, b, precondition, max_iter, tol)`. -/
def bicgstab (ext : externals) (mat : ℚ → List ℚ → ℚ → List ℚ → List ℚ)
    (x b : List ℚ) (precondition : List ℚ → List ℚ) (max_iter : Int) (tol : ℚ) :
    solver_result :=
  let tol := effective_tolerance ext tol
  if ¬ (tol ≥ ext.epsilon) then ⟨x, 0, 0, Except.error solver_error.expect_failed⟩
  else
    let n : Int := b.length
    if ¬ (n = x.length) then ⟨x, 0, 0, Except.error solver_error.expect_failed⟩
    else
      let max_iter := effective_max_iter ext max_iter n
      if ¬ (max_iter > 0) then ⟨x, 0, 0, Except.error solver_error.expect_failed⟩
      else
        let normb := bicg_normb ext b
        let st := bicg_init ext mat x b normb
        if st.resid ≤ tol then
          ⟨st.x, st.mat_calls, st.prec_calls, Except.ok ⟨st.resid, 0⟩⟩
        else
          bicg_loop ext mat precondition tol normb st.r max_iter max_iter.toNat 1 st

/-- The function `bicgstab_euler(dt, imex, ops, x, b, max_iter, tolerance)`;
`pc` is `ops.get_diagonal_preconditioner<resrc>()`. -/
def bicgstab_euler (ext : externals) (dt : ℚ)
    (ops_apply : ℚ → List ℚ → ℚ → List ℚ → List ℚ) (pc : List ℚ) (x b : List ℚ)
    (max_iter : Int) (tolerance : ℚ) : solver_result :=
  bicgstab ext (euler_operator dt ops_apply) x b (euler_preconditioner pc dt) max_iter tolerance

/-! ## `simple_gmres` (solver.cpp, lines 179-321) -/

/-- The call `fm::gemv(A, x, y, false, alpha, beta)` for a matrix given by its
columns: `y = beta * y + alpha * A * x`. -/
def gemv_n (cols : List (List ℚ)) (x y : List ℚ) (alpha beta : ℚ) : List ℚ :=
  forLoop y.length
    (fun i acc =>
      acc.set i (beta * rd y i + alpha * sumLoop cols.length (fun j => rd (cols.getD j []) i * rd x j) 0))
    y

/-- The call `fm::gemv(A, x, y, true, alpha, beta)` for a matrix given by its
columns: `y = beta * y + alpha * A^T * x`. -/
def gemv_t (cols : List (List ℚ)) (x y : List ℚ) (alpha beta : ℚ) : List ℚ :=
  forLoop cols.length
    (fun j acc => acc.set j (beta * rd y j + alpha * dot (cols.getD j []) x))
    y

/-- The call `lib_dispatch::rot(1, &v[i], 1, &v[j], 1, c, s)` on two entries of one
vector: `(v[i], v[j]) = (c * v[i] + s * v[j], c * v[j] - s * v[i])`. -/
def rot_entries (v : List ℚ) (i j : Nat) (c s : ℚ) : List ℚ :=
  (v.set i (c * rd v i + s * rd v j)).set j (c * rd v j - s * rd v i)

/-- The variables of `simple_gmres` that live across iterations of its loops.
`basis` is the list of the `restart + 1` columns of the matrix `basis`. -/
structure gmres_state where
  x : List ℚ
  basis : List (List ℚ)
  krylov_proj : List ℚ
  sines : List ℚ
  cosines : List ℚ
  krylov_sol : List ℚ
  total_iterations : Int
  outer_iterations : Nat
  inner_iterations : Nat
  inner_res : ℚ
  outer_res : ℚ
  mat_calls : Nat
  prec_calls : Nat

/-- The body of the inner loop (lines 239-297). -/
def gmres_inner_body (ext : externals) (mat : ℚ → List ℚ → ℚ → List ℚ → List ℚ)
    (precondition : List ℚ → List ℚ) (tolerance : ℚ) (restart print_freq : Nat)
    (st : gmres_state) : loop_step gmres_state :=
  let j := st.inner_iterations
  let tmp := st.basis.getD j []
  let new_basis := precondition (mat 1 tmp 0 (st.basis.getD (j + 1) []))
  let basis_v := st.basis.take (j + 1)
  let off := pos_from_indices 0 j
  -- coeffs is the view krylov_proj[off .. off + j]
  let coeffs := gemv_t basis_v new_basis ((st.krylov_proj.drop off).take (j + 1)) 1 0
  let new_basis := gemv_n basis_v coeffs new_basis (-1) 1
  let nrm := ext.nrm2 new_basis
  let new_basis := scale new_basis (1 / nrm)
  let coeffs := forLoop j (fun k c => rot_entries c k (k + 1) (rd st.cosines k) (rd st.sines k)) coeffs
  let g := ext.rotg (rd coeffs j) nrm
  let coeffs := coeffs.set j g.1
  let cosines := st.cosines.set j g.2.2.1
  let sines := st.sines.set j g.2.2.2
  let inner_res := |rd sines j * rd st.krylov_sol j|
  let krylov_sol :=
    if inner_res > tolerance ∧ j < restart then
      rot_entries (st.krylov_sol.set (j + 1) 0) j (j + 1) (rd cosines j) (rd sines j)
    else st.krylov_sol
  let krylov_proj := st.krylov_proj.take off ++ coeffs ++ st.krylov_proj.drop (off + (j + 1))
  if print_freq = 0 then
    loop_step.done ⟨st.x, st.mat_calls + 1, st.prec_calls + 1,
      Except.error solver_error.modulo_by_zero⟩
  else
    loop_step.next
      { st with
        basis := st.basis.set (j + 1) new_basis, krylov_proj := krylov_proj,
        sines := sines, cosines := cosines, krylov_sol := krylov_sol,
        total_iterations := st.total_iterations + 1, inner_iterations := j + 1,
        inner_res := inner_res,
        mat_calls := st.mat_calls + 1, prec_calls := st.prec_calls + 1 }

/-- The inner loop `while ((inner_res > tolerance) && (inner_iterations < restart))`
run for at most `fuel` passes; `next st` is the state in which the loop is left. -/
def gmres_inner_loop (ext : externals) (mat : ℚ → List ℚ → ℚ → List ℚ → List ℚ)
    (precondition : List ℚ → List ℚ) (tolerance : ℚ) (restart print_freq : Nat) :
    Nat → gmres_state → loop_step gmres_state
  | 0, st => loop_step.next st
  | fuel + 1, st =>
    if st.inner_res > tolerance ∧ st.inner_iterations < restart then
      match gmres_inner_body ext mat precondition tolerance restart print_freq st with
      | loop_step.done r => loop_step.done r
      | loop_step.next st2 =>
        gmres_inner_loop ext mat precondition tolerance restart print_freq fuel st2
    else loop_step.next st

/-- Lines 227-237: the preconditioned residual, its norm, the first basis vector. -/
def gmres_outer_start (ext : externals) (mat : ℚ → List ℚ → ℚ → List ℚ → List ℚ)
    (precondition : List ℚ → List ℚ) (b : List ℚ) (st : gmres_state) : gmres_state :=
  let scaled := precondition (mat (-1) st.x 1 b)
  let inner_res := ext.nrm2 scaled
  let scaled := scale scaled (1 / inner_res)
  { st with
    basis := st.basis.set 0 scaled, krylov_sol := st.krylov_sol.set 0 inner_res,
    total_iterations := st.total_iterations + 1, inner_iterations := 0,
    inner_res := inner_res,
    mat_calls := st.mat_calls + 1, prec_calls := st.prec_calls + 1 }

/-- Lines 300-316: the triangular solve, the update of `x`, the end of an outer pass. -/
def gmres_outer_finish (ext : externals) (st : gmres_state) : gmres_state :=
  let k := st.inner_iterations
  let st1 :=
    if k > 0 then
      let proj := st.krylov_proj.take (pos_from_indices (k - 1) (k - 1) + 1)
      let s_view := ext.tpsv proj (st.krylov_sol.take k)
      { st with
        krylov_sol := s_view ++ st.krylov_sol.drop k,
        x := gemv_n (st.basis.take k) s_view st.x 1 1 }
    else st
  { st1 with outer_iterations := st1.outer_iterations + 1, outer_res := st1.inner_res }

/-- The body of the outer loop (lines 226-317). -/
def gmres_outer_body (ext : externals) (mat : ℚ → List ℚ → ℚ → List ℚ → List ℚ)
    (precondition : List ℚ → List ℚ) (b : List ℚ) (tolerance : ℚ) (restart print_freq : Nat)
    (st : gmres_state) : loop_step gmres_state :=
  match gmres_inner_loop ext mat precondition tolerance restart print_freq restart
      (gmres_outer_start ext mat precondition b st) with
  | loop_step.done r => loop_step.done r
  | loop_step.next st2 => loop_step.next (gmres_outer_finish ext st2)

/-- The outer loop
`while ((outer_res > tolerance) && (outer_iterations < max_outer_iterations))`
run for at most `fuel` passes; `next st` is the state in which the loop is left. -/
def gmres_outer_loop (ext : externals) (mat : ℚ → List ℚ → ℚ → List ℚ → List ℚ)
    (precondition : List ℚ → List ℚ) (b : List ℚ) (tolerance : ℚ)
    (restart print_freq max_outer_iterations : Nat) :
    Nat → gmres_state → loop_step gmres_state
  | 0, st => loop_step.next st
  | fuel + 1, st =>
    if st.outer_res > tolerance ∧ st.outer_iterations < max_outer_iterations then
      match gmres_outer_body ext mat precondition b tolerance restart print_freq st with
      | loop_step.done r => loop_step.done r
      | loop_step.next st2 =>
        gmres_outer_loop ext mat precondition b tolerance restart print_freq
          max_outer_iterations fuel st2
    else loop_step.next st

/-- The state in which the outer loop is entered (lines 213-224). -/
def gmres_init (x : List ℚ) (n restart : Nat) (tolerance : ℚ) : gmres_state :=
  { x := x,
    basis := List.replicate (restart + 1) (List.replicate n 0),
    krylov_proj := List.replicate (restart * (restart + 1) / 2) 0,
    sines := List.replicate (restart + 1) 0,
    cosines := List.replicate (restart + 1) 0,
    krylov_sol := List.replicate (restart + 1) 0,
    total_iterations := 0, outer_iterations := 0, inner_iterations := 0,
    inner_res := 0, outer_res := tolerance + 1, mat_calls := 0, prec_calls := 0 }

/-- The restart length after lines 195-196: the sentinel is replaced by the default. -/
def effective_restart (ext : externals) (restart n : Int) : Int :=
  if restart = ext.NO_USER_VALUE then default_gmres_restarts ext n else restart

/-- The loops of `simple_gmres` (lines 211-317) for checked arguments: `next st`
is the state in which the outer loop is left. -/
def gmres_run (ext : externals) (mat : ℚ → List ℚ → ℚ → List ℚ → List ℚ)
    (x b : List ℚ) (precondition : List ℚ → List ℚ) (restart max_outer_iterations : Nat)
    (tolerance : ℚ) : loop_step gmres_state :=
  let print_freq := restart / 3
  gmres_outer_loop ext mat precondition b tolerance restart print_freq max_outer_iterations
    max_outer_iterations (gmres_init x b.length restart tolerance)

/-- The function `simple_gmres(mat, x, b, precondition, restart, max_outer_iterations,
tolerance)`. -/
def simple_gmres (ext : externals) (mat : ℚ → List ℚ → ℚ → List ℚ → List ℚ)
    (x b : List ℚ) (precondition : List ℚ → List ℚ) (restart max_outer_iterations : Int)
    (tolerance : ℚ) : solver_result :=
  let tolerance := effective_tolerance ext tolerance
  if ¬ (tolerance ≥ ext.epsilon) then ⟨x, 0, 0, Except.error solver_error.expect_failed⟩
  else
    let n : Int := b.length
    if ¬ (n = x.length) then ⟨x, 0, 0, Except.error solver_error.expect_failed⟩
    else
      let restart := effective_restart ext restart n
      if ¬ (restart > 0) then ⟨x, 0, 0, Except.error solver_error.expect_failed⟩
      else if restart > n then ⟨x, 0, 0, Except.error solver_error.invalid_argument⟩
      else
        let max_outer_iterations := effective_max_iter ext max_outer_iterations n
        if ¬ (max_outer_iterations > 0) then
          ⟨x, 0, 0, Except.error solver_error.expect_failed⟩
        else
          match gmres_run ext mat x b precondition restart.toNat max_outer_iterations.toNat
              tolerance with
          | loop_step.done r => r
          | loop_step.next st =>
            ⟨st.x, st.mat_calls, st.prec_calls, Except.ok ⟨st.outer_res, st.total_iterations⟩⟩

/-- The function `simple_gmres_euler(dt, imex, ops, x, b, restart, max_iter, tolerance)`;
`pc` is `ops.get_diagonal_preconditioner<resrc>()`. -/
def simple_gmres_euler (ext : externals) (dt : ℚ)
    (ops_apply : ℚ → List ℚ → ℚ → List ℚ → List ℚ) (pc : List ℚ) (x b : List ℚ)
    (restart max_iter : Int) (tolerance : ℚ) : solver_result :=
  simple_gmres ext (euler_operator dt ops_apply) x b (euler_preconditioner pc dt)
    restart max_iter tolerance

/-- Modelled from the spec: `kron_operators::apply` is not part of the sources at
hand; the spec gives its contract as `op(α, x, β, y) → y := β·y + α·A·x`. This is
that update for an operator given as a function `K` on vectors. -/
def ops_apply_of (K : List ℚ → List ℚ) (a : ℚ) (x : List ℚ) (b : ℚ) (y : List ℚ) : List ℚ :=
  forLoop y.length (fun i acc => acc.set i (b * rd acc i + a * rd (K x) i)) y

/-! ## `get_num_subgrids` and `decompose` (kronmult.cpp, lines 27-132) -/

/-- Modelled from the spec: the type `element_subgrid` (a "(row,col) block range")
is declared outside the sources at hand; this is the inclusive range
`[row_start..row_stop] x [col_start..col_stop]` that `decompose` builds with
`element_subgrid(row_start, row_end, col_start, col_end)`. -/
structure element_subgrid where
  row_start : Int
  row_stop : Int
  col_start : Int
  col_stop : Int
deriving DecidableEq, Repr

/-- Modelled from the spec: the member `nrows()` of the absent `element_subgrid`,
the number of rows of the inclusive range. -/
def element_subgrid.nrows (g : element_subgrid) : Int := g.row_stop - g.row_start + 1

/-- Modelled from the spec: the member `ncols()` of the absent `element_subgrid`,
the number of columns of the inclusive range. -/
def element_subgrid.ncols (g : element_subgrid) : Int := g.col_stop - g.col_start + 1

/-- Modelled from the spec: the member `size()` of the absent `element_subgrid`,
the number of (row, col) pairs of the range. -/
def element_subgrid.size (g : element_subgrid) : Int := g.nrows * g.ncols

/-- What `get_num_subgrids` and `decompose` read of a `PDE<P>`: `num_terms`,
`num_dims`, the degree `get_dimensions()[0].get_degree()` and the number of
entries `get_coefficients(0, 0).size()` of one coefficient matrix. -/
structure PDE where
  num_terms : Int
  num_dims : Nat
  degree : Int
  coefficients_size : Int
deriving DecidableEq, Repr

/-- The lambda `element_segment_size` (grouping.hpp, lines 16-19). -/
def element_segment_size (pde : PDE) : Int := pde.degree ^ pde.num_dims

/-- The function `get_element_size_MB(pde)` (kronmult.cpp, lines 27-36); `get_MB`
is the helper `get_MB<P>`. -/
def get_element_size_MB (get_MB : Int → ℚ) (pde : PDE) : ℚ :=
  let elem_size := element_segment_size pde
  let num_workspaces : ℚ := 2
  get_MB (pde.num_terms * elem_size) * num_workspaces

/-- The value `remaining_rank_MB` of `get_num_subgrids` (lines 53-75). -/
def remaining_rank_MB (get_MB : Int → ℚ) (pde : PDE) (grid : element_subgrid)
    (rank_size_MB : Int) : ℚ :=
  let elem_size := element_segment_size pde
  let num_x_elems := grid.nrows * elem_size
  let num_y_elems := grid.ncols * elem_size
  let xy_space_MB := get_MB (num_y_elems + num_x_elems)
  let coefficients_size_MB : Int :=
    trunc_int (Int.ceil (get_MB (pde.coefficients_size * pde.num_terms * pde.num_dims)))
  (rank_size_MB : ℚ) - (coefficients_size_MB : ℚ) - xy_space_MB

/-- The assertions of `get_num_subgrids` (lines 46, 55, 57, 61, 76). -/
def get_num_subgrids_asserts (get_MB : Int → ℚ) (pde : PDE) (grid : element_subgrid)
    (rank_size_MB : Int) : Prop :=
  grid.size > 0 ∧
  grid.nrows * element_segment_size pde < 2147483647 ∧
  grid.ncols * element_segment_size pde < 2147483647 ∧
  get_element_size_MB get_MB pde < (1 / 2) * (rank_size_MB : ℚ) ∧
  remaining_rank_MB get_MB pde grid rank_size_MB > get_element_size_MB get_MB pde * 4

/-- The function `get_num_subgrids(pde, grid, rank_size_MB)` (lines 42-80). -/
def get_num_subgrids (get_MB : Int → ℚ) (pde : PDE) (grid : element_subgrid)
    (rank_size_MB : Int) : Int :=
  let num_elems := grid.size
  let space_per_elem := get_element_size_MB get_MB pde
  let problem_size_MB := space_per_elem * (num_elems : ℚ)
  trunc_int (Int.ceil (problem_size_MB / remaining_rank_MB get_MB pde grid rank_size_MB))

/-- The lambda `round_up(to_round, multiple)` of `decompose` (lines 107-110). -/
def round_up (to_round multiple : Int) : Int :=
  Int.tdiv (to_round + multiple - 1) multiple * multiple

/-- The value `subgrid_length` of `decompose` (lines 99-103). -/
def subgrid_length (my_subgrid : element_subgrid) (num_subgrids : Int) : Int :=
  let max_elements_per_subgrid := Int.tdiv my_subgrid.size num_subgrids
  Int.sqrt max_elements_per_subgrid

/-- The tile that the loop body of `decompose` pushes for the counters `i`, `j`
(lines 122-128). -/
def decompose_tile (my_subgrid : element_subgrid) (subgrid_length : Int) (i j : Nat) :
    element_subgrid :=
  let row_start := (i : Int) * subgrid_length
  let row_end := min my_subgrid.row_stop (((i : Int) + 1) * subgrid_length - 1)
  let col_start := (j : Int) * subgrid_length
  let col_end := min my_subgrid.col_stop (((j : Int) + 1) * subgrid_length - 1)
  ⟨row_start, row_end, col_start, col_end⟩

/-- The function `decompose(pde, my_subgrid, workspace_size_MB)` (lines 83-132). -/
def decompose (get_MB : Int → ℚ) (pde : PDE) (my_subgrid : element_subgrid)
    (workspace_size_MB : Int) : List element_subgrid :=
  let num_subgrids := get_num_subgrids get_MB pde my_subgrid workspace_size_MB
  if num_subgrids = 1 then [my_subgrid]
  else
    let subgrid_length := subgrid_length my_subgrid num_subgrids
    let explode_rows := round_up my_subgrid.nrows subgrid_length
    let explode_cols := round_up my_subgrid.ncols subgrid_length
    forLoop (Int.tdiv explode_rows subgrid_length).toNat
      (fun i grids =>
        forLoop (Int.tdiv explode_cols subgrid_length).toNat
          (fun j grids => grids ++ [decompose_tile my_subgrid subgrid_length i j])
          grids)
      []

/-- The helper `get_MB<P>` for `P = double`: eight bytes an entry, `1e-6` megabytes
a byte (the conversion `size_MB` of grouping.hpp uses). -/
def get_MB_double (num_elems : Int) : ℚ := (num_elems : ℚ) * 8 * (1 / 1000000)

/-- A PDE of degree 10 in 3 dimensions with one term and 40 x 40 coefficient
matrices. -/
def pde_deg10_dim3 : PDE := ⟨1, 3, 10, 1600⟩

/-- The element subgrid of rows `10..19` and columns `0..9`. -/
def subgrid_rows10 : element_subgrid := ⟨10, 19, 0, 9⟩

/-- Modelled from the spec: the ranges an `element_subgrid` may hold (the
constructor of the absent type checks them): indices are non-negative and both
ranges are non-empty. -/
def element_subgrid.well_formed (g : element_subgrid) : Prop :=
  0 ≤ g.row_start ∧ g.row_start ≤ g.row_stop ∧ 0 ≤ g.col_start ∧ g.col_start ≤ g.col_stop

/-- The state in which iteration `i + k` of the loop of `bicgstab` is entered when
iteration `i` is entered in state `st`, if the `k` iterations before it all ran to
their end without a return or an exception. -/
def bicg_reach (ext : externals) (mat : ℚ → List ℚ → ℚ → List ℚ → List ℚ)
    (precondition : List ℚ → List ℚ) (tol normb : ℚ) (rtilde : List ℚ) :
    Nat → Nat → bicg_state → Option bicg_state
  | 0, _, st => some st
  | k + 1, i, st =>
    match bicg_body ext mat precondition tol normb rtilde i st with
    | loop_step.done _ => none
    | loop_step.next st2 => bicg_reach ext mat precondition tol normb rtilde k (i + 1) st2

/-- The value `omega = (t * s) / (t * t)` that iteration `i`, entered in state `st`,
computes at line 418. -/
def bicg_omega (ext : externals) (mat : ℚ → List ℚ → ℚ → List ℚ → List ℚ)
    (precondition : List ℚ → List ℚ) (normb : ℚ) (rtilde : List ℚ) (i : Nat)
    (st : bicg_state) : ℚ :=
  (bicg_second_half ext mat precondition normb (bicg_rho_1 rtilde st)
    (bicg_first_half ext mat precondition normb rtilde i st)).omega

/-- Iteration `i`, entered in state `st`, gets to line 418: `rho_1` is not zero and
the residual check of line 409 does not return. -/
def bicg_computes_omega (ext : externals) (mat : ℚ → List ℚ → ℚ → List ℚ → List ℚ)
    (precondition : List ℚ → List ℚ) (tol normb : ℚ) (rtilde : List ℚ) (i : Nat)
    (st : bicg_state) : Prop :=
  bicg_rho_1 rtilde st ≠ 0 ∧
    ¬ (bicg_first_half ext mat precondition normb rtilde i st).resid < tol

/-- The reference BLAS routine `drotg(a, b, c, s)` with the square root taken by
`Rat.sqrt` (exact whenever `a^2 + b^2` is the square of a rational): returns
`(r, z, c, s)`. -/
def blas_rotg (a b : ℚ) : ℚ × ℚ × ℚ × ℚ :=
  let roe := if |a| > |b| then a else b
  let scale := |a| + |b|
  if scale = 0 then (0, 0, 1, 0)
  else
    let r0 := scale * Rat.sqrt ((a / scale) ^ 2 + (b / scale) ^ 2)
    let r := if roe < 0 then -r0 else r0
    let c := a / r
    let s := b / r
    let z := if |a| > |b| then s else if c ≠ 0 then 1 / c else 1
    (r, z, c, s)

/-- The reference BLAS routine `dtpsv` for an upper triangular, non-unit matrix in
packed storage: the back substitution that solves `A * x = b` in place, columns
`j = n - 1, ..., 0`. -/
def blas_tpsv (ap : List ℚ) (x : List ℚ) : List ℚ :=
  forLoop x.length
    (fun jj acc =>
      let j := x.length - 1 - jj
      if rd acc j ≠ 0 then
        let acc1 := acc.set j (rd acc j / rd ap (pos_from_indices j j))
        let temp := rd acc1 j
        forLoop j
          (fun ii acc2 =>
            let i := j - 1 - ii
            acc2.set i (rd acc2 i - temp * rd ap (pos_from_indices i j)))
          acc1
      else acc)
    x

/-- A choice of the externals: double precision, the sentinels `-1` and the
smallest normal double, `get_MB` in units of `1e-6` bytes a byte; `nrm2` is the
Euclidean norm and `rotg`, `tpsv` the reference BLAS routines, exact wherever the
square roots they take are rational. -/
def ext_example : externals where
  is_float := false
  epsilon := 1 / 2 ^ 52
  NO_USER_VALUE := -1
  NO_USER_VALUE_FP := 1 / 2 ^ 1022
  get_MB := fun n => (n : ℚ) * 8 * (1 / 1000000)
  nrm2 := fun v => Rat.sqrt (dot v v)
  rotg := blas_rotg
  tpsv := blas_tpsv

/-- The operator `mat(alpha, x, beta, y)` of the dense wrapper (lines 58-62 and
80-84), `fm::gemv(A, x, y, false, alpha, beta)`, for a matrix given by its columns. -/
def dense_matrix_wrapper (A : List (List ℚ)) (alpha : ℚ) (x_in : List ℚ) (beta : ℚ)
    (y : List ℚ) : List ℚ :=
  gemv_n A x_in y alpha beta

/-- The preconditioner `no_op_preconditioner` (lines 37-49). -/
def no_op_preconditioner (v : List ℚ) : List ℚ := v

/-- The three `expect` checks at the head of `bicgstab` (lines 353, 356, 360) and
of `simple_gmres` (lines 190, 193, 208) pass. -/
def solver_checks (ext : externals) (x b : List ℚ) (max_iter : Int) (tol : ℚ) : Prop :=
  effective_tolerance ext tol ≥ ext.epsilon ∧
  (b.length : Int) = (x.length : Int) ∧
  effective_max_iter ext max_iter (b.length : Int) > 0

/-- A call of `bicgstab` meets a breakdown: the initial residual check does not
return, and some iteration `1 + k` with `k < max_iter` is entered (the `k`
iterations before it ran to their end) in which `rho_1 = rtilde * r` is zero, or
line 418 is reached and computes `omega = (t * s) / (t * t) = 0`. -/
def bicg_breakdown_reached (ext : externals) (mat : ℚ → List ℚ → ℚ → List ℚ → List ℚ)
    (x b : List ℚ) (precondition : List ℚ → List ℚ) (max_iter : Int) (tol : ℚ) : Prop :=
  ¬ (bicg_init ext mat x b (bicg_normb ext b)).resid ≤ effective_tolerance ext tol ∧
    ∃ k, k < (effective_max_iter ext max_iter (b.length : Int)).toNat ∧ ∃ s,
      bicg_reach ext mat precondition (effective_tolerance ext tol) (bicg_normb ext b)
        (bicg_init ext mat x b (bicg_normb ext b)).r k 1
        (bicg_init ext mat x b (bicg_normb ext b)) = some s ∧
      (bicg_rho_1 (bicg_init ext mat x b (bicg_normb ext b)).r s = 0 ∨
        (bicg_computes_omega ext mat precondition (effective_tolerance ext tol)
            (bicg_normb ext b) (bicg_init ext mat x b (bicg_normb ext b)).r (1 + k) s ∧
          bicg_omega ext mat precondition (bicg_normb ext b)
            (bicg_init ext mat x b (bicg_normb ext b)).r (1 + k) s = 0))

/-- The restart length passes the checks of lines 197-204 of `simple_gmres`: it is
positive and not larger than `n = b.size()`. -/
def restart_accepted (ext : externals) (b : List ℚ) (restart : Int) : Prop :=
  effective_restart ext restart (b.length : Int) > 0 ∧
  ¬ effective_restart ext restart (b.length : Int) > (b.length : Int)

/-- The columns of the 4 x 4 cyclic shift: `A e1 = e2`, `A e2 = e3`, `A e3 = e4`,
`A e4 = e1`. -/
def shift4 : List (List ℚ) := [[0, 1, 0, 0], [0, 0, 1, 0], [0, 0, 0, 1], [1, 0, 0, 0]]

/-! ## Local kronmult `apply` (spec, section 4.3) -/

/-- Modelled from the spec: the tensor order of a block ("row-major tensor order
with dimension 1 varying fastest"); the sources at hand hold no layout code. This
is the coordinate along dimension `k + 1` of the entry at offset `i` of a length
`n^d` slab. -/
def tensor_digit (n k i : Nat) : Nat := (i / n ^ k) % n

/-- Modelled from the spec: one of the "d successive n×n·(n^(d−1)) contractions" of
the per-degree Kronecker routine, which is not part of the sources at hand: the
`n x n` matrix `M` applied along dimension `k + 1` of the buffer `v`. -/
def kron_contract (n k : Nat) (M : Nat → Nat → ℚ) (v : Nat → ℚ) : Nat → ℚ :=
  fun i =>
    sumLoop n
      (fun b => M (tensor_digit n k i) b * v (i - tensor_digit n k i * n ^ k + b * n ^ k)) 0

/-- Modelled from the spec: the dispatch step of the local kronmult engine for one
block and one term, not part of the sources at hand: "d successive
n×n·(n^(d−1)) contractions, alternating between X and W buffers", dimension 1
first; `A k` is the `n x n` operator slice of dimension `k + 1`. -/
def kron_dispatch (n d : Nat) (A : Nat → Nat → Nat → ℚ) (x : Nat → ℚ) : Nat → ℚ :=
  forLoop d (fun k buf => kron_contract n k (A k) buf) x

/-- Modelled from the spec: the scaling `y_r = beta * y_r` of the block of length
`m` at offset `o` (the `β·y` of the contract of the absent `apply`). -/
def scale_block (o m : Nat) (beta : ℚ) (y : List ℚ) : List ℚ :=
  forLoop m (fun i acc => acc.set (o + i) (beta * rd acc (o + i))) y

/-- Modelled from the spec: the "fused reduction that adds α · result into Y" of
the absent kronmult routine, on the block of length `m` at offset `o`. -/
def add_block (o m : Nat) (alpha : ℚ) (res : Nat → ℚ) (y : List ℚ) : List ℚ :=
  forLoop m (fun i acc => acc.set (o + i) (rd acc (o + i) + alpha * res i)) y

/-- Modelled from the spec: the work of the local kronmult `apply` on row block `r`
(`local_kronmult_matrix::apply` is not part of the sources at hand): `y_r` is
scaled by `beta`; then, per non-zero block `j` of the row and per term `t`, the
column block of `x` is staged, run through the `d` contractions and `alpha` times
the result is added into `y_r`. -/
def local_kronmult_row (n d T : Nat) (pntr indx : List Nat)
    (A : Nat → Nat → Nat → Nat → Nat → ℚ) (alpha : ℚ) (x : List ℚ) (beta : ℚ)
    (r : Nat) (y : List ℚ) : List ℚ :=
  forLoop (pntr.getD (r + 1) 0 - pntr.getD r 0)
    (fun jj acc =>
      let j := pntr.getD r 0 + jj
      let c := indx.getD j 0
      forLoop T
        (fun t acc =>
          add_block (r * n ^ d) (n ^ d) alpha
            (kron_dispatch n d (A j t) (fun i => rd x (c * n ^ d + i))) acc)
        acc)
    (scale_block (r * n ^ d) (n ^ d) beta y)

/-- Modelled from the spec: the local kronmult `apply(alpha, x, beta, y)`
(`local_kronmult_matrix::apply` is not part of the sources at hand) in its
precomputed form: `pntr`, `indx` is the row/col block CSR pattern, `A j t k` the
`n x n` operator slice of non-zero block `j`, term `t` and dimension `k + 1`; the
row blocks are worked through in turn. -/
def local_kronmult_apply (n d T : Nat) (pntr indx : List Nat)
    (A : Nat → Nat → Nat → Nat → Nat → ℚ) (alpha : ℚ) (x : List ℚ) (beta : ℚ)
    (y : List ℚ) : List ℚ :=
  forLoop (pntr.length - 1)
    (fun r acc => local_kronmult_row n d T pntr indx A alpha x beta r acc) y

/-- The entry `(i, j)` of the explicit Kronecker product of the `d` matrices
`A 0, ..., A (d - 1)` of order `n`, block offsets in tensor order: the product
over the dimensions of the entries at the coordinates of `i` and `j`. -/
def kron_entry (n d : Nat) (A : Nat → Nat → Nat → ℚ) (i j : Nat) : ℚ :=
  Finset.prod (Finset.range d) (fun k => A k (tensor_digit n k i) (tensor_digit n k j))

/-- The reference value of row block `r`, offset `i`: `beta * y_r + alpha *` the sum
over the column blocks of the pattern and the terms of the explicit Kronecker
product times the column block of `x`. -/
def kron_reference (n d T : Nat) (pntr indx : List Nat)
    (A : Nat → Nat → Nat → Nat → Nat → ℚ) (alpha : ℚ) (x : List ℚ) (beta : ℚ)
    (y : List ℚ) (r i : Nat) : ℚ :=
  beta * rd y (r * n ^ d + i) +
    alpha *
      Finset.sum (Finset.range (pntr.getD (r + 1) 0 - pntr.getD r 0)) (fun jj =>
        Finset.sum (Finset.range T) (fun t =>
          Finset.sum (Finset.range (n ^ d)) (fun j =>
            kron_entry n d (A (pntr.getD r 0 + jj) t) i j *
              rd x (indx.getD (pntr.getD r 0 + jj) 0 * n ^ d + j))))

/-- The operator slices of the test "testing reference methods"
(asgard_kronmult_matrix_tests.cpp, lines 180-187), column-major 2 x 2 tiles:
`B = {10, 20, 30, 40}` along dimension 1 and `A = {1, 2, 3, 4}` along dimension 2,
the same for every block and term. -/
def kron_test_ops : Nat → Nat → Nat → Nat → Nat → ℚ :=
  fun _ _ k a b => if k = 0 then rd [10, 20, 30, 40] (a + 2 * b) else rd [1, 2, 3, 4] (a + 2 * b)

/-! ## Sizes: `get_MB` and the default restart (solver.cpp, lines 161-175) -/

/-- The value of `sizeof(P)`: 4 for `float`, 8 for `double`. -/
def sizeof_P (is_float : Bool) : Int := if is_float then 4 else 8

/-- The helper `get_MB<P>(num_elems)` with the conversion that
`rank_workspace::size_MB` (grouping.hpp, lines 35-43) uses:
`bytes = num_elems * sizeof(P)` and `megabytes = bytes * 1e-6`. The helper itself
is declared outside the sources at hand. -/
def get_MB_of (is_float : Bool) (num_elems : Int) : ℚ :=
  let bytes : ℚ := (num_elems : ℚ) * (sizeof_P is_float : ℚ)
  bytes * (1 / 1000000)

/-- The value the spec gives for the default restart: `clamp(⌊512 MiB /
(sizeof(P) * n)⌋, min(10, n), min(200, n))` with `512 MiB = 512 * 2^20` bytes. -/
def default_restart_MiB (is_float : Bool) (n : Int) : Int :=
  clamp (Int.floor ((512 * 2 ^ 20 : ℚ) / ((sizeof_P is_float : ℚ) * (n : ℚ))))
    (min 10 n) (min 200 n)

/-- The default restart with decimal megabytes: `clamp(⌊512 * 10^6 /
(sizeof(P) * n)⌋, min(10, n), min(200, n))`. -/
def default_restart_MB (is_float : Bool) (n : Int) : Int :=
  clamp (Int.floor ((512 * 10 ^ 6 : ℚ) / ((sizeof_P is_float : ℚ) * (n : ℚ))))
    (min 10 n) (min 200 n)

/-! ## `kronmult::execute` (kronmult.cpp, lines 134-300) -/

/-- What a call of `allocate_device(ptr, num_elems)` allocates: entries of the
precision `P` or pointers `P *`. -/
inductive alloc_kind where
  | precision
  | pointer
deriving DecidableEq, Repr

/-- The calls of `allocate_device` that the per-subgrid `execute` makes (lines
186-207), in order: `element_x`, `element_work`, `input_ptrs`, `work_ptrs`,
`output_ptrs`, `operator_ptrs`, each with the number of entries it asks for. -/
def execute_allocations (pde : PDE) (my_subgrid : element_subgrid) :
    List (alloc_kind × Int) :=
  let deg_to_dim := pde.degree ^ pde.num_dims
  let workspace_size := my_subgrid.size * deg_to_dim * pde.num_terms
  let total_kronmults := my_subgrid.size * pde.num_terms
  [(alloc_kind.precision, workspace_size), (alloc_kind.precision, workspace_size),
   (alloc_kind.pointer, total_kronmults), (alloc_kind.pointer, total_kronmults),
   (alloc_kind.pointer, total_kronmults),
   (alloc_kind.pointer, total_kronmults * (pde.num_dims : Int))]

/-- The number of entries of one kind that a list of allocations asks for in total. -/
def total_allocated (k : alloc_kind) (allocs : List (alloc_kind × Int)) : Int :=
  ((allocs.filter (fun a => a.1 = k)).map (fun a => a.2)).sum

/-- The way a call of `kronmult::execute` ends without a result. -/
inductive kron_failure where
  /-- A failed `assert(...)`. -/
  | assertion_failed
deriving DecidableEq, Repr

/-- The assertions of `get_num_subgrids` are decidable. -/
instance decGetNumSubgridsAsserts (get_MB : Int → ℚ) (pde : PDE) (grid : element_subgrid)
    (rank_size_MB : Int) : Decidable (get_num_subgrids_asserts get_MB pde grid rank_size_MB) := by
  unfold get_num_subgrids_asserts
  infer_instance

/-- The function `decompose` together with the assertions on its way: the
`assert(workspace_size_MB > 0)` of line 88 and the assertions of
`get_num_subgrids`. -/
def decompose_checked (get_MB : Int → ℚ) (pde : PDE) (my_subgrid : element_subgrid)
    (workspace_size_MB : Int) : Except kron_failure (List element_subgrid) :=
  if ¬ (workspace_size_MB > 0) then Except.error kron_failure.assertion_failed
  else if ¬ get_num_subgrids_asserts get_MB pde my_subgrid workspace_size_MB then
    Except.error kron_failure.assertion_failed
  else Except.ok (decompose get_MB pde my_subgrid workspace_size_MB)

/-- Modelled from the spec: a view `fk::vector<P, mem_type::view>(owner, start, stop)`
of the absent tensor class, the inclusive index range `[start..stop]` of its
owner (solver.cpp uses it so: the view `(krylov_sol, 0, inner_iterations - 1)`
holds `inner_iterations` entries). -/
structure vector_view where
  start : Int
  stop : Int
deriving DecidableEq, Repr

/-- Modelled from the spec: the member `size()` of a view of the absent tensor class. -/
def vector_view.size (v : vector_view) : Int := v.stop - v.start + 1

/-- Modelled from the spec: the members `to_local_row` and `to_local_col` of the
absent `element_subgrid`: a global index made relative to the start of the range. -/
def element_subgrid.to_local_row (g : element_subgrid) (row : Int) : Int := row - g.row_start

/-- Modelled from the spec: see `to_local_row`. -/
def element_subgrid.to_local_col (g : element_subgrid) (col : Int) : Int := col - g.col_start

/-- The views `x_dev_grid` and `fx_dev_grid` that the public `execute` builds for
one tile `grid` (lines 288-295). -/
def execute_views (my_subgrid grid : element_subgrid) (deg_to_dim : Int) :
    vector_view × vector_view :=
  let col_start := my_subgrid.to_local_col grid.col_start
  let col_end := my_subgrid.to_local_col grid.col_stop
  let row_start := my_subgrid.to_local_row grid.row_start
  let row_end := my_subgrid.to_local_row grid.row_stop
  (⟨col_start * deg_to_dim, (col_end + 1) * deg_to_dim - 1⟩,
   ⟨row_start * deg_to_dim, (row_end + 1) * deg_to_dim - 1⟩)

/-- The two size assertions of the per-subgrid `execute` (lines 170-174) for a
tile and the views `x`, `fx` it is called with. -/
def execute_size_asserts (pde : PDE) (my_subgrid : element_subgrid) (x fx : vector_view) :
    Prop :=
  let deg_to_dim := pde.degree ^ pde.num_dims
  my_subgrid.nrows * deg_to_dim = fx.size ∧ my_subgrid.ncols * deg_to_dim = x.size

/-- The control flow of the public `execute` (lines 256-300) up to its calls of
the per-subgrid `execute`: the assertions on the way, and the list of calls
(tile, view of `x_dev`, view of `fx_dev`) it makes, one for every tile of
`decompose`. -/
def execute_calls (get_MB : Int → ℚ) (pde : PDE) (my_subgrid : element_subgrid)
    (workspace_size_MB : Int) :
    Except kron_failure (List (element_subgrid × vector_view × vector_view)) :=
  match decompose_checked get_MB pde my_subgrid workspace_size_MB with
  | Except.error e => Except.error e
  | Except.ok grids =>
    let deg_to_dim := pde.degree ^ pde.num_dims
    let output_size := my_subgrid.nrows * deg_to_dim
    if ¬ (output_size < 2147483647) then Except.error kron_failure.assertion_failed
    else
      Except.ok (grids.map (fun grid =>
        (grid, (execute_views my_subgrid grid deg_to_dim).1,
          (execute_views my_subgrid grid deg_to_dim).2)))

/-- A PDE of degree 2 in 2 dimensions with one term and 8 x 8 coefficient matrices. -/
def pde_deg2_dim2 : PDE := ⟨1, 2, 2, 64⟩

/-- The element subgrid of rows `0..2` and columns `0..1`. -/
def subgrid_3x2 : element_subgrid := ⟨0, 2, 0, 1⟩

/-- An element subgrid with an empty row range: rows `0..-1`, columns `0..9`. -/
def subgrid_no_rows : element_subgrid := ⟨0, -1, 0, 9⟩

/-- The state after `k` passes of the inner loop
`while ((inner_res > tolerance) && (inner_iterations < restart))` of
`simple_gmres` (lines 236-298) entered in state `st`: `none` if the loop makes
fewer than `k` passes (its condition fails before, or a pass ends the call). -/
def gmres_inner_reach (ext : externals) (mat : ℚ → List ℚ → ℚ → List ℚ → List ℚ)
    (precondition : List ℚ → List ℚ) (tolerance : ℚ) (restart print_freq : Nat) :
    Nat → gmres_state → Option gmres_state
  | 0, st => some st
  | k + 1, st =>
    match gmres_inner_reach ext mat precondition tolerance restart print_freq k st with
    | none => none
    | some stk =>
      if stk.inner_res > tolerance ∧ stk.inner_iterations < restart then
        match gmres_inner_body ext mat precondition tolerance restart print_freq stk with
        | loop_step.done _ => none
        | loop_step.next st2 => some st2
      else none

/-- The columns of the 3 x 3 rotation by the angle with cosine `3/5` and sine `4/5`
in the plane of the first two coordinates. -/
def rot3 : List (List ℚ) := [[3 / 5, 4 / 5, 0], [-4 / 5, 3 / 5, 0], [0, 0, 1]]

/-- The value `ave_source` of `poisson_solver` under periodic boundary conditions
(lines 501-513): the quadrature sum of the source over all elements, divided by
`x_max - x_min`. -/
def poisson_ave_source (lgwt : Nat → Nat → ℚ) (source : List ℚ) (degree N_elements : Nat)
    (dx x_min x_max : ℚ) : ℚ :=
  (forLoop N_elements
    (fun i acc =>
      sumLoop (degree + 1)
        (fun q => (1 / 2) * dx * lgwt 1 q * rd source (i * (degree + 1) + q)) acc)
    0) / (x_max - x_min)

/-- The columns of the 4 x 4 matrix `tridiag(1, -2, 1)`. -/
def tri4 : List (List ℚ) := [[-2, 1, 0, 0], [1, -2, 1, 0], [0, 1, -2, 1], [0, 0, 1, -2]]

/-- One full pass of the loop of `bicgstab` that returns at neither check: the
second half run on the state the first half leaves. -/
def bicg_pass (ext : externals) (mat : ℚ → List ℚ → ℚ → List ℚ → List ℚ)
    (precondition : List ℚ → List ℚ) (normb : ℚ) (rtilde : List ℚ) (i : Nat)
    (st : bicg_state) : bicg_state :=
  bicg_second_half ext mat precondition normb (bicg_rho_1 rtilde st)
    (bicg_first_half ext mat precondition normb rtilde i st)

/-- The state in which pass `k + 1` of the loop of `bicgstab` is entered on the
system `tri4 * x = (1, 2, 3, 4)` started from `x = 0` without preconditioner,
if no pass before it returns; the field `resid`, the only one that depends on
`nrm2`, is here the one of `ext_example` with `normb = 1`. -/
def tri4_state : Nat → bicg_state
  | 0 => bicg_init ext_example (dense_matrix_wrapper tri4) [0, 0, 0, 0] [1, 2, 3, 4] 1
  | k + 1 =>
    bicg_pass ext_example (dense_matrix_wrapper tri4) no_op_preconditioner 1 [1, 2, 3, 4]
      (k + 1) (tri4_state k)

/-- The state that the first half of pass `k + 1` leaves on the same system. -/
def tri4_half (k : Nat) : bicg_state :=
  bicg_first_half ext_example (dense_matrix_wrapper tri4) no_op_preconditioner 1 [1, 2, 3, 4]
    (k + 1) (tri4_state k)

/-- The linear form `a0 * v[0] + a1 * v[1] + a2 * v[2] + a3 * v[3]` of a vector of
four entries. -/
def lin4 (a0 a1 a2 a3 : ℚ) (v : List ℚ) : ℚ :=
  a0 * rd v 0 + a1 * rd v 1 + a2 * rd v 2 + a3 * rd v 3

/-- The Krylov spaces `K_k = span (b, A b, ..., A^(k-1) b)` of `A = tri4` and
`b = (1, 2, 3, 4)`, by their equations: `A b = (0, 0, 0, -5)` and
`A^2 b = (0, 0, -5, 10)`, so `K_1 = span b`, `K_2 = span (b, e4)`,
`K_3 = span (b, e4, e3)`, and `K_k` is the whole space from `k = 4` on. -/
def tri4_krylov (k : Nat) (v : List ℚ) : Prop :=
  (k ≤ 3 → lin4 (-2) 1 0 0 v = 0) ∧ (k ≤ 2 → lin4 (-3) 0 1 0 v = 0) ∧
  (k ≤ 1 → lin4 (-4) 0 0 1 v = 0) ∧ (k = 0 → lin4 1 0 0 0 v = 0)

/-- The invariant of the inner loop on the tridiagonal system: the basis holds
`restart + 1` columns of 4 entries, column `i <= inner_iterations` lies in
`K_(d+1+i)`, and `x` and the counters are as the outer pass left them. -/
def tri4_inner_inv (d : Nat) (T0 : Int) (O : Nat) (x0 : List ℚ) (restart : Nat)
    (st : gmres_state) : Prop :=
  st.basis.length = restart + 1 ∧
  (∀ i, i < st.basis.length → (st.basis.getD i []).length = 4) ∧
  (∀ i, i ≤ st.inner_iterations → tri4_krylov (d + 1 + i) (st.basis.getD i [])) ∧
  st.x = x0 ∧ st.total_iterations = T0 + 1 + (st.inner_iterations : Int) ∧
  st.outer_iterations = O ∧ st.inner_iterations ≤ restart

/-- The invariant of the outer loop on the tridiagonal system: `x` has 4 entries
and lies in `K_d` for `d = total_iterations - outer_iterations`, the number of
inner iterations made so far (none before the first outer pass). -/
def tri4_outer_inv (restart : Nat) (st : gmres_state) : Prop :=
  st.basis.length = restart + 1 ∧
  (∀ i, i < st.basis.length → (st.basis.getD i []).length = 4) ∧
  st.x.length = 4 ∧
  ∃ d : Nat, tri4_krylov d st.x ∧
    st.total_iterations = (d : Int) + (st.outer_iterations : Int) ∧
    d ≤ st.outer_iterations * restart

/-! ## `setup_poisson` (solver.cpp, lines 439-467) -/

/-- Modelled from the spec: the member `resize(n)` of the absent `fk::vector`: the
vector cut or filled with zeros to `n` entries. -/
def fk_resize (v : List ℚ) (n : Nat) : List ℚ :=
  v.take n ++ List.replicate (n - v.length) 0

/-- The matrix that `setup_poisson` assembles for `N_elements != 1` (lines 447-464),
before it is handed to `fm::pttrf`: the diagonal and the off-diagonal. -/
def setup_poisson_assemble (N_elements : Nat) (x_min x_max : ℚ) (diag off_diag : List ℚ) :
    List ℚ × List ℚ :=
  let dx := (x_max - x_min) / (N_elements : ℚ)
  let N_nodes := N_elements - 1
  let diag := fk_resize diag N_nodes
  let off_diag := fk_resize off_diag (N_nodes - 1)
  let diag := forLoop N_nodes (fun i (d : List ℚ) => d.set i (2 / dx)) diag
  let off_diag := forLoop (N_nodes - 1) (fun i (e : List ℚ) => e.set i (-1 / dx)) off_diag
  (diag, off_diag)

/-- The function `setup_poisson(N_elements, x_min, x_max, diag, off_diag)`: returns
what it leaves in `diag` and `off_diag`; `pttrf` is the LAPACK factorisation
`fm::pttrf`, which overwrites both. -/
def setup_poisson (pttrf : List ℚ → List ℚ → List ℚ × List ℚ) (N_elements : Nat)
    (x_min x_max : ℚ) (diag off_diag : List ℚ) : List ℚ × List ℚ :=
  if N_elements = 1 then (diag, off_diag)
  else
    pttrf (setup_poisson_assemble N_elements x_min x_max diag off_diag).1
      (setup_poisson_assemble N_elements x_min x_max diag off_diag).2

/-- The entry `(i, j)` of the symmetric tridiagonal matrix that `pttrf` takes as a
diagonal `d` and an off-diagonal `e`: `d[i]` on the diagonal, `e[min i j]` next
to it, zero elsewhere. -/
def tridiag_entry (d e : List ℚ) (i j : Nat) : ℚ :=
  if i = j then rd d i else if j = i + 1 then rd e i else if i = j + 1 then rd e j else 0

/-- The quadratic form `v^T A v` of the matrix with entries `A i j` of order `n`. -/
def quadratic_form (n : Nat) (A : Nat → Nat → ℚ) (v : List ℚ) : ℚ :=
  Finset.sum (Finset.range n) (fun i =>
    Finset.sum (Finset.range n) (fun j => rd v i * A i j * rd v j))

/-- The coordinate `x_k` of quadrature node `q` of element `i` in `poisson_solver`
(lines 537, 551, 568): `(x_min + i * dx) + 0.5 * dx * (1 + lgwt[0][q])`. -/
def poisson_node (lgwt : Nat → Nat → ℚ) (N_elements : Nat) (x_min x_max : ℚ) (i q : Nat) : ℚ :=
  (x_min + (i : ℚ) * ((x_max - x_min) / (N_elements : ℚ)))
    + (1 / 2) * ((x_max - x_min) / (N_elements : ℚ)) * (1 + lgwt 0 q)


/-- The value that `poisson_solver` (for `N_elements >= 2`) writes to
`phi[i * (degree + 1) + q]`, from the solved vector `b`: line 541 in the first
element, lines 554-556 in the interior elements, line 571 in the last one. -/
def poisson_phi_entry (lgwt : Nat → Nat → ℚ) (b : List ℚ) (N_elements : Nat)
    (x_min x_max phi_min phi_max : ℚ) (i q : Nat) : ℚ :=
  let dg := (phi_max - phi_min) / (x_max - x_min)
  let g_k := phi_min + dg * (poisson_node lgwt N_elements x_min x_max i q - x_min)
  if i = 0 then (1 / 2) * rd b 0 * (1 + lgwt 0 q) + g_k
  else if i = N_elements - 1 then (1 / 2) * rd b (i - 1) * (1 - lgwt 0 q) + g_k
  else (1 / 2) * (rd b (i - 1) * (1 - lgwt 0 q) + rd b i * (1 + lgwt 0 q)) + g_k

/-- The value that `poisson_solver` (for `N_elements >= 2`) writes to
`E[i * (degree + 1) + q]`: lines 543, 558 and 573. -/
def poisson_E_entry (b : List ℚ) (N_elements : Nat) (x_min x_max phi_min phi_max : ℚ)
    (i : Nat) : ℚ :=
  let dx := (x_max - x_min) / (N_elements : ℚ)
  let dg := (phi_max - phi_min) / (x_max - x_min)
  if i = 0 then -(rd b 0) / dx - dg
  else if i = N_elements - 1 then rd b (i - 1) / dx - dg
  else -(rd b i - rd b (i - 1)) / dx - dg


/-- The indices at which `poisson_solver` (for `N_elements != 1`) reads `source`,
in the order of the reads: the loop of the periodic average (lines 503-511) and
the loop that sets `b` (lines 518-526). -/
def poisson_source_reads (degree N_elements : Nat) (bc : poisson_bc) : List Nat :=
  let N_nodes := N_elements - 1
  let ave : List Nat :=
    match bc with
    | poisson_bc.periodic =>
      forLoop N_elements
        (fun i acc => forLoop (degree + 1) (fun q acc => acc ++ [i * (degree + 1) + q]) acc) []
    | poisson_bc.dirichlet => []
  forLoop N_nodes
    (fun i acc =>
      forLoop (degree + 1)
        (fun q acc => acc ++ [i * (degree + 1) + q, (i + 1) * (degree + 1) + q]) acc)
    ave

/-- The indices at which `poisson_solver` (for `N_elements != 1`) accesses the
vector `b` of `N_elements - 1` entries, in order: `b[i]` set and accumulated in
lines 518-526, `b[0]` read in the first element (lines 541, 543), `b[i - 1]` and
`b[i]` in the interior elements (lines 554-558), `b[i - 1]` in the last element
(lines 571, 573). -/
def poisson_b_accesses (degree N_elements : Nat) : List Int :=
  let N_nodes := N_elements - 1
  let load : List Int :=
    forLoop N_nodes
      (fun i acc => forLoop (degree + 1) (fun _ acc => acc ++ [(i : Int)]) (acc ++ [(i : Int)]))
      []
  let first : List Int := forLoop (degree + 1) (fun _ acc => acc ++ [0, 0]) load
  let interior : List Int :=
    forLoop (N_elements - 1 - 1)
      (fun i0 acc =>
        let i : Int := (i0 : Int) + 1
        forLoop (degree + 1) (fun _ acc => acc ++ [i - 1, i, i, i - 1]) acc)
      first
  let i : Int := (N_elements : Int) - 1
  forLoop (degree + 1) (fun _ acc => acc ++ [i - 1, i - 1]) interior

/-- The indices at which `poisson_solver` (for `N_elements != 1`) writes `phi`, in
order (lines 541, 554, 571); `E` is written at the same indices (lines 543, 558,
573). -/
def poisson_phi_writes (degree N_elements : Nat) : List Nat :=
  let first : List Nat := forLoop (degree + 1) (fun k acc => acc ++ [k]) []
  let interior : List Nat :=
    forLoop (N_elements - 1 - 1)
      (fun i0 acc =>
        let i := i0 + 1
        forLoop (degree + 1) (fun q acc => acc ++ [i * (degree + 1) + q]) acc)
      first
  let i := N_elements - 1
  forLoop (degree + 1) (fun q acc => acc ++ [i * (degree + 1) + q]) interior

/-- The helper `int_log2` of the kronmult tests: the number of halvings that bring
`x` to zero, the hierarchical level of the 1D cell with linear index `x`. The
loop runs on fuel; `int_log2` supplies `x + 1` steps. -/
def int_log2_loop : Nat → Int → Int → Int
  | 0, _, l => l
  | fuel + 1, x, l => if x > 0 then int_log2_loop fuel (Int.tdiv x 2) (l + 1) else l

/-- The function `int_log2(int x)` of `asgard_kronmult_matrix_tests.cpp`. -/
def int_log2 (x : Int) : Int := int_log2_loop (x.toNat + 1) x 0

/-- Modelled from the spec: the strips of the absent class `vector2d` ("a
contiguous N x d array, row = cell"): the flat data cut into rows of `stride`
entries. -/
def vector2d_strips {α : Type} (stride : Nat) (data : List α) : List (List α) :=
  List.toChunks stride data

/-- The cell list `make_cellsd2p5` of the interpolation tests: five cells in two
dimensions, as pairs of 1D linear cell indices. -/
def make_cellsd2p5 : List Int := [0, 0, 0, 1, 0, 2, 0, 3, 1, 0]

/-- The gold table `make_nodesd2p5` of the interpolation tests: 20 rows of 2
coordinates, stored flat. -/
def make_nodesd2p5 : List ℚ :=
  [ 1 / 3, 1 / 3, 1 / 3, 2 / 3,
    2 / 3, 1 / 3, 2 / 3, 2 / 3,
    1 / 3, 1 / 6, 1 / 3, 5 / 6,
    2 / 3, 1 / 6, 2 / 3, 5 / 6,
    1 / 3, 1 / 12, 1 / 3, 5 / 12,
    2 / 3, 1 / 12, 2 / 3, 5 / 12,
    1 / 3, 7 / 12, 1 / 3, 11 / 12,
    2 / 3, 7 / 12, 2 / 3, 11 / 12,
    1 / 6, 1 / 3, 1 / 6, 2 / 3,
    5 / 6, 1 / 3, 5 / 6, 2 / 3 ]

/-- Modelled from the spec: the interval `(x_left, h)` of the 1D cell with linear
index `c`; the hierarchy of cells belongs to the absent class `connect_1d`.
Level 0 holds the cell `[0, 1]`; level `l >= 1` holds `2^(l-1)` cells in
increasing offset `i`, the cell `(l, i)` being
`[i * 2^-(l-1), (i + 1) * 2^-(l-1)]`, and the linear index is the concatenation
of the levels, so that the level of `c` is `int_log2 c` and its offset
`c - 2^(l-1)`. -/
def cell_interval (c : Int) : ℚ × ℚ :=
  let l := int_log2 c
  if l = 0 then (0, 1)
  else
    let h : ℚ := 1 / 2 ^ (l - 1).toNat
    let i : Int := c - 2 ^ (l - 1).toNat
    ((i : ℚ) * h, h)

/-- Modelled from the spec: the two 1D nodes (degree 2) of the cell with linear
index `c`, which the absent class `interpolation` holds: `1/3, 2/3` at level 0
and `x_left + h * lo`, `x_left + h * hi` at level `l >= 1`. The relative
positions are parameters: the spec names `lo = 1/3`, `hi = 2/3`. -/
def cell_nodes (lo hi : ℚ) (c : Int) : List ℚ :=
  if int_log2 c = 0 then [1 / 3, 2 / 3]
  else
    let xh := cell_interval c
    [xh.1 + xh.2 * lo, xh.1 + xh.2 * hi]

/-- Modelled from the spec: the tensor product of per-dimension node lists, one
row per combination, the last dimension varying fastest (the order of the rows
of a cell in the gold table of the test). -/
def tensor_nodes : List (List ℚ) → List (List ℚ)
  | [] => [[]]
  | ns :: rest => ns.flatMap (fun x => (tensor_nodes rest).map (fun r => x :: r))

/-- Modelled from the spec: `interpolation::get_nodes(cells)`, absent from the
sources: for each cell in order, the tensor product of the per-dimension nodes
of the cell. -/
def get_nodes (lo hi : ℚ) (cells : List (List Int)) : List (List ℚ) :=
  cells.flatMap (fun cell => tensor_nodes (cell.map (cell_nodes lo hi)))

/-- No iteration that a call of `bicgstab` enters divides by zero: in every
iteration `1 + k` with `k < max_iter` that is entered (the `k` iterations before
it ran to their end) with `rho_1` not zero, the divisor `rtilde * v` of `alpha`
(line 405) is not zero, and when the residual check of line 409 does not return,
the divisor `t * t` of `omega` (line 418) is not zero. The other divisors are
never zero in an iteration that is entered: `normb` by lines 370-371, `rho_2` and
the previous `omega` by the checks of lines 385 and 430. On these runs the
quotients of the model are those of the program; where a divisor is zero the
program computes `inf` or `NaN` and the rational model does not follow it. -/
def bicg_divisors_nonzero (ext : externals) (mat : ℚ → List ℚ → ℚ → List ℚ → List ℚ)
    (x b : List ℚ) (precondition : List ℚ → List ℚ) (max_iter : Int) (tol : ℚ) : Prop :=
  ∀ k, k < (effective_max_iter ext max_iter (b.length : Int)).toNat → ∀ s,
    bicg_reach ext mat precondition (effective_tolerance ext tol) (bicg_normb ext b)
        (bicg_init ext mat x b (bicg_normb ext b)).r k 1
        (bicg_init ext mat x b (bicg_normb ext b)) = some s →
    bicg_rho_1 (bicg_init ext mat x b (bicg_normb ext b)).r s ≠ 0 →
    dot (bicg_init ext mat x b (bicg_normb ext b)).r
        (bicg_first_half ext mat precondition (bicg_normb ext b)
          (bicg_init ext mat x b (bicg_normb ext b)).r (1 + k) s).v ≠ 0 ∧
    (¬ (bicg_first_half ext mat precondition (bicg_normb ext b)
          (bicg_init ext mat x b (bicg_normb ext b)).r (1 + k) s).resid
        < effective_tolerance ext tol →
      dot (bicg_pass ext mat precondition (bicg_normb ext b)
            (bicg_init ext mat x b (bicg_normb ext b)).r (1 + k) s).t
          (bicg_pass ext mat precondition (bicg_normb ext b)
            (bicg_init ext mat x b (bicg_normb ext b)).r (1 + k) s).t ≠ 0)

/-! ## `simple_gmres` with the scalar type as a parameter

The norms that `simple_gmres` takes on the tridiagonal system of the tests are
irrational (`nrm2 b = sqrt 30`), so no choice of `externals` over the rationals
computes them exactly. The definitions below are the definitions of
`simple_gmres` above, line for line, with the scalars in an arbitrary ordered
field `K` in place of the rationals; at `K = ℚ` they are those definitions
(`simple_gmres_over_rat`). -/

/-- Read of `v[i]`, scalars in `K`. -/
def rd_over {K : Type} [LinearOrderedField K] (v : List K) (i : Nat) : K := v.getD i 0

/-- The accumulation `acc = init; for (q = 0; q < n; ++q) acc += term(q)`, scalars in `K`. -/
def sumLoop_over {K : Type} [LinearOrderedField K] (n : Nat) (term : Nat → K) (init : K) : K :=
  forLoop n (fun q acc => acc + term q) init

/-- The dot product `x * y` of two `fk::vector`s, scalars in `K`. -/
def dot_over {K : Type} [LinearOrderedField K] (x y : List K) : K :=
  sumLoop_over x.length (fun i => rd_over x i * rd_over y i) 0

/-- The member `scale(alpha)` of `fk::vector`, scalars in `K`. -/
def scale_over {K : Type} [LinearOrderedField K] (v : List K) (alpha : K) : List K :=
  v.map (fun e => e * alpha)

/-- The call `fm::gemv(A, x, y, false, alpha, beta)` for a matrix given by its
columns: `y = beta * y + alpha * A * x`, scalars in `K`. -/
def gemv_n_over {K : Type} [LinearOrderedField K] (cols : List (List K)) (x y : List K)
    (alpha beta : K) : List K :=
  forLoop y.length
    (fun i acc =>
      acc.set i (beta * rd_over y i
        + alpha * sumLoop_over cols.length (fun j => rd_over (cols.getD j []) i * rd_over x j) 0))
    y

/-- The call `fm::gemv(A, x, y, true, alpha, beta)` for a matrix given by its
columns: `y = beta * y + alpha * A^T * x`, scalars in `K`. -/
def gemv_t_over {K : Type} [LinearOrderedField K] (cols : List (List K)) (x y : List K)
    (alpha beta : K) : List K :=
  forLoop cols.length
    (fun j acc => acc.set j (beta * rd_over y j + alpha * dot_over (cols.getD j []) x))
    y

/-- The call `lib_dispatch::rot(1, &v[i], 1, &v[j], 1, c, s)` on two entries of one
vector: `(v[i], v[j]) = (c * v[i] + s * v[j], c * v[j] - s * v[i])`, scalars in `K`. -/
def rot_entries_over {K : Type} [LinearOrderedField K] (v : List K) (i j : Nat) (c s : K) :
    List K :=
  (v.set i (c * rd_over v i + s * rd_over v j)).set j (c * rd_over v j - s * rd_over v i)

/-- The routines and constants that `solver.cpp` takes from elsewhere (see
`externals`), scalars in `K`. -/
structure externals_over (K : Type) where
  /-- Value of `std::is_same_v<float, P>`. -/
  is_float : Bool
  /-- Value of `std::numeric_limits<P>::epsilon()`. -/
  epsilon : K
  /-- Value of `parser::NO_USER_VALUE`. -/
  NO_USER_VALUE : Int
  /-- Value of `parser::NO_USER_VALUE_FP`. -/
  NO_USER_VALUE_FP : K
  /-- The helper `get_MB<P>(num_elems)`. -/
  get_MB : Int → ℚ
  /-- The Euclidean norm `fm::nrm2`. -/
  nrm2 : List K → K
  /-- The routine `lib_dispatch::rotg(a, b, c, s)`: returns `(a, b, c, s)` after the call. -/
  rotg : K → K → K × K × K × K
  /-- The packed triangular solve `fm::tpsv(proj, s)`: returns `s` after the call. -/
  tpsv : List K → List K → List K

/-- The record `gmres_info<P>{residual, iterations}`, scalars in `K`. -/
structure gmres_info_over (K : Type) where
  residual : K
  iterations : Int

/-- What a solver call leaves behind (see `solver_result`), scalars in `K`. -/
structure solver_result_over (K : Type) where
  x : List K
  mat_calls : Nat
  prec_calls : Nat
  outcome : Except solver_error (gmres_info_over K)

/-- One pass through a loop body: go on with a new state, or leave the function. -/
inductive loop_step_over (K : Type) (σ : Type) where
  | next (s : σ)
  | done (r : solver_result_over K)

/-- The tolerance after lines 188-189, scalars in `K`. -/
def effective_tolerance_over {K : Type} [LinearOrderedField K] (ext : externals_over K)
    (tol : K) : K :=
  if tol = ext.NO_USER_VALUE_FP then
    (if ext.is_float then 1 / 1000000 else 1 / 1000000000000)
  else tol

/-- The iteration budget after lines 206-207, scalars in `K`. -/
def effective_max_iter_over {K : Type} (ext : externals_over K) (max_iter n : Int) : Int :=
  if max_iter = ext.NO_USER_VALUE then n else max_iter

/-- The function `default_gmres_restarts<P>(num_cols)`, scalars in `K`. -/
def default_gmres_restarts_over {K : Type} (ext : externals_over K) (num_cols : Int) : Int :=
  let minimum := min 10 num_cols
  let maximum := min 200 num_cols
  clamp (trunc_int (512 / ext.get_MB num_cols)) minimum maximum

/-- The variables of `simple_gmres` that live across iterations of its loops
(see `gmres_state`), scalars in `K`. -/
structure gmres_state_over (K : Type) where
  x : List K
  basis : List (List K)
  krylov_proj : List K
  sines : List K
  cosines : List K
  krylov_sol : List K
  total_iterations : Int
  outer_iterations : Nat
  inner_iterations : Nat
  inner_res : K
  outer_res : K
  mat_calls : Nat
  prec_calls : Nat

/-- The body of the inner loop (lines 239-297), scalars in `K`. -/
def gmres_inner_body_over {K : Type} [LinearOrderedField K] (ext : externals_over K)
    (mat : K → List K → K → List K → List K)
    (precondition : List K → List K) (tolerance : K) (restart print_freq : Nat)
    (st : gmres_state_over K) : loop_step_over K (gmres_state_over K) :=
  let j := st.inner_iterations
  let tmp := st.basis.getD j []
  let new_basis := precondition (mat 1 tmp 0 (st.basis.getD (j + 1) []))
  let basis_v := st.basis.take (j + 1)
  let off := pos_from_indices 0 j
  -- coeffs is the view krylov_proj[off .. off + j]
  let coeffs := gemv_t_over basis_v new_basis ((st.krylov_proj.drop off).take (j + 1)) 1 0
  let new_basis := gemv_n_over basis_v coeffs new_basis (-1) 1
  let nrm := ext.nrm2 new_basis
  let new_basis := scale_over new_basis (1 / nrm)
  let coeffs :=
    forLoop j (fun k c => rot_entries_over c k (k + 1) (rd_over st.cosines k) (rd_over st.sines k))
      coeffs
  let g := ext.rotg (rd_over coeffs j) nrm
  let coeffs := coeffs.set j g.1
  let cosines := st.cosines.set j g.2.2.1
  let sines := st.sines.set j g.2.2.2
  let inner_res := |rd_over sines j * rd_over st.krylov_sol j|
  let krylov_sol :=
    if inner_res > tolerance ∧ j < restart then
      rot_entries_over (st.krylov_sol.set (j + 1) 0) j (j + 1) (rd_over cosines j)
        (rd_over sines j)
    else st.krylov_sol
  let krylov_proj := st.krylov_proj.take off ++ coeffs ++ st.krylov_proj.drop (off + (j + 1))
  if print_freq = 0 then
    loop_step_over.done ⟨st.x, st.mat_calls + 1, st.prec_calls + 1,
      Except.error solver_error.modulo_by_zero⟩
  else
    loop_step_over.next
      { st with
        basis := st.basis.set (j + 1) new_basis, krylov_proj := krylov_proj,
        sines := sines, cosines := cosines, krylov_sol := krylov_sol,
        total_iterations := st.total_iterations + 1, inner_iterations := j + 1,
        inner_res := inner_res,
        mat_calls := st.mat_calls + 1, prec_calls := st.prec_calls + 1 }

/-- The inner loop `while ((inner_res > tolerance) && (inner_iterations < restart))`
run for at most `fuel` passes, scalars in `K`. -/
def gmres_inner_loop_over {K : Type} [LinearOrderedField K] (ext : externals_over K)
    (mat : K → List K → K → List K → List K)
    (precondition : List K → List K) (tolerance : K) (restart print_freq : Nat) :
    Nat → gmres_state_over K → loop_step_over K (gmres_state_over K)
  | 0, st => loop_step_over.next st
  | fuel + 1, st =>
    if st.inner_res > tolerance ∧ st.inner_iterations < restart then
      match gmres_inner_body_over ext mat precondition tolerance restart print_freq st with
      | loop_step_over.done r => loop_step_over.done r
      | loop_step_over.next st2 =>
        gmres_inner_loop_over ext mat precondition tolerance restart print_freq fuel st2
    else loop_step_over.next st

/-- Lines 227-237: the preconditioned residual, its norm, the first basis vector,
scalars in `K`. -/
def gmres_outer_start_over {K : Type} [LinearOrderedField K] (ext : externals_over K)
    (mat : K → List K → K → List K → List K)
    (precondition : List K → List K) (b : List K) (st : gmres_state_over K) :
    gmres_state_over K :=
  let scaled := precondition (mat (-1) st.x 1 b)
  let inner_res := ext.nrm2 scaled
  let scaled := scale_over scaled (1 / inner_res)
  { st with
    basis := st.basis.set 0 scaled, krylov_sol := st.krylov_sol.set 0 inner_res,
    total_iterations := st.total_iterations + 1, inner_iterations := 0,
    inner_res := inner_res,
    mat_calls := st.mat_calls + 1, prec_calls := st.prec_calls + 1 }

/-- Lines 300-316: the triangular solve, the update of `x`, the end of an outer
pass, scalars in `K`. -/
def gmres_outer_finish_over {K : Type} [LinearOrderedField K] (ext : externals_over K)
    (st : gmres_state_over K) : gmres_state_over K :=
  let k := st.inner_iterations
  let st1 :=
    if k > 0 then
      let proj := st.krylov_proj.take (pos_from_indices (k - 1) (k - 1) + 1)
      let s_view := ext.tpsv proj (st.krylov_sol.take k)
      { st with
        krylov_sol := s_view ++ st.krylov_sol.drop k,
        x := gemv_n_over (st.basis.take k) s_view st.x 1 1 }
    else st
  { st1 with outer_iterations := st1.outer_iterations + 1, outer_res := st1.inner_res }

/-- The body of the outer loop (lines 226-317), scalars in `K`. -/
def gmres_outer_body_over {K : Type} [LinearOrderedField K] (ext : externals_over K)
    (mat : K → List K → K → List K → List K)
    (precondition : List K → List K) (b : List K) (tolerance : K) (restart print_freq : Nat)
    (st : gmres_state_over K) : loop_step_over K (gmres_state_over K) :=
  match gmres_inner_loop_over ext mat precondition tolerance restart print_freq restart
      (gmres_outer_start_over ext mat precondition b st) with
  | loop_step_over.done r => loop_step_over.done r
  | loop_step_over.next st2 => loop_step_over.next (gmres_outer_finish_over ext st2)

/-- The outer loop
`while ((outer_res > tolerance) && (outer_iterations < max_outer_iterations))`
run for at most `fuel` passes, scalars in `K`. -/
def gmres_outer_loop_over {K : Type} [LinearOrderedField K] (ext : externals_over K)
    (mat : K → List K → K → List K → List K)
    (precondition : List K → List K) (b : List K) (tolerance : K)
    (restart print_freq max_outer_iterations : Nat) :
    Nat → gmres_state_over K → loop_step_over K (gmres_state_over K)
  | 0, st => loop_step_over.next st
  | fuel + 1, st =>
    if st.outer_res > tolerance ∧ st.outer_iterations < max_outer_iterations then
      match gmres_outer_body_over ext mat precondition b tolerance restart print_freq st with
      | loop_step_over.done r => loop_step_over.done r
      | loop_step_over.next st2 =>
        gmres_outer_loop_over ext mat precondition b tolerance restart print_freq
          max_outer_iterations fuel st2
    else loop_step_over.next st

/-- The state in which the outer loop is entered (lines 213-224), scalars in `K`. -/
def gmres_init_over {K : Type} [LinearOrderedField K] (x : List K) (n restart : Nat)
    (tolerance : K) : gmres_state_over K :=
  { x := x,
    basis := List.replicate (restart + 1) (List.replicate n 0),
    krylov_proj := List.replicate (restart * (restart + 1) / 2) 0,
    sines := List.replicate (restart + 1) 0,
    cosines := List.replicate (restart + 1) 0,
    krylov_sol := List.replicate (restart + 1) 0,
    total_iterations := 0, outer_iterations := 0, inner_iterations := 0,
    inner_res := 0, outer_res := tolerance + 1, mat_calls := 0, prec_calls := 0 }

/-- The restart length after lines 195-196, scalars in `K`. -/
def effective_restart_over {K : Type} (ext : externals_over K) (restart n : Int) : Int :=
  if restart = ext.NO_USER_VALUE then default_gmres_restarts_over ext n else restart

/-- The loops of `simple_gmres` (lines 211-317) for checked arguments, scalars in `K`. -/
def gmres_run_over {K : Type} [LinearOrderedField K] (ext : externals_over K)
    (mat : K → List K → K → List K → List K)
    (x b : List K) (precondition : List K → List K) (restart max_outer_iterations : Nat)
    (tolerance : K) : loop_step_over K (gmres_state_over K) :=
  let print_freq := restart / 3
  gmres_outer_loop_over ext mat precondition b tolerance restart print_freq max_outer_iterations
    max_outer_iterations (gmres_init_over x b.length restart tolerance)

/-- The function `simple_gmres(mat, x, b, precondition, restart, max_outer_iterations,
tolerance)`, scalars in `K`. -/
def simple_gmres_over {K : Type} [LinearOrderedField K] (ext : externals_over K)
    (mat : K → List K → K → List K → List K)
    (x b : List K) (precondition : List K → List K) (restart max_outer_iterations : Int)
    (tolerance : K) : solver_result_over K :=
  let tolerance := effective_tolerance_over ext tolerance
  if ¬ (tolerance ≥ ext.epsilon) then ⟨x, 0, 0, Except.error solver_error.expect_failed⟩
  else
    let n : Int := b.length
    if ¬ (n = x.length) then ⟨x, 0, 0, Except.error solver_error.expect_failed⟩
    else
      let restart := effective_restart_over ext restart n
      if ¬ (restart > 0) then ⟨x, 0, 0, Except.error solver_error.expect_failed⟩
      else if restart > n then ⟨x, 0, 0, Except.error solver_error.invalid_argument⟩
      else
        let max_outer_iterations := effective_max_iter_over ext max_outer_iterations n
        if ¬ (max_outer_iterations > 0) then
          ⟨x, 0, 0, Except.error solver_error.expect_failed⟩
        else
          match gmres_run_over ext mat x b precondition restart.toNat
              max_outer_iterations.toNat tolerance with
          | loop_step_over.done r => r
          | loop_step_over.next st =>
            ⟨st.x, st.mat_calls, st.prec_calls, Except.ok ⟨st.outer_res, st.total_iterations⟩⟩

/-- The operator `mat(alpha, x, beta, y)` of the dense wrapper (lines 58-62),
scalars in `K`. -/
def dense_matrix_wrapper_over {K : Type} [LinearOrderedField K] (A : List (List K)) (alpha : K)
    (x_in : List K) (beta : K) (y : List K) : List K :=
  gemv_n_over A x_in y alpha beta

/-- The preconditioner `no_op_preconditioner` (lines 37-49), scalars in `K`. -/
def no_op_preconditioner_over {K : Type} (v : List K) : List K := v

/-- The columns of the 4 x 4 matrix `tridiag(1, -2, 1)`, scalars in `K`. -/
def tri4_over (K : Type) [LinearOrderedField K] : List (List K) :=
  [[-2, 1, 0, 0], [1, -2, 1, 0], [0, 1, -2, 1], [0, 0, 1, -2]]

/-- The externals compute exactly: `nrm2` is the Euclidean norm, `rotg` returns
`(r, z, c, s)` with `c^2 + s^2 = 1`, `r = c a + s b` and `c b - s a = 0`, with
`c = 1`, `s = 0` when `b = 0` and `a` is not zero (as the reference `drotg`
does), and `tpsv` solves an upper triangular system of order 4 in packed storage
whose diagonal has no zero. -/
def exact_externals {K : Type} [LinearOrderedField K] (ext : externals_over K) : Prop :=
  (∀ v : List K, 0 ≤ ext.nrm2 v ∧ ext.nrm2 v * ext.nrm2 v = dot_over v v) ∧
  (∀ a b : K,
    (ext.rotg a b).2.2.1 * (ext.rotg a b).2.2.1 + (ext.rotg a b).2.2.2 * (ext.rotg a b).2.2.2 = 1 ∧
    (ext.rotg a b).1 = (ext.rotg a b).2.2.1 * a + (ext.rotg a b).2.2.2 * b ∧
    (ext.rotg a b).2.2.1 * b - (ext.rotg a b).2.2.2 * a = 0 ∧
    (b = 0 → a ≠ 0 → (ext.rotg a b).2.2.1 = 1 ∧ (ext.rotg a b).2.2.2 = 0)) ∧
  (∀ (ap x : List K), x.length = 4 → ap.length = 10 →
    (∀ i, i < 4 → rd_over ap (pos_from_indices i i) ≠ 0) →
    (ext.tpsv ap x).length = 4 ∧
    ∀ i, i < 4 →
      sumLoop_over 4 (fun j => if i ≤ j then rd_over ap (pos_from_indices i j)
        * rd_over (ext.tpsv ap x) j else 0) 0 = rd_over x i)

/-- The state of `simple_gmres` on the system `tri4 * x = (1, 2, 3, 4)` started
from `x = 0` (restart 4, no preconditioner) after `j` inner iterations of the
first outer pass, written in the norms `β = nrm2 b` and `ν0, ν1, ν2` (the norms
of the orthogonalised vectors of iterations 0, 1, 2) and the values `r0, r1, r2`
that `rotg` returns for `r` in these iterations. -/
def tri4_gmres_state {K : Type} [LinearOrderedField K] (tol β ν0 ν1 ν2 r0 r1 r2 : K) :
    Nat → gmres_state_over K
  | 0 =>
    { x := [0, 0, 0, 0],
      basis :=
        [[1/30 * β, 1/15 * β, 1/10 * β, 2/15 * β],
         [0, 0, 0, 0],
         [0, 0, 0, 0],
         [0, 0, 0, 0],
         [0, 0, 0, 0]],
      krylov_proj :=
        [0, 0, 0, 0, 0, 0, 0, 0, 0, 0],
      sines := [0, 0, 0, 0, 0],
      cosines := [0, 0, 0, 0, 0],
      krylov_sol :=
        [β, 0, 0, 0, 0],
      total_iterations := 1, outer_iterations := 0, inner_iterations := 0,
      inner_res := β,
      outer_res := tol + 1, mat_calls := 1, prec_calls := 1 }
  | 1 =>
    { x := [0, 0, 0, 0],
      basis :=
        [[1/30 * β, 1/15 * β, 1/10 * β, 2/15 * β],
         [2/35 * β * ν0, 4/35 * β * ν0, 6/35 * β * ν0, -(1/5) * β * ν0],
         [0, 0, 0, 0],
         [0, 0, 0, 0],
         [0, 0, 0, 0]],
      krylov_proj :=
        [r0, 0, 0, 0, 0, 0, 0, 0, 0, 0],
      sines := [6/5 * ν0 * r0, 0, 0, 0, 0],
      cosines := [-(4/5) * r0, 0, 0, 0, 0],
      krylov_sol :=
        [-(4/5) * β * r0, -(6/5) * β * ν0 * r0, 0, 0, 0],
      total_iterations := 2, outer_iterations := 0, inner_iterations := 1,
      inner_res := |6/5 * ν0 * r0 * (β)|,
      outer_res := tol + 1, mat_calls := 2, prec_calls := 2 }
  | 2 =>
    { x := [0, 0, 0, 0],
      basis :=
        [[1/30 * β, 1/15 * β, 1/10 * β, 2/15 * β],
         [2/35 * β * ν0, 4/35 * β * ν0, 6/35 * β * ν0, -(1/5) * β * ν0],
         [3/25 * β * ν0 * ν1, 6/25 * β * ν0 * ν1, -(1/5) * β * ν0 * ν1, 0],
         [0, 0, 0, 0],
         [0, 0, 0, 0]],
      krylov_proj :=
        [r0, -(24/7) * ν0 * r0, r1, 0, 0, 0, 0, 0, 0, 0],
      sines := [6/5 * ν0 * r0, 7/15 * ν1 * r1, 0, 0, 0],
      cosines := [-(4/5) * r0, 3/5 * r0 * r1, 0, 0, 0],
      krylov_sol :=
        [-(4/5) * β * r0, -(3/5) * β * ν0 * r1, 14/25 * β * ν0 * ν1 * r0 * r1, 0, 0],
      total_iterations := 3, outer_iterations := 0, inner_iterations := 2,
      inner_res := |7/15 * ν1 * r1 * (-(6/5) * β * ν0 * r0)|,
      outer_res := tol + 1, mat_calls := 3, prec_calls := 3 }
  | 3 =>
    { x := [0, 0, 0, 0],
      basis :=
        [[1/30 * β, 1/15 * β, 1/10 * β, 2/15 * β],
         [2/35 * β * ν0, 4/35 * β * ν0, 6/35 * β * ν0, -(1/5) * β * ν0],
         [3/25 * β * ν0 * ν1, 6/25 * β * ν0 * ν1, -(1/5) * β * ν0 * ν1, 0],
         [2/5 * β * ν0 * ν1 * ν2, -(1/5) * β * ν0 * ν1 * ν2, 0, 0],
         [0, 0, 0, 0]],
      krylov_proj :=
        [r0, -(24/7) * ν0 * r0, r1, 6/5 * ν0 * ν1 * r0, -(112/75) * ν1 * r1, r2, 0, 0, 0, 0],
      sines := [6/5 * ν0 * r0, 7/15 * ν1 * r1, 5/14 * ν2 * r2, 0, 0],
      cosines := [-(4/5) * r0, 3/5 * r0 * r1, -(2/5) * r0 * r1 * r2, 0, 0],
      krylov_sol :=
        [-(4/5) * β * r0, -(3/5) * β * ν0 * r1, -(2/5) * β * ν0 * ν1 * r2,
         -(1/5) * β * ν0 * ν1 * ν2 * r0 * r1 * r2, 0],
      total_iterations := 4, outer_iterations := 0, inner_iterations := 3,
      inner_res := |5/14 * ν2 * r2 * (14/25 * β * ν0 * ν1 * r0 * r1)|,
      outer_res := tol + 1, mat_calls := 4, prec_calls := 4 }
  | _ =>
    { x := [0, 0, 0, 0],
      basis :=
        [[1/30 * β, 1/15 * β, 1/10 * β, 2/15 * β],
         [2/35 * β * ν0, 4/35 * β * ν0, 6/35 * β * ν0, -(1/5) * β * ν0],
         [3/25 * β * ν0 * ν1, 6/25 * β * ν0 * ν1, -(1/5) * β * ν0 * ν1, 0],
         [2/5 * β * ν0 * ν1 * ν2, -(1/5) * β * ν0 * ν1 * ν2, 0, 0],
         [0, 0, 0, 0]],
      krylov_proj :=
        [r0, -(24/7) * ν0 * r0, r1, 6/5 * ν0 * ν1 * r0, -(112/75) * ν1 * r1, r2, 0,
         7/15 * ν1 * ν2 * r1, -(10/7) * ν2 * r2, r0 * r1 * r2],
      sines := [6/5 * ν0 * r0, 7/15 * ν1 * r1, 5/14 * ν2 * r2, 0, 0],
      cosines := [-(4/5) * r0, 3/5 * r0 * r1, -(2/5) * r0 * r1 * r2, 1, 0],
      krylov_sol :=
        [-(4/5) * β * r0, -(3/5) * β * ν0 * r1, -(2/5) * β * ν0 * ν1 * r2,
         -(1/5) * β * ν0 * ν1 * ν2 * r0 * r1 * r2, 0],
      total_iterations := 5, outer_iterations := 0, inner_iterations := 4,
      inner_res := |0 * (-(1/5) * β * ν0 * ν1 * ν2 * r0 * r1 * r2)|,
      outer_res := tol + 1, mat_calls := 5, prec_calls := 5 }

/-- The reference BLAS routine `drotg(a, b, c, s)` with the square root a parameter:
returns `(r, z, c, s)`, scalars in `K`. -/
def blas_rotg_over {K : Type} [LinearOrderedField K] (sqrt : K → K) (a b : K) :
    K × K × K × K :=
  let roe := if |a| > |b| then a else b
  let scale := |a| + |b|
  if scale = 0 then (0, 0, 1, 0)
  else
    let r0 := scale * sqrt ((a / scale) ^ 2 + (b / scale) ^ 2)
    let r := if roe < 0 then -r0 else r0
    let c := a / r
    let s := b / r
    let z := if |a| > |b| then s else if c ≠ 0 then 1 / c else 1
    (r, z, c, s)

/-- The pass of the reference BLAS routine `dtpsv` over column `j = n - 1 - jj` of an
upper triangular, non-unit matrix of order `n` in packed storage: `x[j]` is divided
by the diagonal entry and eliminated from the rows above, unless it is zero,
scalars in `K`. -/
def blas_tpsv_column_over {K : Type} [LinearOrderedField K] (ap : List K) (n jj : Nat)
    (acc : List K) : List K :=
  let j := n - 1 - jj
  if rd_over acc j ≠ 0 then
    let acc1 := acc.set j (rd_over acc j / rd_over ap (pos_from_indices j j))
    let temp := rd_over acc1 j
    forLoop j
      (fun ii acc2 =>
        let i := j - 1 - ii
        acc2.set i (rd_over acc2 i - temp * rd_over ap (pos_from_indices i j)))
      acc1
  else acc

/-- The reference BLAS routine `dtpsv` for an upper triangular, non-unit matrix in
packed storage (see `blas_tpsv`): the back substitution that solves `A * x = b` in
place, columns `j = n - 1, ..., 0`, scalars in `K`. -/
def blas_tpsv_over {K : Type} [LinearOrderedField K] (ap : List K) (x : List K) : List K :=
  forLoop x.length (blas_tpsv_column_over ap x.length) x

/-- The choice `ext_example` of the externals with the scalars in `K` and the
square root a parameter: `nrm2` is the Euclidean norm and `rotg`, `tpsv` the
reference BLAS routines, exact when `sqrt` is. -/
def ext_example_over {K : Type} [LinearOrderedField K] (sqrt : K → K) : externals_over K where
  is_float := false
  epsilon := 1 / 2 ^ 52
  NO_USER_VALUE := -1
  NO_USER_VALUE_FP := 1 / 2 ^ 1022
  get_MB := fun n => (n : ℚ) * 8 * (1 / 1000000)
  nrm2 := fun v => sqrt (dot_over v v)
  rotg := blas_rotg_over sqrt
  tpsv := blas_tpsv_over

/-- The externals `ext` with their scalars read in the field of the rationals. -/
def externals_over_rat (ext : externals) : externals_over ℚ where
  is_float := ext.is_float
  epsilon := ext.epsilon
  NO_USER_VALUE := ext.NO_USER_VALUE
  NO_USER_VALUE_FP := ext.NO_USER_VALUE_FP
  get_MB := ext.get_MB
  nrm2 := ext.nrm2
  rotg := ext.rotg
  tpsv := ext.tpsv

/-- A solver result with its scalars read in the field of the rationals. -/
def solver_result_over_rat (r : solver_result) : solver_result_over ℚ :=
  ⟨r.x, r.mat_calls, r.prec_calls,
    match r.outcome with
    | Except.error e => Except.error e
    | Except.ok info => Except.ok ⟨info.residual, info.iterations⟩⟩

/-- A state of `simple_gmres` with its scalars read in the field of the rationals. -/
def gmres_state_over_rat (st : gmres_state) : gmres_state_over ℚ :=
  { x := st.x, basis := st.basis, krylov_proj := st.krylov_proj, sines := st.sines,
    cosines := st.cosines, krylov_sol := st.krylov_sol,
    total_iterations := st.total_iterations, outer_iterations := st.outer_iterations,
    inner_iterations := st.inner_iterations, inner_res := st.inner_res,
    outer_res := st.outer_res, mat_calls := st.mat_calls, prec_calls := st.prec_calls }

/-- A pass through a loop body of `simple_gmres` with its scalars read in the field
of the rationals. -/
def gmres_step_over_rat : loop_step gmres_state → loop_step_over ℚ (gmres_state_over ℚ)
  | loop_step.next st => loop_step_over.next (gmres_state_over_rat st)
  | loop_step.done r => loop_step_over.done (solver_result_over_rat r)

/-! # Theorems -/

theorem forLoop_zero {σ : Type} (body : Nat → σ → σ) (s : σ) : forLoop 0 body s = s := rfl

theorem forLoop_succ {σ : Type} (n : Nat) (body : Nat → σ → σ) (s : σ) :
    forLoop (n + 1) body s = body n (forLoop n body s) := by
  simp [forLoop, List.range_succ, List.foldl_append]

theorem forLoop_pair_fst {α β : Type} (n : Nat) (F : Nat → α → α) (G : Nat → β → β)
    (a : α) (b : β) :
    (forLoop n (fun k (st : α × β) => (F k st.1, G k st.2)) (a, b)).1 = forLoop n F a := by
  induction n with
  | zero => rfl
  | succ n ih => rw [forLoop_succ, forLoop_succ, ih]

theorem forLoop_pair_snd {α β : Type} (n : Nat) (F : Nat → α → α) (G : Nat → β → β)
    (a : α) (b : β) :
    (forLoop n (fun k (st : α × β) => (F k st.1, G k st.2)) (a, b)).2 = forLoop n G b := by
  induction n with
  | zero => rfl
  | succ n ih => rw [forLoop_succ, forLoop_succ, ih]

theorem forLoop_set_length (n : Nat) (f : Nat → ℚ) (v : List ℚ) :
    (forLoop n (fun i (acc : List ℚ) => acc.set i (f i)) v).length = v.length := by
  induction n with
  | zero => rfl
  | succ n ih => rw [forLoop_succ, List.length_set, ih]

/-- A loop that writes `v[i] = f i` for `i < n` leaves `f k` at every index
`k < n` inside the vector and the old value everywhere else. -/
theorem forLoop_set_rd (n : Nat) (f : Nat → ℚ) (v : List ℚ) (k : Nat) :
    rd (forLoop n (fun i (acc : List ℚ) => acc.set i (f i)) v) k =
      if k < n ∧ k < v.length then f k else rd v k := by
  induction n with
  | zero => simp [forLoop_zero]
  | succ n ih =>
    rw [forLoop_succ]
    unfold rd at ih ⊢
    rw [List.getD_eq_getElem?_getD, List.getElem?_set]
    by_cases hkn : n = k
    · subst hkn
      by_cases hl : n < v.length
      · simp [forLoop_set_length, hl]
      · simp [forLoop_set_length, hl, List.getD_eq_getElem?_getD]
        rw [List.getElem?_eq_none (by omega)]
        rfl
    · rw [if_neg hkn, ← List.getD_eq_getElem?_getD, ih]
      have h1 : (k < n + 1 ∧ k < v.length) ↔ (k < n ∧ k < v.length) := by omega
      simp only [h1]

/-- What the single-element branch leaves in `phi`: entries below `degree + 1`
are overwritten with the line through `(x_min, x_min)` of slope
`(phi_max - phi_min) / (x_max - x_min)`. -/
theorem poisson_single_phi (lgwt : Nat → Nat → ℚ) (phi E : List ℚ) (degree : Nat)
    (dx x_min x_max phi_min phi_max : ℚ) (k : Nat) :
    rd (poisson_single lgwt phi E degree dx x_min x_max phi_min phi_max).1 k =
      if k < degree + 1 ∧ k < phi.length then
        ((phi_max - phi_min) / (x_max - x_min)) *
          ((x_min + (1 / 2) * dx * (1 + lgwt 0 k)) - x_min) + x_min
      else rd phi k := by
  unfold poisson_single
  rw [forLoop_pair_fst (degree + 1)
    (fun k (p : List ℚ) => p.set k (((phi_max - phi_min) / (x_max - x_min)) *
      ((x_min + (1 / 2) * dx * (1 + lgwt 0 k)) - x_min) + x_min))
    (fun k (e : List ℚ) => e.set k (-(phi_max - phi_min) / (x_max - x_min)))]
  exact forLoop_set_rd _ _ _ _

/-- C1 (code evaluated at the failing input): with one element, `degree = 0`
(one Gauss-Legendre node, `xi_0 = 0`), `x_min = 0`, `x_max = 1`, `phi_min = 1`,
`phi_max = 2`, the code writes `phi[0] = 1/2`, whereas the linear interpolation
between `(0, 1)` and `(1, 2)` at the node `x_0 = 1/2` is `3/2`. -/
theorem poisson_single_element_not_interpolation :
    rd (poisson_solver lgwt_one_point (fun _ _ b => b) [] [] [] [0] [0] 0 1 0 1 1 2
          poisson_bc.dirichlet).1 0 = 1 / 2 ∧
    (1 : ℚ) + (2 - 1) / (1 - 0) * ((0 + (1 / 2) * ((1 - 0) / 1) * (1 + lgwt_one_point 0 0)) - 0)
      = 3 / 2 := by
  constructor
  · rw [poisson_solver, if_pos rfl, poisson_single_phi]
    norm_num [lgwt_one_point]
  · norm_num [lgwt_one_point]

theorem forLoop_update_length (n : Nat) (g : Nat → ℚ → ℚ) (v : List ℚ) :
    (forLoop n (fun i (acc : List ℚ) => acc.set i (g i (rd acc i))) v).length = v.length := by
  induction n with
  | zero => rfl
  | succ n ih => rw [forLoop_succ, List.length_set, ih]

/-- Reading a vector after one write. -/
theorem rd_set (v : List ℚ) (i k : Nat) (a : ℚ) :
    rd (v.set i a) k = if i = k ∧ k < v.length then a else rd v k := by
  unfold rd
  rw [List.getD_eq_getElem?_getD, List.getD_eq_getElem?_getD, List.getElem?_set]
  by_cases hik : i = k
  · subst hik
    by_cases hl : i < v.length
    · simp [hl]
    · have hn : v[i]? = none := List.getElem?_eq_none (by omega)
      simp [hl, hn]
  · simp [hik]

/-- A loop that rewrites `v[i] = g i v[i]` for `i < n` leaves `g k v[k]` at every
index `k < n` inside the vector and the old value everywhere else. -/
theorem forLoop_update_rd (n : Nat) (g : Nat → ℚ → ℚ) (v : List ℚ) (k : Nat) :
    rd (forLoop n (fun i (acc : List ℚ) => acc.set i (g i (rd acc i))) v) k =
      if k < n ∧ k < v.length then g k (rd v k) else rd v k := by
  induction n with
  | zero => simp [forLoop_zero]
  | succ n ih =>
    rw [forLoop_succ, rd_set, forLoop_update_length]
    by_cases hkn : n = k
    · subst hkn
      have ihn := ih
      simp only [lt_irrefl, false_and, if_false] at ihn
      by_cases hl : n < v.length
      · simp [hl, ihn]
      · simp [hl, ihn]
    · rw [if_neg (fun h => hkn h.1), ih]
      have h1 : (k < n + 1 ∧ k < v.length) ↔ (k < n ∧ k < v.length) := by omega
      simp only [h1]

theorem axpy_length (n : Nat) (alpha : ℚ) (x y : List ℚ) : (axpy n alpha x y).length = y.length :=
  forLoop_update_length n (fun i e => e + alpha * rd x i) y

theorem axpy_rd (n : Nat) (alpha : ℚ) (x y : List ℚ) (k : Nat) :
    rd (axpy n alpha x y) k = if k < n ∧ k < y.length then rd y k + alpha * rd x k else rd y k :=
  forLoop_update_rd n (fun i e => e + alpha * rd x i) y k

/-- C6: `apply_diagonal_precond(pc, dt, x)`, for a preconditioner no longer than
the vector, replaces `x[i]` by `x[i] / (1 - dt * pc[i])` at every index
`i < pc.size()`, leaves every entry at an index `>= pc.size()` unchanged, and
keeps the length of `x`. -/
theorem apply_diagonal_precond_spec (pc : List ℚ) (dt : ℚ) (x : List ℚ)
    (hsize : pc.length ≤ x.length) :
    (apply_diagonal_precond pc dt x).length = x.length ∧
    (∀ i, i < pc.length →
      rd (apply_diagonal_precond pc dt x) i = rd x i / (1 - dt * rd pc i)) ∧
    (∀ i, pc.length ≤ i → rd (apply_diagonal_precond pc dt x) i = rd x i) := by
  refine ⟨forLoop_update_length _ (fun i e => e / (1 - dt * rd pc i)) x, ?_, ?_⟩
  · intro i hi
    unfold apply_diagonal_precond
    rw [forLoop_update_rd pc.length (fun i e => e / (1 - dt * rd pc i)) x i,
      if_pos ⟨hi, by omega⟩]
  · intro i hi
    unfold apply_diagonal_precond
    rw [forLoop_update_rd pc.length (fun i e => e / (1 - dt * rd pc i)) x i,
      if_neg (by omega)]

/-- C6 at `pc = [1, 3]`, `dt = 1/2`, `x = [4, 5, 6]`: the result is `[8, -10, 6]`. -/
theorem apply_diagonal_precond_spec_witness :
    ([1, 3] : List ℚ).length ≤ ([4, 5, 6] : List ℚ).length ∧
    (apply_diagonal_precond [1, 3] (1 / 2) [4, 5, 6]).length = ([4, 5, 6] : List ℚ).length ∧
    (∀ i, i < ([1, 3] : List ℚ).length →
      rd (apply_diagonal_precond [1, 3] (1 / 2) [4, 5, 6]) i
        = rd [4, 5, 6] i / (1 - 1 / 2 * rd [1, 3] i)) ∧
    (∀ i, ([1, 3] : List ℚ).length ≤ i →
      rd (apply_diagonal_precond [1, 3] (1 / 2) [4, 5, 6]) i = rd [4, 5, 6] i) :=
  ⟨by decide, apply_diagonal_precond_spec [1, 3] (1 / 2) [4, 5, 6] (by decide)⟩

/-- C4: the operator that `simple_gmres_euler` and `bicgstab_euler` hand to the
solver is `I - dt * K`: whenever `ops.apply(imex, a, x, b, y)` leaves
`b * y + a * K x` in `y`, the lambda leaves `beta * y + alpha * (x - dt * K x)`
in `y`, for every `alpha`, `beta`, `x` and `y`. -/
theorem euler_operator_spec (dt : ℚ) (K : List ℚ → List ℚ)
    (ops_apply : ℚ → List ℚ → ℚ → List ℚ → List ℚ)
    (hlen : ∀ a x b y, (ops_apply a x b y).length = y.length)
    (hops : ∀ a x b y i, i < y.length →
      rd (ops_apply a x b y) i = b * rd y i + a * rd (K x) i)
    (alpha beta : ℚ) (x y : List ℚ) :
    (euler_operator dt ops_apply alpha x beta y).length = y.length ∧
    ∀ i, i < y.length →
      rd (euler_operator dt ops_apply alpha x beta y) i
        = beta * rd y i + alpha * (rd x i - dt * rd (K x) i) := by
  unfold euler_operator
  refine ⟨by simp only [axpy_length, hlen], ?_⟩
  intro i hi
  simp only [axpy_rd, hlen]
  rw [if_pos ⟨hi, hi⟩, hops _ _ _ _ _ hi]
  ring

theorem ops_apply_of_length (K : List ℚ → List ℚ) (a : ℚ) (x : List ℚ) (b : ℚ) (y : List ℚ) :
    (ops_apply_of K a x b y).length = y.length :=
  forLoop_update_length y.length (fun i e => b * e + a * rd (K x) i) y

theorem ops_apply_of_rd (K : List ℚ → List ℚ) (a : ℚ) (x : List ℚ) (b : ℚ) (y : List ℚ)
    (i : Nat) (hi : i < y.length) :
    rd (ops_apply_of K a x b y) i = b * rd y i + a * rd (K x) i := by
  unfold ops_apply_of
  rw [forLoop_update_rd y.length (fun i e => b * e + a * rd (K x) i) y i, if_pos ⟨hi, hi⟩]

/-- C4 at `K = 2 I`, `dt = 1/2`, `alpha = 3`, `beta = 5`, `x = [1, 2]`, `y = [7, 11]`. -/
theorem euler_operator_spec_witness :
    (euler_operator (1 / 2) (ops_apply_of (fun v => scale v 2)) 3 [1, 2] 5 [7, 11]).length
      = ([7, 11] : List ℚ).length ∧
    ∀ i, i < ([7, 11] : List ℚ).length →
      rd (euler_operator (1 / 2) (ops_apply_of (fun v => scale v 2)) 3 [1, 2] 5 [7, 11]) i
        = 5 * rd [7, 11] i + 3 * (rd [1, 2] i - 1 / 2 * rd ((fun v => scale v 2) [1, 2]) i) :=
  euler_operator_spec (1 / 2) (fun v => scale v 2) (ops_apply_of (fun v => scale v 2))
    (ops_apply_of_length _) (fun a x b y i hi => ops_apply_of_rd _ a x b y i hi) 3 5 [1, 2] [7, 11]

theorem forLoop_push {α : Type} (n : Nat) (f : Nat → α) (init : List α) :
    forLoop n (fun i acc => acc ++ [f i]) init = init ++ (List.range n).map f := by
  induction n with
  | zero => simp [forLoop_zero]
  | succ n ih => rw [forLoop_succ, ih, List.range_succ, List.map_append]; simp

theorem mem_forLoop_push2 {α : Type} (R C : Nat) (f : Nat → Nat → α) (init : List α) (t : α) :
    t ∈ forLoop R (fun i acc => forLoop C (fun j acc => acc ++ [f i j]) acc) init ↔
      t ∈ init ∨ ∃ i, i < R ∧ ∃ j, j < C ∧ t = f i j := by
  induction R with
  | zero => simp [forLoop_zero]
  | succ R ih =>
    rw [forLoop_succ, forLoop_push, List.mem_append, ih]
    simp only [List.mem_map, List.mem_range]
    constructor
    · rintro ((h | ⟨i, hi, j, hj, rfl⟩) | ⟨j, hj, rfl⟩)
      · exact Or.inl h
      · exact Or.inr ⟨i, by omega, j, hj, rfl⟩
      · exact Or.inr ⟨R, by omega, j, hj, rfl⟩
    · rintro (h | ⟨i, hi, j, hj, rfl⟩)
      · exact Or.inl (Or.inl h)
      · by_cases hiR : i = R
        · subst hiR; exact Or.inr ⟨j, hj, rfl⟩
        · exact Or.inl (Or.inr ⟨i, by omega, j, hj, rfl⟩)

theorem trunc_int_intCast (z : Int) : trunc_int (z : ℚ) = z := by
  unfold trunc_int
  split <;> simp

/-- `round_up` is the least multiple of `m` that is `>= a`, so a counter below
`round_up a m / m` satisfies `i * m < a`. -/
theorem lt_of_lt_round_up_div (a m : Int) (hm : 0 < m) (ha : 0 < a) (i : Nat)
    (hi : i < (Int.tdiv (round_up a m) m).toNat) : (i : Int) * m ≤ a - 1 := by
  unfold round_up at hi
  have h0 : 0 ≤ a + m - 1 := by omega
  rw [Int.tdiv_eq_ediv h0 hm.le] at hi
  have h1 : 0 ≤ (a + m - 1) / m := Int.ediv_nonneg h0 hm.le
  rw [Int.tdiv_eq_ediv (Int.mul_nonneg h1 hm.le) hm.le, Int.mul_ediv_cancel _ hm.ne'] at hi
  have h2 : (i : Int) < (a + m - 1) / m := by omega
  have h3 : ((i : Int) + 1) * m ≤ a + m - 1 := by
    have := Int.ediv_mul_le (a + m - 1) hm.ne'
    have h4 : ((i : Int) + 1) ≤ (a + m - 1) / m := by omega
    calc ((i : Int) + 1) * m ≤ (a + m - 1) / m * m := Int.mul_le_mul_of_nonneg_right h4 hm.le
      _ ≤ a + m - 1 := this
  linarith

theorem int_sqrt_mul_self_le (m : Int) (hm : 0 ≤ m) : Int.sqrt m * Int.sqrt m ≤ m := by
  unfold Int.sqrt
  have h := Nat.sqrt_le m.toNat
  have h2 : ((Nat.sqrt m.toNat * Nat.sqrt m.toNat : Nat) : Int) ≤ (m.toNat : Int) := by
    exact_mod_cast h
  rw [Int.toNat_of_nonneg hm] at h2
  push_cast at h2
  exact h2

theorem decompose_tile_dims (g : element_subgrid) (L : Int) (i j : Nat) :
    (decompose_tile g L i j).nrows ≤ L ∧ (decompose_tile g L i j).ncols ≤ L := by
  unfold decompose_tile element_subgrid.nrows element_subgrid.ncols
  simp only
  constructor
  · have := min_le_right g.row_stop (((i : Int) + 1) * L - 1)
    linarith
  · have := min_le_right g.col_stop (((j : Int) + 1) * L - 1)
    linarith

theorem decompose_tile_nonneg (g : element_subgrid) (hwf : g.well_formed) (L : Int) (hL : 0 < L)
    (i j : Nat) (hi : i < (Int.tdiv (round_up g.nrows L) L).toNat)
    (hj : j < (Int.tdiv (round_up g.ncols L) L).toNat) :
    0 ≤ (decompose_tile g L i j).nrows ∧ 0 ≤ (decompose_tile g L i j).ncols := by
  obtain ⟨h1, h2, h3, h4⟩ := hwf
  have hr := lt_of_lt_round_up_div g.nrows L hL (by unfold element_subgrid.nrows; omega) i hi
  have hc := lt_of_lt_round_up_div g.ncols L hL (by unfold element_subgrid.ncols; omega) j hj
  unfold element_subgrid.nrows at hr
  unfold element_subgrid.ncols at hc
  unfold decompose_tile element_subgrid.nrows element_subgrid.ncols
  simp only
  constructor
  · have : (i : Int) * L ≤ min g.row_stop (((i : Int) + 1) * L - 1) := by
      apply le_min
      · linarith
      · nlinarith
    linarith
  · have : (j : Int) * L ≤ min g.col_stop (((j : Int) + 1) * L - 1) := by
      apply le_min
      · linarith
      · nlinarith
    linarith

theorem get_num_subgrids_facts (get_MB : Int → ℚ) (pde : PDE) (g : element_subgrid) (ws : Int)
    (hpos : 0 < get_element_size_MB get_MB pde)
    (hassert : get_num_subgrids_asserts get_MB pde g ws) :
    0 < get_num_subgrids get_MB pde g ws ∧
    (g.size : ℚ) * get_element_size_MB get_MB pde
      ≤ (get_num_subgrids get_MB pde g ws : ℚ) * remaining_rank_MB get_MB pde g ws := by
  obtain ⟨hsize, -, -, -, hrem⟩ := hassert
  have hrem0 : 0 < remaining_rank_MB get_MB pde g ws := by linarith
  have hsizeq : (0 : ℚ) < (g.size : ℚ) := by exact_mod_cast hsize
  have hprob : 0 < get_element_size_MB get_MB pde * (g.size : ℚ) := mul_pos hpos hsizeq
  have hns : get_num_subgrids get_MB pde g ws
      = ⌈get_element_size_MB get_MB pde * (g.size : ℚ) / remaining_rank_MB get_MB pde g ws⌉ := by
    unfold get_num_subgrids
    exact trunc_int_intCast _
  rw [hns]
  constructor
  · exact Int.ceil_pos.mpr (div_pos hprob hrem0)
  · have h := Int.le_ceil
      (get_element_size_MB get_MB pde * (g.size : ℚ) / remaining_rank_MB get_MB pde g ws)
    rw [div_le_iff₀ hrem0] at h
    linarith

/-- C3: every tile that `decompose` returns fits the budget. On a well-formed
subgrid that passes the assertions of `get_num_subgrids`, with a positive
per-element workspace: when more than one tile is needed each tile has at most
`subgrid_length` rows and columns; every tile has at most
`size / num_subgrids` elements; and its workspace (elements times the
per-element workspace `get_element_size_MB`) is at most `remaining_rank_MB`. -/
theorem decompose_tiles_fit_budget (get_MB : Int → ℚ) (pde : PDE) (g : element_subgrid)
    (ws : Int) (hwf : g.well_formed) (hpos : 0 < get_element_size_MB get_MB pde)
    (hassert : get_num_subgrids_asserts get_MB pde g ws) :
    ∀ tile ∈ decompose get_MB pde g ws,
      (get_num_subgrids get_MB pde g ws ≠ 1 →
        tile.nrows ≤ subgrid_length g (get_num_subgrids get_MB pde g ws) ∧
        tile.ncols ≤ subgrid_length g (get_num_subgrids get_MB pde g ws)) ∧
      tile.size ≤ Int.tdiv g.size (get_num_subgrids get_MB pde g ws) ∧
      (tile.size : ℚ) * get_element_size_MB get_MB pde
        ≤ remaining_rank_MB get_MB pde g ws := by
  obtain ⟨hns_pos, hbudget⟩ := get_num_subgrids_facts get_MB pde g ws hpos hassert
  have hsize : 0 < g.size := hassert.1
  have hrem0 : 0 < remaining_rank_MB get_MB pde g ws := by
    have := hassert.2.2.2.2
    linarith
  intro tile htile
  unfold decompose at htile
  simp only at htile
  by_cases h1 : get_num_subgrids get_MB pde g ws = 1
  · rw [if_pos h1] at htile
    have ht : tile = g := by simpa using htile
    subst ht
    refine ⟨fun h => absurd h1 h, ?_, ?_⟩
    · rw [h1, Int.tdiv_one]
    · rw [h1] at hbudget
      simpa using hbudget
  · rw [if_neg h1] at htile
    rw [mem_forLoop_push2] at htile
    rcases htile with h | ⟨i, hi, j, hj, rfl⟩
    · simp at h
    · generalize hL : subgrid_length g (get_num_subgrids get_MB pde g ws) = L at hi hj ⊢
      have hm0 : 0 ≤ Int.tdiv g.size (get_num_subgrids get_MB pde g ws) := by
        rw [Int.tdiv_eq_ediv hsize.le hns_pos.le]
        exact Int.ediv_nonneg hsize.le hns_pos.le
      have hLL : L * L ≤ Int.tdiv g.size (get_num_subgrids get_MB pde g ws) := by
        rw [← hL]
        exact int_sqrt_mul_self_le _ hm0
      have hL0 : 0 ≤ L := by
        rw [← hL]; unfold subgrid_length Int.sqrt; exact Int.natCast_nonneg _
      have hLpos : 0 < L := by
        rcases hL0.lt_or_eq with h | h
        · exact h
        · rw [← h] at hi
          simp at hi
      obtain ⟨hr, hc⟩ := decompose_tile_dims g L i j
      obtain ⟨hr0, hc0⟩ := decompose_tile_nonneg g hwf L hLpos i j hi hj
      have hts : (decompose_tile g L i j).size ≤ L * L := by
        unfold element_subgrid.size
        exact Int.mul_le_mul hr hc hc0 hL0
      have htm : (decompose_tile g L i j).size
          ≤ Int.tdiv g.size (get_num_subgrids get_MB pde g ws) := le_trans hts hLL
      refine ⟨fun _ => ⟨hr, hc⟩, htm, ?_⟩
      have hnsq : (0 : ℚ) < (get_num_subgrids get_MB pde g ws : ℚ) := by exact_mod_cast hns_pos
      have hdiv : (Int.tdiv g.size (get_num_subgrids get_MB pde g ws) : ℚ)
          * (get_num_subgrids get_MB pde g ws : ℚ) ≤ (g.size : ℚ) := by
        rw [Int.tdiv_eq_ediv hsize.le hns_pos.le]
        have := Int.ediv_mul_le g.size hns_pos.ne'
        exact_mod_cast this
      have htq : ((decompose_tile g L i j).size : ℚ)
          ≤ (Int.tdiv g.size (get_num_subgrids get_MB pde g ws) : ℚ) := by exact_mod_cast htm
      have key : ((decompose_tile g L i j).size : ℚ) * get_element_size_MB get_MB pde
            * (get_num_subgrids get_MB pde g ws : ℚ)
          ≤ remaining_rank_MB get_MB pde g ws * (get_num_subgrids get_MB pde g ws : ℚ) := by
        calc ((decompose_tile g L i j).size : ℚ) * get_element_size_MB get_MB pde
              * (get_num_subgrids get_MB pde g ws : ℚ)
            ≤ (Int.tdiv g.size (get_num_subgrids get_MB pde g ws) : ℚ)
              * get_element_size_MB get_MB pde * (get_num_subgrids get_MB pde g ws : ℚ) := by
              apply mul_le_mul_of_nonneg_right _ hnsq.le
              exact mul_le_mul_of_nonneg_right htq hpos.le
          _ = (Int.tdiv g.size (get_num_subgrids get_MB pde g ws) : ℚ)
              * (get_num_subgrids get_MB pde g ws : ℚ) * get_element_size_MB get_MB pde := by ring
          _ ≤ (g.size : ℚ) * get_element_size_MB get_MB pde :=
              mul_le_mul_of_nonneg_right hdiv hpos.le
          _ ≤ (get_num_subgrids get_MB pde g ws : ℚ) * remaining_rank_MB get_MB pde g ws := hbudget
          _ = remaining_rank_MB get_MB pde g ws * (get_num_subgrids get_MB pde g ws : ℚ) := by ring
      exact le_of_mul_le_mul_right key hnsq

theorem int_sqrt_50 : Int.sqrt 50 = 7 := by
  have h : Nat.sqrt 50 = 7 := (Nat.eq_sqrt.mpr ⟨by norm_num, by norm_num⟩).symm
  simp [Int.sqrt, h]

theorem ceil_24_625 : ⌈(24 / 625 : ℚ)⌉ = 1 := by
  rw [Int.ceil_eq_iff]; norm_num

theorem get_num_subgrids_rows10 :
    get_num_subgrids get_MB_double pde_deg10_dim3 subgrid_rows10 2 = 2 := by
  norm_num [get_num_subgrids, get_element_size_MB, remaining_rank_MB, element_segment_size,
    get_MB_double, pde_deg10_dim3, subgrid_rows10, element_subgrid.size, element_subgrid.nrows,
    element_subgrid.ncols, trunc_int, ceil_24_625]
  rw [Int.ceil_eq_iff]; norm_num

theorem get_num_subgrids_asserts_rows10 :
    get_num_subgrids_asserts get_MB_double pde_deg10_dim3 subgrid_rows10 2 := by
  norm_num [get_num_subgrids_asserts, get_element_size_MB, remaining_rank_MB,
    element_segment_size, get_MB_double, pde_deg10_dim3, subgrid_rows10, element_subgrid.size,
    element_subgrid.nrows, element_subgrid.ncols, trunc_int, ceil_24_625]

theorem decompose_rows10 :
    decompose get_MB_double pde_deg10_dim3 subgrid_rows10 2
      = [⟨0, 6, 0, 6⟩, ⟨0, 6, 7, 9⟩, ⟨7, 13, 0, 6⟩, ⟨7, 13, 7, 9⟩] := by
  rw [decompose, get_num_subgrids_rows10]
  have hs : subgrid_length subgrid_rows10 2 = 7 := by
    norm_num [subgrid_length, subgrid_rows10, element_subgrid.size, element_subgrid.nrows,
      element_subgrid.ncols, Int.tdiv, int_sqrt_50]
  simp only [hs]
  norm_num [round_up, subgrid_rows10, element_subgrid.nrows, element_subgrid.ncols, Int.tdiv,
    forLoop, List.range, List.range.loop, decompose_tile]

/-- C2 (code evaluated at the failing input): for the subgrid of rows `10..19` and
columns `0..9`, a degree-10, 3-dimensional, one-term PDE in double precision and
a budget of 2 MB, the assertions of `get_num_subgrids` hold, two subgrids are
needed, and `decompose` returns the four tiles with rows `0..6` and `7..13`: the
first tile starts above the original range (row `0 < 10`), and no tile holds the
pair (row 14, column 0) of the original subgrid. -/
theorem decompose_tiles_leave_range :
    subgrid_rows10.well_formed ∧
    get_num_subgrids_asserts get_MB_double pde_deg10_dim3 subgrid_rows10 2 ∧
    get_num_subgrids get_MB_double pde_deg10_dim3 subgrid_rows10 2 = 2 ∧
    decompose get_MB_double pde_deg10_dim3 subgrid_rows10 2
      = [⟨0, 6, 0, 6⟩, ⟨0, 6, 7, 9⟩, ⟨7, 13, 0, 6⟩, ⟨7, 13, 7, 9⟩] ∧
    (∃ tile ∈ decompose get_MB_double pde_deg10_dim3 subgrid_rows10 2,
      tile.row_start < subgrid_rows10.row_start) ∧
    ¬ ∃ tile ∈ decompose get_MB_double pde_deg10_dim3 subgrid_rows10 2,
      tile.row_start ≤ 14 ∧ 14 ≤ tile.row_stop ∧ tile.col_start ≤ 0 ∧ 0 ≤ tile.col_stop := by
  refine ⟨by unfold element_subgrid.well_formed subgrid_rows10; decide,
    get_num_subgrids_asserts_rows10, get_num_subgrids_rows10, decompose_rows10, ?_, ?_⟩
  · rw [decompose_rows10]
    exact ⟨⟨0, 6, 0, 6⟩, by simp, by unfold subgrid_rows10; decide⟩
  · rw [decompose_rows10]
    simp

/-- C3 at the subgrid of rows `10..19`, columns `0..9`, the degree-10 PDE and a
budget of 2 MB. -/
theorem decompose_tiles_fit_budget_witness :
    subgrid_rows10.well_formed ∧
    0 < get_element_size_MB get_MB_double pde_deg10_dim3 ∧
    get_num_subgrids_asserts get_MB_double pde_deg10_dim3 subgrid_rows10 2 ∧
    ∀ tile ∈ decompose get_MB_double pde_deg10_dim3 subgrid_rows10 2,
      (get_num_subgrids get_MB_double pde_deg10_dim3 subgrid_rows10 2 ≠ 1 →
        tile.nrows ≤ subgrid_length subgrid_rows10
            (get_num_subgrids get_MB_double pde_deg10_dim3 subgrid_rows10 2) ∧
        tile.ncols ≤ subgrid_length subgrid_rows10
            (get_num_subgrids get_MB_double pde_deg10_dim3 subgrid_rows10 2)) ∧
      tile.size ≤ Int.tdiv subgrid_rows10.size
          (get_num_subgrids get_MB_double pde_deg10_dim3 subgrid_rows10 2) ∧
      (tile.size : ℚ) * get_element_size_MB get_MB_double pde_deg10_dim3
        ≤ remaining_rank_MB get_MB_double pde_deg10_dim3 subgrid_rows10 2 :=
  have hwf : subgrid_rows10.well_formed := by
    unfold element_subgrid.well_formed subgrid_rows10; decide
  have hpos : 0 < get_element_size_MB get_MB_double pde_deg10_dim3 := by
    norm_num [get_element_size_MB, element_segment_size, get_MB_double, pde_deg10_dim3]
  ⟨hwf, hpos, get_num_subgrids_asserts_rows10,
    decompose_tiles_fit_budget get_MB_double pde_deg10_dim3 subgrid_rows10 2 hwf hpos
      get_num_subgrids_asserts_rows10⟩

/-- C7: a call of `simple_gmres` with a valid tolerance, `x` and `b` of one size
`n` and a restart larger than `n` (the "unset" sentinel being negative) ends with
`std::invalid_argument`; neither the operator nor the preconditioner has been
applied and `x` is as it was passed in. -/
theorem simple_gmres_restart_too_large (ext : externals)
    (mat : ℚ → List ℚ → ℚ → List ℚ → List ℚ) (x b : List ℚ)
    (precondition : List ℚ → List ℚ) (restart max_outer_iterations : Int) (tolerance : ℚ)
    (hsentinel : ext.NO_USER_VALUE < 0)
    (htol : ext.epsilon ≤ effective_tolerance ext tolerance)
    (hsize : x.length = b.length)
    (hbig : (b.length : Int) < restart) :
    (simple_gmres ext mat x b precondition restart max_outer_iterations tolerance).outcome
        = Except.error solver_error.invalid_argument ∧
    (simple_gmres ext mat x b precondition restart max_outer_iterations tolerance).x = x ∧
    (simple_gmres ext mat x b precondition restart max_outer_iterations tolerance).mat_calls = 0 ∧
    (simple_gmres ext mat x b precondition restart max_outer_iterations tolerance).prec_calls
        = 0 := by
  have hne : restart ≠ ext.NO_USER_VALUE := by
    have : (0 : Int) ≤ (b.length : Int) := Int.natCast_nonneg _
    omega
  have hr : effective_restart ext restart (b.length : Int) = restart := by
    unfold effective_restart
    rw [if_neg hne]
  have hpos : restart > 0 := by
    have : (0 : Int) ≤ (b.length : Int) := Int.natCast_nonneg _
    omega
  have hres : simple_gmres ext mat x b precondition restart max_outer_iterations tolerance
      = ⟨x, 0, 0, Except.error solver_error.invalid_argument⟩ := by
    unfold simple_gmres
    simp only [hr]
    rw [if_neg (not_not.mpr htol), if_neg (not_not.mpr (by rw [hsize])),
      if_neg (not_not.mpr hpos), if_pos hbig]
  rw [hres]
  exact ⟨rfl, rfl, rfl, rfl⟩

theorem set_rd_self (v : List ℚ) (i : Nat) : v.set i (rd v i) = v := by
  apply List.ext_getElem?
  intro k
  rw [List.getElem?_set]
  by_cases hik : i = k
  · subst hik
    by_cases hl : i < v.length
    · simp [hl, rd, List.getD_eq_getElem?_getD]
    · have hn : v[i]? = none := List.getElem?_eq_none (by omega)
      simp [hl, hn]
  · simp [hik]

theorem forLoop_id {σ : Type} (n : Nat) (body : Nat → σ → σ) (s : σ)
    (h : ∀ i, body i s = s) : forLoop n body s = s := by
  induction n with
  | zero => rfl
  | succ n ih => rw [forLoop_succ, ih, h]

/-- An `axpy` with coefficient zero leaves `y` as it is. -/
theorem fm_axpy_zero (x y : List ℚ) : fm_axpy x y (-1 * 0) = y := by
  unfold fm_axpy axpy
  apply forLoop_id
  intro i
  have : rd y i + -1 * 0 * rd x i = rd y i := by ring
  rw [this, set_rd_self]

/-- When `omega` is zero the residual of `r` after line 422 is the residual of `s`
that the check of line 409 saw. -/
theorem bicg_second_half_resid_of_omega_zero (ext : externals)
    (mat : ℚ → List ℚ → ℚ → List ℚ → List ℚ) (precondition : List ℚ → List ℚ)
    (normb rho_1 : ℚ) (st : bicg_state)
    (hres : st.resid = ext.nrm2 st.s / normb)
    (h0 : (bicg_second_half ext mat precondition normb rho_1 st).omega = 0) :
    (bicg_second_half ext mat precondition normb rho_1 st).resid = st.resid := by
  unfold bicg_second_half at h0 ⊢
  simp only at h0 ⊢
  rw [h0, fm_axpy_zero, hres]

theorem bicg_first_half_resid (ext : externals)
    (mat : ℚ → List ℚ → ℚ → List ℚ → List ℚ) (precondition : List ℚ → List ℚ)
    (normb : ℚ) (rtilde : List ℚ) (i : Nat) (st : bicg_state) :
    (bicg_first_half ext mat precondition normb rtilde i st).resid
      = ext.nrm2 (bicg_first_half ext mat precondition normb rtilde i st).s / normb := by
  unfold bicg_first_half
  rfl

/-- The body of the loop raises exactly when `rho_1` is zero or line 418 is reached
and computes `omega = 0`. -/
theorem bicg_body_error_iff (ext : externals)
    (mat : ℚ → List ℚ → ℚ → List ℚ → List ℚ) (precondition : List ℚ → List ℚ)
    (tol normb : ℚ) (rtilde : List ℚ) (i : Nat) (st : bicg_state) :
    (∃ r e, bicg_body ext mat precondition tol normb rtilde i st = loop_step.done r ∧
        r.outcome = Except.error e) ↔
      (bicg_rho_1 rtilde st = 0 ∨
        (bicg_computes_omega ext mat precondition tol normb rtilde i st ∧
          bicg_omega ext mat precondition normb rtilde i st = 0)) := by
  unfold bicg_computes_omega bicg_omega
  by_cases hrho : bicg_rho_1 rtilde st = 0
  · simp only [hrho, true_or, iff_true]
    have hb : bicg_body ext mat precondition tol normb rtilde i st
        = loop_step.done ⟨st.x, st.mat_calls, st.prec_calls,
            Except.error solver_error.rho_breakdown⟩ := by
      unfold bicg_body
      simp only [hrho, if_true]
    exact ⟨_, _, hb, rfl⟩
  · by_cases h1 : (bicg_first_half ext mat precondition normb rtilde i st).resid < tol
    · have hb : bicg_body ext mat precondition tol normb rtilde i st
          = loop_step.done ⟨fm_axpy (bicg_first_half ext mat precondition normb rtilde i st).phat
              (bicg_first_half ext mat precondition normb rtilde i st).x
              (bicg_first_half ext mat precondition normb rtilde i st).alpha,
              (bicg_first_half ext mat precondition normb rtilde i st).mat_calls,
              (bicg_first_half ext mat precondition normb rtilde i st).prec_calls,
              Except.ok ⟨(bicg_first_half ext mat precondition normb rtilde i st).resid, i⟩⟩ := by
        unfold bicg_body
        simp only [hrho, if_false, h1, if_true]
      rw [hb]
      simp [hrho, h1]
    · by_cases h0 : (bicg_second_half ext mat precondition normb (bicg_rho_1 rtilde st)
          (bicg_first_half ext mat precondition normb rtilde i st)).omega = 0
      · have hres := bicg_second_half_resid_of_omega_zero ext mat precondition normb
          (bicg_rho_1 rtilde st) _ (bicg_first_half_resid ext mat precondition normb rtilde i st) h0
        have h2 : ¬ (bicg_second_half ext mat precondition normb (bicg_rho_1 rtilde st)
          (bicg_first_half ext mat precondition normb rtilde i st)).resid < tol := by
          rw [hres]; exact h1
        simp only [hrho, false_or, ne_eq, not_false_eq_true, h1, true_and, h0, and_self, iff_true]
        have hb : bicg_body ext mat precondition tol normb rtilde i st
            = loop_step.done
              ⟨(bicg_second_half ext mat precondition normb (bicg_rho_1 rtilde st)
                  (bicg_first_half ext mat precondition normb rtilde i st)).x,
               (bicg_second_half ext mat precondition normb (bicg_rho_1 rtilde st)
                  (bicg_first_half ext mat precondition normb rtilde i st)).mat_calls,
               (bicg_second_half ext mat precondition normb (bicg_rho_1 rtilde st)
                  (bicg_first_half ext mat precondition normb rtilde i st)).prec_calls,
               Except.error solver_error.omega_breakdown⟩ := by
          unfold bicg_body
          simp only [hrho, if_false, h1, h2, h0, if_true]
        exact ⟨_, _, hb, rfl⟩
      · simp only [hrho, false_or, h0, and_false, iff_false]
        rintro ⟨r, e, hb, he⟩
        unfold bicg_body at hb
        simp only [hrho, if_false, h1, h0] at hb
        split at hb
        · cases hb
          simp at he
        · cases hb

theorem bicg_loop_error_iff (ext : externals)
    (mat : ℚ → List ℚ → ℚ → List ℚ → List ℚ) (precondition : List ℚ → List ℚ)
    (tol normb : ℚ) (rtilde : List ℚ) (max_iter : Int) (remaining : Nat) :
    ∀ (i : Nat) (st : bicg_state),
    (∃ e, (bicg_loop ext mat precondition tol normb rtilde max_iter remaining i st).outcome
        = Except.error e) ↔
      ∃ k, k < remaining ∧ ∃ s,
        bicg_reach ext mat precondition tol normb rtilde k i st = some s ∧
        (bicg_rho_1 rtilde s = 0 ∨
          (bicg_computes_omega ext mat precondition tol normb rtilde (i + k) s ∧
            bicg_omega ext mat precondition normb rtilde (i + k) s = 0)) := by
  induction remaining with
  | zero =>
    intro i st
    simp [bicg_loop]
  | succ rem ih =>
    intro i st
    have hbody := bicg_body_error_iff ext mat precondition tol normb rtilde i st
    cases hb : bicg_body ext mat precondition tol normb rtilde i st with
    | done r =>
      have hl : bicg_loop ext mat precondition tol normb rtilde max_iter (rem + 1) i st = r := by
        simp only [bicg_loop, hb]
      rw [hl]
      rw [hb] at hbody
      constructor
      · rintro ⟨e, he⟩
        have := hbody.mp ⟨r, e, rfl, he⟩
        exact ⟨0, by omega, st, rfl, by simpa using this⟩
      · rintro ⟨k, hk, s, hs, hbd⟩
        cases k with
        | zero =>
          simp only [bicg_reach, Option.some.injEq] at hs
          subst hs
          obtain ⟨r', e, hr', he⟩ := hbody.mpr (by simpa using hbd)
          cases hr'
          exact ⟨e, he⟩
        | succ k =>
          simp [bicg_reach, hb] at hs
    | next st2 =>
      have hl : bicg_loop ext mat precondition tol normb rtilde max_iter (rem + 1) i st
          = bicg_loop ext mat precondition tol normb rtilde max_iter rem (i + 1) st2 := by
        simp only [bicg_loop, hb]
      rw [hl, ih (i + 1) st2]
      rw [hb] at hbody
      constructor
      · rintro ⟨k, hk, s, hs, hbd⟩
        refine ⟨k + 1, by omega, s, ?_, ?_⟩
        · simp only [bicg_reach, hb]; exact hs
        · have : i + (k + 1) = i + 1 + k := by omega
          rw [this]; exact hbd
      · rintro ⟨k, hk, s, hs, hbd⟩
        cases k with
        | zero =>
          simp only [bicg_reach, Option.some.injEq] at hs
          subst hs
          obtain ⟨r', e, hr', he⟩ := hbody.mpr (by simpa using hbd)
          cases hr'
        | succ k =>
          refine ⟨k, by omega, s, ?_, ?_⟩
          · simpa only [bicg_reach, hb] using hs
          · have : i + (k + 1) = i + 1 + k := by omega
            rw [this] at hbd; exact hbd

/-- What the body of the loop can return: an exception is one of the two
breakdowns, a record carries a residual below `tol` and the counter `i`. -/
theorem bicg_body_done (ext : externals)
    (mat : ℚ → List ℚ → ℚ → List ℚ → List ℚ) (precondition : List ℚ → List ℚ)
    (tol normb : ℚ) (rtilde : List ℚ) (i : Nat) (st : bicg_state) (r : solver_result)
    (hb : bicg_body ext mat precondition tol normb rtilde i st = loop_step.done r) :
    (r.outcome = Except.error solver_error.rho_breakdown ∨
      r.outcome = Except.error solver_error.omega_breakdown) ∨
    ∃ resid, resid < tol ∧ r.outcome = Except.ok ⟨resid, i⟩ := by
  unfold bicg_body at hb
  simp only at hb
  split at hb
  · cases hb; exact Or.inl (Or.inl rfl)
  · split at hb
    · next h1 => cases hb; exact Or.inr ⟨_, h1, rfl⟩
    · split at hb
      · next h2 => cases hb; exact Or.inr ⟨_, h2, rfl⟩
      · split at hb
        · cases hb; exact Or.inl (Or.inr rfl)
        · cases hb

/-- The loop of `bicgstab` ends in one of three ways: a breakdown, a record with a
residual below `tol` and a counter within the passes run, or, after all passes,
the record of the last residual and `max_iter`. -/
theorem bicg_loop_outcome (ext : externals)
    (mat : ℚ → List ℚ → ℚ → List ℚ → List ℚ) (precondition : List ℚ → List ℚ)
    (tol normb : ℚ) (rtilde : List ℚ) (max_iter : Int) (remaining : Nat) :
    ∀ (i : Nat) (st : bicg_state),
    ((bicg_loop ext mat precondition tol normb rtilde max_iter remaining i st).outcome
        = Except.error solver_error.rho_breakdown ∨
      (bicg_loop ext mat precondition tol normb rtilde max_iter remaining i st).outcome
        = Except.error solver_error.omega_breakdown) ∨
    (∃ resid, ∃ it : Nat, resid < tol ∧ i ≤ it ∧ it < i + remaining ∧
      (bicg_loop ext mat precondition tol normb rtilde max_iter remaining i st).outcome
        = Except.ok ⟨resid, it⟩) ∨
    (∃ s, bicg_reach ext mat precondition tol normb rtilde remaining i st = some s ∧
      bicg_loop ext mat precondition tol normb rtilde max_iter remaining i st
        = ⟨s.x, s.mat_calls, s.prec_calls, Except.ok ⟨s.resid, max_iter⟩⟩) := by
  induction remaining with
  | zero =>
    intro i st
    exact Or.inr (Or.inr ⟨st, rfl, rfl⟩)
  | succ rem ih =>
    intro i st
    cases hb : bicg_body ext mat precondition tol normb rtilde i st with
    | done r =>
      have hl : bicg_loop ext mat precondition tol normb rtilde max_iter (rem + 1) i st = r := by
        simp only [bicg_loop, hb]
      rw [hl]
      rcases bicg_body_done ext mat precondition tol normb rtilde i st r hb with h | ⟨resid, h1, h2⟩
      · exact Or.inl h
      · exact Or.inr (Or.inl ⟨resid, i, h1, le_refl _, by omega, h2⟩)
    | next st2 =>
      have hl : bicg_loop ext mat precondition tol normb rtilde max_iter (rem + 1) i st
          = bicg_loop ext mat precondition tol normb rtilde max_iter rem (i + 1) st2 := by
        simp only [bicg_loop, hb]
      rw [hl]
      rcases ih (i + 1) st2 with h | ⟨resid, it, h1, h2, h3, h4⟩ | ⟨s, h1, h2⟩
      · exact Or.inl h
      · exact Or.inr (Or.inl ⟨resid, it, h1, by omega, by omega, h4⟩)
      · refine Or.inr (Or.inr ⟨s, ?_, h2⟩)
        simp only [bicg_reach, hb]; exact h1

/-- After its three checks `bicgstab` is the initial residual check followed by the loop. -/
theorem bicgstab_of_checks (ext : externals) (mat : ℚ → List ℚ → ℚ → List ℚ → List ℚ)
    (x b : List ℚ) (precondition : List ℚ → List ℚ) (max_iter : Int) (tol : ℚ)
    (hchk : solver_checks ext x b max_iter tol) :
    bicgstab ext mat x b precondition max_iter tol =
      if (bicg_init ext mat x b (bicg_normb ext b)).resid ≤ effective_tolerance ext tol then
        ⟨x, 1, 0, Except.ok ⟨(bicg_init ext mat x b (bicg_normb ext b)).resid, 0⟩⟩
      else
        bicg_loop ext mat precondition (effective_tolerance ext tol) (bicg_normb ext b)
          (bicg_init ext mat x b (bicg_normb ext b)).r
          (effective_max_iter ext max_iter (b.length : Int))
          (effective_max_iter ext max_iter (b.length : Int)).toNat 1
          (bicg_init ext mat x b (bicg_normb ext b)) := by
  obtain ⟨h1, h2, h3⟩ := hchk
  unfold bicgstab
  simp only
  rw [if_neg (not_not.mpr h1), if_neg (not_not.mpr h2), if_neg (not_not.mpr h3)]
  rfl

/-- The only exceptions a call of `bicgstab` that passes its checks can raise are the
two `runtime_error`s of the loop. -/
theorem bicgstab_error_kind (ext : externals) (mat : ℚ → List ℚ → ℚ → List ℚ → List ℚ)
    (x b : List ℚ) (precondition : List ℚ → List ℚ) (max_iter : Int) (tol : ℚ)
    (hchk : solver_checks ext x b max_iter tol) :
    ∀ e, (bicgstab ext mat x b precondition max_iter tol).outcome = Except.error e →
      e = solver_error.rho_breakdown ∨ e = solver_error.omega_breakdown := by
  rw [bicgstab_of_checks ext mat x b precondition max_iter tol hchk]
  by_cases h0 : (bicg_init ext mat x b (bicg_normb ext b)).resid ≤ effective_tolerance ext tol
  · rw [if_pos h0]
    intro e he; simp at he
  · rw [if_neg h0]
    intro e he
    rcases bicg_loop_outcome ext mat precondition (effective_tolerance ext tol)
      (bicg_normb ext b) (bicg_init ext mat x b (bicg_normb ext b)).r
      (effective_max_iter ext max_iter (b.length : Int))
      (effective_max_iter ext max_iter (b.length : Int)).toNat 1
      (bicg_init ext mat x b (bicg_normb ext b)) with h | ⟨_, _, _, _, _, h⟩ | ⟨s, _, h⟩
    · rcases h with h | h
      · rw [h] at he; cases he; exact Or.inl rfl
      · rw [h] at he; cases he; exact Or.inr rfl
    · rw [h] at he; cases he
    · rw [h] at he; cases he

/-- The quotient that `bicg_omega` names: `(t * s) / (t * t)` with `t` the vector
that the second half of the iteration computes. -/
theorem bicg_omega_eq (ext : externals) (mat : ℚ → List ℚ → ℚ → List ℚ → List ℚ)
    (precondition : List ℚ → List ℚ) (normb : ℚ) (rtilde : List ℚ) (i : Nat)
    (st : bicg_state) :
    bicg_omega ext mat precondition normb rtilde i st
      = dot (bicg_pass ext mat precondition normb rtilde i st).t
          (bicg_first_half ext mat precondition normb rtilde i st).s
        / dot (bicg_pass ext mat precondition normb rtilde i st).t
          (bicg_pass ext mat precondition normb rtilde i st).t := rfl

/-- An iteration that returns or raises is the last one: no later iteration is
entered. -/
theorem bicg_reach_succ_of_done (ext : externals)
    (mat : ℚ → List ℚ → ℚ → List ℚ → List ℚ) (precondition : List ℚ → List ℚ)
    (tol normb : ℚ) (rtilde : List ℚ) (k i : Nat) (st : bicg_state) (r : solver_result)
    (hb : bicg_body ext mat precondition tol normb rtilde i st = loop_step.done r) :
    bicg_reach ext mat precondition tol normb rtilde (k + 1) i st = none := by
  simp only [bicg_reach, hb]

/-- C9: a call of `bicgstab` that passes its checks and divides by zero in no
iteration it enters (`rtilde * v` and `t * t` are not zero where `alpha` and
`omega` are computed) raises an exception if and only if the initial residual
check does not return and some iteration `1 + k` with `k < max_iter` is entered
(the `k` iterations before it ran to their end) in which `rho_1 = rtilde * r` is
zero, or line 418 is reached and computes `omega = (t * s) / (t * t) = 0`; the
exception is then one of the two `runtime_error`s, and every other call returns
an info record. In an iteration that reaches line 418, `omega` is zero exactly
when `t * s` is zero. -/
theorem bicgstab_raises_iff (ext : externals) (mat : ℚ → List ℚ → ℚ → List ℚ → List ℚ)
    (x b : List ℚ) (precondition : List ℚ → List ℚ) (max_iter : Int) (tol : ℚ)
    (hchk : solver_checks ext x b max_iter tol)
    (hdiv : bicg_divisors_nonzero ext mat x b precondition max_iter tol) :
    ((∃ e, (bicgstab ext mat x b precondition max_iter tol).outcome = Except.error e) ↔
      bicg_breakdown_reached ext mat x b precondition max_iter tol) ∧
    (∀ e, (bicgstab ext mat x b precondition max_iter tol).outcome = Except.error e →
      e = solver_error.rho_breakdown ∨ e = solver_error.omega_breakdown) ∧
    ((¬ ∃ e, (bicgstab ext mat x b precondition max_iter tol).outcome = Except.error e) →
      ∃ info, (bicgstab ext mat x b precondition max_iter tol).outcome = Except.ok info) ∧
    (∀ k, k < (effective_max_iter ext max_iter (b.length : Int)).toNat → ∀ s,
      bicg_reach ext mat precondition (effective_tolerance ext tol) (bicg_normb ext b)
          (bicg_init ext mat x b (bicg_normb ext b)).r k 1
          (bicg_init ext mat x b (bicg_normb ext b)) = some s →
      bicg_computes_omega ext mat precondition (effective_tolerance ext tol)
          (bicg_normb ext b) (bicg_init ext mat x b (bicg_normb ext b)).r (1 + k) s →
      (bicg_omega ext mat precondition (bicg_normb ext b)
          (bicg_init ext mat x b (bicg_normb ext b)).r (1 + k) s = 0 ↔
        dot (bicg_pass ext mat precondition (bicg_normb ext b)
              (bicg_init ext mat x b (bicg_normb ext b)).r (1 + k) s).t
            (bicg_first_half ext mat precondition (bicg_normb ext b)
              (bicg_init ext mat x b (bicg_normb ext b)).r (1 + k) s).s = 0)) := by
  refine ⟨?_, bicgstab_error_kind ext mat x b precondition max_iter tol hchk, ?_, ?_⟩
  · rw [bicgstab_of_checks ext mat x b precondition max_iter tol hchk]
    unfold bicg_breakdown_reached
    by_cases h0 : (bicg_init ext mat x b (bicg_normb ext b)).resid ≤ effective_tolerance ext tol
    · rw [if_pos h0]
      simp [h0]
    · rw [if_neg h0, bicg_loop_error_iff]
      simp only [h0, not_false_eq_true, true_and]
  · intro hne
    cases hout : (bicgstab ext mat x b precondition max_iter tol).outcome with
    | error e => exact absurd ⟨e, hout⟩ hne
    | ok info => exact ⟨info, rfl⟩
  · intro k hk s hs hc
    have ht := (hdiv k hk s hs hc.1).2 hc.2
    rw [bicg_omega_eq, div_eq_zero_iff]
    constructor
    · rintro (h | h)
      · exact h
      · exact absurd h ht
    · intro h
      exact Or.inl h

/-- C9 at the system with rows `(1, 1)`, `(1, 0)` and right-hand side `(1, 0)`,
started from zero: the first iteration has `rtilde * v = 1` and `t * t = 1`,
computes `omega = 0 / 1 = 0` and the call raises. -/
theorem bicgstab_raises_iff_witness :
    solver_checks ext_example [0, 0] [1, 0] 10 (1 / 10 ^ 10) ∧
    bicg_divisors_nonzero ext_example (dense_matrix_wrapper [[1, 1], [1, 0]]) [0, 0] [1, 0]
      no_op_preconditioner 10 (1 / 10 ^ 10) ∧
    (bicgstab ext_example (dense_matrix_wrapper [[1, 1], [1, 0]]) [0, 0] [1, 0]
        no_op_preconditioner 10 (1 / 10 ^ 10)).outcome
      = Except.error solver_error.omega_breakdown ∧
    ((∃ e, (bicgstab ext_example (dense_matrix_wrapper [[1, 1], [1, 0]]) [0, 0] [1, 0]
        no_op_preconditioner 10 (1 / 10 ^ 10)).outcome = Except.error e) ↔
      bicg_breakdown_reached ext_example (dense_matrix_wrapper [[1, 1], [1, 0]]) [0, 0] [1, 0]
        no_op_preconditioner 10 (1 / 10 ^ 10)) := by
  have hchk : solver_checks ext_example [0, 0] [1, 0] 10 (1 / 10 ^ 10) := by
    unfold solver_checks; decide!
  have hdiv : bicg_divisors_nonzero ext_example (dense_matrix_wrapper [[1, 1], [1, 0]]) [0, 0]
      [1, 0] no_op_preconditioner 10 (1 / 10 ^ 10) := by
    intro k _ s hs _
    cases k with
    | zero =>
      simp only [bicg_reach, Option.some.injEq] at hs
      subst hs
      constructor
      · decide!
      · intro _
        decide!
    | succ k =>
      exfalso
      obtain ⟨r, e, hb, _⟩ := (bicg_body_error_iff ext_example
        (dense_matrix_wrapper [[1, 1], [1, 0]]) no_op_preconditioner
        (effective_tolerance ext_example (1 / 10 ^ 10)) (bicg_normb ext_example [1, 0])
        (bicg_init ext_example (dense_matrix_wrapper [[1, 1], [1, 0]]) [0, 0] [1, 0]
          (bicg_normb ext_example [1, 0])).r 1
        (bicg_init ext_example (dense_matrix_wrapper [[1, 1], [1, 0]]) [0, 0] [1, 0]
          (bicg_normb ext_example [1, 0]))).mpr
        (Or.inr ⟨by unfold bicg_computes_omega; decide!, by decide!⟩)
      rw [bicg_reach_succ_of_done _ _ _ _ _ _ k 1 _ r hb] at hs
      cases hs
  exact ⟨hchk, hdiv, by decide!,
    (bicgstab_raises_iff ext_example (dense_matrix_wrapper [[1, 1], [1, 0]]) [0, 0] [1, 0]
      no_op_preconditioner 10 (1 / 10 ^ 10) hchk hdiv).1⟩

/-- What `bicgstab` does at its residual checks: it returns at the initial check when the
relative residual is `<= tol`, equality included, and at the two residual checks
inside an iteration when the relative residual is strictly below `tol`: the
check on `s` returns `{resid, i}` after `x += alpha * phat`, the check on `r`
returns `{resid, i}`, and every record returned from inside an iteration carries
a residual `< tol`, so a residual equal to `tol` at an in-iteration check does
not end the run there. -/
theorem bicgstab_stopping_rule (ext : externals) (mat : ℚ → List ℚ → ℚ → List ℚ → List ℚ)
    (x b : List ℚ) (precondition : List ℚ → List ℚ) (max_iter : Int) (tol : ℚ)
    (hchk : solver_checks ext x b max_iter tol) :
    ((bicg_init ext mat x b (bicg_normb ext b)).resid ≤ effective_tolerance ext tol →
      bicgstab ext mat x b precondition max_iter tol
        = ⟨x, 1, 0, Except.ok ⟨(bicg_init ext mat x b (bicg_normb ext b)).resid, 0⟩⟩) ∧
    (∀ (normb : ℚ) (rtilde : List ℚ) (i : Nat) (st : bicg_state),
      bicg_rho_1 rtilde st ≠ 0 →
      (bicg_first_half ext mat precondition normb rtilde i st).resid
          < effective_tolerance ext tol →
      bicg_body ext mat precondition (effective_tolerance ext tol) normb rtilde i st
        = loop_step.done
            ⟨fm_axpy (bicg_first_half ext mat precondition normb rtilde i st).phat st.x
                (bicg_first_half ext mat precondition normb rtilde i st).alpha,
              st.mat_calls + 1, st.prec_calls + 1,
              Except.ok ⟨(bicg_first_half ext mat precondition normb rtilde i st).resid, i⟩⟩) ∧
    (∀ (normb : ℚ) (rtilde : List ℚ) (i : Nat) (st : bicg_state),
      bicg_rho_1 rtilde st ≠ 0 →
      ¬ (bicg_first_half ext mat precondition normb rtilde i st).resid
          < effective_tolerance ext tol →
      (bicg_second_half ext mat precondition normb (bicg_rho_1 rtilde st)
          (bicg_first_half ext mat precondition normb rtilde i st)).resid
          < effective_tolerance ext tol →
      bicg_body ext mat precondition (effective_tolerance ext tol) normb rtilde i st
        = loop_step.done
            ⟨(bicg_second_half ext mat precondition normb (bicg_rho_1 rtilde st)
                (bicg_first_half ext mat precondition normb rtilde i st)).x,
              st.mat_calls + 2, st.prec_calls + 2,
              Except.ok ⟨(bicg_second_half ext mat precondition normb (bicg_rho_1 rtilde st)
                (bicg_first_half ext mat precondition normb rtilde i st)).resid, i⟩⟩) ∧
    (∀ (normb : ℚ) (rtilde : List ℚ) (i : Nat) (st : bicg_state) (r : solver_result)
        (info : gmres_info),
      bicg_body ext mat precondition (effective_tolerance ext tol) normb rtilde i st
        = loop_step.done r →
      r.outcome = Except.ok info →
      info.residual < effective_tolerance ext tol ∧ info.iterations = i) := by
  refine ⟨?_, ?_, ?_, ?_⟩
  · intro h0
    rw [bicgstab_of_checks ext mat x b precondition max_iter tol hchk, if_pos h0]
  · intro normb rtilde i st hrho h1
    unfold bicg_body
    simp only [hrho, if_false, h1, if_true]
    rfl
  · intro normb rtilde i st hrho h1 h2
    unfold bicg_body
    simp only [hrho, if_false, h1, h2, if_true]
    rfl
  · intro normb rtilde i st r info hb hr
    rcases bicg_body_done ext mat precondition (effective_tolerance ext tol) normb rtilde i st r hb
      with h | ⟨resid, h1, h2⟩
    · rcases h with h | h <;> (rw [h] at hr; cases hr)
    · rw [h2] at hr
      cases hr
      exact ⟨h1, rfl⟩

/-- C8 (code evaluated at the failing input): on the system with rows `(4, 0)`, `(1, 1)`, right-hand
side `(1, 0)`, start `x = 0` and `tol = 1/4`, the residual of `s` at the first
in-iteration check (line 408) is exactly `1/4 = tol`, and the call does not
return there: it goes on to the second half of the iteration (the operator is
applied a third time) and returns the record `{0, 1}` with `x = (1/4, -1/4)`,
not the record `{1/4, 1}` with `x = (1/4, 0)` of a return at that check. -/
theorem bicgstab_equal_residual_continues :
    (bicg_first_half ext_example (dense_matrix_wrapper [[4, 1], [0, 1]]) no_op_preconditioner
        (bicg_normb ext_example [1, 0])
        (bicg_init ext_example (dense_matrix_wrapper [[4, 1], [0, 1]]) [0, 0] [1, 0]
          (bicg_normb ext_example [1, 0])).r 1
        (bicg_init ext_example (dense_matrix_wrapper [[4, 1], [0, 1]]) [0, 0] [1, 0]
          (bicg_normb ext_example [1, 0]))).resid = 1 / 4 ∧
    effective_tolerance ext_example (1 / 4) = 1 / 4 ∧
    (bicgstab ext_example (dense_matrix_wrapper [[4, 1], [0, 1]]) [0, 0] [1, 0]
        no_op_preconditioner 10 (1 / 4)).outcome = Except.ok ⟨0, 1⟩ ∧
    (bicgstab ext_example (dense_matrix_wrapper [[4, 1], [0, 1]]) [0, 0] [1, 0]
        no_op_preconditioner 10 (1 / 4)).x = [1 / 4, -1 / 4] ∧
    (bicgstab ext_example (dense_matrix_wrapper [[4, 1], [0, 1]]) [0, 0] [1, 0]
        no_op_preconditioner 10 (1 / 4)).mat_calls = 3 := by
  refine ⟨by decide!, by decide!, by decide!, by decide!, by decide!⟩

/-- The stopping rule of `bicgstab` at the system with rows `(4, 0)`, `(1, 1)`,
right-hand side `(1, 0)`, start `x = 0` and `tol = 1/4`. -/
theorem bicgstab_stopping_rule_witness :
    solver_checks ext_example [0, 0] [1, 0] 10 (1 / 4) ∧
    (((bicg_init ext_example (dense_matrix_wrapper [[4, 1], [0, 1]]) [0, 0] [1, 0] (bicg_normb ext_example [1, 0])).resid ≤ effective_tolerance ext_example (1 / 4) →
      bicgstab ext_example (dense_matrix_wrapper [[4, 1], [0, 1]]) [0, 0] [1, 0] no_op_preconditioner 10 (1 / 4)
        = ⟨[0, 0], 1, 0,
            Except.ok ⟨(bicg_init ext_example (dense_matrix_wrapper [[4, 1], [0, 1]]) [0, 0] [1, 0]
              (bicg_normb ext_example [1, 0])).resid, 0⟩⟩) ∧
    (∀ (normb : ℚ) (rtilde : List ℚ) (i : Nat) (st : bicg_state),
      bicg_rho_1 rtilde st ≠ 0 →
      (bicg_first_half ext_example (dense_matrix_wrapper [[4, 1], [0, 1]]) no_op_preconditioner normb rtilde i st).resid
          < effective_tolerance ext_example (1 / 4) →
      bicg_body ext_example (dense_matrix_wrapper [[4, 1], [0, 1]]) no_op_preconditioner (effective_tolerance ext_example (1 / 4)) normb rtilde i st
        = loop_step.done
            ⟨fm_axpy (bicg_first_half ext_example (dense_matrix_wrapper [[4, 1], [0, 1]]) no_op_preconditioner normb rtilde i st).phat st.x
                (bicg_first_half ext_example (dense_matrix_wrapper [[4, 1], [0, 1]]) no_op_preconditioner normb rtilde i st).alpha,
              st.mat_calls + 1, st.prec_calls + 1,
              Except.ok ⟨(bicg_first_half ext_example (dense_matrix_wrapper [[4, 1], [0, 1]]) no_op_preconditioner normb rtilde i st).resid, i⟩⟩) ∧
    (∀ (normb : ℚ) (rtilde : List ℚ) (i : Nat) (st : bicg_state),
      bicg_rho_1 rtilde st ≠ 0 →
      ¬ (bicg_first_half ext_example (dense_matrix_wrapper [[4, 1], [0, 1]]) no_op_preconditioner normb rtilde i st).resid
          < effective_tolerance ext_example (1 / 4) →
      (bicg_second_half ext_example (dense_matrix_wrapper [[4, 1], [0, 1]]) no_op_preconditioner normb (bicg_rho_1 rtilde st)
          (bicg_first_half ext_example (dense_matrix_wrapper [[4, 1], [0, 1]]) no_op_preconditioner normb rtilde i st)).resid
          < effective_tolerance ext_example (1 / 4) →
      bicg_body ext_example (dense_matrix_wrapper [[4, 1], [0, 1]]) no_op_preconditioner (effective_tolerance ext_example (1 / 4)) normb rtilde i st
        = loop_step.done
            ⟨(bicg_second_half ext_example (dense_matrix_wrapper [[4, 1], [0, 1]]) no_op_preconditioner normb (bicg_rho_1 rtilde st)
                (bicg_first_half ext_example (dense_matrix_wrapper [[4, 1], [0, 1]]) no_op_preconditioner normb rtilde i st)).x,
              st.mat_calls + 2, st.prec_calls + 2,
              Except.ok ⟨(bicg_second_half ext_example (dense_matrix_wrapper [[4, 1], [0, 1]]) no_op_preconditioner normb (bicg_rho_1 rtilde st)
                (bicg_first_half ext_example (dense_matrix_wrapper [[4, 1], [0, 1]]) no_op_preconditioner normb rtilde i st)).resid, i⟩⟩) ∧
    (∀ (normb : ℚ) (rtilde : List ℚ) (i : Nat) (st : bicg_state) (r : solver_result)
        (info : gmres_info),
      bicg_body ext_example (dense_matrix_wrapper [[4, 1], [0, 1]]) no_op_preconditioner (effective_tolerance ext_example (1 / 4)) normb rtilde i st
        = loop_step.done r →
      r.outcome = Except.ok info →
      info.residual < effective_tolerance ext_example (1 / 4) ∧ info.iterations = i)) :=
  ⟨by unfold solver_checks; decide!,
   bicgstab_stopping_rule ext_example (dense_matrix_wrapper [[4, 1], [0, 1]]) [0, 0] [1, 0]
     no_op_preconditioner 10 (1 / 4) (by unfold solver_checks; decide!)⟩

/-- One pass of the inner loop of `simple_gmres`: it either evaluates
`inner_iterations % 0`, or goes on with one more inner iteration counted and the
outer counters and `x` untouched. -/
theorem gmres_inner_body_spec (ext : externals) (mat : ℚ → List ℚ → ℚ → List ℚ → List ℚ)
    (precondition : List ℚ → List ℚ) (tolerance : ℚ) (restart print_freq : Nat)
    (st : gmres_state) :
    (print_freq = 0 ∧ ∃ r, gmres_inner_body ext mat precondition tolerance restart print_freq st
        = loop_step.done r ∧ r.outcome = Except.error solver_error.modulo_by_zero) ∨
    (print_freq ≠ 0 ∧ ∃ st2, gmres_inner_body ext mat precondition tolerance restart print_freq st
        = loop_step.next st2 ∧
      st2.outer_iterations = st.outer_iterations ∧ st2.outer_res = st.outer_res ∧
      st2.inner_iterations = st.inner_iterations + 1 ∧ st2.x = st.x ∧
      st2.total_iterations = st.total_iterations + 1) := by
  by_cases hp : print_freq = 0
  · left
    refine ⟨hp, ?_⟩
    unfold gmres_inner_body
    simp only [hp, if_true]
    exact ⟨_, rfl, rfl⟩
  · right
    refine ⟨hp, ?_⟩
    unfold gmres_inner_body
    simp only [hp, if_false]
    exact ⟨_, rfl, rfl, rfl, rfl, rfl, rfl⟩

theorem gmres_inner_loop_spec (ext : externals) (mat : ℚ → List ℚ → ℚ → List ℚ → List ℚ)
    (precondition : List ℚ → List ℚ) (tolerance : ℚ) (restart print_freq : Nat) (fuel : Nat) :
    ∀ st : gmres_state,
    (print_freq = 0 ∧ ∃ r, gmres_inner_loop ext mat precondition tolerance restart print_freq fuel st
        = loop_step.done r ∧ r.outcome = Except.error solver_error.modulo_by_zero) ∨
    (∃ st2, gmres_inner_loop ext mat precondition tolerance restart print_freq fuel st
        = loop_step.next st2 ∧
      st2.outer_iterations = st.outer_iterations ∧ st2.outer_res = st.outer_res) := by
  induction fuel with
  | zero =>
    intro st
    exact Or.inr ⟨st, rfl, rfl, rfl⟩
  | succ fuel ih =>
    intro st
    unfold gmres_inner_loop
    by_cases hc : st.inner_res > tolerance ∧ st.inner_iterations < restart
    · rw [if_pos hc]
      rcases gmres_inner_body_spec ext mat precondition tolerance restart print_freq st with
        ⟨hp, r, hr, he⟩ | ⟨hp, st2, hst2, h1, h2, -, -, -⟩
      · rw [hr]
        exact Or.inl ⟨hp, r, rfl, he⟩
      · rw [hst2]
        rcases ih st2 with ⟨hp2, r, hr, he⟩ | ⟨st3, hst3, h3, h4⟩
        · exact Or.inl ⟨hp2, r, hr, he⟩
        · exact Or.inr ⟨st3, hst3, by rw [h3, h1], by rw [h4, h2]⟩
    · rw [if_neg hc]
      exact Or.inr ⟨st, rfl, rfl, rfl⟩

/-- The inner loop run with enough passes (`inner_iterations + fuel >= restart`)
is left with its condition false. -/
theorem gmres_inner_loop_exit (ext : externals) (mat : ℚ → List ℚ → ℚ → List ℚ → List ℚ)
    (precondition : List ℚ → List ℚ) (tolerance : ℚ) (restart print_freq : Nat) (fuel : Nat) :
    ∀ st st2 : gmres_state, restart ≤ st.inner_iterations + fuel →
      gmres_inner_loop ext mat precondition tolerance restart print_freq fuel st
        = loop_step.next st2 →
      ¬ (st2.inner_res > tolerance ∧ st2.inner_iterations < restart) := by
  induction fuel with
  | zero =>
    intro st st2 hfuel hnext
    simp only [gmres_inner_loop, loop_step.next.injEq] at hnext
    subst hnext
    rintro ⟨-, h⟩
    omega
  | succ fuel ih =>
    intro st st2 hfuel hnext
    unfold gmres_inner_loop at hnext
    by_cases hc : st.inner_res > tolerance ∧ st.inner_iterations < restart
    · rw [if_pos hc] at hnext
      rcases gmres_inner_body_spec ext mat precondition tolerance restart print_freq st with
        ⟨-, r, hr, -⟩ | ⟨-, st3, hst3, -, -, h3, -, -⟩
      · rw [hr] at hnext
        cases hnext
      · rw [hst3] at hnext
        exact ih st3 st2 (by omega) hnext
    · rw [if_neg hc] at hnext
      cases hnext
      exact hc

/-- One pass of the outer loop: it either stops at `inner_iterations % 0`, or ends
with one more outer iteration counted and `outer_res` set to the last inner residual. -/
theorem gmres_outer_body_spec (ext : externals) (mat : ℚ → List ℚ → ℚ → List ℚ → List ℚ)
    (precondition : List ℚ → List ℚ) (b : List ℚ) (tolerance : ℚ) (restart print_freq : Nat)
    (st : gmres_state) :
    (print_freq = 0 ∧ ∃ r, gmres_outer_body ext mat precondition b tolerance restart print_freq st
        = loop_step.done r ∧ r.outcome = Except.error solver_error.modulo_by_zero) ∨
    (∃ st2, gmres_outer_body ext mat precondition b tolerance restart print_freq st
        = loop_step.next st2 ∧
      st2.outer_iterations = st.outer_iterations + 1 ∧ st2.outer_res = st2.inner_res) := by
  unfold gmres_outer_body
  rcases gmres_inner_loop_spec ext mat precondition tolerance restart print_freq restart
      (gmres_outer_start ext mat precondition b st) with ⟨hp, r, hr, he⟩ | ⟨st2, hst2, h1, h2⟩
  · rw [hr]
    exact Or.inl ⟨hp, r, rfl, he⟩
  · rw [hst2]
    refine Or.inr ⟨_, rfl, ?_, ?_⟩
    · unfold gmres_outer_finish
      simp only
      split <;> (simp only [h1]; rfl)
    · unfold gmres_outer_finish
      rfl

/-- The outer loop started with `outer_iterations + fuel = max_outer_iterations`:
it either stops at `inner_iterations % 0`, or is left with its condition false, at
most `max_outer_iterations` passes counted and, unless it made no pass at all,
`outer_res` equal to the last inner residual. -/
theorem gmres_outer_loop_spec (ext : externals) (mat : ℚ → List ℚ → ℚ → List ℚ → List ℚ)
    (precondition : List ℚ → List ℚ) (b : List ℚ) (tolerance : ℚ)
    (restart print_freq max_outer_iterations : Nat) (fuel : Nat) :
    ∀ st : gmres_state, st.outer_iterations + fuel = max_outer_iterations →
    (print_freq = 0 ∧ ∃ r, gmres_outer_loop ext mat precondition b tolerance restart print_freq
        max_outer_iterations fuel st = loop_step.done r ∧
        r.outcome = Except.error solver_error.modulo_by_zero) ∨
    (∃ st2, gmres_outer_loop ext mat precondition b tolerance restart print_freq
        max_outer_iterations fuel st = loop_step.next st2 ∧
      st2.outer_iterations ≤ max_outer_iterations ∧
      ¬ (st2.outer_res > tolerance ∧ st2.outer_iterations < max_outer_iterations) ∧
      (st2 = st ∨ st2.outer_res = st2.inner_res)) := by
  induction fuel with
  | zero =>
    intro st hst
    refine Or.inr ⟨st, rfl, by omega, ?_, Or.inl rfl⟩
    rintro ⟨-, h⟩
    omega
  | succ fuel ih =>
    intro st hst
    unfold gmres_outer_loop
    by_cases hc : st.outer_res > tolerance ∧ st.outer_iterations < max_outer_iterations
    · rw [if_pos hc]
      rcases gmres_outer_body_spec ext mat precondition b tolerance restart print_freq st with
        ⟨hp, r, hr, he⟩ | ⟨st2, hst2, h1, h2⟩
      · rw [hr]
        exact Or.inl ⟨hp, r, rfl, he⟩
      · rw [hst2]
        rcases ih st2 (by omega) with ⟨hp2, r, hr, he⟩ | ⟨st3, hst3, h3, h4, h5⟩
        · exact Or.inl ⟨hp2, r, hr, he⟩
        · refine Or.inr ⟨st3, hst3, h3, h4, Or.inr ?_⟩
          rcases h5 with h5 | h5
          · rw [h5]; exact h2
          · exact h5
    · rw [if_neg hc]
      exact Or.inr ⟨st, rfl, by omega, hc, Or.inl rfl⟩

/-- The loops of `simple_gmres` for a positive budget of outer iterations: they
either stop at `inner_iterations % 0` (only when `restart / 3 = 0`), or are left
with `outer_res` equal to the last inner residual, at most `max_outer_iterations`
outer passes made, and exactly that many when the residual is still above the
tolerance. -/
theorem gmres_run_spec (ext : externals) (mat : ℚ → List ℚ → ℚ → List ℚ → List ℚ)
    (x b : List ℚ) (precondition : List ℚ → List ℚ) (restart max_outer_iterations : Nat)
    (tolerance : ℚ) (hmax : 0 < max_outer_iterations) :
    (restart / 3 = 0 ∧ ∃ r, gmres_run ext mat x b precondition restart max_outer_iterations
        tolerance = loop_step.done r ∧
        r.outcome = Except.error solver_error.modulo_by_zero) ∨
    (∃ st, gmres_run ext mat x b precondition restart max_outer_iterations tolerance
        = loop_step.next st ∧
      st.outer_res = st.inner_res ∧
      st.outer_iterations ≤ max_outer_iterations ∧
      (tolerance < st.inner_res → st.outer_iterations = max_outer_iterations)) := by
  unfold gmres_run
  simp only
  rcases gmres_outer_loop_spec ext mat precondition b tolerance restart (restart / 3)
      max_outer_iterations max_outer_iterations (gmres_init x b.length restart tolerance)
      (by simp [gmres_init]) with ⟨hp, r, hr, he⟩ | ⟨st, hst, h1, h2, h3⟩
  · exact Or.inl ⟨hp, r, hr, he⟩
  · have hres : st.outer_res = st.inner_res := by
      rcases h3 with h3 | h3
      · exfalso
        apply h2
        rw [h3]
        simp only [gmres_init]
        exact ⟨by linarith, hmax⟩
      · exact h3
    refine Or.inr ⟨st, hst, hres, h1, ?_⟩
    intro htol
    rw [← hres] at htol
    by_contra hne
    exact h2 ⟨htol, by omega⟩

/-- After its checks `simple_gmres` is its two loops followed by the return of line 320. -/
theorem simple_gmres_of_checks (ext : externals) (mat : ℚ → List ℚ → ℚ → List ℚ → List ℚ)
    (x b : List ℚ) (precondition : List ℚ → List ℚ) (restart max_outer_iterations : Int)
    (tolerance : ℚ) (hchk : solver_checks ext x b max_outer_iterations tolerance)
    (hres : restart_accepted ext b restart) :
    simple_gmres ext mat x b precondition restart max_outer_iterations tolerance =
      match gmres_run ext mat x b precondition
          (effective_restart ext restart (b.length : Int)).toNat
          (effective_max_iter ext max_outer_iterations (b.length : Int)).toNat
          (effective_tolerance ext tolerance) with
      | loop_step.done r => r
      | loop_step.next st =>
        ⟨st.x, st.mat_calls, st.prec_calls, Except.ok ⟨st.outer_res, st.total_iterations⟩⟩ := by
  obtain ⟨h1, h2, h3⟩ := hchk
  obtain ⟨h4, h5⟩ := hres
  unfold simple_gmres
  simp only
  rw [if_neg (not_not.mpr h1), if_neg (not_not.mpr h2), if_neg (not_not.mpr h4), if_neg h5,
    if_neg (not_not.mpr h3)]

/-- When all `remaining` passes of the loop of `bicgstab` run to their end, the
function returns the record of the last residual and `max_iter` (line 436). -/
theorem bicg_loop_of_reach (ext : externals)
    (mat : ℚ → List ℚ → ℚ → List ℚ → List ℚ) (precondition : List ℚ → List ℚ)
    (tol normb : ℚ) (rtilde : List ℚ) (max_iter : Int) (remaining : Nat) :
    ∀ (i : Nat) (st s : bicg_state),
    bicg_reach ext mat precondition tol normb rtilde remaining i st = some s →
    bicg_loop ext mat precondition tol normb rtilde max_iter remaining i st
      = ⟨s.x, s.mat_calls, s.prec_calls, Except.ok ⟨s.resid, max_iter⟩⟩ := by
  induction remaining with
  | zero =>
    intro i st s hs
    simp only [bicg_reach, Option.some.injEq] at hs
    subst hs
    rfl
  | succ rem ih =>
    intro i st s hs
    cases hb : bicg_body ext mat precondition tol normb rtilde i st with
    | done r => simp [bicg_reach, hb] at hs
    | next st2 =>
      simp only [bicg_reach, hb] at hs
      simp only [bicg_loop, hb]
      exact ih (i + 1) st2 s hs

/-- C10: non-convergence is returned as data. For calls that pass their checks:
`bicgstab` raises nothing but the two breakdowns; when its loop runs through all
`max_iter` iterations it returns the record of the last relative residual and
`max_iter`; every record it returns has `0 <= iterations <= max_iter`, and a
record with a residual above `tol` has `iterations = max_iter`. `simple_gmres`
raises no exception (the only way it ends without a record is the undefined
`inner_iterations % 0` of the print guard, which needs `restart / 3 = 0`); its
loops are left whenever `restart / 3` is not zero; and whenever they are left it
returns the record of the last inner residual, having made at most `max_outer`
outer iterations, and exactly `max_outer` when that residual is above the
tolerance. -/
theorem nonconvergence_returned_as_data (ext : externals)
    (mat matg : ℚ → List ℚ → ℚ → List ℚ → List ℚ) (x b xg bg : List ℚ)
    (precondition : List ℚ → List ℚ) (restart max_outer max_iter : Int) (tol : ℚ)
    (hb : solver_checks ext x b max_iter tol)
    (hg : solver_checks ext xg bg max_outer tol)
    (hr : restart_accepted ext bg restart) :
    (∀ e, (bicgstab ext mat x b precondition max_iter tol).outcome = Except.error e →
      e = solver_error.rho_breakdown ∨ e = solver_error.omega_breakdown) ∧
    (∀ s, ¬ (bicg_init ext mat x b (bicg_normb ext b)).resid ≤ effective_tolerance ext tol →
      bicg_reach ext mat precondition (effective_tolerance ext tol) (bicg_normb ext b)
        (bicg_init ext mat x b (bicg_normb ext b)).r
        (effective_max_iter ext max_iter (b.length : Int)).toNat 1
        (bicg_init ext mat x b (bicg_normb ext b)) = some s →
      bicgstab ext mat x b precondition max_iter tol
        = ⟨s.x, s.mat_calls, s.prec_calls,
            Except.ok ⟨s.resid, effective_max_iter ext max_iter (b.length : Int)⟩⟩) ∧
    (∀ info, (bicgstab ext mat x b precondition max_iter tol).outcome = Except.ok info →
      0 ≤ info.iterations ∧
      info.iterations ≤ effective_max_iter ext max_iter (b.length : Int) ∧
      (effective_tolerance ext tol < info.residual →
        info.iterations = effective_max_iter ext max_iter (b.length : Int))) ∧
    (∀ e, (simple_gmres ext matg xg bg precondition restart max_outer tol).outcome
        = Except.error e →
      e = solver_error.modulo_by_zero ∧
        (effective_restart ext restart (bg.length : Int)).toNat / 3 = 0) ∧
    ((effective_restart ext restart (bg.length : Int)).toNat / 3 ≠ 0 →
      ∃ st, gmres_run ext matg xg bg precondition
          (effective_restart ext restart (bg.length : Int)).toNat
          (effective_max_iter ext max_outer (bg.length : Int)).toNat
          (effective_tolerance ext tol) = loop_step.next st) ∧
    (∀ st, gmres_run ext matg xg bg precondition
          (effective_restart ext restart (bg.length : Int)).toNat
          (effective_max_iter ext max_outer (bg.length : Int)).toNat
          (effective_tolerance ext tol) = loop_step.next st →
      simple_gmres ext matg xg bg precondition restart max_outer tol
        = ⟨st.x, st.mat_calls, st.prec_calls,
            Except.ok ⟨st.inner_res, st.total_iterations⟩⟩ ∧
      st.outer_iterations ≤ (effective_max_iter ext max_outer (bg.length : Int)).toNat ∧
      (effective_tolerance ext tol < st.inner_res →
        st.outer_iterations = (effective_max_iter ext max_outer (bg.length : Int)).toNat)) := by
  have hmax : 0 < effective_max_iter ext max_iter (b.length : Int) := hb.2.2
  have htoNat : ((effective_max_iter ext max_iter (b.length : Int)).toNat : Int)
      = effective_max_iter ext max_iter (b.length : Int) := Int.toNat_of_nonneg hmax.le
  have hloop := bicg_loop_outcome ext mat precondition (effective_tolerance ext tol)
    (bicg_normb ext b) (bicg_init ext mat x b (bicg_normb ext b)).r
    (effective_max_iter ext max_iter (b.length : Int))
    (effective_max_iter ext max_iter (b.length : Int)).toNat 1
    (bicg_init ext mat x b (bicg_normb ext b))
  have hgm : 0 < (effective_max_iter ext max_outer (bg.length : Int)).toNat := by
    have := hg.2.2
    omega
  have hrun := gmres_run_spec ext matg xg bg precondition
    (effective_restart ext restart (bg.length : Int)).toNat
    (effective_max_iter ext max_outer (bg.length : Int)).toNat
    (effective_tolerance ext tol) hgm
  refine ⟨bicgstab_error_kind ext mat x b precondition max_iter tol hb, ?_, ?_, ?_, ?_, ?_⟩
  · intro s h0 hs
    rw [bicgstab_of_checks ext mat x b precondition max_iter tol hb, if_neg h0]
    exact bicg_loop_of_reach ext mat precondition _ _ _ _ _ 1 _ s hs
  · intro info hinfo
    rw [bicgstab_of_checks ext mat x b precondition max_iter tol hb] at hinfo
    by_cases h0 : (bicg_init ext mat x b (bicg_normb ext b)).resid ≤ effective_tolerance ext tol
    · rw [if_pos h0] at hinfo
      cases hinfo
      exact ⟨le_refl _, hmax.le, fun h => absurd h0 (not_le.mpr h)⟩
    · rw [if_neg h0] at hinfo
      rcases hloop with h | ⟨resid, it, h1, h2, h3, h4⟩ | ⟨s2, h1, h2⟩
      · rcases h with h | h <;> (rw [h] at hinfo; cases hinfo)
      · rw [h4] at hinfo
        cases hinfo
        refine ⟨Int.natCast_nonneg _, ?_, fun h => absurd h1 (not_lt.mpr h.le)⟩
        show (it : Int) ≤ effective_max_iter ext max_iter (b.length : Int)
        omega
      · rw [h2] at hinfo
        cases hinfo
        exact ⟨hmax.le, le_refl _, fun _ => rfl⟩
  · intro e he
    rw [simple_gmres_of_checks ext matg xg bg precondition restart max_outer tol hg hr] at he
    rcases hrun with ⟨hp, r, hrr, hre⟩ | ⟨st, hst, -, -, -⟩
    · rw [hrr] at he
      simp only at he
      rw [hre] at he
      cases he
      exact ⟨rfl, hp⟩
    · rw [hst] at he
      cases he
  · intro hp
    rcases hrun with ⟨hp0, -⟩ | ⟨st, hst, -, -, -⟩
    · exact absurd hp0 hp
    · exact ⟨st, hst⟩
  · intro st hst
    rw [simple_gmres_of_checks ext matg xg bg precondition restart max_outer tol hg hr, hst]
    rcases hrun with ⟨-, r, hrr, -⟩ | ⟨st2, hst2, h1, h2, h3⟩
    · rw [hrr] at hst
      cases hst
    · rw [hst2] at hst
      cases hst
      simp only [h1]
      exact ⟨trivial, h2, h3⟩

/-- C10 at two runs that use up their budget: `bicgstab` with `max_iter = 1` on the
system with rows `(1, 3)`, `(1, 4)` and right-hand side `(1, 0)` returns the record
`{3/5, 1}`; `simple_gmres` with `restart = 3`, `max_outer = 2` on the cyclic shift
with right-hand side `e1` stagnates and returns the record `{1, 8}`. -/
theorem nonconvergence_returned_as_data_witness :
    solver_checks ext_example [0, 0] [1, 0] 1 (1 / 10 ^ 10) ∧
    solver_checks ext_example [0, 0, 0, 0] [1, 0, 0, 0] 2 (1 / 10 ^ 10) ∧
    restart_accepted ext_example [1, 0, 0, 0] 3 ∧
    (bicgstab ext_example (dense_matrix_wrapper [[1, 1], [3, 4]]) [0, 0] [1, 0]
        no_op_preconditioner 1 (1 / 10 ^ 10)).outcome = Except.ok ⟨3 / 5, 1⟩ ∧
    (simple_gmres ext_example (dense_matrix_wrapper shift4) [0, 0, 0, 0] [1, 0, 0, 0]
        no_op_preconditioner 3 2 (1 / 10 ^ 10)).outcome = Except.ok ⟨1, 8⟩ ∧
    ((∀ e, (bicgstab ext_example (dense_matrix_wrapper [[1, 1], [3, 4]]) [0, 0] [1, 0]
          no_op_preconditioner 1 (1 / 10 ^ 10)).outcome = Except.error e →
      e = solver_error.rho_breakdown ∨ e = solver_error.omega_breakdown) ∧
    (∀ s, ¬ (bicg_init ext_example (dense_matrix_wrapper [[1, 1], [3, 4]]) [0, 0] [1, 0]
          (bicg_normb ext_example [1, 0])).resid ≤ effective_tolerance ext_example (1 / 10 ^ 10) →
      bicg_reach ext_example (dense_matrix_wrapper [[1, 1], [3, 4]]) no_op_preconditioner
        (effective_tolerance ext_example (1 / 10 ^ 10)) (bicg_normb ext_example [1, 0])
        (bicg_init ext_example (dense_matrix_wrapper [[1, 1], [3, 4]]) [0, 0] [1, 0]
          (bicg_normb ext_example [1, 0])).r
        (effective_max_iter ext_example 1 (([1, 0] : List ℚ).length : Int)).toNat 1
        (bicg_init ext_example (dense_matrix_wrapper [[1, 1], [3, 4]]) [0, 0] [1, 0]
          (bicg_normb ext_example [1, 0])) = some s →
      bicgstab ext_example (dense_matrix_wrapper [[1, 1], [3, 4]]) [0, 0] [1, 0]
          no_op_preconditioner 1 (1 / 10 ^ 10)
        = ⟨s.x, s.mat_calls, s.prec_calls,
            Except.ok ⟨s.resid, effective_max_iter ext_example 1 (([1, 0] : List ℚ).length : Int)⟩⟩) ∧
    (∀ info, (bicgstab ext_example (dense_matrix_wrapper [[1, 1], [3, 4]]) [0, 0] [1, 0]
          no_op_preconditioner 1 (1 / 10 ^ 10)).outcome = Except.ok info →
      0 ≤ info.iterations ∧
      info.iterations ≤ effective_max_iter ext_example 1 (([1, 0] : List ℚ).length : Int) ∧
      (effective_tolerance ext_example (1 / 10 ^ 10) < info.residual →
        info.iterations = effective_max_iter ext_example 1 (([1, 0] : List ℚ).length : Int))) ∧
    (∀ e, (simple_gmres ext_example (dense_matrix_wrapper shift4) [0, 0, 0, 0] [1, 0, 0, 0]
          no_op_preconditioner 3 2 (1 / 10 ^ 10)).outcome
        = Except.error e →
      e = solver_error.modulo_by_zero ∧
        (effective_restart ext_example 3 (([1, 0, 0, 0] : List ℚ).length : Int)).toNat / 3 = 0) ∧
    ((effective_restart ext_example 3 (([1, 0, 0, 0] : List ℚ).length : Int)).toNat / 3 ≠ 0 →
      ∃ st, gmres_run ext_example (dense_matrix_wrapper shift4) [0, 0, 0, 0] [1, 0, 0, 0]
          no_op_preconditioner
          (effective_restart ext_example 3 (([1, 0, 0, 0] : List ℚ).length : Int)).toNat
          (effective_max_iter ext_example 2 (([1, 0, 0, 0] : List ℚ).length : Int)).toNat
          (effective_tolerance ext_example (1 / 10 ^ 10)) = loop_step.next st) ∧
    (∀ st, gmres_run ext_example (dense_matrix_wrapper shift4) [0, 0, 0, 0] [1, 0, 0, 0]
          no_op_preconditioner
          (effective_restart ext_example 3 (([1, 0, 0, 0] : List ℚ).length : Int)).toNat
          (effective_max_iter ext_example 2 (([1, 0, 0, 0] : List ℚ).length : Int)).toNat
          (effective_tolerance ext_example (1 / 10 ^ 10)) = loop_step.next st →
      simple_gmres ext_example (dense_matrix_wrapper shift4) [0, 0, 0, 0] [1, 0, 0, 0]
          no_op_preconditioner 3 2 (1 / 10 ^ 10)
        = ⟨st.x, st.mat_calls, st.prec_calls,
            Except.ok ⟨st.inner_res, st.total_iterations⟩⟩ ∧
      st.outer_iterations ≤ (effective_max_iter ext_example 2 (([1, 0, 0, 0] : List ℚ).length : Int)).toNat ∧
      (effective_tolerance ext_example (1 / 10 ^ 10) < st.inner_res →
        st.outer_iterations = (effective_max_iter ext_example 2 (([1, 0, 0, 0] : List ℚ).length : Int)).toNat))) :=
  ⟨by unfold solver_checks; decide!, by unfold solver_checks; decide!,
   by unfold restart_accepted; decide!, by decide!, by decide!,
   nonconvergence_returned_as_data ext_example (dense_matrix_wrapper [[1, 1], [3, 4]])
     (dense_matrix_wrapper shift4) [0, 0] [1, 0] [0, 0, 0, 0] [1, 0, 0, 0]
     no_op_preconditioner 3 2 1 (1 / 10 ^ 10)
     (by unfold solver_checks; decide!) (by unfold solver_checks; decide!)
     (by unfold restart_accepted; decide!)⟩

/-- C7 at the 1 x 1 system `2 x = 1` with `restart = 2 > 1 = n`. -/
theorem simple_gmres_restart_too_large_witness :
    ext_example.NO_USER_VALUE < 0 ∧
    ext_example.epsilon ≤ effective_tolerance ext_example (1 / 10 ^ 10) ∧
    ([0] : List ℚ).length = ([1] : List ℚ).length ∧
    ((([1] : List ℚ).length : Int) < 2) ∧
    (simple_gmres ext_example (dense_matrix_wrapper [[2]]) [0] [1] no_op_preconditioner 2 1
        (1 / 10 ^ 10)).outcome = Except.error solver_error.invalid_argument ∧
    (simple_gmres ext_example (dense_matrix_wrapper [[2]]) [0] [1] no_op_preconditioner 2 1
        (1 / 10 ^ 10)).x = [0] ∧
    (simple_gmres ext_example (dense_matrix_wrapper [[2]]) [0] [1] no_op_preconditioner 2 1
        (1 / 10 ^ 10)).mat_calls = 0 ∧
    (simple_gmres ext_example (dense_matrix_wrapper [[2]]) [0] [1] no_op_preconditioner 2 1
        (1 / 10 ^ 10)).prec_calls = 0 :=
  ⟨by decide!, by decide!, rfl, by decide,
   simple_gmres_restart_too_large ext_example (dense_matrix_wrapper [[2]]) [0] [1]
     no_op_preconditioner 2 1 (1 / 10 ^ 10) (by decide!) (by decide!) rfl (by decide)⟩

theorem sumLoop_eq_sum (n : Nat) (f : Nat → ℚ) :
    sumLoop n f 0 = Finset.sum (Finset.range n) f := by
  unfold sumLoop
  induction n with
  | zero => simp [forLoop_zero]
  | succ n ih => rw [forLoop_succ, ih, Finset.sum_range_succ]

/-- A sum over `n * N` offsets is the double sum over `b < n` and `j < N` of the
terms at `b * N + j`. -/
theorem sum_range_mul_split (n N : Nat) (G : Nat → ℚ) :
    Finset.sum (Finset.range (n * N)) G
      = Finset.sum (Finset.range n) (fun b =>
          Finset.sum (Finset.range N) (fun j => G (b * N + j))) := by
  induction n with
  | zero => simp
  | succ n ih =>
    rw [Finset.sum_range_succ, ← ih, Nat.succ_mul, Finset.sum_range_add]

theorem tensor_digit_low (n m k : Nat) (hk : k < m) (lo q : Nat) :
    tensor_digit n k (q * n ^ m + lo) = tensor_digit n k lo := by
  unfold tensor_digit
  obtain ⟨e, rfl⟩ : ∃ e, m = k + 1 + e := ⟨m - k - 1, by omega⟩
  by_cases hn : n = 0
  · subst hn
    simp [pow_add]
  · have hpos : 0 < n ^ k := pow_pos (Nat.pos_of_ne_zero hn) k
    have h1 : q * n ^ (k + 1 + e) + lo = lo + n ^ k * (n * (q * n ^ e)) := by
      rw [pow_add, pow_succ]; ring
    rw [h1, Nat.add_mul_div_left _ _ hpos, Nat.add_mul_mod_self_left]

theorem tensor_digit_top (n m b j : Nat) (hb : b < n) (hj : j < n ^ m) :
    tensor_digit n m (b * n ^ m + j) = b := by
  unfold tensor_digit
  have hpos : 0 < n ^ m := by omega
  rw [Nat.add_comm, Nat.add_mul_div_right _ _ hpos, Nat.div_eq_of_lt hj, Nat.zero_add,
    Nat.mod_eq_of_lt hb]

theorem kron_contract_eq (n k : Nat) (M : Nat → Nat → ℚ) (v : Nat → ℚ) (i : Nat) :
    kron_contract n k M v i
      = Finset.sum (Finset.range n) (fun b =>
          M (tensor_digit n k i) b * v (i - tensor_digit n k i * n ^ k + b * n ^ k)) := by
  unfold kron_contract
  exact sumLoop_eq_sum n _

/-- Splitting an offset at dimension `m + 1`: the part above, the coordinate, the
part below. -/
theorem offset_split (n m i : Nat) :
    i = (i / n ^ (m + 1) * n + tensor_digit n m i) * n ^ m + i % n ^ m := by
  unfold tensor_digit
  have h1 : i / n ^ (m + 1) = i / n ^ m / n := by
    rw [pow_succ, Nat.div_div_eq_div_mul]
  rw [h1, Nat.div_add_mod' (i / n ^ m) n, Nat.div_add_mod' i (n ^ m)]

/-- After `m` contractions the buffer holds, at offset `i`, the sum over the
offsets `j < n^m` of the first `m` coordinates of the partial Kronecker product
times the staged input at the offset that agrees with `i` above dimension `m`. -/
theorem kron_dispatch_first_dims (n : Nat) (hn : 0 < n) (A : Nat → Nat → Nat → ℚ)
    (x : Nat → ℚ) (m : Nat) :
    ∀ i, forLoop m (fun k buf => kron_contract n k (A k) buf) x i
      = Finset.sum (Finset.range (n ^ m)) (fun j =>
          Finset.prod (Finset.range m) (fun k => A k (tensor_digit n k i) (tensor_digit n k j))
            * x (i / n ^ m * n ^ m + j)) := by
  induction m with
  | zero =>
    intro i
    simp [forLoop_zero]
  | succ m ih =>
    intro i
    have hN : 0 < n ^ m := pow_pos hn m
    rw [forLoop_succ, kron_contract_eq]
    have hpow : n ^ (m + 1) = n * n ^ m := by rw [pow_succ, Nat.mul_comm]
    rw [hpow, sum_range_mul_split]
    apply Finset.sum_congr rfl
    intro b hb
    have hbn : b < n := Finset.mem_range.mp hb
    have hsplit := offset_split n m i
    have hlo : i % n ^ m < n ^ m := Nat.mod_lt _ hN
    -- the offset read by the contraction
    have hoff : i - tensor_digit n m i * n ^ m + b * n ^ m
        = (i / n ^ (m + 1) * n + b) * n ^ m + i % n ^ m := by
      have h4 : (i / n ^ (m + 1) * n + tensor_digit n m i) * n ^ m
          = i / n ^ (m + 1) * n * n ^ m + tensor_digit n m i * n ^ m := by ring
      have h5 : i = i / n ^ (m + 1) * n * n ^ m + tensor_digit n m i * n ^ m + i % n ^ m := by
        rw [← h4]; exact hsplit
      have h3 : i - tensor_digit n m i * n ^ m = i / n ^ (m + 1) * n * n ^ m + i % n ^ m := by
        generalize i / n ^ (m + 1) * n * n ^ m = a at h5 ⊢
        generalize tensor_digit n m i * n ^ m = c at h5 ⊢
        generalize i % n ^ m = e at h5 ⊢
        omega
      rw [h3]; ring
    rw [hoff, ih, Finset.mul_sum]
    apply Finset.sum_congr rfl
    intro j hj
    have hjN : j < n ^ m := Finset.mem_range.mp hj
    rw [Finset.prod_range_succ, tensor_digit_top n m b j hbn hjN]
    have hdig_i : ∀ k, k < m →
        tensor_digit n k ((i / n ^ (m + 1) * n + b) * n ^ m + i % n ^ m) = tensor_digit n k i := by
      intro k hk
      rw [tensor_digit_low n m k hk]
      conv_rhs => rw [hsplit]
      rw [tensor_digit_low n m k hk]
    have hdig_j : ∀ k, k < m → tensor_digit n k (b * n ^ m + j) = tensor_digit n k j :=
      fun k hk => tensor_digit_low n m k hk j b
    have hprod : Finset.prod (Finset.range m) (fun k =>
          A k (tensor_digit n k ((i / n ^ (m + 1) * n + b) * n ^ m + i % n ^ m))
            (tensor_digit n k j))
        = Finset.prod (Finset.range m) (fun k =>
          A k (tensor_digit n k i) (tensor_digit n k (b * n ^ m + j))) := by
      apply Finset.prod_congr rfl
      intro k hk
      rw [hdig_i k (Finset.mem_range.mp hk), hdig_j k (Finset.mem_range.mp hk)]
    rw [hprod]
    have hidx : ((i / n ^ (m + 1) * n + b) * n ^ m + i % n ^ m) / n ^ m * n ^ m + j
        = i / (n * n ^ m) * (n * n ^ m) + (b * n ^ m + j) := by
      rw [Nat.add_comm _ (i % n ^ m), Nat.add_mul_div_right _ _ hN, Nat.div_eq_of_lt hlo,
        Nat.zero_add, ← hpow]
      ring
    rw [hidx]
    ring

/-- The dispatch of one block and one term is the explicit Kronecker product
applied to the staged input. -/
theorem kron_dispatch_eq (n d : Nat) (hn : 0 < n) (A : Nat → Nat → Nat → ℚ)
    (x : Nat → ℚ) (i : Nat) (hi : i < n ^ d) :
    kron_dispatch n d A x i
      = Finset.sum (Finset.range (n ^ d)) (fun j => kron_entry n d A i j * x j) := by
  unfold kron_dispatch kron_entry
  rw [kron_dispatch_first_dims n hn A x d i, Nat.div_eq_of_lt hi]
  simp

theorem forLoop_block_length (m o : Nat) (g : Nat → ℚ → ℚ) (y : List ℚ) :
    (forLoop m (fun i (acc : List ℚ) => acc.set (o + i) (g i (rd acc (o + i)))) y).length
      = y.length := by
  induction m with
  | zero => rfl
  | succ m ih => rw [forLoop_succ, List.length_set, ih]

/-- A loop that rewrites `y[o + i] = g i y[o + i]` for `i < m` changes exactly the
entries of the block `[o, o + m)` that lie inside the vector. -/
theorem forLoop_block_rd (m o : Nat) (g : Nat → ℚ → ℚ) (y : List ℚ) (idx : Nat) :
    rd (forLoop m (fun i (acc : List ℚ) => acc.set (o + i) (g i (rd acc (o + i)))) y) idx =
      if o ≤ idx ∧ idx < o + m ∧ idx < y.length then g (idx - o) (rd y idx) else rd y idx := by
  induction m with
  | zero =>
    rw [forLoop_zero, if_neg (by omega)]
  | succ m ih =>
    rw [forLoop_succ, rd_set, forLoop_block_length]
    by_cases hk : o + m = idx
    · subst hk
      have ihm := ih
      rw [if_neg (by omega)] at ihm
      by_cases hl : o + m < y.length
      · rw [if_pos ⟨rfl, hl⟩, if_pos ⟨by omega, by omega, hl⟩, Nat.add_sub_cancel_left, ihm]
      · rw [if_neg (fun h => hl h.2), if_neg (fun h => hl h.2.2), ihm]
    · rw [if_neg (fun h => hk h.1), ih]
      have h1 : (o ≤ idx ∧ idx < o + (m + 1) ∧ idx < y.length)
          ↔ (o ≤ idx ∧ idx < o + m ∧ idx < y.length) := by omega
      simp only [h1]

theorem scale_block_length (o m : Nat) (beta : ℚ) (y : List ℚ) :
    (scale_block o m beta y).length = y.length :=
  forLoop_block_length m o (fun _ e => beta * e) y

theorem scale_block_rd (o m : Nat) (beta : ℚ) (y : List ℚ) (idx : Nat) :
    rd (scale_block o m beta y) idx =
      if o ≤ idx ∧ idx < o + m ∧ idx < y.length then beta * rd y idx else rd y idx :=
  forLoop_block_rd m o (fun _ e => beta * e) y idx

theorem add_block_length (o m : Nat) (alpha : ℚ) (res : Nat → ℚ) (y : List ℚ) :
    (add_block o m alpha res y).length = y.length :=
  forLoop_block_length m o (fun i e => e + alpha * res i) y

theorem add_block_rd (o m : Nat) (alpha : ℚ) (res : Nat → ℚ) (y : List ℚ) (idx : Nat) :
    rd (add_block o m alpha res y) idx =
      if o ≤ idx ∧ idx < o + m ∧ idx < y.length then rd y idx + alpha * res (idx - o)
      else rd y idx :=
  forLoop_block_rd m o (fun i e => e + alpha * res i) y idx

/-- A loop of block additions adds `alpha` times the sum of the results. -/
theorem forLoop_add_block (o m : Nat) (alpha : ℚ) (T : Nat) (res : Nat → Nat → ℚ)
    (y : List ℚ) :
    (forLoop T (fun t acc => add_block o m alpha (res t) acc) y).length = y.length ∧
    ∀ idx, rd (forLoop T (fun t acc => add_block o m alpha (res t) acc) y) idx =
      if o ≤ idx ∧ idx < o + m ∧ idx < y.length then
        rd y idx + alpha * Finset.sum (Finset.range T) (fun t => res t (idx - o))
      else rd y idx := by
  induction T with
  | zero =>
    refine ⟨rfl, fun idx => ?_⟩
    rw [forLoop_zero]
    simp
  | succ T ih =>
    obtain ⟨ihl, ihr⟩ := ih
    refine ⟨by rw [forLoop_succ, add_block_length, ihl], fun idx => ?_⟩
    rw [forLoop_succ, add_block_rd, ihl, ihr]
    by_cases hc : o ≤ idx ∧ idx < o + m ∧ idx < y.length
    · simp only [if_pos hc]
      rw [Finset.sum_range_succ]
      ring
    · simp only [if_neg hc]

/-- The work on row block `r` keeps the length, changes nothing outside the block
and leaves the reference value inside it. -/
theorem local_kronmult_row_spec (n d T : Nat) (hn : 0 < n) (pntr indx : List Nat)
    (A : Nat → Nat → Nat → Nat → Nat → ℚ) (alpha : ℚ) (x : List ℚ) (beta : ℚ)
    (r : Nat) (y : List ℚ) :
    (local_kronmult_row n d T pntr indx A alpha x beta r y).length = y.length ∧
    ∀ idx, rd (local_kronmult_row n d T pntr indx A alpha x beta r y) idx =
      if r * n ^ d ≤ idx ∧ idx < r * n ^ d + n ^ d ∧ idx < y.length then
        kron_reference n d T pntr indx A alpha x beta y r (idx - r * n ^ d)
      else rd y idx := by
  unfold local_kronmult_row kron_reference
  generalize pntr.getD (r + 1) 0 - pntr.getD r 0 = J
  induction J with
  | zero =>
    refine ⟨by rw [forLoop_zero, scale_block_length], fun idx => ?_⟩
    rw [forLoop_zero, scale_block_rd]
    by_cases hc : r * n ^ d ≤ idx ∧ idx < r * n ^ d + n ^ d ∧ idx < y.length
    · simp only [if_pos hc]
      have : r * n ^ d + (idx - r * n ^ d) = idx := by omega
      rw [this]
      simp
    · simp only [if_neg hc]
  | succ J ih =>
    obtain ⟨ihl, ihr⟩ := ih
    obtain ⟨hl, hr⟩ := forLoop_add_block (r * n ^ d) (n ^ d) alpha T
      (fun t => kron_dispatch n d (A (pntr.getD r 0 + J) t)
        (fun i => rd x (indx.getD (pntr.getD r 0 + J) 0 * n ^ d + i)))
      (forLoop J
        (fun jj acc =>
          let j := pntr.getD r 0 + jj
          let c := indx.getD j 0
          forLoop T
            (fun t acc =>
              add_block (r * n ^ d) (n ^ d) alpha
                (kron_dispatch n d (A j t) (fun i => rd x (c * n ^ d + i))) acc)
            acc)
        (scale_block (r * n ^ d) (n ^ d) beta y))
    refine ⟨by rw [forLoop_succ]; exact hl.trans ihl, fun idx => ?_⟩
    rw [forLoop_succ]
    refine (hr idx).trans ?_
    rw [ihl, ihr]
    by_cases hc : r * n ^ d ≤ idx ∧ idx < r * n ^ d + n ^ d ∧ idx < y.length
    · simp only [if_pos hc]
      rw [Finset.sum_range_succ]
      have hi : idx - r * n ^ d < n ^ d := by omega
      have hdisp : Finset.sum (Finset.range T) (fun t =>
            kron_dispatch n d (A (pntr.getD r 0 + J) t)
              (fun i => rd x (indx.getD (pntr.getD r 0 + J) 0 * n ^ d + i)) (idx - r * n ^ d))
          = Finset.sum (Finset.range T) (fun t =>
            Finset.sum (Finset.range (n ^ d)) (fun j =>
              kron_entry n d (A (pntr.getD r 0 + J) t) (idx - r * n ^ d) j *
                rd x (indx.getD (pntr.getD r 0 + J) 0 * n ^ d + j))) := by
        apply Finset.sum_congr rfl
        intro t _
        exact kron_dispatch_eq n d hn _ _ _ hi
      rw [hdisp]
      ring
    · simp only [if_neg hc]

theorem kron_reference_congr (n d T : Nat) (pntr indx : List Nat)
    (A : Nat → Nat → Nat → Nat → Nat → ℚ) (alpha : ℚ) (x : List ℚ) (beta : ℚ)
    (y y2 : List ℚ) (r i : Nat) (h : rd y2 (r * n ^ d + i) = rd y (r * n ^ d + i)) :
    kron_reference n d T pntr indx A alpha x beta y2 r i
      = kron_reference n d T pntr indx A alpha x beta y r i := by
  unfold kron_reference
  rw [h]

/-- After the first `R` row blocks have been worked through, the entries of those
blocks hold their reference values and the rest of `y` is untouched. -/
theorem local_kronmult_rows (n d T : Nat) (hn : 0 < n) (pntr indx : List Nat)
    (A : Nat → Nat → Nat → Nat → Nat → ℚ) (alpha : ℚ) (x : List ℚ) (beta : ℚ)
    (y : List ℚ) (R : Nat) :
    (forLoop R (fun r acc => local_kronmult_row n d T pntr indx A alpha x beta r acc) y).length
      = y.length ∧
    ∀ idx,
      rd (forLoop R (fun r acc => local_kronmult_row n d T pntr indx A alpha x beta r acc) y) idx
        = if idx < R * n ^ d ∧ idx < y.length then
            kron_reference n d T pntr indx A alpha x beta y (idx / n ^ d) (idx % n ^ d)
          else rd y idx := by
  have hN : 0 < n ^ d := pow_pos hn d
  induction R with
  | zero =>
    refine ⟨rfl, fun idx => ?_⟩
    rw [forLoop_zero, if_neg (by omega)]
  | succ R ih =>
    obtain ⟨ihl, ihr⟩ := ih
    obtain ⟨hl, hr⟩ := local_kronmult_row_spec n d T hn pntr indx A alpha x beta R
      (forLoop R (fun r acc => local_kronmult_row n d T pntr indx A alpha x beta r acc) y)
    refine ⟨by rw [forLoop_succ]; exact hl.trans ihl, fun idx => ?_⟩
    rw [forLoop_succ]
    refine (hr idx).trans ?_
    rw [ihl]
    by_cases hc : R * n ^ d ≤ idx ∧ idx < R * n ^ d + n ^ d ∧ idx < y.length
    · have hdiv : idx / n ^ d = R := by
        apply Nat.div_eq_of_lt_le
        · exact hc.1
        · rw [Nat.succ_mul]; exact hc.2.1
      have hmod : idx % n ^ d = idx - R * n ^ d := by
        have := Nat.div_add_mod idx (n ^ d)
        rw [hdiv, Nat.mul_comm] at this
        omega
      rw [if_pos hc, if_pos ⟨by rw [Nat.succ_mul]; exact hc.2.1, hc.2.2⟩, hdiv, hmod]
      apply kron_reference_congr
      rw [ihr, if_neg (by omega)]
    · rw [if_neg hc, ihr]
      by_cases hc2 : idx < R * n ^ d ∧ idx < y.length
      · rw [if_pos hc2, if_pos ⟨by rw [Nat.succ_mul]; omega, hc2.2⟩]
      · rw [if_neg hc2, if_neg]
        rw [Nat.succ_mul]
        omega

/-- C5: for an operator of block degree `n >= 1` in `d` dimensions (any `d`, so
every `d` in `1..6`) with `T` terms and any block sparsity pattern, the local
kronmult `apply(alpha, x, beta, y)` leaves at every offset `i < n^d` of every row
block `r` (when `y` holds that block) the value `beta * y_r + alpha *` the sum
over the column blocks `c` of the pattern and the terms `t` of the explicit
Kronecker product of the `A_{t,k}[r,c]` applied to `x_c`, blocks being length
`n^d` slabs in tensor order; the length of `y` is unchanged. -/
theorem local_kronmult_apply_spec (n d T : Nat) (pntr indx : List Nat)
    (A : Nat → Nat → Nat → Nat → Nat → ℚ) (alpha : ℚ) (x : List ℚ) (beta : ℚ)
    (y : List ℚ) (r i : Nat) (hn : 0 < n) (hr : r < pntr.length - 1) (hi : i < n ^ d)
    (hy : (r + 1) * n ^ d ≤ y.length) :
    (local_kronmult_apply n d T pntr indx A alpha x beta y).length = y.length ∧
    rd (local_kronmult_apply n d T pntr indx A alpha x beta y) (r * n ^ d + i)
      = kron_reference n d T pntr indx A alpha x beta y r i := by
  unfold local_kronmult_apply
  obtain ⟨hl, hrd⟩ := local_kronmult_rows n d T hn pntr indx A alpha x beta y (pntr.length - 1)
  refine ⟨hl, ?_⟩
  have hN : 0 < n ^ d := pow_pos hn d
  have h1 : r * n ^ d + i < (pntr.length - 1) * n ^ d := by
    calc r * n ^ d + i < r * n ^ d + n ^ d := by omega
      _ = (r + 1) * n ^ d := by rw [Nat.succ_mul]
      _ ≤ (pntr.length - 1) * n ^ d := Nat.mul_le_mul_right _ hr
  have h2 : r * n ^ d + i < y.length := by
    have : r * n ^ d + i < (r + 1) * n ^ d := by rw [Nat.succ_mul]; omega
    omega
  rw [hrd, if_pos ⟨h1, h2⟩]
  have hdiv : (r * n ^ d + i) / n ^ d = r := by
    rw [Nat.add_comm, Nat.add_mul_div_right _ _ hN, Nat.div_eq_of_lt hi, Nat.zero_add]
  have hmod : (r * n ^ d + i) % n ^ d = i := by
    rw [Nat.add_comm, Nat.add_mul_mod_self_right, Nat.mod_eq_of_lt hi]
  rw [hdiv, hmod]

/-- C5 at one 2 x 2 block in two dimensions with one term, the operators of the
test "testing reference methods" (`B = {10, 20, 30, 40}` along dimension 1,
`A = {1, 2, 3, 4}` along dimension 2, column-major) and `x = e_0`: `apply` returns
the first column `(10, 20, 20, 40)` of the Kronecker product the test expects. -/
theorem local_kronmult_apply_spec_witness :
    0 < 2 ∧ 0 < ([0, 1] : List Nat).length - 1 ∧ 1 < 2 ^ 2 ∧
    (0 + 1) * 2 ^ 2 ≤ ([0, 0, 0, 0] : List ℚ).length ∧
    local_kronmult_apply 2 2 1 [0, 1] [0] kron_test_ops 1 [1, 0, 0, 0] 1 [0, 0, 0, 0]
      = [10, 20, 20, 40] ∧
    (local_kronmult_apply 2 2 1 [0, 1] [0] kron_test_ops 1 [1, 0, 0, 0] 1 [0, 0, 0, 0]).length
      = ([0, 0, 0, 0] : List ℚ).length ∧
    rd (local_kronmult_apply 2 2 1 [0, 1] [0] kron_test_ops 1 [1, 0, 0, 0] 1 [0, 0, 0, 0])
        (0 * 2 ^ 2 + 1)
      = kron_reference 2 2 1 [0, 1] [0] kron_test_ops 1 [1, 0, 0, 0] 1 [0, 0, 0, 0] 0 1 :=
  ⟨by decide, by decide, by decide, by decide, by decide!,
   local_kronmult_apply_spec 2 2 1 [0, 1] [0] kron_test_ops 1 [1, 0, 0, 0] 1 [0, 0, 0, 0] 0 1
     (by decide) (by decide) (by decide) (by decide)⟩


/-- C11: a call of `simple_gmres` or of `bicgstab` with a tolerance that is not the
"unset" sentinel and lies below the machine epsilon of the precision is
rejected by the first check (`expect(tolerance >= epsilon)`): the call ends
there with `x` as it was passed in and neither the operator nor the
preconditioner applied. -/
theorem tolerance_below_epsilon_rejected (ext : externals)
    (mat : ℚ → List ℚ → ℚ → List ℚ → List ℚ) (x b : List ℚ)
    (precondition : List ℚ → List ℚ) (restart max_outer max_iter : Int) (tol : ℚ)
    (hset : tol ≠ ext.NO_USER_VALUE_FP) (hlow : tol < ext.epsilon) :
    simple_gmres ext mat x b precondition restart max_outer tol
      = ⟨x, 0, 0, Except.error solver_error.expect_failed⟩ ∧
    bicgstab ext mat x b precondition max_iter tol
      = ⟨x, 0, 0, Except.error solver_error.expect_failed⟩ := by
  have heff : effective_tolerance ext tol = tol := by
    unfold effective_tolerance
    rw [if_neg hset]
  have hnot : ¬ (effective_tolerance ext tol ≥ ext.epsilon) := by
    rw [heff]; exact not_le.mpr hlow
  constructor
  · unfold simple_gmres
    simp only [hnot, not_false_eq_true, if_true]
  · unfold bicgstab
    simp only [hnot, not_false_eq_true, if_true]

/-- C11 at `tol = 2^-60` in double precision (epsilon `2^-52`) on the 1 x 1 system
`2 x = 1`. -/
theorem tolerance_below_epsilon_rejected_witness :
    (1 / 2 ^ 60 : ℚ) ≠ ext_example.NO_USER_VALUE_FP ∧
    (1 / 2 ^ 60 : ℚ) < ext_example.epsilon ∧
    simple_gmres ext_example (dense_matrix_wrapper [[2]]) [0] [1] no_op_preconditioner 1 1
        (1 / 2 ^ 60)
      = ⟨[0], 0, 0, Except.error solver_error.expect_failed⟩ ∧
    bicgstab ext_example (dense_matrix_wrapper [[2]]) [0] [1] no_op_preconditioner 1
        (1 / 2 ^ 60)
      = ⟨[0], 0, 0, Except.error solver_error.expect_failed⟩ :=
  ⟨by decide!, by decide!,
   tolerance_below_epsilon_rejected ext_example (dense_matrix_wrapper [[2]]) [0] [1]
     no_op_preconditioner 1 1 1 (1 / 2 ^ 60) (by decide!) (by decide!)⟩

theorem trunc_int_of_nonneg (q : ℚ) (hq : 0 ≤ q) : trunc_int q = Int.floor q := by
  unfold trunc_int
  rw [if_pos hq]

/-- C12 (amended): for every `n >= 1`, with `get_MB<P>` converting as `size_MB`
does (`bytes * 1e-6`), `default_gmres_restarts<P>(n)` equals
`clamp(⌊512 * 10^6 / (sizeof(P) * n)⌋, min(10, n), min(200, n))`: the 512 of the
code are decimal megabytes, `512 * 10^6` bytes. -/
theorem default_gmres_restarts_decimal (ext : externals) (n : Int) (hn : 1 ≤ n)
    (hMB : ext.get_MB = get_MB_of ext.is_float) :
    default_gmres_restarts ext n = default_restart_MB ext.is_float n := by
  unfold default_gmres_restarts default_restart_MB
  simp only
  have hnq : (0 : ℚ) < (n : ℚ) := by exact_mod_cast (by omega : (0 : Int) < n)
  have hsz : (0 : ℚ) < (sizeof_P ext.is_float : ℚ) := by
    unfold sizeof_P
    split <;> norm_num
  have hval : (512 : ℚ) / ext.get_MB n
      = (512 * 10 ^ 6 : ℚ) / ((sizeof_P ext.is_float : ℚ) * (n : ℚ)) := by
    rw [hMB]
    unfold get_MB_of
    field_simp
    ring
  rw [hval, trunc_int_of_nonneg]
  positivity

/-- C12 (counterexample): in double precision with `n = 400000` the code returns
`160 = ⌊512 * 10^6 / (8 * 400000)⌋`, while the value with `512 MiB = 512 * 2^20`
bytes is `167`. -/
theorem default_gmres_restarts_not_MiB :
    ext_example.get_MB = get_MB_of ext_example.is_float ∧
    default_gmres_restarts ext_example 400000 = 160 ∧
    default_restart_MiB ext_example.is_float 400000 = 167 := by
  refine ⟨?_, by decide!, by decide!⟩
  funext n
  simp [ext_example, get_MB_of, sizeof_P]

/-- C12 (amended) at `n = 400000` in double precision. -/
theorem default_gmres_restarts_decimal_witness :
    (1 : Int) ≤ 400000 ∧ ext_example.get_MB = get_MB_of ext_example.is_float ∧
    default_gmres_restarts ext_example 400000 = default_restart_MB ext_example.is_float 400000 ∧
    default_restart_MB ext_example.is_float 400000 = 160 :=
  have hMB : ext_example.get_MB = get_MB_of ext_example.is_float := by
    funext n
    simp [ext_example, get_MB_of, sizeof_P]
  ⟨by decide, hMB, default_gmres_restarts_decimal ext_example 400000 (by decide) hMB,
   by decide!⟩


/-- C17 (counterexample): for the subgrid of 3 rows and 2 columns of a one-term
PDE of degree 2 in 2 dimensions the pointer lists of `execute` hold 30 slots in
total, not `4 * 3 * 2 * 1 = 24`: `operator_ptrs` alone holds `d = 2` slots for
each of the 6 products. -/
theorem execute_pointer_slots_not_four :
    subgrid_3x2.nrows = 3 ∧ subgrid_3x2.ncols = 2 ∧ pde_deg2_dim2.num_terms = 1 ∧
    total_allocated alloc_kind.pointer (execute_allocations pde_deg2_dim2 subgrid_3x2) = 30 ∧
    4 * (subgrid_3x2.nrows * subgrid_3x2.ncols * pde_deg2_dim2.num_terms) = 24 := by
  decide

/-- C17 (amended): for one subgrid with `rowBlocks` rows, `colBlocks` columns, `T`
terms, `d` dimensions and degree `n` the per-subgrid `execute` allocates exactly
two buffers of precision units, each of `rowBlocks * colBlocks * T * n^d`
entries, and four pointer lists totalling `(3 + d) * rowBlocks * colBlocks * T`
slots: three lists of `rowBlocks * colBlocks * T` slots and the operator list of
`d` times as many. -/
theorem execute_allocations_spec (pde : PDE) (g : element_subgrid) :
    (execute_allocations pde g).filter (fun a => a.1 = alloc_kind.precision)
      = [(alloc_kind.precision, g.nrows * g.ncols * pde.num_terms * pde.degree ^ pde.num_dims),
         (alloc_kind.precision, g.nrows * g.ncols * pde.num_terms * pde.degree ^ pde.num_dims)] ∧
    ((execute_allocations pde g).filter (fun a => a.1 = alloc_kind.pointer)).length = 4 ∧
    total_allocated alloc_kind.pointer (execute_allocations pde g)
      = (3 + (pde.num_dims : Int)) * (g.nrows * g.ncols * pde.num_terms) := by
  refine ⟨?_, ?_, ?_⟩
  · simp [execute_allocations, element_subgrid.size, List.filter]
    ring
  · simp [execute_allocations, List.filter]
  · simp [total_allocated, execute_allocations, element_subgrid.size, List.filter]
    ring

theorem get_num_subgrids_of_empty (get_MB : Int → ℚ) (pde : PDE) (g : element_subgrid)
    (ws : Int) (h : g.size = 0) : get_num_subgrids get_MB pde g ws = 0 := by
  unfold get_num_subgrids
  simp [h, trunc_int]

/-- C18 (counterexample): for the subgrid with the empty row range `0..-1` (and
columns `0..9`) the public `execute` ends in a failed assertion, the
`assert(grid.size() > 0)` of `get_num_subgrids`; it does not return a result. -/
theorem execute_empty_rows_asserts :
    subgrid_no_rows.nrows = 0 ∧
    execute_calls get_MB_double pde_deg2_dim2 subgrid_no_rows 1000
      = Except.error kron_failure.assertion_failed := by
  refine ⟨by decide, ?_⟩
  have hna : ¬ get_num_subgrids_asserts get_MB_double pde_deg2_dim2 subgrid_no_rows 1000 := by
    intro h
    have h1 := h.1
    revert h1
    decide
  unfold execute_calls decompose_checked
  simp only [hna, not_false_eq_true, if_true]
  norm_num

/-- C18 (amended): for a subgrid whose row range or column range is empty the
public `execute` does not return: `assert(grid.size() > 0)` of
`get_num_subgrids`, reached through `decompose`, fails (or the assertion on the
workspace size before it). Were the assertions compiled out, `get_num_subgrids`
would return 0 and `decompose` would divide `my_subgrid.size()` by it. -/
theorem execute_empty_range_asserts (get_MB : Int → ℚ) (pde : PDE) (g : element_subgrid)
    (ws : Int) (h : g.nrows = 0 ∨ g.ncols = 0) :
    execute_calls get_MB pde g ws = Except.error kron_failure.assertion_failed ∧
    ¬ get_num_subgrids_asserts get_MB pde g ws ∧
    get_num_subgrids get_MB pde g ws = 0 := by
  have hsize : g.size = 0 := by
    unfold element_subgrid.size
    rcases h with h | h <;> simp [h]
  have hna : ¬ get_num_subgrids_asserts get_MB pde g ws := by
    intro ha
    have h1 := ha.1
    omega
  refine ⟨?_, hna, get_num_subgrids_of_empty get_MB pde g ws hsize⟩
  unfold execute_calls decompose_checked
  by_cases hws : ws > 0
  · simp only [hws, not_true_eq_false, if_false, hna, not_false_eq_true, if_true]
  · simp only [hws, not_false_eq_true, if_true]

/-- C18 (amended) at the subgrid with rows `0..-1`. -/
theorem execute_empty_range_asserts_witness :
    (subgrid_no_rows.nrows = 0 ∨ subgrid_no_rows.ncols = 0) ∧
    execute_calls get_MB_double pde_deg2_dim2 subgrid_no_rows 1000
      = Except.error kron_failure.assertion_failed ∧
    ¬ get_num_subgrids_asserts get_MB_double pde_deg2_dim2 subgrid_no_rows 1000 ∧
    get_num_subgrids get_MB_double pde_deg2_dim2 subgrid_no_rows 1000 = 0 :=
  ⟨Or.inl (by decide),
   execute_empty_range_asserts get_MB_double pde_deg2_dim2 subgrid_no_rows 1000
     (Or.inl (by decide))⟩


theorem execute_calls_ok (get_MB : Int → ℚ) (pde : PDE) (g : element_subgrid) (ws : Int)
    (calls : List (element_subgrid × vector_view × vector_view))
    (h : execute_calls get_MB pde g ws = Except.ok calls) :
    calls = (decompose get_MB pde g ws).map (fun grid =>
      (grid, (execute_views g grid (pde.degree ^ pde.num_dims)).1,
        (execute_views g grid (pde.degree ^ pde.num_dims)).2)) := by
  unfold execute_calls decompose_checked at h
  split_ifs at h with h1 h2
  · simp only at h
    split_ifs at h with h3
    exact (Except.ok.inj h).symm

theorem view_is_union_of_blocks (D r0 r1 i : Int) (hD : 0 ≤ D) :
    (r0 * D ≤ i ∧ i ≤ (r1 + 1) * D - 1) ↔
      ∃ r : Int, r0 ≤ r ∧ r ≤ r1 ∧ r * D ≤ i ∧ i < (r + 1) * D := by
  constructor
  · rintro ⟨h1, h2⟩
    have hDpos : 0 < D := by
      by_contra hn
      have : D = 0 := by omega
      subst this
      simp at h1 h2
      omega
    refine ⟨i / D, ?_, ?_, ?_, ?_⟩
    · exact (Int.le_ediv_iff_mul_le hDpos).mpr h1
    · have : i / D < r1 + 1 := (Int.ediv_lt_iff_lt_mul hDpos).mpr (by omega)
      omega
    · exact Int.ediv_mul_le i (by omega)
    · have := Int.lt_ediv_add_one_mul_self i hDpos
      linarith
  · rintro ⟨r, h1, h2, h3, h4⟩
    constructor
    · nlinarith
    · have : (r + 1) * D ≤ (r1 + 1) * D := by nlinarith
      omega

/-- C19: every call `(tile, x view, fx view)` that the public `execute` makes of
the per-subgrid `execute` has an input view of `tile.ncols * n^d` entries and an
output view of `tile.nrows * n^d` entries, so both size assertions of the
per-subgrid `execute` hold; and (degree `n >= 0`) an index lies in the output
view exactly if it lies in one of the blocks `[r * n^d, (r + 1) * n^d)` of the
local rows `r0 <= r <= r1` of the tile. -/
theorem execute_views_spec (get_MB : Int → ℚ) (pde : PDE) (g : element_subgrid) (ws : Int)
    (calls : List (element_subgrid × vector_view × vector_view))
    (hdeg : 0 ≤ pde.degree)
    (hok : execute_calls get_MB pde g ws = Except.ok calls)
    (tile : element_subgrid) (x fx : vector_view) (hmem : (tile, x, fx) ∈ calls) :
    tile ∈ decompose get_MB pde g ws ∧
    x.size = tile.ncols * pde.degree ^ pde.num_dims ∧
    fx.size = tile.nrows * pde.degree ^ pde.num_dims ∧
    execute_size_asserts pde tile x fx ∧
    ∀ i : Int, (fx.start ≤ i ∧ i ≤ fx.stop) ↔
      ∃ r : Int, g.to_local_row tile.row_start ≤ r ∧ r ≤ g.to_local_row tile.row_stop ∧
        r * pde.degree ^ pde.num_dims ≤ i ∧ i < (r + 1) * pde.degree ^ pde.num_dims := by
  rw [execute_calls_ok get_MB pde g ws calls hok] at hmem
  obtain ⟨grid, hgrid, heq⟩ := List.mem_map.mp hmem
  simp only [Prod.mk.injEq] at heq
  obtain ⟨h1, h2, h3⟩ := heq
  subst h1
  have hx : x.size = grid.ncols * pde.degree ^ pde.num_dims := by
    rw [← h2]
    simp only [execute_views, vector_view.size, element_subgrid.to_local_col,
      element_subgrid.ncols]
    ring
  have hfx : fx.size = grid.nrows * pde.degree ^ pde.num_dims := by
    rw [← h3]
    simp only [execute_views, vector_view.size, element_subgrid.to_local_row,
      element_subgrid.nrows]
    ring
  refine ⟨hgrid, hx, hfx, ⟨hfx.symm, hx.symm⟩, ?_⟩
  intro i
  rw [← h3]
  simp only [execute_views]
  exact view_is_union_of_blocks _ _ _ i (pow_nonneg hdeg _)

theorem get_num_subgrids_3x2 :
    get_num_subgrids get_MB_double pde_deg2_dim2 subgrid_3x2 1000 = 1 := by
  norm_num [get_num_subgrids, get_element_size_MB, remaining_rank_MB, element_segment_size,
    get_MB_double, pde_deg2_dim2, subgrid_3x2, element_subgrid.size, element_subgrid.nrows,
    element_subgrid.ncols, trunc_int]
  have hc : Int.ceil ((16 : ℚ) / 15625) = 1 := by
    rw [Int.ceil_eq_iff]; norm_num
  norm_num [hc]
  rw [Int.ceil_eq_iff]; norm_num

theorem get_num_subgrids_asserts_3x2 :
    get_num_subgrids_asserts get_MB_double pde_deg2_dim2 subgrid_3x2 1000 := by
  have hc : Int.ceil ((16 : ℚ) / 15625) = 1 := by
    rw [Int.ceil_eq_iff]; norm_num
  norm_num [get_num_subgrids_asserts, get_element_size_MB, remaining_rank_MB,
    element_segment_size, get_MB_double, pde_deg2_dim2, subgrid_3x2, element_subgrid.size,
    element_subgrid.nrows, element_subgrid.ncols, trunc_int, hc]

theorem execute_calls_3x2 :
    execute_calls get_MB_double pde_deg2_dim2 subgrid_3x2 1000
      = Except.ok [(subgrid_3x2, ⟨0, 7⟩, ⟨0, 11⟩)] := by
  unfold execute_calls decompose_checked
  have h2 : (1000 : Int) > 0 := by decide
  simp only [h2, get_num_subgrids_asserts_3x2, not_true_eq_false, if_false]
  have h3 : subgrid_3x2.nrows * pde_deg2_dim2.degree ^ pde_deg2_dim2.num_dims < 2147483647 := by
    decide
  simp only [h3, not_true_eq_false, if_false, decompose, get_num_subgrids_3x2, if_true]
  congr 1

/-- C19 at the subgrid of rows `0..2` and columns `0..1` with degree 2 in 2
dimensions, which `decompose` leaves in one piece: the input view holds
`2 * 4` entries and the output view `3 * 4`. -/
theorem execute_views_spec_witness :
    (0 : Int) ≤ pde_deg2_dim2.degree ∧
    execute_calls get_MB_double pde_deg2_dim2 subgrid_3x2 1000
      = Except.ok [(subgrid_3x2, ⟨0, 7⟩, ⟨0, 11⟩)] ∧
    (⟨0, 7⟩ : vector_view).size = subgrid_3x2.ncols * pde_deg2_dim2.degree ^ pde_deg2_dim2.num_dims ∧
    (⟨0, 11⟩ : vector_view).size = subgrid_3x2.nrows * pde_deg2_dim2.degree ^ pde_deg2_dim2.num_dims ∧
    execute_size_asserts pde_deg2_dim2 subgrid_3x2 ⟨0, 7⟩ ⟨0, 11⟩ :=
  have h := execute_views_spec get_MB_double pde_deg2_dim2 subgrid_3x2 1000 _ (by decide)
    execute_calls_3x2 subgrid_3x2 ⟨0, 7⟩ ⟨0, 11⟩ (List.mem_singleton.mpr rfl)
  ⟨by decide, execute_calls_3x2, h.2.1, h.2.2.1, h.2.2.2.1⟩


theorem rot_entries_length (v : List ℚ) (i j : Nat) (c s : ℚ) :
    (rot_entries v i j c s).length = v.length := by
  simp [rot_entries]

theorem gmres_inner_body_residual (ext : externals) (mat : ℚ → List ℚ → ℚ → List ℚ → List ℚ)
    (precondition : List ℚ → List ℚ) (tolerance : ℚ) (restart print_freq : Nat)
    (st st2 : gmres_state)
    (hb : gmres_inner_body ext mat precondition tolerance restart print_freq st
      = loop_step.next st2)
    (hs : st.inner_iterations + 1 < st.krylov_sol.length) :
    st2.inner_iterations = st.inner_iterations + 1 ∧
    st2.krylov_sol.length = st.krylov_sol.length ∧
    st2.inner_res = |rd st2.sines st.inner_iterations| * |rd st.krylov_sol st.inner_iterations| ∧
    (st2.inner_res > tolerance → st.inner_iterations < restart →
      |rd st2.krylov_sol (st.inner_iterations + 1)| = st2.inner_res) := by
  unfold gmres_inner_body at hb
  by_cases hp : print_freq = 0
  · simp only [hp, if_true] at hb
    cases hb
  · simp only [hp, if_false] at hb
    have h := loop_step.next.inj hb
    subst h
    refine ⟨rfl, ?_, ?_, ?_⟩
    · simp only
      split
      · rw [rot_entries_length, List.length_set]
      · rfl
    · simp only
      rw [abs_mul]
    · simp only
      intro hgt hr
      rw [if_pos ⟨hgt, hr⟩]
      unfold rot_entries
      rw [rd_set, if_pos ⟨rfl, by rw [List.length_set, List.length_set]; exact hs⟩]
      rw [rd_set (st.krylov_sol) (st.inner_iterations + 1) (st.inner_iterations + 1),
        if_pos ⟨rfl, hs⟩]
      rw [rd_set (st.krylov_sol) (st.inner_iterations + 1) (st.inner_iterations),
        if_neg (by omega)]
      rw [mul_zero, zero_sub, abs_neg]

/-- The invariant of the inner loop behind the residual recurrence: after `k`
passes the counter is `k` more, the length of `krylov_sol` is as before, and, if the loop goes on, `|krylov_sol[inner_iterations]|` is the
residual `inner_res` of the pass before. -/
theorem gmres_inner_reach_invariant (ext : externals)
    (mat : ℚ → List ℚ → ℚ → List ℚ → List ℚ) (precondition : List ℚ → List ℚ)
    (tolerance : ℚ) (restart print_freq : Nat) (st0 : gmres_state)
    (hsol : restart < st0.krylov_sol.length)
    (h0 : |rd st0.krylov_sol st0.inner_iterations| = st0.inner_res) :
    ∀ (k : Nat) (stk : gmres_state),
      gmres_inner_reach ext mat precondition tolerance restart print_freq k st0 = some stk →
      stk.inner_iterations = st0.inner_iterations + k ∧
      stk.krylov_sol.length = st0.krylov_sol.length ∧
      (stk.inner_res > tolerance →
        |rd stk.krylov_sol stk.inner_iterations| = stk.inner_res) := by
  intro k
  induction k with
  | zero =>
    intro stk h
    have h1 : st0 = stk := Option.some.inj h
    subst h1
    exact ⟨rfl, rfl, fun _ => h0⟩
  | succ k ih =>
    intro stk1 h
    unfold gmres_inner_reach at h
    cases hk : gmres_inner_reach ext mat precondition tolerance restart print_freq k st0 with
    | none => rw [hk] at h; cases h
    | some stk =>
      rw [hk] at h
      simp only at h
      obtain ⟨hi, hl2, -⟩ := ih stk hk
      by_cases hc : stk.inner_res > tolerance ∧ stk.inner_iterations < restart
      · rw [if_pos hc] at h
        cases hb : gmres_inner_body ext mat precondition tolerance restart print_freq stk with
        | done r => rw [hb] at h; cases h
        | next st2 =>
          rw [hb] at h
          have h2 : st2 = stk1 := Option.some.inj h
          subst h2
          obtain ⟨g1, g3, -, g5⟩ := gmres_inner_body_residual ext mat precondition
            tolerance restart print_freq stk st2 hb (by omega)
          refine ⟨by omega, by omega, ?_⟩
          intro hgt
          rw [g1]
          exact g5 hgt hc.2
      · rw [if_neg hc] at h
        cases h

/-- The states of `gmres_inner_reach` are those the inner loop runs through: if
`k` passes lead to `stk`, the loop with fuel `k + m` goes on from `stk` with
fuel `m`. -/
theorem gmres_inner_loop_of_reach (ext : externals)
    (mat : ℚ → List ℚ → ℚ → List ℚ → List ℚ) (precondition : List ℚ → List ℚ)
    (tolerance : ℚ) (restart print_freq : Nat) (st0 : gmres_state) :
    ∀ (k m : Nat) (stk : gmres_state),
      gmres_inner_reach ext mat precondition tolerance restart print_freq k st0 = some stk →
      gmres_inner_loop ext mat precondition tolerance restart print_freq (k + m) st0
        = gmres_inner_loop ext mat precondition tolerance restart print_freq m stk := by
  intro k
  induction k with
  | zero =>
    intro m stk h
    have h1 : st0 = stk := Option.some.inj h
    subst h1
    rw [Nat.zero_add]
  | succ k ih =>
    intro m stk1 h
    unfold gmres_inner_reach at h
    cases hk : gmres_inner_reach ext mat precondition tolerance restart print_freq k st0 with
    | none => rw [hk] at h; cases h
    | some stk =>
      rw [hk] at h
      simp only at h
      by_cases hc : stk.inner_res > tolerance ∧ stk.inner_iterations < restart
      · rw [if_pos hc] at h
        cases hb : gmres_inner_body ext mat precondition tolerance restart print_freq stk with
        | done r => rw [hb] at h; cases h
        | next st2 =>
          rw [hb] at h
          have h2 : st2 = stk1 := Option.some.inj h
          subst h2
          have e : k + 1 + m = k + (m + 1) := by omega
          rw [e, ih (m + 1) stk hk]
          conv_lhs => unfold gmres_inner_loop
          rw [if_pos hc, hb]
      · rw [if_neg hc] at h
        cases h

/-- C15: within one outer iteration of `simple_gmres` (entered in a state whose
vector `krylov_sol` holds `restart + 1` entries, with a non-negative norm `beta`
of the first residual), the residual `inner_res` after pass `k + 1`
of the inner loop is `|sines[k]|` times the one after pass `k`, the one after
pass 0 being `beta`; so wherever the rotation of pass `k` has
`c^2 + s^2 = 1` the residual does not increase. -/
theorem gmres_inner_residual_recurrence (ext : externals)
    (mat : ℚ → List ℚ → ℚ → List ℚ → List ℚ) (precondition : List ℚ → List ℚ)
    (b : List ℚ) (tolerance : ℚ) (restart print_freq : Nat) (st : gmres_state)
    (hsol : restart < st.krylov_sol.length)
    (hnrm : 0 ≤ ext.nrm2 (precondition (mat (-1) st.x 1 b)))
    (k : Nat) (stk1 : gmres_state)
    (hreach : gmres_inner_reach ext mat precondition tolerance restart print_freq (k + 1)
      (gmres_outer_start ext mat precondition b st) = some stk1) :
    (gmres_outer_start ext mat precondition b st).inner_res
      = ext.nrm2 (precondition (mat (-1) st.x 1 b)) ∧
    ∃ stk : gmres_state,
      gmres_inner_reach ext mat precondition tolerance restart print_freq k
        (gmres_outer_start ext mat precondition b st) = some stk ∧
      stk1.inner_res = |rd stk1.sines k| * stk.inner_res ∧
      0 ≤ stk1.inner_res ∧
      ((rd stk1.cosines k) ^ 2 + (rd stk1.sines k) ^ 2 = 1 → stk1.inner_res ≤ stk.inner_res) := by
  refine ⟨rfl, ?_⟩
  have hsol0 : restart < (gmres_outer_start ext mat precondition b st).krylov_sol.length := by
    simp only [gmres_outer_start, List.length_set]
    exact hsol
  have h0 : |rd (gmres_outer_start ext mat precondition b st).krylov_sol
      (gmres_outer_start ext mat precondition b st).inner_iterations|
      = (gmres_outer_start ext mat precondition b st).inner_res := by
    simp only [gmres_outer_start]
    rw [rd_set, if_pos ⟨rfl, by omega⟩]
    exact abs_of_nonneg hnrm
  have hinv := gmres_inner_reach_invariant ext mat precondition tolerance restart print_freq
    (gmres_outer_start ext mat precondition b st) hsol0 h0
  unfold gmres_inner_reach at hreach
  cases hk : gmres_inner_reach ext mat precondition tolerance restart print_freq k
      (gmres_outer_start ext mat precondition b st) with
  | none => rw [hk] at hreach; cases hreach
  | some stk =>
    rw [hk] at hreach
    simp only at hreach
    obtain ⟨hi, hl2, habs⟩ := hinv k stk hk
    have hi0 : stk.inner_iterations = k := by
      rw [hi]
      simp [gmres_outer_start]
    by_cases hc : stk.inner_res > tolerance ∧ stk.inner_iterations < restart
    · rw [if_pos hc] at hreach
      cases hb : gmres_inner_body ext mat precondition tolerance restart print_freq stk with
      | done r => rw [hb] at hreach; cases hreach
      | next st2 =>
        rw [hb] at hreach
        have h2 : st2 = stk1 := Option.some.inj hreach
        subst h2
        obtain ⟨-, -, g4, -⟩ := gmres_inner_body_residual ext mat precondition
          tolerance restart print_freq stk st2 hb (by omega)
        rw [habs hc.1, hi0] at g4
        have hres : 0 ≤ stk.inner_res := by
          rw [← habs hc.1]
          exact abs_nonneg _
        refine ⟨stk, rfl, g4, ?_, ?_⟩
        · rw [g4]
          exact mul_nonneg (abs_nonneg _) hres
        · intro hcs
          have hs1 : |rd st2.sines k| ≤ 1 := by
            rw [abs_le_one_iff_mul_self_le_one]
            nlinarith [sq_nonneg (rd st2.cosines k)]
          rw [g4]
          calc |rd st2.sines k| * stk.inner_res ≤ 1 * stk.inner_res :=
                mul_le_mul_of_nonneg_right hs1 hres
            _ = stk.inner_res := one_mul _
    · rw [if_neg hc] at hreach
      cases hreach

/-- C15 at the first pass of the inner loop for the rotation `rot3`, right-hand
side `e1`, `x = 0` and `restart = 3`: `beta = 1`, the rotation of the pass has
`c = 3/5`, `s = 4/5`, and the residual after the pass is `4/5`. -/
theorem gmres_inner_residual_recurrence_witness :
    3 < (gmres_init [0, 0, 0] 3 3 (1 / 10 ^ 10)).krylov_sol.length ∧
    0 ≤ ext_example.nrm2 (no_op_preconditioner (dense_matrix_wrapper rot3 (-1)
      (gmres_init [0, 0, 0] 3 3 (1 / 10 ^ 10)).x 1 [1, 0, 0])) ∧
    ∃ s1 : gmres_state,
      gmres_inner_reach ext_example (dense_matrix_wrapper rot3) no_op_preconditioner
        (1 / 10 ^ 10) 3 1 1
        (gmres_outer_start ext_example (dense_matrix_wrapper rot3) no_op_preconditioner
          [1, 0, 0] (gmres_init [0, 0, 0] 3 3 (1 / 10 ^ 10))) = some s1 ∧
      (rd s1.cosines 0) ^ 2 + (rd s1.sines 0) ^ 2 = 1 ∧
      s1.inner_res = 4 / 5 ∧
      s1.inner_res ≤ (gmres_outer_start ext_example (dense_matrix_wrapper rot3)
        no_op_preconditioner [1, 0, 0] (gmres_init [0, 0, 0] 3 3 (1 / 10 ^ 10))).inner_res := by
  have hsome : (gmres_inner_reach ext_example (dense_matrix_wrapper rot3) no_op_preconditioner
        (1 / 10 ^ 10) 3 1 1
        (gmres_outer_start ext_example (dense_matrix_wrapper rot3) no_op_preconditioner
          [1, 0, 0] (gmres_init [0, 0, 0] 3 3 (1 / 10 ^ 10)))).isSome = true := by
    decide!
  obtain ⟨s1, hs1⟩ := Option.isSome_iff_exists.mp hsome
  have hcs : (rd s1.cosines 0) ^ 2 + (rd s1.sines 0) ^ 2 = 1 ∧ s1.inner_res = 4 / 5 := by
    have hall : ∀ s ∈ gmres_inner_reach ext_example (dense_matrix_wrapper rot3)
        no_op_preconditioner (1 / 10 ^ 10) 3 1 1
        (gmres_outer_start ext_example (dense_matrix_wrapper rot3) no_op_preconditioner
          [1, 0, 0] (gmres_init [0, 0, 0] 3 3 (1 / 10 ^ 10))),
        (rd s.cosines 0) ^ 2 + (rd s.sines 0) ^ 2 = 1 ∧ s.inner_res = 4 / 5 := by
      decide!
    exact hall s1 hs1
  have hnrm : 0 ≤ ext_example.nrm2 (no_op_preconditioner (dense_matrix_wrapper rot3 (-1)
      (gmres_init [0, 0, 0] 3 3 (1 / 10 ^ 10)).x 1 [1, 0, 0])) := by decide!
  have hlen : 3 < (gmres_init [0, 0, 0] 3 3 (1 / 10 ^ 10)).krylov_sol.length := by decide
  obtain ⟨-, stk, hstk, -, -, hmono⟩ := gmres_inner_residual_recurrence ext_example
    (dense_matrix_wrapper rot3) no_op_preconditioner [1, 0, 0] (1 / 10 ^ 10) 3 1
    (gmres_init [0, 0, 0] 3 3 (1 / 10 ^ 10)) hlen hnrm 0 s1 hs1
  have h0 : gmres_outer_start ext_example (dense_matrix_wrapper rot3) no_op_preconditioner
      [1, 0, 0] (gmres_init [0, 0, 0] 3 3 (1 / 10 ^ 10)) = stk := Option.some.inj hstk
  rw [← h0] at hmono
  exact ⟨hlen, hnrm, s1, hs1, hcs.1, hcs.2, hmono hcs.1⟩


theorem forLoop_congr {σ : Type} (n : Nat) (f g : Nat → σ → σ) (s : σ)
    (h : ∀ i, i < n → ∀ t, f i t = g i t) : forLoop n f s = forLoop n g s := by
  induction n with
  | zero => rfl
  | succ n ih =>
    rw [forLoop_succ, forLoop_succ, ih (fun i hi t => h i (by omega) t), h n (by omega)]

theorem sumLoop_init (n : Nat) (f : Nat → ℚ) (init : ℚ) :
    sumLoop n f init = init + Finset.sum (Finset.range n) f := by
  unfold sumLoop
  induction n with
  | zero => simp [forLoop_zero]
  | succ n ih => rw [forLoop_succ, ih, Finset.sum_range_succ]; ring

theorem forLoop_sumLoop (N m : Nat) (g : Nat → Nat → ℚ) :
    forLoop N (fun i acc => sumLoop m (g i) acc) 0
      = Finset.sum (Finset.range N) (fun i => Finset.sum (Finset.range m) (g i)) := by
  induction N with
  | zero => simp [forLoop_zero]
  | succ N ih => rw [forLoop_succ, ih, sumLoop_init, Finset.sum_range_succ]

theorem rd_map (v : List ℚ) (f : ℚ → ℚ) (k : Nat) (hk : k < v.length) :
    rd (v.map f) k = f (rd v k) := by
  unfold rd
  rw [List.getD_eq_getElem?_getD, List.getD_eq_getElem?_getD, List.getElem?_map,
    List.getElem?_eq_getElem hk]
  rfl

theorem poisson_load_periodic (lgwt : Nat → Nat → ℚ) (source : List ℚ)
    (degree N_elements : Nat) (dx x_min x_max : ℚ) :
    poisson_load lgwt source degree N_elements dx x_min x_max poisson_bc.periodic
      = forLoop (N_elements - 1)
          (fun i b =>
            b.set i
              (sumLoop (degree + 1)
                (fun q =>
                  (1 / 4) * dx * lgwt 1 q *
                    (rd source (i * (degree + 1) + q) * (1 + lgwt 0 q) +
                     rd source ((i + 1) * (degree + 1) + q) * (1 - lgwt 0 q) -
                     2 * poisson_ave_source lgwt source degree N_elements dx x_min x_max))
                0))
          (List.replicate (N_elements - 1) 0) := rfl

theorem index_lt_of_node (N d i q : Nat) (hi : i < N - 1) (hq : q < d + 1) :
    i * (d + 1) + q < N * (d + 1) ∧ (i + 1) * (d + 1) + q < N * (d + 1) := by
  have h1 : (i + 2) * (d + 1) ≤ N * (d + 1) := Nat.mul_le_mul_right _ (by omega)
  constructor
  · nlinarith
  · nlinarith

theorem poisson_load_periodic_eq_centred (lgwt : Nat → Nat → ℚ) (source : List ℚ)
    (degree N_elements : Nat) (dx x_min x_max : ℚ)
    (hlen : N_elements * (degree + 1) ≤ source.length) :
    poisson_load lgwt source degree N_elements dx x_min x_max poisson_bc.periodic
      = poisson_load lgwt
          (source.map (fun s =>
            s - poisson_ave_source lgwt source degree N_elements dx x_min x_max))
          degree N_elements dx x_min x_max poisson_bc.dirichlet := by
  rw [poisson_load_periodic]
  unfold poisson_load
  simp only
  apply forLoop_congr
  intro i hi b
  congr 1
  rw [sumLoop_eq_sum, sumLoop_eq_sum]
  apply Finset.sum_congr rfl
  intro q hq
  have hq2 : q < degree + 1 := Finset.mem_range.mp hq
  obtain ⟨h1, h2⟩ := index_lt_of_node N_elements degree i q hi hq2
  rw [rd_map _ _ _ (by omega), rd_map _ _ _ (by omega)]
  ring

theorem poisson_ave_source_shift (lgwt : Nat → Nat → ℚ) (source : List ℚ)
    (degree N_elements : Nat) (x_min x_max c : ℚ)
    (hN : 1 ≤ N_elements) (hlen : N_elements * (degree + 1) ≤ source.length)
    (hw : Finset.sum (Finset.range (degree + 1)) (fun q => lgwt 1 q) = 2)
    (hx : x_min ≠ x_max) :
    poisson_ave_source lgwt (source.map (fun s => s + c)) degree N_elements
        ((x_max - x_min) / (N_elements : ℚ)) x_min x_max
      = poisson_ave_source lgwt source degree N_elements
          ((x_max - x_min) / (N_elements : ℚ)) x_min x_max + c := by
  unfold poisson_ave_source
  rw [forLoop_sumLoop, forLoop_sumLoop]
  have hterm : ∀ i ∈ Finset.range N_elements,
      Finset.sum (Finset.range (degree + 1)) (fun q =>
        (1 / 2) * ((x_max - x_min) / (N_elements : ℚ)) * lgwt 1 q *
          rd (source.map (fun s => s + c)) (i * (degree + 1) + q))
      = Finset.sum (Finset.range (degree + 1)) (fun q =>
        (1 / 2) * ((x_max - x_min) / (N_elements : ℚ)) * lgwt 1 q *
          rd source (i * (degree + 1) + q))
        + ((x_max - x_min) / (N_elements : ℚ)) * c := by
    intro i hi
    have hi2 : i < N_elements := Finset.mem_range.mp hi
    have hsplit : ∀ q ∈ Finset.range (degree + 1),
        (1 / 2) * ((x_max - x_min) / (N_elements : ℚ)) * lgwt 1 q *
          rd (source.map (fun s => s + c)) (i * (degree + 1) + q)
        = (1 / 2) * ((x_max - x_min) / (N_elements : ℚ)) * lgwt 1 q *
            rd source (i * (degree + 1) + q)
          + ((1 / 2) * ((x_max - x_min) / (N_elements : ℚ)) * c) * lgwt 1 q := by
      intro q hq
      have hq2 : q < degree + 1 := Finset.mem_range.mp hq
      have hidx : i * (degree + 1) + q < N_elements * (degree + 1) := by
        have : (i + 1) * (degree + 1) ≤ N_elements * (degree + 1) :=
          Nat.mul_le_mul_right _ (by omega)
        nlinarith
      rw [rd_map _ _ _ (by omega)]
      ring
    rw [Finset.sum_congr rfl hsplit, Finset.sum_add_distrib, ← Finset.mul_sum, hw]
    ring
  rw [Finset.sum_congr rfl hterm, Finset.sum_add_distrib, Finset.sum_const, Finset.card_range,
    nsmul_eq_mul]
  have hNq : (N_elements : ℚ) ≠ 0 := by
    have : 0 < N_elements := by omega
    exact_mod_cast this.ne'
  have hd : x_max - x_min ≠ 0 := sub_ne_zero.mpr (Ne.symm hx)
  field_simp
  ring

theorem poisson_load_shift (lgwt : Nat → Nat → ℚ) (source : List ℚ)
    (degree N_elements : Nat) (x_min x_max c : ℚ)
    (hN : 1 ≤ N_elements) (hlen : N_elements * (degree + 1) ≤ source.length)
    (hw : Finset.sum (Finset.range (degree + 1)) (fun q => lgwt 1 q) = 2)
    (hx : x_min ≠ x_max) :
    poisson_load lgwt (source.map (fun s => s + c)) degree N_elements
        ((x_max - x_min) / (N_elements : ℚ)) x_min x_max poisson_bc.periodic
      = poisson_load lgwt source degree N_elements
          ((x_max - x_min) / (N_elements : ℚ)) x_min x_max poisson_bc.periodic := by
  rw [poisson_load_periodic, poisson_load_periodic,
    poisson_ave_source_shift lgwt source degree N_elements x_min x_max c hN hlen hw hx]
  apply forLoop_congr
  intro i hi b
  congr 1
  rw [sumLoop_eq_sum, sumLoop_eq_sum]
  apply Finset.sum_congr rfl
  intro q hq
  have hq2 : q < degree + 1 := Finset.mem_range.mp hq
  obtain ⟨h1, h2⟩ := index_lt_of_node N_elements degree i q hi hq2
  rw [rd_map _ _ _ (by omega), rd_map _ _ _ (by omega)]
  ring

/-- C16: under periodic boundary conditions with `N_elements >= 2` (and a source of
at least `N_elements * (degree + 1)` entries) the load vector `b` of
`poisson_solver` is the one the Dirichlet path builds from the source minus
`ave_source`, its quadrature mean over `[x_min, x_max]`; and with quadrature
weights that sum to 2 and `x_min ≠ x_max`, adding a constant `c` to every entry
of the source changes neither `b` nor the returned `phi` and `E`. -/
theorem poisson_periodic_centres_source (lgwt : Nat → Nat → ℚ)
    (pttrs : List ℚ → List ℚ → List ℚ → List ℚ) (source A_D A_E phi E : List ℚ)
    (degree N_elements : Nat) (x_min x_max phi_min phi_max c : ℚ)
    (hN : 2 ≤ N_elements) (hlen : N_elements * (degree + 1) ≤ source.length)
    (hw : Finset.sum (Finset.range (degree + 1)) (fun q => lgwt 1 q) = 2)
    (hx : x_min ≠ x_max) :
    poisson_load lgwt source degree N_elements ((x_max - x_min) / (N_elements : ℚ))
        x_min x_max poisson_bc.periodic
      = poisson_load lgwt
          (source.map (fun s => s - poisson_ave_source lgwt source degree N_elements
            ((x_max - x_min) / (N_elements : ℚ)) x_min x_max))
          degree N_elements ((x_max - x_min) / (N_elements : ℚ)) x_min x_max
          poisson_bc.dirichlet ∧
    poisson_load lgwt (source.map (fun s => s + c)) degree N_elements
        ((x_max - x_min) / (N_elements : ℚ)) x_min x_max poisson_bc.periodic
      = poisson_load lgwt source degree N_elements ((x_max - x_min) / (N_elements : ℚ))
          x_min x_max poisson_bc.periodic ∧
    poisson_solver lgwt pttrs (source.map (fun s => s + c)) A_D A_E phi E degree N_elements
        x_min x_max phi_min phi_max poisson_bc.periodic
      = poisson_solver lgwt pttrs source A_D A_E phi E degree N_elements
          x_min x_max phi_min phi_max poisson_bc.periodic := by
  have hload := poisson_load_shift lgwt source degree N_elements x_min x_max c (by omega)
    hlen hw hx
  refine ⟨poisson_load_periodic_eq_centred lgwt source degree N_elements _ x_min x_max hlen,
    hload, ?_⟩
  unfold poisson_solver
  simp only [hload]

/-- C16 for two elements of degree 0 on `[0, 1]` (one-point rule: node 0, weight
2), the source `(1, 3)` and the constant `5`: the mean is 2, the load vector of
the periodic path is that of the Dirichlet path for `(-1, 1)`, namely `(0)`, and
the source `(6, 8)` gives the same `b`, `phi` and `E`. -/
theorem poisson_periodic_centres_source_witness :
    (2 : Nat) ≤ 2 ∧ 2 * (0 + 1) ≤ ([1, 3] : List ℚ).length ∧
    Finset.sum (Finset.range (0 + 1)) (fun q => lgwt_one_point 1 q) = 2 ∧
    (0 : ℚ) ≠ 1 ∧
    poisson_ave_source lgwt_one_point [1, 3] 0 2 ((1 - 0) / ((2 : Nat) : ℚ)) 0 1 = 2 ∧
    poisson_load lgwt_one_point [1, 3] 0 2 ((1 - 0) / ((2 : Nat) : ℚ)) 0 1 poisson_bc.periodic
      = [0] ∧
    poisson_load lgwt_one_point [1, 3] 0 2 ((1 - 0) / ((2 : Nat) : ℚ)) 0 1
        poisson_bc.periodic
      = poisson_load lgwt_one_point
          (([1, 3] : List ℚ).map (fun s => s - poisson_ave_source lgwt_one_point [1, 3] 0 2
            ((1 - 0) / ((2 : Nat) : ℚ)) 0 1))
          0 2 ((1 - 0) / ((2 : Nat) : ℚ)) 0 1 poisson_bc.dirichlet ∧
    poisson_load lgwt_one_point (([1, 3] : List ℚ).map (fun s => s + 5)) 0 2
        ((1 - 0) / ((2 : Nat) : ℚ)) 0 1 poisson_bc.periodic
      = poisson_load lgwt_one_point [1, 3] 0 2 ((1 - 0) / ((2 : Nat) : ℚ)) 0 1
          poisson_bc.periodic ∧
    poisson_solver lgwt_one_point (fun _ _ b => b) (([1, 3] : List ℚ).map (fun s => s + 5))
        [2] [] [0, 0] [0, 0] 0 2 0 1 0 0 poisson_bc.periodic
      = poisson_solver lgwt_one_point (fun _ _ b => b) [1, 3] [2] [] [0, 0] [0, 0] 0 2
          0 1 0 0 poisson_bc.periodic :=
  ⟨by decide, by decide, by decide!, by decide, by decide!, by decide!,
   poisson_periodic_centres_source lgwt_one_point (fun _ _ b => b) [1, 3] [2] [] [0, 0] [0, 0]
     0 2 0 1 0 0 5 (by decide) (by decide) (by decide!) (by decide)⟩


theorem bicg_body_next_of (ext ext0 : externals) (mat : ℚ → List ℚ → ℚ → List ℚ → List ℚ)
    (precondition : List ℚ → List ℚ) (tol normb normb0 : ℚ) (rtilde : List ℚ) (i : Nat)
    (a : ℚ) (c : bicg_state)
    (hrho : bicg_rho_1 rtilde c ≠ 0)
    (h1 : ¬ ext.nrm2 (bicg_first_half ext0 mat precondition normb0 rtilde i c).s / normb < tol)
    (h2 : ¬ ext.nrm2 (bicg_pass ext0 mat precondition normb0 rtilde i c).r / normb < tol)
    (hom : (bicg_pass ext0 mat precondition normb0 rtilde i c).omega ≠ 0) :
    bicg_body ext mat precondition tol normb rtilde i { c with resid := a }
      = loop_step.next
          { bicg_pass ext0 mat precondition normb0 rtilde i c with
            resid := ext.nrm2 (bicg_pass ext0 mat precondition normb0 rtilde i c).r / normb } := by
  have e1 : bicg_rho_1 rtilde { c with resid := a } = bicg_rho_1 rtilde c := rfl
  have e2 : (bicg_first_half ext mat precondition normb rtilde i { c with resid := a }).resid
      = ext.nrm2 (bicg_first_half ext0 mat precondition normb0 rtilde i c).s / normb := rfl
  have e3 : (bicg_second_half ext mat precondition normb (bicg_rho_1 rtilde c)
      (bicg_first_half ext mat precondition normb rtilde i { c with resid := a })).resid
      = ext.nrm2 (bicg_pass ext0 mat precondition normb0 rtilde i c).r / normb := rfl
  have e4 : (bicg_second_half ext mat precondition normb (bicg_rho_1 rtilde c)
      (bicg_first_half ext mat precondition normb rtilde i { c with resid := a })).omega
      = (bicg_pass ext0 mat precondition normb0 rtilde i c).omega := rfl
  unfold bicg_body
  simp only [e1, e2, e3, e4, if_neg hrho, if_neg h1, if_neg h2, if_neg hom]
  rfl

theorem bicg_body_done_of (ext ext0 : externals) (mat : ℚ → List ℚ → ℚ → List ℚ → List ℚ)
    (precondition : List ℚ → List ℚ) (tol normb normb0 : ℚ) (rtilde : List ℚ) (i : Nat)
    (a : ℚ) (c : bicg_state)
    (hrho : bicg_rho_1 rtilde c ≠ 0)
    (h1 : ext.nrm2 (bicg_first_half ext0 mat precondition normb0 rtilde i c).s / normb < tol) :
    bicg_body ext mat precondition tol normb rtilde i { c with resid := a }
      = loop_step.done
          ⟨fm_axpy (bicg_first_half ext0 mat precondition normb0 rtilde i c).phat
              (bicg_first_half ext0 mat precondition normb0 rtilde i c).x
              (bicg_first_half ext0 mat precondition normb0 rtilde i c).alpha,
            (bicg_first_half ext0 mat precondition normb0 rtilde i c).mat_calls,
            (bicg_first_half ext0 mat precondition normb0 rtilde i c).prec_calls,
            Except.ok ⟨ext.nrm2 (bicg_first_half ext0 mat precondition normb0 rtilde i c).s
              / normb, i⟩⟩ := by
  have e1 : bicg_rho_1 rtilde { c with resid := a } = bicg_rho_1 rtilde c := rfl
  have e2 : (bicg_first_half ext mat precondition normb rtilde i { c with resid := a }).resid
      = ext.nrm2 (bicg_first_half ext0 mat precondition normb0 rtilde i c).s / normb := rfl
  unfold bicg_body
  simp only [e1, e2, if_neg hrho, if_pos h1]
  rfl

theorem resid_not_below (ext : externals) (v b : List ℚ) (tol normb : ℚ)
    (hnn : ∀ w, 0 ≤ ext.nrm2 w) (hlo : ∀ w, dot w w ≤ 4 * ext.nrm2 w ^ 2)
    (hnb : 0 < normb) (hnb2 : normb ^ 2 ≤ 4 * dot b b)
    (hv : 16 * dot b b * tol ^ 2 ≤ dot v v) :
    ¬ ext.nrm2 v / normb < tol := by
  intro h
  rw [div_lt_iff₀ hnb] at h
  have h0 : 0 ≤ ext.nrm2 v := hnn v
  have hsq : ext.nrm2 v ^ 2 < (tol * normb) ^ 2 := by
    exact pow_lt_pow_left₀ h h0 (by norm_num)
  have h4 := hlo v
  have h5 : (tol * normb) ^ 2 ≤ tol ^ 2 * (4 * dot b b) := by
    rw [mul_pow]
    exact mul_le_mul_of_nonneg_left hnb2 (sq_nonneg tol)
  nlinarith

/-- The passes 1 to 3 of `bicgstab` on the tridiagonal system: `rho_1` and `omega`
are not zero and both residual vectors are far from zero. -/
theorem tri4_passes (k : Nat) (hk : k < 3) :
    bicg_rho_1 [1, 2, 3, 4] (tri4_state k) ≠ 0 ∧
    16 * dot [1, 2, 3, 4] [1, 2, 3, 4] * (1 / 10 ^ 10 : ℚ) ^ 2
      ≤ dot (tri4_half k).s (tri4_half k).s ∧
    16 * dot [1, 2, 3, 4] [1, 2, 3, 4] * (1 / 10 ^ 10 : ℚ) ^ 2
      ≤ dot (tri4_state (k + 1)).r (tri4_state (k + 1)).r ∧
    (tri4_state (k + 1)).omega ≠ 0 := by
  interval_cases k <;> decide!

/-- Pass 4 of `bicgstab` on the tridiagonal system: the vector `s` of line 406 is
zero and `x + alpha * phat` is the solution. -/
theorem tri4_last_pass :
    bicg_rho_1 [1, 2, 3, 4] (tri4_state 3) ≠ 0 ∧
    (tri4_half 3).s = [0, 0, 0, 0] ∧
    fm_axpy (tri4_half 3).phat (tri4_half 3).x (tri4_half 3).alpha = [-4, -7, -8, -6] ∧
    (tri4_half 3).mat_calls = 8 ∧ (tri4_half 3).prec_calls = 7 := by
  decide!

theorem bicg_loop_next (ext : externals)
    (mat : ℚ → List ℚ → ℚ → List ℚ → List ℚ) (precondition : List ℚ → List ℚ)
    (tol normb : ℚ) (rtilde : List ℚ) (max_iter : Int) (remaining i : Nat)
    (st st2 : bicg_state)
    (hb : bicg_body ext mat precondition tol normb rtilde i st = loop_step.next st2) :
    bicg_loop ext mat precondition tol normb rtilde max_iter (remaining + 1) i st
      = bicg_loop ext mat precondition tol normb rtilde max_iter remaining (i + 1) st2 := by
  simp only [bicg_loop, hb]

theorem bicg_loop_done (ext : externals)
    (mat : ℚ → List ℚ → ℚ → List ℚ → List ℚ) (precondition : List ℚ → List ℚ)
    (tol normb : ℚ) (rtilde : List ℚ) (max_iter : Int) (remaining i : Nat)
    (st : bicg_state) (r : solver_result)
    (hb : bicg_body ext mat precondition tol normb rtilde i st = loop_step.done r) :
    bicg_loop ext mat precondition tol normb rtilde max_iter (remaining + 1) i st = r := by
  simp only [bicg_loop, hb]

/-- The passes of `bicgstab` on the tridiagonal system for any `nrm2` within a
factor 2 of the Euclidean norm: pass `k + 1 <= 3`, entered in `tri4_state k`,
goes on into `tri4_state (k + 1)`. -/
theorem tri4_body_next (ext : externals) (normb a : ℚ)
    (hnn : ∀ w, 0 ≤ ext.nrm2 w) (hlo : ∀ w, dot w w ≤ 4 * ext.nrm2 w ^ 2)
    (hnb : 0 < normb) (hnb2 : normb ^ 2 ≤ 4 * dot [1, 2, 3, 4] [1, 2, 3, 4])
    (k : Nat) (hk : k < 3) :
    bicg_body ext (dense_matrix_wrapper tri4) no_op_preconditioner (1 / 10 ^ 10) normb
        [1, 2, 3, 4] (k + 1) { tri4_state k with resid := a }
      = loop_step.next
          { tri4_state (k + 1) with resid := ext.nrm2 (tri4_state (k + 1)).r / normb } := by
  obtain ⟨h1, h2, h3, h4⟩ := tri4_passes k hk
  exact bicg_body_next_of ext ext_example (dense_matrix_wrapper tri4) no_op_preconditioner
    (1 / 10 ^ 10) normb 1 [1, 2, 3, 4] (k + 1) a (tri4_state k) h1
    (resid_not_below ext _ [1, 2, 3, 4] _ normb hnn hlo hnb hnb2 h2)
    (resid_not_below ext _ [1, 2, 3, 4] _ normb hnn hlo hnb hnb2 h3) h4

/-- C14: on the system `tridiag(1, -2, 1) x = (1, 2, 3, 4)`, started from `x = 0`
without preconditioner and with `tol = 1e-10` (a set tolerance, not below the
machine epsilon), an iteration budget of at least 4 (set, or the default `n`)
and any `nrm2` within a factor 2 of the Euclidean norm, `bicgstab` meets
neither breakdown: it returns in pass 4 with `x = (-4, -7, -8, -6)` and the
record of residual 0 and 4 iterations. -/
theorem bicgstab_tridiagonal_converges (ext : externals) (max_iter : Int)
    (hnn : ∀ w, 0 ≤ ext.nrm2 w) (hlo : ∀ w, dot w w ≤ 4 * ext.nrm2 w ^ 2)
    (hhi : ∀ w, ext.nrm2 w ^ 2 ≤ 4 * dot w w)
    (hset : (1 / 10 ^ 10 : ℚ) ≠ ext.NO_USER_VALUE_FP) (heps : ext.epsilon ≤ 1 / 10 ^ 10)
    (hmax : 4 ≤ effective_max_iter ext max_iter 4) :
    bicgstab ext (dense_matrix_wrapper tri4) [0, 0, 0, 0] [1, 2, 3, 4] no_op_preconditioner
        max_iter (1 / 10 ^ 10)
      = ⟨[-4, -7, -8, -6], 8, 7, Except.ok ⟨0, 4⟩⟩ := by
  have hb30 : dot [1, 2, 3, 4] [1, 2, 3, 4] = 30 := by decide!
  have hnb0 : ext.nrm2 [1, 2, 3, 4] ≠ 0 := by
    intro h0
    have := hlo [1, 2, 3, 4]
    rw [hb30, h0] at this
    norm_num at this
  have hnb : 0 < ext.nrm2 [1, 2, 3, 4] := lt_of_le_of_ne (hnn _) (Ne.symm hnb0)
  have hnb2 : ext.nrm2 [1, 2, 3, 4] ^ 2 ≤ 4 * dot [1, 2, 3, 4] [1, 2, 3, 4] := hhi _
  have hnormb : bicg_normb ext [1, 2, 3, 4] = ext.nrm2 [1, 2, 3, 4] := by
    unfold bicg_normb
    rw [if_neg hnb0]
  have hetol : effective_tolerance ext (1 / 10 ^ 10) = 1 / 10 ^ 10 := by
    unfold effective_tolerance
    rw [if_neg hset]
  have hlen : ((([1, 2, 3, 4] : List ℚ).length : Nat) : Int) = 4 := rfl
  have hchk : solver_checks ext [0, 0, 0, 0] [1, 2, 3, 4] max_iter (1 / 10 ^ 10) := by
    refine ⟨?_, rfl, ?_⟩
    · rw [hetol]; exact heps
    · rw [hlen]; omega
  obtain ⟨m, hm⟩ : ∃ m : Nat, (effective_max_iter ext max_iter 4).toNat = m + 1 + 1 + 1 + 1 :=
    ⟨(effective_max_iter ext max_iter 4).toNat - 4, by omega⟩
  have hr : dense_matrix_wrapper tri4 (-1) [0, 0, 0, 0] 1 [1, 2, 3, 4] = [1, 2, 3, 4] := by
    decide!
  have hinit : bicg_init ext (dense_matrix_wrapper tri4) [0, 0, 0, 0] [1, 2, 3, 4]
      (ext.nrm2 [1, 2, 3, 4])
      = { tri4_state 0 with resid := ext.nrm2 [1, 2, 3, 4] / ext.nrm2 [1, 2, 3, 4] } := by
    have h : bicg_init ext (dense_matrix_wrapper tri4) [0, 0, 0, 0] [1, 2, 3, 4]
        (ext.nrm2 [1, 2, 3, 4])
        = { tri4_state 0 with
            resid := ext.nrm2 (dense_matrix_wrapper tri4 (-1) [0, 0, 0, 0] 1 [1, 2, 3, 4])
              / ext.nrm2 [1, 2, 3, 4] } := rfl
    rw [h, hr]
  have hr0 : (tri4_state 0).r = [1, 2, 3, 4] := hr
  have hzero : ext.nrm2 (tri4_half 3).s = 0 := by
    have h2 := hhi (tri4_half 3).s
    rw [tri4_last_pass.2.1] at h2 ⊢
    have h3 : dot [0, 0, 0, 0] [0, 0, 0, 0] = 0 := by decide!
    rw [h3] at h2
    have h4 := hnn [0, 0, 0, 0]
    nlinarith
  have hdone := bicg_body_done_of ext ext_example (dense_matrix_wrapper tri4)
    no_op_preconditioner (1 / 10 ^ 10) (ext.nrm2 [1, 2, 3, 4]) 1 [1, 2, 3, 4] (3 + 1)
    (ext.nrm2 (tri4_state 3).r / ext.nrm2 [1, 2, 3, 4]) (tri4_state 3) tri4_last_pass.1
    (by
      show ext.nrm2 (tri4_half 3).s / ext.nrm2 [1, 2, 3, 4] < 1 / 10 ^ 10
      rw [hzero]
      norm_num)
  have hloop : bicg_loop ext (dense_matrix_wrapper tri4) no_op_preconditioner (1 / 10 ^ 10)
      (ext.nrm2 [1, 2, 3, 4]) [1, 2, 3, 4] (effective_max_iter ext max_iter 4)
      (m + 1 + 1 + 1 + 1) (0 + 1)
      { tri4_state 0 with resid := ext.nrm2 [1, 2, 3, 4] / ext.nrm2 [1, 2, 3, 4] }
      = ⟨[-4, -7, -8, -6], 8, 7, Except.ok ⟨0, 4⟩⟩ := by
    rw [bicg_loop_next _ _ _ _ _ _ _ _ _ _ _
        (tri4_body_next ext _ _ hnn hlo hnb hnb2 0 (by decide)),
      bicg_loop_next _ _ _ _ _ _ _ _ _ _ _
        (tri4_body_next ext _ _ hnn hlo hnb hnb2 1 (by decide)),
      bicg_loop_next _ _ _ _ _ _ _ _ _ _ _
        (tri4_body_next ext _ _ hnn hlo hnb hnb2 2 (by decide)),
      bicg_loop_done _ _ _ _ _ _ _ _ _ _ _ hdone]
    have h5 : fm_axpy (tri4_half 3).phat (tri4_half 3).x (tri4_half 3).alpha
        = [-4, -7, -8, -6] := tri4_last_pass.2.2.1
    have h6 : (tri4_half 3).mat_calls = 8 := tri4_last_pass.2.2.2.1
    have h7 : (tri4_half 3).prec_calls = 7 := tri4_last_pass.2.2.2.2
    have h8 : ext.nrm2 (tri4_half 3).s = 0 := hzero
    unfold tri4_half at h5 h6 h7 h8
    rw [h5, h6, h7, h8]
    norm_num
  have hinit_r : (bicg_init ext (dense_matrix_wrapper tri4) [0, 0, 0, 0] [1, 2, 3, 4]
      (ext.nrm2 [1, 2, 3, 4])).r = [1, 2, 3, 4] := hr
  have hinit_resid : (bicg_init ext (dense_matrix_wrapper tri4) [0, 0, 0, 0] [1, 2, 3, 4]
      (ext.nrm2 [1, 2, 3, 4])).resid = 1 := by
    show ext.nrm2 (dense_matrix_wrapper tri4 (-1) [0, 0, 0, 0] 1 [1, 2, 3, 4])
      / ext.nrm2 [1, 2, 3, 4] = 1
    rw [hr, div_self hnb0]
  rw [bicgstab_of_checks ext _ _ _ _ _ _ hchk, hetol, hnormb, hlen, hm, hinit_r, hinit_resid,
    if_neg (by norm_num), hinit]
  exact hloop

theorem dot_self_nonneg (w : List ℚ) : 0 ≤ dot w w := by
  unfold dot
  rw [sumLoop_eq_sum]
  exact Finset.sum_nonneg (fun i _ => mul_self_nonneg _)

/-- The value `Rat.sqrt q` is within a factor 2 of the square root of `q >= 0`. -/
theorem rat_sqrt_bounds (q : ℚ) (hq : 0 ≤ q) :
    0 ≤ Rat.sqrt q ∧ q ≤ 4 * Rat.sqrt q ^ 2 ∧ Rat.sqrt q ^ 2 ≤ 4 * q := by
  have hnum : 0 ≤ q.num := Rat.num_nonneg.mpr hq
  obtain ⟨n, hn⟩ := Int.eq_ofNat_of_zero_le hnum
  have hden : 0 < q.den := q.den_pos
  have hsq : Rat.sqrt q = (Nat.sqrt n : ℚ) / (Nat.sqrt q.den : ℚ) := by
    unfold Rat.sqrt
    rw [hn, Int.sqrt_natCast, Rat.mkRat_eq_div]
    push_cast
    rfl
  have hqv : q = (n : ℚ) / (q.den : ℚ) := by
    conv_lhs => rw [← Rat.num_div_den q, hn]
    push_cast
    rfl
  have ha1 : Nat.sqrt n * Nat.sqrt n ≤ n := Nat.sqrt_le n
  have ha2 : n < (Nat.sqrt n + 1) * (Nat.sqrt n + 1) := Nat.lt_succ_sqrt n
  have hc1 : Nat.sqrt q.den * Nat.sqrt q.den ≤ q.den := Nat.sqrt_le q.den
  have hc2 : q.den < (Nat.sqrt q.den + 1) * (Nat.sqrt q.den + 1) := Nat.lt_succ_sqrt q.den
  have hc0 : 0 < Nat.sqrt q.den := Nat.sqrt_pos.mpr hden
  have hn4 : n ≤ 4 * (Nat.sqrt n * Nat.sqrt n) := by
    rcases Nat.eq_zero_or_pos (Nat.sqrt n) with h0 | h0
    · rw [h0] at ha2 ⊢
      omega
    · nlinarith
  have hd4 : q.den ≤ 4 * (Nat.sqrt q.den * Nat.sqrt q.den) := by nlinarith
  have hcq : (0 : ℚ) < (Nat.sqrt q.den : ℚ) := by exact_mod_cast hc0
  have hdq : (0 : ℚ) < (q.den : ℚ) := by exact_mod_cast hden
  have ha1q : (Nat.sqrt n : ℚ) * (Nat.sqrt n : ℚ) ≤ (n : ℚ) := by exact_mod_cast ha1
  have hc1q : (Nat.sqrt q.den : ℚ) * (Nat.sqrt q.den : ℚ) ≤ (q.den : ℚ) := by
    exact_mod_cast hc1
  have hn4q : (n : ℚ) ≤ 4 * ((Nat.sqrt n : ℚ) * (Nat.sqrt n : ℚ)) := by exact_mod_cast hn4
  have hd4q : (q.den : ℚ) ≤ 4 * ((Nat.sqrt q.den : ℚ) * (Nat.sqrt q.den : ℚ)) := by
    exact_mod_cast hd4
  have hnq : (0 : ℚ) ≤ (n : ℚ) := Nat.cast_nonneg n
  have haq : (0 : ℚ) ≤ (Nat.sqrt n : ℚ) := Nat.cast_nonneg _
  refine ⟨?_, ?_, ?_⟩
  · rw [hsq]
    exact div_nonneg haq hcq.le
  · rw [hsq]
    conv_lhs => rw [hqv]
    rw [div_pow, ← mul_div_assoc, div_le_div_iff₀ hdq (by positivity)]
    nlinarith [mul_nonneg hnq (mul_nonneg hcq.le hcq.le),
      mul_nonneg (mul_nonneg haq haq) hdq.le]
  · rw [hsq]
    conv_rhs => rw [hqv]
    rw [div_pow, ← mul_div_assoc, div_le_div_iff₀ (by positivity) hdq]
    nlinarith [mul_nonneg hnq (mul_nonneg hcq.le hcq.le),
      mul_nonneg (mul_nonneg haq haq) hdq.le]

/-- C14 for `ext_example` (double precision, `nrm2` by `Rat.sqrt`) with the
iteration budget left at its sentinel, hence `n = 4`. -/
theorem bicgstab_tridiagonal_converges_witness :
    (∀ w, 0 ≤ ext_example.nrm2 w) ∧ (∀ w, dot w w ≤ 4 * ext_example.nrm2 w ^ 2) ∧
    (∀ w, ext_example.nrm2 w ^ 2 ≤ 4 * dot w w) ∧
    (1 / 10 ^ 10 : ℚ) ≠ ext_example.NO_USER_VALUE_FP ∧
    ext_example.epsilon ≤ 1 / 10 ^ 10 ∧
    4 ≤ effective_max_iter ext_example ext_example.NO_USER_VALUE 4 ∧
    bicgstab ext_example (dense_matrix_wrapper tri4) [0, 0, 0, 0] [1, 2, 3, 4]
        no_op_preconditioner ext_example.NO_USER_VALUE (1 / 10 ^ 10)
      = ⟨[-4, -7, -8, -6], 8, 7, Except.ok ⟨0, 4⟩⟩ :=
  have h1 : ∀ w, 0 ≤ ext_example.nrm2 w := fun w => (rat_sqrt_bounds _ (dot_self_nonneg w)).1
  have h2 : ∀ w, dot w w ≤ 4 * ext_example.nrm2 w ^ 2 :=
    fun w => (rat_sqrt_bounds _ (dot_self_nonneg w)).2.1
  have h3 : ∀ w, ext_example.nrm2 w ^ 2 ≤ 4 * dot w w :=
    fun w => (rat_sqrt_bounds _ (dot_self_nonneg w)).2.2
  ⟨h1, h2, h3, by decide!, by decide!, by decide!,
   bicgstab_tridiagonal_converges ext_example ext_example.NO_USER_VALUE h1 h2 h3 (by decide!)
     (by decide!) (by decide!)⟩


theorem gemv_n_length (cols : List (List ℚ)) (x y : List ℚ) (alpha beta : ℚ) :
    (gemv_n cols x y alpha beta).length = y.length := by
  unfold gemv_n
  exact forLoop_set_length _ _ _

theorem gemv_n_rd (cols : List (List ℚ)) (x y : List ℚ) (alpha beta : ℚ) (i : Nat)
    (hi : i < y.length) :
    rd (gemv_n cols x y alpha beta) i
      = beta * rd y i
        + alpha * Finset.sum (Finset.range cols.length)
            (fun j => rd (cols.getD j []) i * rd x j) := by
  unfold gemv_n
  rw [forLoop_set_rd, if_pos ⟨hi, hi⟩, sumLoop_eq_sum]

theorem lin4_gemv_n (a0 a1 a2 a3 : ℚ) (cols : List (List ℚ)) (x y : List ℚ)
    (alpha beta : ℚ) (hy : y.length = 4) :
    lin4 a0 a1 a2 a3 (gemv_n cols x y alpha beta)
      = beta * lin4 a0 a1 a2 a3 y
        + alpha * Finset.sum (Finset.range cols.length)
            (fun j => lin4 a0 a1 a2 a3 (cols.getD j []) * rd x j) := by
  unfold lin4
  rw [gemv_n_rd _ _ _ _ _ 0 (by omega), gemv_n_rd _ _ _ _ _ 1 (by omega),
    gemv_n_rd _ _ _ _ _ 2 (by omega), gemv_n_rd _ _ _ _ _ 3 (by omega)]
  simp only [add_mul, Finset.sum_add_distrib, mul_assoc, ← Finset.mul_sum]
  ring

theorem scale_rd (v : List ℚ) (alpha : ℚ) (i : Nat) : rd (scale v alpha) i = rd v i * alpha := by
  unfold scale rd
  rw [List.getD_eq_getElem?_getD, List.getD_eq_getElem?_getD, List.getElem?_map]
  cases v[i]? <;> simp

theorem lin4_scale (a0 a1 a2 a3 : ℚ) (v : List ℚ) (alpha : ℚ) :
    lin4 a0 a1 a2 a3 (scale v alpha) = alpha * lin4 a0 a1 a2 a3 v := by
  unfold lin4
  rw [scale_rd, scale_rd, scale_rd, scale_rd]
  ring

theorem tri4_krylov_mono (k m : Nat) (v : List ℚ) (hkm : k ≤ m) (h : tri4_krylov k v) :
    tri4_krylov m v := by
  obtain ⟨h3, h2, h1, h0⟩ := h
  exact ⟨fun hm => h3 (by omega), fun hm => h2 (by omega), fun hm => h1 (by omega),
    fun hm => h0 (by omega)⟩

/-- A Krylov space is closed under `y = beta * y + alpha * V * x` for columns of
`V` in it. -/
theorem tri4_krylov_gemv_n (k : Nat) (cols : List (List ℚ)) (x y : List ℚ) (alpha beta : ℚ)
    (hy : y.length = 4) (hky : tri4_krylov k y)
    (hc : ∀ j, j < cols.length → tri4_krylov k (cols.getD j [])) :
    tri4_krylov k (gemv_n cols x y alpha beta) := by
  have key : ∀ a0 a1 a2 a3 : ℚ, lin4 a0 a1 a2 a3 y = 0 →
      (∀ j, j < cols.length → lin4 a0 a1 a2 a3 (cols.getD j []) = 0) →
      lin4 a0 a1 a2 a3 (gemv_n cols x y alpha beta) = 0 := by
    intro a0 a1 a2 a3 h1 h2
    rw [lin4_gemv_n _ _ _ _ _ _ _ _ _ hy, h1,
      Finset.sum_eq_zero (fun j hj => by rw [h2 j (Finset.mem_range.mp hj), zero_mul])]
    ring
  obtain ⟨h3, h2, h1, h0⟩ := hky
  exact ⟨fun hm => key _ _ _ _ (h3 hm) (fun j hj => (hc j hj).1 hm),
    fun hm => key _ _ _ _ (h2 hm) (fun j hj => (hc j hj).2.1 hm),
    fun hm => key _ _ _ _ (h1 hm) (fun j hj => (hc j hj).2.2.1 hm),
    fun hm => key _ _ _ _ (h0 hm) (fun j hj => (hc j hj).2.2.2 hm)⟩

theorem tri4_krylov_scale (k : Nat) (v : List ℚ) (alpha : ℚ) (h : tri4_krylov k v) :
    tri4_krylov k (scale v alpha) := by
  obtain ⟨h3, h2, h1, h0⟩ := h
  refine ⟨fun hm => ?_, fun hm => ?_, fun hm => ?_, fun hm => ?_⟩ <;> rw [lin4_scale]
  · rw [h3 hm, mul_zero]
  · rw [h2 hm, mul_zero]
  · rw [h1 hm, mul_zero]
  · rw [h0 hm, mul_zero]

theorem lin4_tri4 (a0 a1 a2 a3 : ℚ) (x y : List ℚ) (alpha beta : ℚ) (hy : y.length = 4) :
    lin4 a0 a1 a2 a3 (dense_matrix_wrapper tri4 alpha x beta y)
      = beta * lin4 a0 a1 a2 a3 y
        + alpha * ((-2 * a0 + a1) * rd x 0 + (a0 - 2 * a1 + a2) * rd x 1
          + (a1 - 2 * a2 + a3) * rd x 2 + (a2 - 2 * a3) * rd x 3) := by
  unfold dense_matrix_wrapper
  rw [lin4_gemv_n _ _ _ _ _ _ _ _ _ hy]
  have hs : Finset.sum (Finset.range tri4.length)
      (fun j => lin4 a0 a1 a2 a3 (tri4.getD j []) * rd x j)
      = (-2 * a0 + a1) * rd x 0 + (a0 - 2 * a1 + a2) * rd x 1
          + (a1 - 2 * a2 + a3) * rd x 2 + (a2 - 2 * a3) * rd x 3 := by
    simp [tri4, Finset.sum_range_succ, lin4, rd]
    ring
  rw [hs]

/-- The operator maps `K_k` into `K_(k+1)`: `beta * y + alpha * A * x` lies in
`K_(k+1)` for `x` in `K_k` and `y` in `K_(k+1)` (or `beta = 0`). -/
theorem tri4_krylov_shift (k : Nat) (x y : List ℚ) (alpha beta : ℚ) (hy : y.length = 4)
    (hx : tri4_krylov k x) (hky : beta = 0 ∨ tri4_krylov (k + 1) y) :
    tri4_krylov (k + 1) (dense_matrix_wrapper tri4 alpha x beta y) := by
  obtain ⟨h3, h2, h1, h0⟩ := hx
  unfold lin4 at h3 h2 h1 h0
  have hyk : ∀ a0 a1 a2 a3 : ℚ, (tri4_krylov (k + 1) y → lin4 a0 a1 a2 a3 y = 0) →
      beta * lin4 a0 a1 a2 a3 y = 0 := by
    intro a0 a1 a2 a3 h
    rcases hky with hb | hk
    · rw [hb, zero_mul]
    · rw [h hk, mul_zero]
  refine ⟨fun hm => ?_, fun hm => ?_, fun hm => ?_, fun hm => ?_⟩
  · rw [lin4_tri4 _ _ _ _ _ _ _ _ hy, hyk _ _ _ _ (fun h => h.1 hm)]
    have e3 := h3 (by omega)
    have e2 := h2 (by omega)
    linear_combination alpha * (-4 * e3 + e2)
  · rw [lin4_tri4 _ _ _ _ _ _ _ _ hy, hyk _ _ _ _ (fun h => h.2.1 hm)]
    have e3 := h3 (by omega)
    have e2 := h2 (by omega)
    have e1 := h1 (by omega)
    linear_combination alpha * (-2 * e3 - 2 * e2 + e1)
  · rw [lin4_tri4 _ _ _ _ _ _ _ _ hy, hyk _ _ _ _ (fun h => h.2.2.1 hm)]
    have e3 := h3 (by omega)
    have e2 := h2 (by omega)
    have e1 := h1 (by omega)
    have e0 := h0 (by omega)
    linear_combination alpha * (-4 * e3 + e2 - 2 * e1 - 5 * e0)
  · omega


/-- What one pass of the inner loop does to the basis and the counters, whatever
the externals return: column `inner_iterations + 1` becomes a multiple of
`A v - V c` for the column `v` before it, the columns `V` up to it and some
coefficients `c`. -/
theorem gmres_inner_body_basis (ext : externals) (mat : ℚ → List ℚ → ℚ → List ℚ → List ℚ)
    (tolerance : ℚ) (restart print_freq : Nat) (st st2 : gmres_state)
    (hb : gmres_inner_body ext mat no_op_preconditioner tolerance restart print_freq st
      = loop_step.next st2) :
    (∃ (c : List ℚ) (nrm : ℚ),
      st2.basis = st.basis.set (st.inner_iterations + 1)
        (scale (gemv_n (st.basis.take (st.inner_iterations + 1)) c
          (mat 1 (st.basis.getD st.inner_iterations [])
            0 (st.basis.getD (st.inner_iterations + 1) [])) (-1) 1) (1 / nrm))) ∧
    st2.x = st.x ∧ st2.total_iterations = st.total_iterations + 1 ∧
    st2.inner_iterations = st.inner_iterations + 1 ∧
    st2.outer_iterations = st.outer_iterations := by
  unfold gmres_inner_body at hb
  by_cases hp : print_freq = 0
  · simp only [hp, if_true] at hb
    cases hb
  · simp only [hp, if_false] at hb
    have h := loop_step.next.inj hb
    subst h
    exact ⟨⟨_, _, rfl⟩, rfl, rfl, rfl, rfl⟩

theorem getD_set_list (l : List (List ℚ)) (i k : Nat) (a : List ℚ) :
    (l.set i a).getD k [] = if i = k ∧ k < l.length then a else l.getD k [] := by
  rw [List.getD_eq_getElem?_getD, List.getD_eq_getElem?_getD, List.getElem?_set]
  by_cases hik : i = k
  · subst hik
    by_cases hl : i < l.length
    · simp [hl]
    · have hn : l[i]? = none := List.getElem?_eq_none (by omega)
      simp [hl, hn]
  · simp [hik]

theorem getD_take_list (l : List (List ℚ)) (n k : Nat) (hk : k < n) :
    (l.take n).getD k [] = l.getD k [] := by
  rw [List.getD_eq_getElem?_getD, List.getD_eq_getElem?_getD, List.getElem?_take_of_lt hk]

theorem tri4_inner_inv_body (ext : externals) (tolerance : ℚ) (restart print_freq : Nat)
    (d : Nat) (T0 : Int) (O : Nat) (x0 : List ℚ) (st st2 : gmres_state)
    (hinv : tri4_inner_inv d T0 O x0 restart st) (hj : st.inner_iterations < restart)
    (hb : gmres_inner_body ext (dense_matrix_wrapper tri4) no_op_preconditioner tolerance
      restart print_freq st = loop_step.next st2) :
    tri4_inner_inv d T0 O x0 restart st2 := by
  obtain ⟨hlen, hcol, hkry, hx, hT, hO, -⟩ := hinv
  obtain ⟨⟨c, nrm, hbasis⟩, h2x, h2T, h2j, h2O⟩ :=
    gmres_inner_body_basis ext (dense_matrix_wrapper tri4) tolerance restart print_freq st st2 hb
  have hy4 : (st.basis.getD (st.inner_iterations + 1) []).length = 4 := hcol _ (by omega)
  have hA4 : (dense_matrix_wrapper tri4 1 (st.basis.getD st.inner_iterations [])
      0 (st.basis.getD (st.inner_iterations + 1) [])).length = 4 := by
    unfold dense_matrix_wrapper
    rw [gemv_n_length, hy4]
  have hnew4 : (scale (gemv_n (st.basis.take (st.inner_iterations + 1)) c
      (dense_matrix_wrapper tri4 1 (st.basis.getD st.inner_iterations [])
        0 (st.basis.getD (st.inner_iterations + 1) [])) (-1) 1) (1 / nrm)).length = 4 := by
    unfold scale
    rw [List.length_map, gemv_n_length, hA4]
  have hnewk : tri4_krylov (d + 1 + (st.inner_iterations + 1))
      (scale (gemv_n (st.basis.take (st.inner_iterations + 1)) c
        (dense_matrix_wrapper tri4 1 (st.basis.getD st.inner_iterations [])
          0 (st.basis.getD (st.inner_iterations + 1) [])) (-1) 1) (1 / nrm)) := by
    apply tri4_krylov_scale
    apply tri4_krylov_gemv_n _ _ _ _ _ _ hA4
    · exact tri4_krylov_shift (d + 1 + st.inner_iterations) _ _ 1 0 hy4
        (hkry _ (le_refl _)) (Or.inl rfl)
    · intro j hj2
      rw [List.length_take] at hj2
      rw [getD_take_list _ _ _ (by omega)]
      exact tri4_krylov_mono _ _ _ (by omega) (hkry j (by omega))
  refine ⟨?_, ?_, ?_, by rw [h2x, hx], by rw [h2T, h2j, hT]; push_cast; ring, by rw [h2O, hO],
    by omega⟩
  · rw [hbasis, List.length_set, hlen]
  · intro i hi
    rw [hbasis, List.length_set] at hi
    rw [hbasis, getD_set_list]
    split
    · exact hnew4
    · exact hcol i hi
  · intro i hi
    rw [h2j] at hi
    rw [hbasis, getD_set_list]
    split
    · next h => rw [← h.1]; exact hnewk
    · next h =>
      have hne : i ≠ st.inner_iterations + 1 := by
        intro he
        apply h
        exact ⟨he.symm, by omega⟩
      exact hkry i (by omega)

theorem tri4_inner_inv_loop (ext : externals) (tolerance : ℚ) (restart print_freq : Nat)
    (d : Nat) (T0 : Int) (O : Nat) (x0 : List ℚ) (fuel : Nat) :
    ∀ st st2 : gmres_state, tri4_inner_inv d T0 O x0 restart st →
      gmres_inner_loop ext (dense_matrix_wrapper tri4) no_op_preconditioner tolerance restart
        print_freq fuel st = loop_step.next st2 →
      tri4_inner_inv d T0 O x0 restart st2 := by
  induction fuel with
  | zero =>
    intro st st2 hinv h
    simp only [gmres_inner_loop, loop_step.next.injEq] at h
    subst h
    exact hinv
  | succ fuel ih =>
    intro st st2 hinv h
    unfold gmres_inner_loop at h
    by_cases hc : st.inner_res > tolerance ∧ st.inner_iterations < restart
    · rw [if_pos hc] at h
      cases hb : gmres_inner_body ext (dense_matrix_wrapper tri4) no_op_preconditioner
          tolerance restart print_freq st with
      | done r => rw [hb] at h; cases h
      | next st3 =>
        rw [hb] at h
        exact ih st3 st2 (tri4_inner_inv_body ext tolerance restart print_freq d T0 O x0 st st3
          hinv hc.2 hb) h
    · rw [if_neg hc] at h
      have := loop_step.next.inj h
      subst this
      exact hinv

theorem tri4_krylov_rhs : tri4_krylov 1 [1, 2, 3, 4] := by
  refine ⟨fun _ => ?_, fun _ => ?_, fun _ => ?_, fun h => ?_⟩
  · norm_num [lin4, rd]
  · norm_num [lin4, rd]
  · norm_num [lin4, rd]
  · omega

theorem tri4_outer_inv_start (ext : externals) (restart : Nat) (st : gmres_state) (d : Nat)
    (hlen : st.basis.length = restart + 1)
    (hcol : ∀ i, i < st.basis.length → (st.basis.getD i []).length = 4)
    (hk : tri4_krylov d st.x) :
    tri4_inner_inv d st.total_iterations st.outer_iterations st.x restart
      (gmres_outer_start ext (dense_matrix_wrapper tri4) no_op_preconditioner [1, 2, 3, 4] st) := by
  have h4 : (dense_matrix_wrapper tri4 (-1) st.x 1 [1, 2, 3, 4]).length = 4 := by
    unfold dense_matrix_wrapper
    rw [gemv_n_length]
    rfl
  have hk1 : tri4_krylov (d + 1) (dense_matrix_wrapper tri4 (-1) st.x 1 [1, 2, 3, 4]) :=
    tri4_krylov_shift d _ _ _ _ rfl hk
      (Or.inr (tri4_krylov_mono 1 (d + 1) _ (by omega) tri4_krylov_rhs))
  unfold gmres_outer_start tri4_inner_inv no_op_preconditioner
  refine ⟨by rw [List.length_set, hlen], ?_, ?_, rfl, ?_, rfl, Nat.zero_le _⟩
  rotate_left 2
  · show st.total_iterations + 1 = st.total_iterations + 1 + ((0 : Nat) : Int)
    push_cast
    ring
  · intro i hi
    rw [List.length_set] at hi
    rw [getD_set_list]
    split
    · unfold scale
      rw [List.length_map, h4]
    · exact hcol i hi
  · intro i hi
    have hi0 : i = 0 := Nat.le_zero.mp hi
    subst hi0
    show tri4_krylov (d + 1 + 0) ((st.basis.set 0 _).getD 0 [])
    rw [getD_set_list, if_pos ⟨rfl, by omega⟩]
    exact tri4_krylov_scale _ _ _ hk1

theorem tri4_outer_inv_finish (ext : externals) (restart : Nat) (d : Nat) (T0 : Int) (O : Nat)
    (x0 : List ℚ) (st : gmres_state) (hx4 : x0.length = 4) (hk : tri4_krylov d x0)
    (hT : T0 = (d : Int) + (O : Int)) (hd : d ≤ O * restart)
    (hinv : tri4_inner_inv d T0 O x0 restart st) :
    tri4_outer_inv restart (gmres_outer_finish ext st) := by
  obtain ⟨hlen, hcol, hkry, hx, hTot, hO, hle⟩ := hinv
  unfold gmres_outer_finish tri4_outer_inv
  by_cases hpos : st.inner_iterations > 0
  · simp only [hpos, if_true]
    refine ⟨hlen, hcol, by rw [gemv_n_length, hx, hx4], d + st.inner_iterations, ?_, ?_, ?_⟩
    rotate_left 2
    · show d + st.inner_iterations ≤ (st.outer_iterations + 1) * restart
      rw [hO, Nat.succ_mul]
      omega
    · apply tri4_krylov_gemv_n _ _ _ _ _ _ (by rw [hx, hx4])
      · rw [hx]
        exact tri4_krylov_mono _ _ _ (by omega) hk
      · intro j hj
        rw [List.length_take] at hj
        rw [getD_take_list _ _ _ (by omega)]
        exact tri4_krylov_mono _ _ _ (by omega) (hkry j (by omega))
    · rw [hTot, hO, hT]
      push_cast
      ring
  · simp only [hpos, if_false]
    have h0 : st.inner_iterations = 0 := by omega
    refine ⟨hlen, hcol, by rw [hx, hx4], d, by rw [hx]; exact hk, ?_, ?_⟩
    · rw [hTot, hO, hT, h0]
      push_cast
      ring
    · show d ≤ (st.outer_iterations + 1) * restart
      rw [hO, Nat.succ_mul]
      omega

theorem tri4_outer_inv_body (ext : externals) (tolerance : ℚ) (restart print_freq : Nat)
    (st st2 : gmres_state) (hinv : tri4_outer_inv restart st)
    (hb : gmres_outer_body ext (dense_matrix_wrapper tri4) no_op_preconditioner [1, 2, 3, 4]
      tolerance restart print_freq st = loop_step.next st2) :
    tri4_outer_inv restart st2 := by
  obtain ⟨hlen, hcol, hx4, d, hk, hT, hd⟩ := hinv
  unfold gmres_outer_body at hb
  cases hl : gmres_inner_loop ext (dense_matrix_wrapper tri4) no_op_preconditioner tolerance
      restart print_freq restart
      (gmres_outer_start ext (dense_matrix_wrapper tri4) no_op_preconditioner [1, 2, 3, 4] st) with
  | done r => rw [hl] at hb; cases hb
  | next st3 =>
    rw [hl] at hb
    have h := loop_step.next.inj hb
    subst h
    exact tri4_outer_inv_finish ext restart d st.total_iterations st.outer_iterations st.x st3 hx4 hk
      hT hd (tri4_inner_inv_loop ext tolerance restart print_freq d _ _ _ restart _ st3
        (tri4_outer_inv_start ext restart st d hlen hcol hk) hl)

theorem tri4_outer_inv_loop (ext : externals) (tolerance : ℚ)
    (restart print_freq max_outer_iterations : Nat) (fuel : Nat) :
    ∀ st st2 : gmres_state, tri4_outer_inv restart st →
      gmres_outer_loop ext (dense_matrix_wrapper tri4) no_op_preconditioner [1, 2, 3, 4]
        tolerance restart print_freq max_outer_iterations fuel st = loop_step.next st2 →
      tri4_outer_inv restart st2 := by
  induction fuel with
  | zero =>
    intro st st2 hinv h
    simp only [gmres_outer_loop, loop_step.next.injEq] at h
    subst h
    exact hinv
  | succ fuel ih =>
    intro st st2 hinv h
    unfold gmres_outer_loop at h
    by_cases hc : st.outer_res > tolerance ∧ st.outer_iterations < max_outer_iterations
    · rw [if_pos hc] at h
      cases hb : gmres_outer_body ext (dense_matrix_wrapper tri4) no_op_preconditioner
          [1, 2, 3, 4] tolerance restart print_freq st with
      | done r => rw [hb] at h; cases h
      | next st3 =>
        rw [hb] at h
        exact ih st3 st2 (tri4_outer_inv_body ext tolerance restart print_freq st st3 hinv hb) h
    · rw [if_neg hc] at h
      have := loop_step.next.inj h
      subst this
      exact hinv

/-- The state in which `simple_gmres` leaves its loops on the tridiagonal system
started from `x = 0`, for any externals, restart length and budget: `x` lies in
the Krylov space `K_d` with `d = total_iterations - outer_iterations`, and the
inner iterations number at most `restart` in every outer pass. -/
theorem gmres_tridiagonal_krylov (ext : externals) (restart max_outer_iterations : Nat)
    (tolerance : ℚ) (st : gmres_state)
    (h : gmres_run ext (dense_matrix_wrapper tri4) [0, 0, 0, 0] [1, 2, 3, 4]
      no_op_preconditioner restart max_outer_iterations tolerance = loop_step.next st) :
    ∃ d : Nat, tri4_krylov d st.x ∧
      st.total_iterations = (d : Int) + (st.outer_iterations : Int) ∧
      d ≤ st.outer_iterations * restart := by
  unfold gmres_run at h
  simp only at h
  have hinit : tri4_outer_inv restart (gmres_init [0, 0, 0, 0] ([1, 2, 3, 4] : List ℚ).length restart
      tolerance) := by
    unfold tri4_outer_inv gmres_init
    simp only
    refine ⟨by simp, ?_, rfl, 0, ?_, by simp, Nat.zero_le _⟩
    · intro i hi
      rw [List.length_replicate] at hi
      rw [List.getD_eq_getElem?_getD, List.getElem?_replicate, if_pos hi]
      simp
    · refine ⟨fun _ => ?_, fun _ => ?_, fun _ => ?_, fun _ => ?_⟩ <;> norm_num [lin4, rd]
  obtain ⟨-, -, -, d, hk, hT, hd⟩ := tri4_outer_inv_loop ext tolerance restart (restart / 3)
    max_outer_iterations max_outer_iterations _ st hinit h
  exact ⟨d, hk, hT, hd⟩

/-- A call of `simple_gmres` that returns a record passed its checks and left its
loops in a state `st`: it returns `st.x` and reports `st.total_iterations`. -/
theorem simple_gmres_ok_state (ext : externals) (mat : ℚ → List ℚ → ℚ → List ℚ → List ℚ)
    (x b : List ℚ) (precondition : List ℚ → List ℚ) (restart max_outer_iterations : Int)
    (tolerance : ℚ) (info : gmres_info)
    (hok : (simple_gmres ext mat x b precondition restart max_outer_iterations tolerance).outcome
      = Except.ok info) :
    ∃ (st : gmres_state) (R K : Nat),
      gmres_run ext mat x b precondition R K (effective_tolerance ext tolerance)
        = loop_step.next st ∧
      (simple_gmres ext mat x b precondition restart max_outer_iterations tolerance).x = st.x ∧
      info.iterations = st.total_iterations ∧
      0 < K ∧ (st.outer_res > effective_tolerance ext tolerance → st.outer_iterations = K) := by
  by_cases hchk : solver_checks ext x b max_outer_iterations tolerance
  · by_cases hres : restart_accepted ext b restart
    · rw [simple_gmres_of_checks ext mat x b precondition restart max_outer_iterations tolerance
        hchk hres] at hok ⊢
      have hK : 0 < (effective_max_iter ext max_outer_iterations (b.length : Int)).toNat := by
        have := hchk.2.2
        omega
      rcases gmres_run_spec ext mat x b precondition
          (effective_restart ext restart (b.length : Int)).toNat
          (effective_max_iter ext max_outer_iterations (b.length : Int)).toNat
          (effective_tolerance ext tolerance) hK with ⟨-, r, hr, he⟩ | ⟨st, hst, h1, -, h3⟩
      · rw [hr] at hok
        simp only at hok
        rw [he] at hok
        cases hok
      · rw [hst] at hok ⊢
        simp only at hok ⊢
        have hinfo := Except.ok.inj hok
        refine ⟨st, _, _, hst, rfl, by rw [← hinfo], hK, fun h => h3 (by rw [← h1]; exact h)⟩
    · exfalso
      unfold restart_accepted at hres
      unfold simple_gmres at hok
      simp only at hok
      split_ifs at hok
      apply hres
      constructor <;> assumption
  · exfalso
    unfold solver_checks at hchk
    unfold simple_gmres at hok
    simp only at hok
    split_ifs at hok
    apply hchk
    refine ⟨?_, ?_, ?_⟩ <;> assumption

theorem tri4_solution_not_krylov (d : Nat) (hd : d ≤ 3) : ¬ tri4_krylov d [-4, -7, -8, -6] := by
  intro h
  have h3 := h.1 hd
  norm_num [lin4, rd] at h3

/-- A record of at most 4 iterations on the tridiagonal system comes with an `x`
in `K_3`. -/
theorem gmres_tridiagonal_short_run (ext : externals) (restart max_outer_iterations : Int)
    (tolerance : ℚ) (info : gmres_info)
    (hok : (simple_gmres ext (dense_matrix_wrapper tri4) [0, 0, 0, 0] [1, 2, 3, 4]
      no_op_preconditioner restart max_outer_iterations tolerance).outcome = Except.ok info)
    (hit : info.iterations ≤ 4) :
    tri4_krylov 3 (simple_gmres ext (dense_matrix_wrapper tri4) [0, 0, 0, 0] [1, 2, 3, 4]
      no_op_preconditioner restart max_outer_iterations tolerance).x := by
  obtain ⟨st, R, K, hrun, hx, hinfo, -, -⟩ := simple_gmres_ok_state ext _ _ _ _ _ _ _ info hok
  obtain ⟨d, hk, hT, hd⟩ := gmres_tridiagonal_krylov ext R K _ st hrun
  rw [hx]
  apply tri4_krylov_mono d 3 _ _ hk
  rw [hinfo] at hit
  by_cases hO : st.outer_iterations = 0
  · rw [hO, Nat.zero_mul] at hd
    omega
  · omega

/-- C13 (counterexample): on the system `tridiag(1, -2, 1) x = (1, 2, 3, 4)`,
started from `x = 0` with no preconditioner, restart 4 and `tol = 1e-10`,
`simple_gmres` returns the solution `(-4, -7, -8, -6)` with a record of at most
4 iterations for no choice of the externals and of the outer budget: the record
counts one for every outer pass besides the inner iterations, and after 3 inner
iterations `x` lies in `span (b, A b, A^2 b)`, where `x[1] = 2 x[0]`. -/
theorem gmres_tridiagonal_not_within_four :
    ¬ ∃ (ext : externals) (max_outer_iterations : Int) (info : gmres_info),
      (simple_gmres ext (dense_matrix_wrapper tri4) [0, 0, 0, 0] [1, 2, 3, 4]
        no_op_preconditioner 4 max_outer_iterations (1 / 10 ^ 10)).outcome = Except.ok info ∧
      info.iterations ≤ 4 ∧
      (simple_gmres ext (dense_matrix_wrapper tri4) [0, 0, 0, 0] [1, 2, 3, 4]
        no_op_preconditioner 4 max_outer_iterations (1 / 10 ^ 10)).x = [-4, -7, -8, -6] := by
  rintro ⟨ext, K, info, hok, hit, hx⟩
  have h := gmres_tridiagonal_short_run ext 4 K (1 / 10 ^ 10) info hok hit
  rw [hx] at h
  exact tri4_solution_not_krylov 3 (le_refl _) h

/-- A record of at most 4 iterations on the tridiagonal system: on the system
`tridiag(1, -2, 1) x = (1, 2, 3, 4)`, started from `x = 0` with no preconditioner,
a call of `simple_gmres` (any restart length, budget and tolerance, any externals)
that returns a record of at most 4 iterations returns an `x` with `x[1] = 2 x[0]`,
hence not the solution `(-4, -7, -8, -6)`: the count of the record is the number
of outer passes plus the number of inner iterations. -/
theorem gmres_tridiagonal_record (ext : externals) (restart max_outer_iterations : Int)
    (tolerance : ℚ) (info : gmres_info)
    (hok : (simple_gmres ext (dense_matrix_wrapper tri4) [0, 0, 0, 0] [1, 2, 3, 4]
      no_op_preconditioner restart max_outer_iterations tolerance).outcome = Except.ok info)
    (hit : info.iterations ≤ 4) :
    rd (simple_gmres ext (dense_matrix_wrapper tri4) [0, 0, 0, 0] [1, 2, 3, 4]
        no_op_preconditioner restart max_outer_iterations tolerance).x 1
      = 2 * rd (simple_gmres ext (dense_matrix_wrapper tri4) [0, 0, 0, 0] [1, 2, 3, 4]
        no_op_preconditioner restart max_outer_iterations tolerance).x 0 ∧
    (simple_gmres ext (dense_matrix_wrapper tri4) [0, 0, 0, 0] [1, 2, 3, 4]
      no_op_preconditioner restart max_outer_iterations tolerance).x ≠ [-4, -7, -8, -6] := by
  have h := gmres_tridiagonal_short_run ext restart max_outer_iterations tolerance info hok hit
  constructor
  · have h3 := h.1 (le_refl _)
    unfold lin4 at h3
    linarith
  · intro hx
    rw [hx] at h
    exact tri4_solution_not_krylov 3 (le_refl _) h


/-- A call of `simple_gmres` that passes its checks with a restart length of at
least 3 returns a record: the one of the state in which its loops are left. -/
theorem simple_gmres_returns_record (ext : externals)
    (mat : ℚ → List ℚ → ℚ → List ℚ → List ℚ) (x b : List ℚ)
    (precondition : List ℚ → List ℚ) (restart max_outer_iterations : Int) (tolerance : ℚ)
    (hchk : solver_checks ext x b max_outer_iterations tolerance)
    (hres : restart_accepted ext b restart)
    (hfreq : (effective_restart ext restart (b.length : Int)).toNat / 3 ≠ 0) :
    ∃ st : gmres_state,
      gmres_run ext mat x b precondition (effective_restart ext restart (b.length : Int)).toNat
        (effective_max_iter ext max_outer_iterations (b.length : Int)).toNat
        (effective_tolerance ext tolerance) = loop_step.next st ∧
      simple_gmres ext mat x b precondition restart max_outer_iterations tolerance
        = ⟨st.x, st.mat_calls, st.prec_calls, Except.ok ⟨st.outer_res, st.total_iterations⟩⟩ ∧
      st.outer_iterations ≤ (effective_max_iter ext max_outer_iterations (b.length : Int)).toNat := by
  have hK : 0 < (effective_max_iter ext max_outer_iterations (b.length : Int)).toNat := by
    have := hchk.2.2
    omega
  rw [simple_gmres_of_checks ext mat x b precondition restart max_outer_iterations tolerance
    hchk hres]
  rcases gmres_run_spec ext mat x b precondition
      (effective_restart ext restart (b.length : Int)).toNat
      (effective_max_iter ext max_outer_iterations (b.length : Int)).toNat
      (effective_tolerance ext tolerance) hK with ⟨h0, -⟩ | ⟨st, hst, -, h2, -⟩
  · exact absurd h0 hfreq
  · refine ⟨st, hst, ?_, h2⟩
    rw [hst]

/-- The record bound at `ext_example` with restart 3 and one outer pass: the call
returns a record, which reports at most `1 + 3 = 4` iterations, and the
returned `x` has `x[1] = 2 x[0]`. -/
theorem gmres_tridiagonal_record_witness :
    ∃ info : gmres_info,
      (simple_gmres ext_example (dense_matrix_wrapper tri4) [0, 0, 0, 0] [1, 2, 3, 4]
        no_op_preconditioner 3 1 (1 / 10 ^ 10)).outcome = Except.ok info ∧
      info.iterations ≤ 4 ∧
      rd (simple_gmres ext_example (dense_matrix_wrapper tri4) [0, 0, 0, 0] [1, 2, 3, 4]
          no_op_preconditioner 3 1 (1 / 10 ^ 10)).x 1
        = 2 * rd (simple_gmres ext_example (dense_matrix_wrapper tri4) [0, 0, 0, 0] [1, 2, 3, 4]
          no_op_preconditioner 3 1 (1 / 10 ^ 10)).x 0 ∧
      (simple_gmres ext_example (dense_matrix_wrapper tri4) [0, 0, 0, 0] [1, 2, 3, 4]
        no_op_preconditioner 3 1 (1 / 10 ^ 10)).x ≠ [-4, -7, -8, -6] := by
  obtain ⟨st, hrun, hret, hO⟩ := simple_gmres_returns_record ext_example
    (dense_matrix_wrapper tri4) [0, 0, 0, 0] [1, 2, 3, 4] no_op_preconditioner 3 1 (1 / 10 ^ 10)
    (by unfold solver_checks; decide!) (by unfold restart_accepted; decide!) (by decide!)
  have hR : (effective_restart ext_example 3 ((([1, 2, 3, 4] : List ℚ).length : Nat) : Int)).toNat
      = 3 := by decide!
  have hK : (effective_max_iter ext_example 1 ((([1, 2, 3, 4] : List ℚ).length : Nat) : Int)).toNat
      = 1 := by decide!
  rw [hR, hK] at hrun
  rw [hK] at hO
  obtain ⟨d, -, hT, hd⟩ := gmres_tridiagonal_krylov ext_example 3 1 _ st hrun
  have hok : (simple_gmres ext_example (dense_matrix_wrapper tri4) [0, 0, 0, 0] [1, 2, 3, 4]
      no_op_preconditioner 3 1 (1 / 10 ^ 10)).outcome
      = Except.ok ⟨st.outer_res, st.total_iterations⟩ := by rw [hret]
  have hit : (⟨st.outer_res, st.total_iterations⟩ : gmres_info).iterations ≤ 4 := by
    show st.total_iterations ≤ 4
    have h3 : d ≤ 3 := by
      calc d ≤ st.outer_iterations * 3 := hd
        _ ≤ 1 * 3 := Nat.mul_le_mul_right 3 hO
        _ = 3 := rfl
    omega
  exact ⟨_, hok, hit,
    gmres_tridiagonal_record ext_example 3 1 (1 / 10 ^ 10) _ hok hit⟩


theorem clamp_range (v lo hi : Int) (h : lo ≤ hi) : lo ≤ clamp v lo hi ∧ clamp v lo hi ≤ hi := by
  unfold clamp
  split_ifs <;> omega

/-- C26: for every `n >= 1` (and any `get_MB`) `default_gmres_restarts(n)` lies
between `min(10, n)` and `min(200, n)`, hence between 1 and `n`, so the default
restart passes the checks `restart > 0` and `restart > n` of `simple_gmres` for
a right-hand side of `n` entries; and with `get_MB` the conversion
`bytes * 1e-6`, the default restart is `n` for every `n <= 200`. -/
theorem default_gmres_restarts_range (ext : externals) (n : Int) (hn : 1 ≤ n) :
    min 10 n ≤ default_gmres_restarts ext n ∧ default_gmres_restarts ext n ≤ min 200 n ∧
    1 ≤ default_gmres_restarts ext n ∧ default_gmres_restarts ext n ≤ n ∧
    (∀ b : List ℚ, (b.length : Int) = n → restart_accepted ext b ext.NO_USER_VALUE) ∧
    (ext.get_MB = get_MB_of ext.is_float → n ≤ 200 → default_gmres_restarts ext n = n) := by
  have hr : min 10 n ≤ default_gmres_restarts ext n ∧ default_gmres_restarts ext n ≤ min 200 n := by
    unfold default_gmres_restarts
    exact clamp_range _ _ _ (by omega)
  refine ⟨hr.1, hr.2, by omega, by omega, ?_, ?_⟩
  · intro b hb
    unfold restart_accepted effective_restart
    rw [if_pos rfl, hb]
    constructor <;> omega
  · intro hMB h200
    have hnq : (0 : ℚ) < (n : ℚ) := by exact_mod_cast (by omega : (0 : Int) < n)
    have hn200 : (n : ℚ) ≤ 200 := by exact_mod_cast h200
    have hsz : (0 : ℚ) < (sizeof_P ext.is_float : ℚ) ∧ (sizeof_P ext.is_float : ℚ) ≤ 8 := by
      unfold sizeof_P
      split <;> norm_num
    have hpos : 0 < ext.get_MB n := by
      rw [hMB]
      unfold get_MB_of
      have := mul_pos hnq hsz.1
      positivity
    have hbig : (n : ℚ) ≤ 512 / ext.get_MB n := by
      rw [le_div_iff₀ hpos, hMB]
      unfold get_MB_of
      nlinarith [mul_le_mul hn200 hsz.2 hsz.1.le (by norm_num : (0 : ℚ) ≤ 200)]
    have hv : n ≤ trunc_int (512 / ext.get_MB n) := by
      unfold trunc_int
      rw [if_pos (le_trans hnq.le hbig)]
      exact Int.le_floor.mpr hbig
    unfold default_gmres_restarts clamp
    simp only
    split_ifs <;> omega

/-- C26 at `n = 4` in double precision: the default restart is 4. -/
theorem default_gmres_restarts_range_witness :
    (1 : Int) ≤ 4 ∧ default_gmres_restarts ext_example 4 = 4 ∧
    restart_accepted ext_example [1, 2, 3, 4] ext_example.NO_USER_VALUE :=
  have h := default_gmres_restarts_range ext_example 4 (by decide)
  ⟨by decide, h.2.2.2.2.2 (by funext m; simp [ext_example, get_MB_of, sizeof_P]) (by decide),
    h.2.2.2.2.1 [1, 2, 3, 4] rfl⟩


theorem gmres_inner_loop_skip (ext : externals) (mat : ℚ → List ℚ → ℚ → List ℚ → List ℚ)
    (precondition : List ℚ → List ℚ) (tolerance : ℚ) (restart print_freq fuel : Nat)
    (st : gmres_state) (h : ¬ (st.inner_res > tolerance ∧ st.inner_iterations < restart)) :
    gmres_inner_loop ext mat precondition tolerance restart print_freq fuel st
      = loop_step.next st := by
  cases fuel with
  | zero => rfl
  | succ fuel =>
    unfold gmres_inner_loop
    rw [if_neg h]

theorem gmres_outer_loop_skip (ext : externals) (mat : ℚ → List ℚ → ℚ → List ℚ → List ℚ)
    (precondition : List ℚ → List ℚ) (b : List ℚ) (tolerance : ℚ)
    (restart print_freq max_outer_iterations fuel : Nat) (st : gmres_state)
    (h : ¬ (st.outer_res > tolerance ∧ st.outer_iterations < max_outer_iterations)) :
    gmres_outer_loop ext mat precondition b tolerance restart print_freq max_outer_iterations
      fuel st = loop_step.next st := by
  cases fuel with
  | zero => rfl
  | succ fuel =>
    unfold gmres_outer_loop
    rw [if_neg h]

/-- C27: a call of `simple_gmres` that passes its checks with a preconditioned
initial residual norm `nrm2 (M^-1 (b - A x))` not above the tolerance runs no
inner iteration: it returns `x` as it was passed in, after one application of
the operator and one of the preconditioner, with the record of that norm and
1 iteration. -/
theorem simple_gmres_converged_at_start (ext : externals)
    (mat : ℚ → List ℚ → ℚ → List ℚ → List ℚ) (x b : List ℚ)
    (precondition : List ℚ → List ℚ) (restart max_outer_iterations : Int) (tolerance : ℚ)
    (hchk : solver_checks ext x b max_outer_iterations tolerance)
    (hres : restart_accepted ext b restart)
    (hconv : ext.nrm2 (precondition (mat (-1) x 1 b)) ≤ effective_tolerance ext tolerance) :
    simple_gmres ext mat x b precondition restart max_outer_iterations tolerance
      = ⟨x, 1, 1, Except.ok ⟨ext.nrm2 (precondition (mat (-1) x 1 b)), 1⟩⟩ := by
  rw [simple_gmres_of_checks ext mat x b precondition restart max_outer_iterations tolerance
    hchk hres]
  obtain ⟨k, hk⟩ : ∃ k : Nat,
      (effective_max_iter ext max_outer_iterations (b.length : Int)).toNat = k + 1 := by
    have := hchk.2.2
    exact ⟨(effective_max_iter ext max_outer_iterations (b.length : Int)).toNat - 1, by omega⟩
  have hrun : gmres_run ext mat x b precondition
      (effective_restart ext restart (b.length : Int)).toNat
      (effective_max_iter ext max_outer_iterations (b.length : Int)).toNat
      (effective_tolerance ext tolerance)
      = loop_step.next (gmres_outer_finish ext (gmres_outer_start ext mat precondition b
          (gmres_init x b.length (effective_restart ext restart (b.length : Int)).toNat
            (effective_tolerance ext tolerance)))) := by
    unfold gmres_run
    simp only
    rw [hk]
    conv_lhs => unfold gmres_outer_loop
    rw [if_pos ⟨by simp [gmres_init], by simp [gmres_init]⟩]
    unfold gmres_outer_body
    rw [gmres_inner_loop_skip _ _ _ _ _ _ _ _ (by
      rintro ⟨h1, -⟩
      exact absurd hconv (not_le.mpr h1))]
    simp only
    rw [gmres_outer_loop_skip _ _ _ _ _ _ _ _ _ _ (by
      rintro ⟨h1, -⟩
      exact absurd hconv (not_le.mpr h1))]
  rw [hrun]
  simp [gmres_outer_finish, gmres_outer_start, gmres_init]

/-- C27 for the system `2 x = 1` started at the solution `x = 1/2`
(`restart = 1`, `tol = 1e-10`): the residual is 0 and the record is `{0, 1}`. -/
theorem simple_gmres_converged_at_start_witness :
    solver_checks ext_example [1 / 2] [1] 1 (1 / 10 ^ 10) ∧
    restart_accepted ext_example [1] 1 ∧
    ext_example.nrm2 (no_op_preconditioner (dense_matrix_wrapper [[2]] (-1) [1 / 2] 1 [1]))
      ≤ effective_tolerance ext_example (1 / 10 ^ 10) ∧
    simple_gmres ext_example (dense_matrix_wrapper [[2]]) [1 / 2] [1] no_op_preconditioner 1 1
        (1 / 10 ^ 10)
      = ⟨[1 / 2], 1, 1, Except.ok ⟨ext_example.nrm2 (no_op_preconditioner
          (dense_matrix_wrapper [[2]] (-1) [1 / 2] 1 [1])), 1⟩⟩ ∧
    ext_example.nrm2 (no_op_preconditioner (dense_matrix_wrapper [[2]] (-1) [1 / 2] 1 [1])) = 0 :=
  ⟨by unfold solver_checks; decide!, by unfold restart_accepted; decide!, by decide!,
   simple_gmres_converged_at_start ext_example (dense_matrix_wrapper [[2]]) [1 / 2] [1]
     no_op_preconditioner 1 1 (1 / 10 ^ 10) (by unfold solver_checks; decide!)
     (by unfold restart_accepted; decide!) (by decide!),
   by decide!⟩


/-- C25 (code evaluated at the failing inputs): a call of `simple_gmres` that
passes its checks with a restart length of 1 or 2 (`print_freq = restart / 3 = 0`)
and a preconditioned initial residual norm above the tolerance evaluates
`inner_iterations % print_freq` with `print_freq = 0` in its first inner
iteration, after two applications of the operator. -/
theorem simple_gmres_print_freq_zero (ext : externals)
    (mat : ℚ → List ℚ → ℚ → List ℚ → List ℚ) (x b : List ℚ)
    (precondition : List ℚ → List ℚ) (restart max_outer_iterations : Int) (tolerance : ℚ)
    (hchk : solver_checks ext x b max_outer_iterations tolerance)
    (hres : restart_accepted ext b restart)
    (hsmall : effective_restart ext restart (b.length : Int) < 3)
    (hnorm : ext.nrm2 (precondition (mat (-1) x 1 b)) > effective_tolerance ext tolerance) :
    simple_gmres ext mat x b precondition restart max_outer_iterations tolerance
      = ⟨x, 2, 2, Except.error solver_error.modulo_by_zero⟩ := by
  rw [simple_gmres_of_checks ext mat x b precondition restart max_outer_iterations tolerance
    hchk hres]
  obtain ⟨k, hk⟩ : ∃ k : Nat,
      (effective_max_iter ext max_outer_iterations (b.length : Int)).toNat = k + 1 := by
    have := hchk.2.2
    exact ⟨(effective_max_iter ext max_outer_iterations (b.length : Int)).toNat - 1, by omega⟩
  obtain ⟨m, hm⟩ : ∃ m : Nat,
      (effective_restart ext restart (b.length : Int)).toNat = m + 1 := by
    have := hres.1
    exact ⟨(effective_restart ext restart (b.length : Int)).toNat - 1, by omega⟩
  have hfreq : (m + 1) / 3 = 0 := by
    apply Nat.div_eq_of_lt
    omega
  have hrun : gmres_run ext mat x b precondition
      (effective_restart ext restart (b.length : Int)).toNat
      (effective_max_iter ext max_outer_iterations (b.length : Int)).toNat
      (effective_tolerance ext tolerance)
      = loop_step.done ⟨x, 2, 2, Except.error solver_error.modulo_by_zero⟩ := by
    unfold gmres_run
    simp only
    rw [hk, hm, hfreq]
    conv_lhs => unfold gmres_outer_loop
    rw [if_pos ⟨by simp [gmres_init], by simp [gmres_init]⟩]
    unfold gmres_outer_body
    conv_lhs => unfold gmres_inner_loop
    rw [if_pos ⟨hnorm, by simp [gmres_outer_start]⟩]
    simp [gmres_inner_body, gmres_outer_start, gmres_init]
  rw [hrun]

/-- C25 at the system `2 I x = (1, 0)` with `x = 0`, `restart = 2`, one outer pass
and `tol = 1e-10`: the call is accepted (`1 <= restart <= n = 2`), the initial
residual norm is 1, and the first inner iteration divides by `2 / 3 = 0`. -/
theorem simple_gmres_print_freq_zero_witness :
    solver_checks ext_example [0, 0] [1, 0] 1 (1 / 10 ^ 10) ∧
    restart_accepted ext_example [1, 0] 2 ∧
    effective_restart ext_example 2 ((([1, 0] : List ℚ).length : Nat) : Int) < 3 ∧
    ext_example.nrm2 (no_op_preconditioner
      (dense_matrix_wrapper [[2, 0], [0, 2]] (-1) [0, 0] 1 [1, 0]))
      > effective_tolerance ext_example (1 / 10 ^ 10) ∧
    simple_gmres ext_example (dense_matrix_wrapper [[2, 0], [0, 2]]) [0, 0] [1, 0]
        no_op_preconditioner 2 1 (1 / 10 ^ 10)
      = ⟨[0, 0], 2, 2, Except.error solver_error.modulo_by_zero⟩ :=
  ⟨by unfold solver_checks; decide!, by unfold restart_accepted; decide!, by decide!,
   by decide!,
   simple_gmres_print_freq_zero ext_example (dense_matrix_wrapper [[2, 0], [0, 2]]) [0, 0] [1, 0]
     no_op_preconditioner 2 1 (1 / 10 ^ 10) (by unfold solver_checks; decide!)
     (by unfold restart_accepted; decide!) (by decide!) (by decide!)⟩


theorem gmres_inner_body_counters (ext : externals) (mat : ℚ → List ℚ → ℚ → List ℚ → List ℚ)
    (precondition : List ℚ → List ℚ) (tolerance : ℚ) (restart print_freq : Nat)
    (st st2 : gmres_state)
    (hb : gmres_inner_body ext mat precondition tolerance restart print_freq st
      = loop_step.next st2) :
    st2.mat_calls = st.mat_calls + 1 ∧ st2.total_iterations = st.total_iterations + 1 ∧
    st2.inner_iterations = st.inner_iterations + 1 ∧
    st2.outer_iterations = st.outer_iterations := by
  unfold gmres_inner_body at hb
  by_cases hp : print_freq = 0
  · simp only [hp, if_true] at hb
    cases hb
  · simp only [hp, if_false] at hb
    have h := loop_step.next.inj hb
    subst h
    exact ⟨rfl, rfl, rfl, rfl⟩

/-- The counters across the inner loop: every pass applies the operator once and
counts one iteration, and the loop makes at most `restart` passes. -/
theorem gmres_inner_loop_counters (ext : externals) (mat : ℚ → List ℚ → ℚ → List ℚ → List ℚ)
    (precondition : List ℚ → List ℚ) (tolerance : ℚ) (restart print_freq : Nat) (fuel : Nat) :
    ∀ st st2 : gmres_state, st.inner_iterations ≤ restart →
      gmres_inner_loop ext mat precondition tolerance restart print_freq fuel st
        = loop_step.next st2 →
      st2.inner_iterations ≤ restart ∧ st.inner_iterations ≤ st2.inner_iterations ∧
      st2.mat_calls = st.mat_calls + (st2.inner_iterations - st.inner_iterations) ∧
      st2.total_iterations
        = st.total_iterations + ((st2.inner_iterations - st.inner_iterations : Nat) : Int) ∧
      st2.outer_iterations = st.outer_iterations := by
  induction fuel with
  | zero =>
    intro st st2 hle h
    simp only [gmres_inner_loop, loop_step.next.injEq] at h
    subst h
    simp [hle]
  | succ fuel ih =>
    intro st st2 hle h
    unfold gmres_inner_loop at h
    by_cases hc : st.inner_res > tolerance ∧ st.inner_iterations < restart
    · rw [if_pos hc] at h
      cases hb : gmres_inner_body ext mat precondition tolerance restart print_freq st with
      | done r => rw [hb] at h; cases h
      | next st3 =>
        rw [hb] at h
        obtain ⟨c1, c2, c3, c4⟩ := gmres_inner_body_counters ext mat precondition tolerance
          restart print_freq st st3 hb
        obtain ⟨i1, i2, i3, i4, i5⟩ := ih st3 st2 (by omega) h
        refine ⟨i1, by omega, by omega, ?_, by omega⟩
        rw [i4, c2]
        have : ((st2.inner_iterations - st.inner_iterations : Nat) : Int)
            = ((st2.inner_iterations - st3.inner_iterations : Nat) : Int) + 1 := by
          omega
        rw [this]
        ring
    · rw [if_neg hc] at h
      have := loop_step.next.inj h
      subst this
      simp [hle]

/-- The counters across one outer pass: `I` inner iterations with `I <= restart`,
`1 + I` applications of the operator, `1 + I` iterations counted. -/
theorem gmres_outer_body_counters (ext : externals) (mat : ℚ → List ℚ → ℚ → List ℚ → List ℚ)
    (precondition : List ℚ → List ℚ) (b : List ℚ) (tolerance : ℚ) (restart print_freq : Nat)
    (st st2 : gmres_state)
    (hb : gmres_outer_body ext mat precondition b tolerance restart print_freq st
      = loop_step.next st2) :
    ∃ I : Nat, I ≤ restart ∧ st2.mat_calls = st.mat_calls + 1 + I ∧
      st2.total_iterations = st.total_iterations + 1 + (I : Int) ∧
      st2.outer_iterations = st.outer_iterations + 1 := by
  unfold gmres_outer_body at hb
  cases hl : gmres_inner_loop ext mat precondition tolerance restart print_freq restart
      (gmres_outer_start ext mat precondition b st) with
  | done r => rw [hl] at hb; cases hb
  | next st3 =>
    rw [hl] at hb
    have h := loop_step.next.inj hb
    subst h
    obtain ⟨i1, -, i3, i4, i5⟩ := gmres_inner_loop_counters ext mat precondition tolerance
      restart print_freq restart _ st3 (Nat.zero_le _) hl
    refine ⟨st3.inner_iterations, i1, ?_, ?_, ?_⟩
    · have e : (gmres_outer_finish ext st3).mat_calls = st3.mat_calls := by
        unfold gmres_outer_finish
        simp only
        split <;> rfl
      rw [e, i3]
      simp [gmres_outer_start]
    · have e : (gmres_outer_finish ext st3).total_iterations = st3.total_iterations := by
        unfold gmres_outer_finish
        simp only
        split <;> rfl
      rw [e, i4]
      simp [gmres_outer_start]
    · have e : (gmres_outer_finish ext st3).outer_iterations = st3.outer_iterations + 1 := by
        unfold gmres_outer_finish
        simp only
        split <;> rfl
      rw [e, i5]
      rfl

/-- The counters across the outer loop: with `O` outer passes made the operator
was applied `O + I` times for some `I <= O * restart`, and that is the
iteration count. -/
theorem gmres_outer_loop_counters (ext : externals) (mat : ℚ → List ℚ → ℚ → List ℚ → List ℚ)
    (precondition : List ℚ → List ℚ) (b : List ℚ) (tolerance : ℚ)
    (restart print_freq max_outer_iterations : Nat) (fuel : Nat) :
    ∀ st st2 : gmres_state,
      (∃ I : Nat, I ≤ st.outer_iterations * restart ∧ st.mat_calls = st.outer_iterations + I ∧
        st.total_iterations = (st.outer_iterations : Int) + (I : Int)) →
      gmres_outer_loop ext mat precondition b tolerance restart print_freq max_outer_iterations
        fuel st = loop_step.next st2 →
      ∃ I : Nat, I ≤ st2.outer_iterations * restart ∧
        st2.mat_calls = st2.outer_iterations + I ∧
        st2.total_iterations = (st2.outer_iterations : Int) + (I : Int) := by
  induction fuel with
  | zero =>
    intro st st2 hinv h
    simp only [gmres_outer_loop, loop_step.next.injEq] at h
    subst h
    exact hinv
  | succ fuel ih =>
    intro st st2 hinv h
    unfold gmres_outer_loop at h
    by_cases hc : st.outer_res > tolerance ∧ st.outer_iterations < max_outer_iterations
    · rw [if_pos hc] at h
      cases hb : gmres_outer_body ext mat precondition b tolerance restart print_freq st with
      | done r => rw [hb] at h; cases h
      | next st3 =>
        rw [hb] at h
        apply ih st3 st2 _ h
        obtain ⟨I, hI, hm, ht⟩ := hinv
        obtain ⟨J, hJ, jm, jt, jo⟩ := gmres_outer_body_counters ext mat precondition b tolerance
          restart print_freq st st3 hb
        refine ⟨I + J, ?_, by omega, ?_⟩
        · rw [jo, Nat.succ_mul]
          omega
        · rw [jt, ht, jo]
          push_cast
          ring
    · rw [if_neg hc] at h
      have := loop_step.next.inj h
      subst this
      exact hinv

/-- Iteration count of `simple_gmres`, the general statement behind C28: a call
that passes its checks ends after at most `max_outer` outer passes of at most
`restart` inner iterations each (the model runs both loops with exactly that
much fuel and leaves them with their conditions false). Unless it stops at `inner_iterations % 0` (only for
`restart / 3 = 0`), it returns a record whose iteration count is the number `O`
of outer passes plus the number `I <= O * restart` of inner iterations, which is
also the number of applications of the operator, and at most
`max_outer * (restart + 1)`. -/
theorem simple_gmres_iteration_count (ext : externals)
    (mat : ℚ → List ℚ → ℚ → List ℚ → List ℚ) (x b : List ℚ)
    (precondition : List ℚ → List ℚ) (restart max_outer_iterations : Int) (tolerance : ℚ)
    (hchk : solver_checks ext x b max_outer_iterations tolerance)
    (hres : restart_accepted ext b restart) :
    ((effective_restart ext restart (b.length : Int)).toNat / 3 = 0 ∧
      (simple_gmres ext mat x b precondition restart max_outer_iterations tolerance).outcome
        = Except.error solver_error.modulo_by_zero) ∨
    ∃ (st : gmres_state) (I : Nat),
      gmres_run ext mat x b precondition (effective_restart ext restart (b.length : Int)).toNat
        (effective_max_iter ext max_outer_iterations (b.length : Int)).toNat
        (effective_tolerance ext tolerance) = loop_step.next st ∧
      simple_gmres ext mat x b precondition restart max_outer_iterations tolerance
        = ⟨st.x, st.mat_calls, st.prec_calls, Except.ok ⟨st.outer_res, st.total_iterations⟩⟩ ∧
      ¬ (st.outer_res > effective_tolerance ext tolerance ∧
        st.outer_iterations < (effective_max_iter ext max_outer_iterations (b.length : Int)).toNat) ∧
      st.outer_iterations ≤ (effective_max_iter ext max_outer_iterations (b.length : Int)).toNat ∧
      I ≤ st.outer_iterations * (effective_restart ext restart (b.length : Int)).toNat ∧
      st.total_iterations = (st.outer_iterations : Int) + (I : Int) ∧
      st.mat_calls = st.outer_iterations + I ∧
      st.total_iterations
        ≤ effective_max_iter ext max_outer_iterations (b.length : Int)
          * (effective_restart ext restart (b.length : Int) + 1) := by
  have hK : 0 < (effective_max_iter ext max_outer_iterations (b.length : Int)).toNat := by
    have := hchk.2.2
    omega
  have hKi : ((effective_max_iter ext max_outer_iterations (b.length : Int)).toNat : Int)
      = effective_max_iter ext max_outer_iterations (b.length : Int) :=
    Int.toNat_of_nonneg (le_of_lt hchk.2.2)
  have hRi : ((effective_restart ext restart (b.length : Int)).toNat : Int)
      = effective_restart ext restart (b.length : Int) :=
    Int.toNat_of_nonneg (le_of_lt hres.1)
  rw [simple_gmres_of_checks ext mat x b precondition restart max_outer_iterations tolerance
    hchk hres]
  rcases gmres_run_spec ext mat x b precondition
      (effective_restart ext restart (b.length : Int)).toNat
      (effective_max_iter ext max_outer_iterations (b.length : Int)).toNat
      (effective_tolerance ext tolerance) hK with ⟨h0, r, hr, he⟩ | ⟨st, hst, h1, h2, h3⟩
  · left
    refine ⟨h0, ?_⟩
    rw [hr]
    exact he
  · right
    have hrun := hst
    unfold gmres_run at hrun
    simp only at hrun
    obtain ⟨I, hI, hm, ht⟩ := gmres_outer_loop_counters ext mat precondition b
      (effective_tolerance ext tolerance) _ _ _ _ _ st
      ⟨0, by simp [gmres_init], by simp [gmres_init], by simp [gmres_init]⟩ hrun
    refine ⟨st, I, hst, by rw [hst], ?_, h2, hI, ht, hm, ?_⟩
    · rintro ⟨g1, g2⟩
      rw [h1] at g1
      have := h3 g1
      omega
    · rw [ht, ← hKi, ← hRi]
      have hb1 : ((st.outer_iterations : Int) + (I : Int))
          ≤ (st.outer_iterations : Int)
            * (((effective_restart ext restart (b.length : Int)).toNat : Int) + 1) := by
        have : (I : Int) ≤ (st.outer_iterations : Int)
            * ((effective_restart ext restart (b.length : Int)).toNat : Int) := by
          exact_mod_cast hI
        linarith
      have hb2 : (st.outer_iterations : Int)
          ≤ ((effective_max_iter ext max_outer_iterations (b.length : Int)).toNat : Int) := by
        exact_mod_cast h2
      have hb3 : (0 : Int) ≤ ((effective_restart ext restart (b.length : Int)).toNat : Int) + 1 := by
        omega
      calc (st.outer_iterations : Int) + (I : Int)
          ≤ (st.outer_iterations : Int)
            * (((effective_restart ext restart (b.length : Int)).toNat : Int) + 1) := hb1
        _ ≤ ((effective_max_iter ext max_outer_iterations (b.length : Int)).toNat : Int)
            * (((effective_restart ext restart (b.length : Int)).toNat : Int) + 1) :=
          mul_le_mul_of_nonneg_right hb2 hb3

/-- The iteration count at the cyclic shift with right-hand side `e1`, `restart = 3`,
`max_outer = 2` and `tol = 1e-10`: the run stagnates and reports
`8 = 2 + 2 * 3` iterations. -/
theorem simple_gmres_iteration_count_witness :
    solver_checks ext_example [0, 0, 0, 0] [1, 0, 0, 0] 2 (1 / 10 ^ 10) ∧
    restart_accepted ext_example [1, 0, 0, 0] 3 ∧
    (simple_gmres ext_example (dense_matrix_wrapper shift4) [0, 0, 0, 0] [1, 0, 0, 0]
      no_op_preconditioner 3 2 (1 / 10 ^ 10)).outcome = Except.ok ⟨1, 8⟩ ∧
    (simple_gmres ext_example (dense_matrix_wrapper shift4) [0, 0, 0, 0] [1, 0, 0, 0]
      no_op_preconditioner 3 2 (1 / 10 ^ 10)).mat_calls = 8 ∧
    (((effective_restart ext_example 3 ((([1, 0, 0, 0] : List ℚ).length : Nat) : Int)).toNat / 3 = 0 ∧
      (simple_gmres ext_example (dense_matrix_wrapper shift4) [0, 0, 0, 0] [1, 0, 0, 0]
        no_op_preconditioner 3 2 (1 / 10 ^ 10)).outcome
        = Except.error solver_error.modulo_by_zero) ∨
    ∃ (st : gmres_state) (I : Nat),
      gmres_run ext_example (dense_matrix_wrapper shift4) [0, 0, 0, 0] [1, 0, 0, 0]
        no_op_preconditioner
        (effective_restart ext_example 3 ((([1, 0, 0, 0] : List ℚ).length : Nat) : Int)).toNat
        (effective_max_iter ext_example 2 ((([1, 0, 0, 0] : List ℚ).length : Nat) : Int)).toNat
        (effective_tolerance ext_example (1 / 10 ^ 10)) = loop_step.next st ∧
      simple_gmres ext_example (dense_matrix_wrapper shift4) [0, 0, 0, 0] [1, 0, 0, 0]
          no_op_preconditioner 3 2 (1 / 10 ^ 10)
        = ⟨st.x, st.mat_calls, st.prec_calls, Except.ok ⟨st.outer_res, st.total_iterations⟩⟩ ∧
      ¬ (st.outer_res > effective_tolerance ext_example (1 / 10 ^ 10) ∧
        st.outer_iterations
          < (effective_max_iter ext_example 2 ((([1, 0, 0, 0] : List ℚ).length : Nat) : Int)).toNat) ∧
      st.outer_iterations
        ≤ (effective_max_iter ext_example 2 ((([1, 0, 0, 0] : List ℚ).length : Nat) : Int)).toNat ∧
      I ≤ st.outer_iterations
        * (effective_restart ext_example 3 ((([1, 0, 0, 0] : List ℚ).length : Nat) : Int)).toNat ∧
      st.total_iterations = (st.outer_iterations : Int) + (I : Int) ∧
      st.mat_calls = st.outer_iterations + I ∧
      st.total_iterations
        ≤ effective_max_iter ext_example 2 ((([1, 0, 0, 0] : List ℚ).length : Nat) : Int)
          * (effective_restart ext_example 3 ((([1, 0, 0, 0] : List ℚ).length : Nat) : Int) + 1)) :=
  ⟨by unfold solver_checks; decide!, by unfold restart_accepted; decide!, by decide!,
   by decide!,
   simple_gmres_iteration_count ext_example (dense_matrix_wrapper shift4) [0, 0, 0, 0]
     [1, 0, 0, 0] no_op_preconditioner 3 2 (1 / 10 ^ 10) (by unfold solver_checks; decide!)
     (by unfold restart_accepted; decide!)⟩


theorem int_sqrt_pos (m : Int) (hm : 1 ≤ m) : 1 ≤ Int.sqrt m := by
  unfold Int.sqrt
  have h : 0 < Nat.sqrt m.toNat := Nat.sqrt_pos.mpr (by omega)
  omega

/-- C29: for a PDE with `num_terms >= 1` and `degree >= 1` (and a `get_MB` that is
positive on positive counts) and a subgrid that passes the assertions of
`get_num_subgrids`, `get_num_subgrids` returns at least 1 and at most
`grid.size()`, so `size / num_subgrids >= 1` and the tile edge `subgrid_length`
is at least 1: the division by `num_subgrids`, the divisions by
`subgrid_length` and the assertion `assert(multiple)` of `round_up` in
`decompose` are safe. -/
theorem decompose_divisors_positive (get_MB : Int → ℚ) (pde : PDE) (g : element_subgrid)
    (ws : Int) (hMB : ∀ m : Int, 0 < m → 0 < get_MB m)
    (hterms : 1 ≤ pde.num_terms) (hdeg : 1 ≤ pde.degree)
    (hassert : get_num_subgrids_asserts get_MB pde g ws) :
    1 ≤ get_num_subgrids get_MB pde g ws ∧
    get_num_subgrids get_MB pde g ws ≤ g.size ∧
    1 ≤ Int.tdiv g.size (get_num_subgrids get_MB pde g ws) ∧
    1 ≤ subgrid_length g (get_num_subgrids get_MB pde g ws) := by
  have hseg : 0 < element_segment_size pde := by
    unfold element_segment_size
    exact pow_pos (by omega) _
  have hpos : 0 < get_element_size_MB get_MB pde := by
    unfold get_element_size_MB
    simp only
    have := hMB (pde.num_terms * element_segment_size pde) (Int.mul_pos (by omega) hseg)
    positivity
  obtain ⟨hns_pos, -⟩ := get_num_subgrids_facts get_MB pde g ws hpos hassert
  obtain ⟨hsize, -, -, -, hrem⟩ := hassert
  have hrem0 : 0 < remaining_rank_MB get_MB pde g ws := by linarith
  have hsizeq : (1 : ℚ) ≤ (g.size : ℚ) := by exact_mod_cast hsize
  have hns : get_num_subgrids get_MB pde g ws
      = ⌈get_element_size_MB get_MB pde * (g.size : ℚ) / remaining_rank_MB get_MB pde g ws⌉ := by
    unfold get_num_subgrids
    exact trunc_int_intCast _
  have hle : get_num_subgrids get_MB pde g ws ≤ g.size := by
    rw [hns, Int.ceil_le, div_le_iff₀ hrem0]
    nlinarith
  have hdiv : 1 ≤ Int.tdiv g.size (get_num_subgrids get_MB pde g ws) := by
    rw [Int.tdiv_eq_ediv (by omega) (by omega)]
    exact (Int.le_ediv_iff_mul_le hns_pos).mpr (by omega)
  refine ⟨hns_pos, hle, hdiv, ?_⟩
  unfold subgrid_length
  exact int_sqrt_pos _ hdiv

/-- C29 at the subgrid of rows `10..19` and columns `0..9` of a degree-10,
3-dimensional, one-term PDE with a budget of 2 MB: two subgrids, tile edge 7. -/
theorem decompose_divisors_positive_witness :
    (∀ m : Int, 0 < m → 0 < get_MB_double m) ∧
    1 ≤ pde_deg10_dim3.num_terms ∧ 1 ≤ pde_deg10_dim3.degree ∧
    get_num_subgrids_asserts get_MB_double pde_deg10_dim3 subgrid_rows10 2 ∧
    1 ≤ get_num_subgrids get_MB_double pde_deg10_dim3 subgrid_rows10 2 ∧
    get_num_subgrids get_MB_double pde_deg10_dim3 subgrid_rows10 2 ≤ subgrid_rows10.size ∧
    1 ≤ Int.tdiv subgrid_rows10.size (get_num_subgrids get_MB_double pde_deg10_dim3 subgrid_rows10 2) ∧
    1 ≤ subgrid_length subgrid_rows10 (get_num_subgrids get_MB_double pde_deg10_dim3 subgrid_rows10 2) :=
  have hMB : ∀ m : Int, 0 < m → 0 < get_MB_double m := by
    intro m hm
    unfold get_MB_double
    have : (0 : ℚ) < (m : ℚ) := by exact_mod_cast hm
    positivity
  ⟨hMB, by decide, by decide, get_num_subgrids_asserts_rows10,
   decompose_divisors_positive get_MB_double pde_deg10_dim3 subgrid_rows10 2 hMB (by decide)
     (by decide) get_num_subgrids_asserts_rows10⟩


theorem rd_replicate (n : Nat) (a : ℚ) (i : Nat) :
    rd (List.replicate n a) i = if i < n then a else 0 := by
  unfold rd
  rw [List.getD_eq_getElem?_getD, List.getElem?_replicate]
  split <;> rfl

theorem fk_resize_length (v : List ℚ) (n : Nat) : (fk_resize v n).length = n := by
  unfold fk_resize
  rw [List.length_append, List.length_take, List.length_replicate]
  omega

theorem forLoop_set_const (n : Nat) (a : ℚ) (v : List ℚ) (hv : v.length = n) :
    forLoop n (fun i (d : List ℚ) => d.set i a) v = List.replicate n a := by
  apply List.ext_getElem?
  intro k
  have h1 := forLoop_set_rd n (fun _ => a) v k
  have hl := forLoop_set_length n (fun _ => a) v
  by_cases hk : k < n
  · rw [if_pos ⟨hk, by omega⟩] at h1
    unfold rd at h1
    rw [List.getD_eq_getElem?_getD, List.getElem?_eq_getElem (by rw [hl]; omega)] at h1
    rw [List.getElem?_eq_getElem (by rw [hl]; omega), List.getElem?_replicate, if_pos hk]
    simpa using h1
  · rw [List.getElem?_eq_none (by rw [hl]; omega), List.getElem?_replicate, if_neg hk]

theorem setup_poisson_assemble_eq (N_elements : Nat) (x_min x_max : ℚ) (diag off_diag : List ℚ) :
    setup_poisson_assemble N_elements x_min x_max diag off_diag
      = (List.replicate (N_elements - 1) (2 / ((x_max - x_min) / (N_elements : ℚ))),
         List.replicate (N_elements - 1 - 1) (-1 / ((x_max - x_min) / (N_elements : ℚ)))) := by
  unfold setup_poisson_assemble
  simp only
  rw [forLoop_set_const _ _ _ (fk_resize_length _ _), forLoop_set_const _ _ _ (fk_resize_length _ _)]

/-- The telescoping identity behind the positivity of the second-difference
matrix. -/
theorem second_difference_identity (g : Nat → ℚ) (n : Nat) :
    Finset.sum (Finset.range n)
        (fun i => 2 * g i ^ 2 - (if 0 < i then g i * g (i - 1) else 0) - g i * g (i + 1))
      = g 0 ^ 2 + Finset.sum (Finset.range n) (fun i => (g i - g (i + 1)) ^ 2)
        - g n ^ 2 + (if 0 < n then g n * g (n - 1) else 0) := by
  induction n with
  | zero => simp
  | succ n ih =>
    rw [Finset.sum_range_succ, Finset.sum_range_succ, ih]
    rcases Nat.eq_zero_or_pos n with h0 | h0
    · subst h0
      simp
      ring
    · simp only [h0, if_true, Nat.succ_pos, Nat.add_sub_cancel]
      ring

theorem second_difference_pos (g : Nat → ℚ) (n : Nat) (hn : g n = 0)
    (hne : ∃ i, i < n ∧ g i ≠ 0) :
    0 < Finset.sum (Finset.range n)
        (fun i => 2 * g i ^ 2 - (if 0 < i then g i * g (i - 1) else 0) - g i * g (i + 1)) := by
  rw [second_difference_identity, hn]
  have hsplit : (if 0 < n then (0 : ℚ) * g (n - 1) else 0) = 0 := by split <;> simp
  rw [hsplit]
  have hnonneg : 0 ≤ Finset.sum (Finset.range n) (fun i => (g i - g (i + 1)) ^ 2) :=
    Finset.sum_nonneg (fun i _ => sq_nonneg _)
  have h0 : 0 ≤ g 0 ^ 2 := sq_nonneg _
  by_contra hle
  have hzero : g 0 ^ 2 + Finset.sum (Finset.range n) (fun i => (g i - g (i + 1)) ^ 2) = 0 := by
    have : g 0 ^ 2 + Finset.sum (Finset.range n) (fun i => (g i - g (i + 1)) ^ 2)
        - 0 ^ 2 + 0 ≤ 0 := not_lt.mp hle
    linarith
  have hg0 : g 0 = 0 := by
    have : g 0 ^ 2 = 0 := by linarith
    exact pow_eq_zero_iff (by norm_num) |>.mp this
  have hsum : Finset.sum (Finset.range n) (fun i => (g i - g (i + 1)) ^ 2) = 0 := by linarith
  have hall := (Finset.sum_eq_zero_iff_of_nonneg (fun i _ => sq_nonneg (g i - g (i + 1)))).mp hsum
  have hgi : ∀ i, i ≤ n → g i = 0 := by
    intro i
    induction i with
    | zero => intro _; exact hg0
    | succ i ih =>
      intro hi
      have h1 := hall i (Finset.mem_range.mpr (by omega))
      have h2 : g i - g (i + 1) = 0 := pow_eq_zero_iff (by norm_num) |>.mp h1
      have h3 := ih (by omega)
      linarith
  obtain ⟨i, hi, hgne⟩ := hne
  exact hgne (hgi i (by omega))

theorem quadratic_form_tridiag (n : Nat) (a c : ℚ) (v : List ℚ) (hv : v.length = n) :
    quadratic_form n (tridiag_entry (List.replicate n a) (List.replicate (n - 1) c)) v
      = Finset.sum (Finset.range n) (fun i =>
          a * rd v i ^ 2 + (if 0 < i then c * (rd v i * rd v (i - 1)) else 0)
            + c * (rd v i * rd v (i + 1))) := by
  have hvn : rd v n = 0 := by
    unfold rd
    rw [List.getD_eq_getElem?_getD, List.getElem?_eq_none (by omega)]
    rfl
  unfold quadratic_form
  apply Finset.sum_congr rfl
  intro i hi
  have hin : i < n := Finset.mem_range.mp hi
  have hpt : ∀ j ∈ Finset.range n,
      rd v i * tridiag_entry (List.replicate n a) (List.replicate (n - 1) c) i j * rd v j
        = (if i = j then a * rd v i ^ 2 else 0)
          + (if i + 1 = j then c * (rd v i * rd v (i + 1)) else 0)
          + (if i - 1 = j then (if 0 < i then c * (rd v i * rd v (i - 1)) else 0) else 0) := by
    intro j hj
    have hjn : j < n := Finset.mem_range.mp hj
    unfold tridiag_entry
    simp only [rd_replicate]
    by_cases h1 : i = j
    · subst h1
      simp only [if_true, hin]
      rw [if_neg (by omega)]
      by_cases h0 : 0 < i
      · rw [if_neg (by omega)]
        ring
      · have hi0 : i = 0 := by omega
        subst hi0
        simp
        ring
    · simp only [h1, if_false]
      by_cases h2 : j = i + 1
      · subst h2
        simp only [if_true]
        rw [if_pos (by omega), if_neg (by omega)]
        ring
      · simp only [h2, if_false]
        rw [if_neg (fun h : i + 1 = j => h2 h.symm)]
        by_cases h3 : i = j + 1
        · subst h3
          simp only [if_true, Nat.add_sub_cancel]
          rw [if_pos (by omega), if_pos (by omega)]
          ring
        · simp only [h3, if_false]
          by_cases h4 : i - 1 = j
          · rw [if_pos h4, if_neg (by omega)]
            ring
          · rw [if_neg h4]
            ring
  rw [Finset.sum_congr rfl hpt, Finset.sum_add_distrib, Finset.sum_add_distrib,
    Finset.sum_ite_eq, Finset.sum_ite_eq, Finset.sum_ite_eq, if_pos hi,
    if_pos (Finset.mem_range.mpr (by omega : i - 1 < n))]
  by_cases hl : i + 1 < n
  · rw [if_pos (Finset.mem_range.mpr hl)]
    ring
  · have he : i + 1 = n := by omega
    rw [if_neg (fun h => hl (Finset.mem_range.mp h)), he, hvn]
    ring

theorem tridiag_entry_symm (d e : List ℚ) (i j : Nat) :
    tridiag_entry d e i j = tridiag_entry d e j i := by
  unfold tridiag_entry
  split_ifs <;> first | rfl | (exfalso; omega) | (subst_vars; rfl)

/-- C24: for `N_elements >= 2` and `x_min < x_max` the matrix that `setup_poisson`
assembles and hands to `pttrf` has order `N_elements - 1`, every diagonal entry
`2 / dx` and every off-diagonal entry `-1 / dx` with
`dx = (x_max - x_min) / N_elements`; it is symmetric and `v^T A v > 0` for every
non-zero `v`; and for `N_elements = 1` the function returns `diag` and `off_diag`
as they were passed in. -/
theorem setup_poisson_spd (pttrf : List ℚ → List ℚ → List ℚ × List ℚ) (N_elements : Nat)
    (x_min x_max : ℚ) (diag off_diag : List ℚ) (hN : 2 ≤ N_elements) (hx : x_min < x_max) :
    setup_poisson_assemble N_elements x_min x_max diag off_diag
      = (List.replicate (N_elements - 1) (2 / ((x_max - x_min) / (N_elements : ℚ))),
         List.replicate (N_elements - 1 - 1) (-1 / ((x_max - x_min) / (N_elements : ℚ)))) ∧
    setup_poisson pttrf N_elements x_min x_max diag off_diag
      = pttrf (List.replicate (N_elements - 1) (2 / ((x_max - x_min) / (N_elements : ℚ))))
          (List.replicate (N_elements - 1 - 1) (-1 / ((x_max - x_min) / (N_elements : ℚ)))) ∧
    (∀ i j, tridiag_entry (setup_poisson_assemble N_elements x_min x_max diag off_diag).1
        (setup_poisson_assemble N_elements x_min x_max diag off_diag).2 i j
      = tridiag_entry (setup_poisson_assemble N_elements x_min x_max diag off_diag).1
        (setup_poisson_assemble N_elements x_min x_max diag off_diag).2 j i) ∧
    (∀ v : List ℚ, v.length = N_elements - 1 → (∃ i, i < N_elements - 1 ∧ rd v i ≠ 0) →
      0 < quadratic_form (N_elements - 1)
        (tridiag_entry (setup_poisson_assemble N_elements x_min x_max diag off_diag).1
          (setup_poisson_assemble N_elements x_min x_max diag off_diag).2) v) ∧
    setup_poisson pttrf 1 x_min x_max diag off_diag = (diag, off_diag) := by
  have hasm := setup_poisson_assemble_eq N_elements x_min x_max diag off_diag
  refine ⟨hasm, ?_, fun i j => tridiag_entry_symm _ _ i j, ?_, ?_⟩
  · unfold setup_poisson
    rw [if_neg (by omega), hasm]
  · intro v hv hne
    rw [hasm]
    simp only
    rw [quadratic_form_tridiag _ _ _ v hv]
    have hdx : 0 < (x_max - x_min) / (N_elements : ℚ) := by
      apply div_pos (by linarith)
      have : 0 < N_elements := by omega
      exact_mod_cast this
    have hvn : rd v (N_elements - 1) = 0 := by
      unfold rd
      rw [List.getD_eq_getElem?_getD, List.getElem?_eq_none (by omega)]
      rfl
    have hpos := second_difference_pos (rd v) (N_elements - 1) hvn hne
    have hrw : Finset.sum (Finset.range (N_elements - 1)) (fun i =>
          2 / ((x_max - x_min) / (N_elements : ℚ)) * rd v i ^ 2
            + (if 0 < i then -1 / ((x_max - x_min) / (N_elements : ℚ))
                * (rd v i * rd v (i - 1)) else 0)
            + -1 / ((x_max - x_min) / (N_elements : ℚ)) * (rd v i * rd v (i + 1)))
        = (1 / ((x_max - x_min) / (N_elements : ℚ)))
          * Finset.sum (Finset.range (N_elements - 1))
            (fun i => 2 * rd v i ^ 2 - (if 0 < i then rd v i * rd v (i - 1) else 0)
              - rd v i * rd v (i + 1)) := by
      rw [Finset.mul_sum]
      apply Finset.sum_congr rfl
      intro i _
      split <;> ring
    rw [hrw]
    exact mul_pos (one_div_pos.mpr hdx) hpos
  · unfold setup_poisson
    rw [if_pos rfl]

/-- C24 for three elements on `[0, 1]`: `dx = 1/3`, the matrix is
`[[6, -3], [-3, 6]]`, and `v = (1, 1)` has `v^T A v = 6`. -/
theorem setup_poisson_spd_witness :
    (2 : Nat) ≤ 3 ∧ (0 : ℚ) < 1 ∧
    setup_poisson_assemble 3 0 1 [] [] = ([6, 6], [-3]) ∧
    quadratic_form 2 (tridiag_entry [6, 6] [-3]) [1, 1] = 6 ∧
    0 < quadratic_form (3 - 1)
      (tridiag_entry (setup_poisson_assemble 3 0 1 [] []).1
        (setup_poisson_assemble 3 0 1 [] []).2) [1, 1] :=
  ⟨by decide, by decide, by decide!, by decide!,
   (setup_poisson_spd (fun d e => (d, e)) 3 0 1 [] [] (by decide) (by decide)).2.2.2.1 [1, 1] rfl
     ⟨0, by decide, by decide!⟩⟩


theorem forLoop_pair {α β : Type} (n : Nat) (F : Nat → α → α) (G : Nat → β → β)
    (st : α × β) :
    forLoop n (fun k (st : α × β) => (F k st.1, G k st.2)) st
      = (forLoop n F st.1, forLoop n G st.2) := by
  induction n with
  | zero => rfl
  | succ n ih => rw [forLoop_succ, forLoop_succ, forLoop_succ, ih]

theorem forLoop_block_write_length (m o : Nat) (F : Nat → ℚ) (y : List ℚ) :
    (forLoop m (fun i (acc : List ℚ) => acc.set (o + i) (F i)) y).length = y.length :=
  forLoop_block_length m o (fun i _ => F i) y

/-- A loop that writes `y[o + i] = F i` for `i < m`. -/
theorem forLoop_block_write_rd (m o : Nat) (F : Nat → ℚ) (y : List ℚ) (idx : Nat) :
    rd (forLoop m (fun i (acc : List ℚ) => acc.set (o + i) (F i)) y) idx =
      if o ≤ idx ∧ idx < o + m ∧ idx < y.length then F (idx - o) else rd y idx :=
  forLoop_block_rd m o (fun i _ => F i) y idx

theorem forLoop_blocks_write_length (n m : Nat) (F : Nat → Nat → ℚ) (y : List ℚ) :
    (forLoop n (fun i0 (acc : List ℚ) =>
      forLoop m (fun q (acc : List ℚ) => acc.set ((i0 + 1) * m + q) (F i0 q)) acc)
      y).length = y.length := by
  induction n with
  | zero => rfl
  | succ n ih => rw [forLoop_succ, forLoop_block_write_length, ih]

/-- The nested loop that writes `y[(i + 1) * m + q] = F i q` for `i < n` and
`q < m`. -/
theorem forLoop_blocks_write_rd (n m : Nat) (hm : 0 < m) (F : Nat → Nat → ℚ) (y : List ℚ)
    (idx : Nat) :
    rd (forLoop n (fun i0 (acc : List ℚ) =>
      forLoop m (fun q (acc : List ℚ) => acc.set ((i0 + 1) * m + q) (F i0 q)) acc) y) idx
      = if m ≤ idx ∧ idx < (n + 1) * m ∧ idx < y.length then F (idx / m - 1) (idx % m)
        else rd y idx := by
  induction n with
  | zero =>
    rw [forLoop_zero, if_neg (by omega)]
  | succ n ih =>
    rw [forLoop_succ, forLoop_block_write_rd, forLoop_blocks_write_length, ih]
    by_cases hb : (n + 1) * m ≤ idx ∧ idx < (n + 1) * m + m ∧ idx < y.length
    · rw [if_pos hb]
      have h1 : m ≤ idx := by
        have : m ≤ (n + 1) * m := Nat.le_mul_of_pos_left m (by omega)
        omega
      have h2 : idx < (n + 1 + 1) * m := by
        rw [Nat.succ_mul (n + 1) m]
        omega
      rw [if_pos ⟨h1, h2, hb.2.2⟩]
      have hdiv : idx / m = n + 1 := by
        apply Nat.div_eq_of_lt_le
        · exact hb.1
        · exact h2
      have hmod : idx % m = idx - (n + 1) * m := by
        have := Nat.div_add_mod idx m
        rw [hdiv, Nat.mul_comm] at this
        omega
      rw [hdiv, hmod, Nat.add_sub_cancel]
    · rw [if_neg hb]
      have hiff : (m ≤ idx ∧ idx < (n + 1 + 1) * m ∧ idx < y.length)
          ↔ (m ≤ idx ∧ idx < (n + 1) * m ∧ idx < y.length) := by
        rw [Nat.succ_mul (n + 1) m]
        constructor
        · rintro ⟨a, b, c⟩
          refine ⟨a, ?_, c⟩
          by_contra hge
          exact hb ⟨by omega, b, c⟩
        · rintro ⟨a, b, c⟩
          exact ⟨a, by omega, c⟩
      simp only [hiff]

theorem forLoop_pair_set (n : Nat) (idx : Nat → Nat) (A B : Nat → ℚ) (st : List ℚ × List ℚ) :
    forLoop n (fun k (st : List ℚ × List ℚ) => (st.1.set (idx k) (A k), st.2.set (idx k) (B k))) st
      = (forLoop n (fun k (p : List ℚ) => p.set (idx k) (A k)) st.1,
         forLoop n (fun k (p : List ℚ) => p.set (idx k) (B k)) st.2) :=
  forLoop_pair n (fun k p => p.set (idx k) (A k)) (fun k p => p.set (idx k) (B k)) st

theorem forLoop_pair_set2 (n m : Nat) (idx : Nat → Nat → Nat) (A B : Nat → Nat → ℚ)
    (st : List ℚ × List ℚ) :
    forLoop n (fun i (st : List ℚ × List ℚ) =>
        forLoop m (fun q (st : List ℚ × List ℚ) =>
          (st.1.set (idx i q) (A i q), st.2.set (idx i q) (B i q))) st) st
      = (forLoop n (fun i (p : List ℚ) =>
            forLoop m (fun q (p : List ℚ) => p.set (idx i q) (A i q)) p) st.1,
         forLoop n (fun i (p : List ℚ) =>
            forLoop m (fun q (p : List ℚ) => p.set (idx i q) (B i q)) p) st.2) := by
  induction n with
  | zero => rfl
  | succ n ih => rw [forLoop_succ, forLoop_succ, forLoop_succ, ih, forLoop_pair_set]

/-- What `poisson_solver` leaves in `phi` and `E` for `N_elements >= 2`: at the
entry of node `q` of element `i` the values `poisson_phi_entry` and
`poisson_E_entry` of the solved vector `b`. -/
theorem poisson_solver_entries (lgwt : Nat → Nat → ℚ)
    (pttrs : List ℚ → List ℚ → List ℚ → List ℚ)
    (source A_D A_E phi E : List ℚ) (degree N_elements : Nat)
    (x_min x_max phi_min phi_max : ℚ) (bc : poisson_bc) (hN : 2 ≤ N_elements)
    (hphi : N_elements * (degree + 1) ≤ phi.length)
    (hE : N_elements * (degree + 1) ≤ E.length)
    (i q : Nat) (hi : i < N_elements) (hq : q < degree + 1) :
    rd (poisson_solver lgwt pttrs source A_D A_E phi E degree N_elements x_min x_max phi_min
        phi_max bc).1 (i * (degree + 1) + q)
      = poisson_phi_entry lgwt
          (pttrs A_D A_E (poisson_load lgwt source degree N_elements
            ((x_max - x_min) / (N_elements : ℚ)) x_min x_max bc))
          N_elements x_min x_max phi_min phi_max i q ∧
    rd (poisson_solver lgwt pttrs source A_D A_E phi E degree N_elements x_min x_max phi_min
        phi_max bc).2 (i * (degree + 1) + q)
      = poisson_E_entry
          (pttrs A_D A_E (poisson_load lgwt source degree N_elements
            ((x_max - x_min) / (N_elements : ℚ)) x_min x_max bc))
          N_elements x_min x_max phi_min phi_max i := by
  have hidx : i * (degree + 1) + q < N_elements * (degree + 1) := by
    have : (i + 1) * (degree + 1) ≤ N_elements * (degree + 1) :=
      Nat.mul_le_mul_right _ (by omega)
    rw [Nat.succ_mul] at this
    omega
  have hdiv : (i * (degree + 1) + q) / (degree + 1) = i := by
    rw [Nat.add_comm, Nat.add_mul_div_right _ _ (by omega), Nat.div_eq_of_lt hq, Nat.zero_add]
  have hmod : (i * (degree + 1) + q) % (degree + 1) = q := by
    rw [Nat.add_comm, Nat.add_mul_mod_self_right, Nat.mod_eq_of_lt hq]
  have hNm : (N_elements - 1 - 1 + 1) * (degree + 1) = (N_elements - 1) * (degree + 1) := by
    congr 1
    omega
  unfold poisson_solver
  rw [if_neg (by omega)]
  simp only []
  rw [forLoop_pair_set, forLoop_pair_set2, forLoop_pair_set]
  simp only []
  rw [forLoop_block_write_rd, forLoop_blocks_write_length, forLoop_set_length,
    forLoop_blocks_write_rd _ _ (by omega), forLoop_set_length, forLoop_set_rd,
    forLoop_block_write_rd, forLoop_blocks_write_length, forLoop_set_length,
    forLoop_blocks_write_rd _ _ (by omega), forLoop_set_length, forLoop_set_rd, hdiv, hmod, hNm]
  unfold poisson_phi_entry poisson_E_entry poisson_node
  have hblock : i * (degree + 1) + q < i * (degree + 1) + (degree + 1) := by omega
  by_cases h0 : i = 0
  · subst h0
    have hm : 1 * (degree + 1) ≤ (N_elements - 1) * (degree + 1) :=
      Nat.mul_le_mul_right _ (by omega)
    have hlast : ∀ len : Nat, ¬ ((N_elements - 1) * (degree + 1) ≤ 0 * (degree + 1) + q ∧
        0 * (degree + 1) + q < (N_elements - 1) * (degree + 1) + (degree + 1) ∧
        0 * (degree + 1) + q < len) := by
      rintro len ⟨h, -, -⟩
      omega
    have hint : ∀ len : Nat, ¬ (degree + 1 ≤ 0 * (degree + 1) + q ∧
        0 * (degree + 1) + q < (N_elements - 1) * (degree + 1) ∧
        0 * (degree + 1) + q < len) := by
      rintro len ⟨h, -, -⟩
      omega
    have hfirst : ∀ len : Nat, N_elements * (degree + 1) ≤ len →
        (0 * (degree + 1) + q < degree + 1 ∧ 0 * (degree + 1) + q < len) := by
      intro len hlen
      omega
    simp only [if_neg (hlast _), if_neg (hint _), if_pos (hfirst _ hphi), if_pos (hfirst _ hE),
      if_true]
    constructor
    · simp only [Nat.zero_mul, Nat.zero_add]
      push_cast
      ring
    · trivial
  · by_cases hl : i = N_elements - 1
    · have hlast : ∀ len : Nat, N_elements * (degree + 1) ≤ len →
          ((N_elements - 1) * (degree + 1) ≤ i * (degree + 1) + q ∧
          i * (degree + 1) + q < (N_elements - 1) * (degree + 1) + (degree + 1) ∧
          i * (degree + 1) + q < len) := by
        intro len hlen
        rw [← hl]
        omega
      simp only [if_pos (hlast _ hphi), if_pos (hlast _ hE), if_neg h0, if_pos hl]
      have hsub : i * (degree + 1) + q - (N_elements - 1) * (degree + 1) = q := by
        rw [← hl]
        omega
      rw [hsub, ← hl]
      constructor
      · ring
      · rfl
    · have hm1 : 1 * (degree + 1) ≤ i * (degree + 1) := Nat.mul_le_mul_right _ (by omega)
      have hm2 : (i + 1) * (degree + 1) ≤ (N_elements - 1) * (degree + 1) :=
        Nat.mul_le_mul_right _ (by omega)
      rw [Nat.succ_mul] at hm2
      have hlast : ∀ len : Nat, ¬ ((N_elements - 1) * (degree + 1) ≤ i * (degree + 1) + q ∧
          i * (degree + 1) + q < (N_elements - 1) * (degree + 1) + (degree + 1) ∧
          i * (degree + 1) + q < len) := by
        rintro len ⟨h, -, -⟩
        omega
      have hint : ∀ len : Nat, N_elements * (degree + 1) ≤ len →
          (degree + 1 ≤ i * (degree + 1) + q ∧
          i * (degree + 1) + q < (N_elements - 1) * (degree + 1) ∧
          i * (degree + 1) + q < len) := by
        intro len hlen
        omega
      simp only [if_neg (hlast _), if_pos (hint _ hphi), if_pos (hint _ hE), if_neg h0,
        if_neg hl]
      have hi1 : i - 1 + 1 = i := by omega
      simp only [hi1]
      constructor
      · ring_nf
      · trivial


theorem poisson_single_E (lgwt : Nat → Nat → ℚ) (phi E : List ℚ) (degree : Nat)
    (dx x_min x_max phi_min phi_max : ℚ) (k : Nat) :
    rd (poisson_single lgwt phi E degree dx x_min x_max phi_min phi_max).2 k =
      if k < degree + 1 ∧ k < E.length then -(phi_max - phi_min) / (x_max - x_min)
      else rd E k := by
  unfold poisson_single
  rw [forLoop_pair_snd (degree + 1)
    (fun k (p : List ℚ) => p.set k (((phi_max - phi_min) / (x_max - x_min)) *
      ((x_min + (1 / 2) * dx * (1 + lgwt 0 k)) - x_min) + x_min))
    (fun k (e : List ℚ) => e.set k (-(phi_max - phi_min) / (x_max - x_min)))]
  exact forLoop_set_rd _ _ _ _

/-- C23: the field that `poisson_solver` returns is `E = -d(phi)/dx` of the
returned potential. For `N_elements >= 1`, `x_min ≠ x_max` and `phi`, `E` of at
least `N_elements * (degree + 1)` entries: at any two quadrature nodes `k`, `k'`
of one element `E` has the same value, and the difference of `phi` is `-E` times
the difference of the node coordinates. -/
theorem poisson_field_is_gradient (lgwt : Nat → Nat → ℚ)
    (pttrs : List ℚ → List ℚ → List ℚ → List ℚ)
    (source A_D A_E phi E : List ℚ) (degree N_elements : Nat)
    (x_min x_max phi_min phi_max : ℚ) (bc : poisson_bc) (hN : 1 ≤ N_elements)
    (hx : x_min ≠ x_max)
    (hphi : N_elements * (degree + 1) ≤ phi.length)
    (hE : N_elements * (degree + 1) ≤ E.length)
    (i k k2 : Nat) (hi : i < N_elements) (hk : k < degree + 1) (hk2 : k2 < degree + 1) :
    rd (poisson_solver lgwt pttrs source A_D A_E phi E degree N_elements x_min x_max phi_min
        phi_max bc).2 (i * (degree + 1) + k)
      = rd (poisson_solver lgwt pttrs source A_D A_E phi E degree N_elements x_min x_max phi_min
        phi_max bc).2 (i * (degree + 1) + k2) ∧
    rd (poisson_solver lgwt pttrs source A_D A_E phi E degree N_elements x_min x_max phi_min
        phi_max bc).1 (i * (degree + 1) + k2)
      - rd (poisson_solver lgwt pttrs source A_D A_E phi E degree N_elements x_min x_max phi_min
        phi_max bc).1 (i * (degree + 1) + k)
      = -rd (poisson_solver lgwt pttrs source A_D A_E phi E degree N_elements x_min x_max phi_min
          phi_max bc).2 (i * (degree + 1) + k)
        * (poisson_node lgwt N_elements x_min x_max i k2
          - poisson_node lgwt N_elements x_min x_max i k) := by
  have hd : x_max - x_min ≠ 0 := sub_ne_zero.mpr (Ne.symm hx)
  have hNq : (N_elements : ℚ) ≠ 0 := by
    have : 0 < N_elements := by omega
    exact_mod_cast this.ne'
  by_cases h1 : N_elements = 1
  · subst h1
    have hi0 : i = 0 := by omega
    subst hi0
    unfold poisson_solver
    rw [if_pos rfl, poisson_single_E, poisson_single_E, poisson_single_phi, poisson_single_phi,
      if_pos ⟨by omega, by omega⟩, if_pos ⟨by omega, by omega⟩, if_pos ⟨by omega, by omega⟩,
      if_pos ⟨by omega, by omega⟩]
    refine ⟨rfl, ?_⟩
    unfold poisson_node
    simp only [Nat.zero_mul, Nat.zero_add]
    push_cast
    ring
  · obtain ⟨p1, e1⟩ := poisson_solver_entries lgwt pttrs source A_D A_E phi E degree N_elements
      x_min x_max phi_min phi_max bc (by omega) hphi hE i k hi hk
    obtain ⟨p2, e2⟩ := poisson_solver_entries lgwt pttrs source A_D A_E phi E degree N_elements
      x_min x_max phi_min phi_max bc (by omega) hphi hE i k2 hi hk2
    rw [p1, p2, e1, e2]
    refine ⟨rfl, ?_⟩
    unfold poisson_phi_entry poisson_E_entry poisson_node
    simp only
    split_ifs <;> (field_simp; ring)

/-- C23 for two elements of degree 1 on `[0, 1]` with nodes `-1/2`, `1/2` on the
reference element and `b = (4)` returned by the solve. -/
theorem poisson_field_is_gradient_witness :
    (1 : Nat) ≤ 2 ∧ (0 : ℚ) ≠ 1 ∧
    rd (poisson_solver (fun r q => if r = 0 then (if q = 0 then -1 / 2 else 1 / 2) else 1)
        (fun _ _ _ => [4]) [0, 0, 0, 0] [] [] [0, 0, 0, 0] [0, 0, 0, 0] 1 2 0 1 0 0
        poisson_bc.dirichlet).2 (1 * (1 + 1) + 0) = 8 ∧
    rd (poisson_solver (fun r q => if r = 0 then (if q = 0 then -1 / 2 else 1 / 2) else 1)
        (fun _ _ _ => [4]) [0, 0, 0, 0] [] [] [0, 0, 0, 0] [0, 0, 0, 0] 1 2 0 1 0 0
        poisson_bc.dirichlet).1 (1 * (1 + 1) + 1)
      - rd (poisson_solver (fun r q => if r = 0 then (if q = 0 then -1 / 2 else 1 / 2) else 1)
        (fun _ _ _ => [4]) [0, 0, 0, 0] [] [] [0, 0, 0, 0] [0, 0, 0, 0] 1 2 0 1 0 0
        poisson_bc.dirichlet).1 (1 * (1 + 1) + 0)
      = -rd (poisson_solver (fun r q => if r = 0 then (if q = 0 then -1 / 2 else 1 / 2) else 1)
          (fun _ _ _ => [4]) [0, 0, 0, 0] [] [] [0, 0, 0, 0] [0, 0, 0, 0] 1 2 0 1 0 0
          poisson_bc.dirichlet).2 (1 * (1 + 1) + 0)
        * (poisson_node (fun r q => if r = 0 then (if q = 0 then -1 / 2 else 1 / 2) else 1)
            2 0 1 1 1
          - poisson_node (fun r q => if r = 0 then (if q = 0 then -1 / 2 else 1 / 2) else 1)
            2 0 1 1 0) :=
  ⟨by decide, by decide, by decide!,
   (poisson_field_is_gradient (fun r q => if r = 0 then (if q = 0 then -1 / 2 else 1 / 2) else 1)
     (fun _ _ _ => [4]) [0, 0, 0, 0] [] [] [0, 0, 0, 0] [0, 0, 0, 0] 1 2 0 1 0 0
     poisson_bc.dirichlet (by decide) (by decide) (by decide) (by decide) 1 0 1 (by decide)
     (by decide) (by decide)).2⟩


/-- Loop invariants: what holds before the first pass and is kept by every pass
holds after the loop. -/
theorem forLoop_invariant {σ : Type} (n : Nat) (body : Nat → σ → σ) (s : σ)
    (Inv : Nat → σ → Prop) (h0 : Inv 0 s)
    (hstep : ∀ i, i < n → ∀ t, Inv i t → Inv (i + 1) (body i t)) :
    Inv n (forLoop n body s) := by
  induction n with
  | zero => exact h0
  | succ n ih =>
    rw [forLoop_succ]
    exact hstep n (Nat.lt_succ_self n) _ (ih (fun i hi t ht => hstep i (by omega) t ht))

theorem poisson_phi_writes_eq (degree N_elements : Nat) (hN : 2 ≤ N_elements) :
    poisson_phi_writes degree N_elements = List.range (N_elements * (degree + 1)) := by
  unfold poisson_phi_writes
  simp only
  have h1 : forLoop (degree + 1) (fun k (acc : List Nat) => acc ++ [k]) []
      = List.range (degree + 1) := by
    apply forLoop_invariant (degree + 1) _ _ (fun i acc => acc = List.range i) rfl
    intro i _ t ht
    rw [ht, List.range_succ]
  have h2 : forLoop (N_elements - 1 - 1)
      (fun i0 (acc : List Nat) =>
        forLoop (degree + 1) (fun q (acc : List Nat) => acc ++ [(i0 + 1) * (degree + 1) + q]) acc)
      (List.range (degree + 1)) = List.range ((N_elements - 1 - 1 + 1) * (degree + 1)) := by
    apply forLoop_invariant (N_elements - 1 - 1) _ _
      (fun i acc => acc = List.range ((i + 1) * (degree + 1))) (by rw [Nat.zero_add, Nat.one_mul])
    intro i _ t ht
    have h3 : forLoop (degree + 1)
        (fun q (acc : List Nat) => acc ++ [(i + 1) * (degree + 1) + q]) t
        = List.range ((i + 1) * (degree + 1) + (degree + 1)) := by
      apply forLoop_invariant (degree + 1) _ _
        (fun q acc => acc = List.range ((i + 1) * (degree + 1) + q)) ht
      intro q _ u hu
      rw [hu, ← Nat.add_assoc, List.range_succ]
    rw [h3, Nat.succ_mul (i + 1)]
  have hNm : N_elements - 1 - 1 + 1 = N_elements - 1 := by omega
  rw [h1, h2, hNm]
  have h4 : forLoop (degree + 1)
      (fun q (acc : List Nat) => acc ++ [(N_elements - 1) * (degree + 1) + q])
      (List.range ((N_elements - 1) * (degree + 1)))
      = List.range ((N_elements - 1) * (degree + 1) + (degree + 1)) := by
    apply forLoop_invariant (degree + 1) _ _
      (fun q acc => acc = List.range ((N_elements - 1) * (degree + 1) + q)) rfl
    intro q _ u hu
    rw [hu, ← Nat.add_assoc, List.range_succ]
  rw [h4]
  congr 1
  have : N_elements = (N_elements - 1) + 1 := by omega
  conv_rhs => rw [this, Nat.succ_mul]

theorem forLoop_append_all {α : Type} (n : Nat) (G : Nat → List α) (init : List α)
    (P : α → Prop) (h0 : ∀ t ∈ init, P t) (hG : ∀ i, i < n → ∀ t ∈ G i, P t) :
    ∀ t ∈ forLoop n (fun i acc => acc ++ G i) init, P t := by
  apply forLoop_invariant n _ _ (fun _ acc => ∀ t ∈ acc, P t) h0
  intro i hi acc hacc t ht
  rcases List.mem_append.mp ht with h | h
  · exact hacc t h
  · exact hG i hi t h

theorem index_lt_of_element (N d i q : Nat) (hi : i < N) (hq : q < d + 1) :
    i * (d + 1) + q < N * (d + 1) := by
  have h1 : (i + 1) * (d + 1) ≤ N * (d + 1) := Nat.mul_le_mul_right _ (by omega)
  rw [Nat.succ_mul] at h1
  omega

theorem poisson_source_reads_in_range (degree N_elements : Nat) (bc : poisson_bc) :
    ∀ idx ∈ poisson_source_reads degree N_elements bc, idx < N_elements * (degree + 1) := by
  unfold poisson_source_reads
  simp only
  apply forLoop_invariant (N_elements - 1) _ _
    (fun _ acc => ∀ t ∈ acc, t < N_elements * (degree + 1))
  · cases bc with
    | dirichlet =>
      intro t ht
      cases ht
    | periodic =>
      simp only
      apply forLoop_invariant N_elements _ _
        (fun _ acc => ∀ t ∈ acc, t < N_elements * (degree + 1))
      · intro t ht
        cases ht
      · intro i hi acc hacc
        apply forLoop_append_all (degree + 1) (fun q => [i * (degree + 1) + q]) acc _ hacc
        intro q hq t ht
        rw [List.mem_singleton.mp ht]
        exact index_lt_of_element N_elements degree i q hi hq
  · intro i hi acc hacc
    apply forLoop_append_all (degree + 1)
      (fun q => [i * (degree + 1) + q, (i + 1) * (degree + 1) + q]) acc _ hacc
    intro q hq t ht
    obtain ⟨h1, h2⟩ := index_lt_of_node N_elements degree i q hi hq
    simp only [List.mem_cons, List.mem_singleton, List.not_mem_nil, or_false] at ht
    rcases ht with h | h
    · rw [h]; exact h1
    · rw [h]; exact h2

theorem poisson_b_accesses_in_range (degree N_elements : Nat) (hN : 2 ≤ N_elements) :
    ∀ idx ∈ poisson_b_accesses degree N_elements, 0 ≤ idx ∧ idx < (N_elements : Int) - 1 := by
  unfold poisson_b_accesses
  simp only
  apply forLoop_append_all (degree + 1)
    (fun _ => [(N_elements : Int) - 1 - 1, (N_elements : Int) - 1 - 1])
  · apply forLoop_invariant (N_elements - 1 - 1) _ _
      (fun _ acc => ∀ t ∈ acc, 0 ≤ t ∧ t < (N_elements : Int) - 1)
    · apply forLoop_append_all (degree + 1) (fun _ => [(0 : Int), 0])
      · apply forLoop_invariant (N_elements - 1) _ _
          (fun _ acc => ∀ t ∈ acc, 0 ≤ t ∧ t < (N_elements : Int) - 1)
        · intro t ht
          cases ht
        · intro i hi acc hacc
          apply forLoop_append_all (degree + 1) (fun _ => [(i : Int)])
          · intro t ht
            rcases List.mem_append.mp ht with h | h
            · exact hacc t h
            · rw [List.mem_singleton.mp h]
              omega
          · intro q _ t ht
            rw [List.mem_singleton.mp ht]
            omega
      · intro q _ t ht
        simp only [List.mem_cons, List.mem_singleton, List.not_mem_nil, or_false, or_self] at ht
        omega
    · intro i0 hi0 acc hacc
      apply forLoop_append_all (degree + 1)
        (fun _ => [(i0 : Int) + 1 - 1, (i0 : Int) + 1, (i0 : Int) + 1, (i0 : Int) + 1 - 1]) acc _
        hacc
      intro q _ t ht
      simp only [List.mem_cons, List.mem_singleton, List.not_mem_nil, or_false] at ht
      omega
  · intro q _ t ht
    simp only [List.mem_cons, List.mem_singleton, List.not_mem_nil, or_false, or_self] at ht
    omega

/-- C30: for `N_elements >= 2` and any `degree`, with `source`, `phi` and `E` of
`N_elements * (degree + 1)` entries and `b` of `N_elements - 1` entries: every
index at which `poisson_solver` reads `source` is at most
`(N_elements - 1) * (degree + 1) + degree`, every index at which it accesses `b`
lies in `0 .. N_elements - 2`, and the indices at which it writes `phi` (and
`E`) are `0, 1, ..., N_elements * (degree + 1) - 1` in this order, each once. -/
theorem poisson_solver_indices_in_range (degree N_elements : Nat) (bc : poisson_bc)
    (hN : 2 ≤ N_elements) :
    (∀ idx ∈ poisson_source_reads degree N_elements bc,
      idx ≤ (N_elements - 1) * (degree + 1) + degree ∧ idx < N_elements * (degree + 1)) ∧
    (∀ idx ∈ poisson_b_accesses degree N_elements, 0 ≤ idx ∧ idx < (N_elements : Int) - 1) ∧
    poisson_phi_writes degree N_elements = List.range (N_elements * (degree + 1)) ∧
    (∀ idx ∈ poisson_phi_writes degree N_elements, idx < N_elements * (degree + 1)) ∧
    (∀ idx, idx < N_elements * (degree + 1) →
      List.count idx (poisson_phi_writes degree N_elements) = 1) := by
  have hw := poisson_phi_writes_eq degree N_elements hN
  refine ⟨?_, poisson_b_accesses_in_range degree N_elements hN, hw, ?_, ?_⟩
  · intro idx hidx
    have h := poisson_source_reads_in_range degree N_elements bc idx hidx
    refine ⟨?_, h⟩
    have e : N_elements * (degree + 1) = (N_elements - 1) * (degree + 1) + (degree + 1) := by
      have : N_elements = (N_elements - 1) + 1 := by omega
      conv_lhs => rw [this, Nat.succ_mul]
    omega
  · intro idx hidx
    rw [hw] at hidx
    exact List.mem_range.mp hidx
  · intro idx hidx
    rw [hw]
    exact List.count_eq_one_of_mem (List.nodup_range _) (List.mem_range.mpr hidx)

/-- C30 for two elements of degree 1 under periodic boundary conditions. -/
theorem poisson_solver_indices_in_range_witness :
    (2 : Nat) ≤ 2 ∧
    poisson_source_reads 1 2 poisson_bc.periodic = [0, 1, 2, 3, 0, 2, 1, 3] ∧
    poisson_b_accesses 1 2 = [0, 0, 0, 0, 0, 0, 0, 0, 0, 0, 0] ∧
    poisson_phi_writes 1 2 = [0, 1, 2, 3] ∧
    (∀ idx ∈ poisson_source_reads 1 2 poisson_bc.periodic,
      idx ≤ (2 - 1) * (1 + 1) + 1 ∧ idx < 2 * (1 + 1)) ∧
    (∀ idx ∈ poisson_b_accesses 1 2, 0 ≤ idx ∧ idx < ((2 : Nat) : Int) - 1) :=
  have h := poisson_solver_indices_in_range 1 2 poisson_bc.periodic (by decide)
  ⟨by decide, by decide, by decide, by decide, h.1, h.2.1⟩

theorem int_log2_loop_of_level (m : Nat) :
    ∀ (fuel : Nat) (x l0 : Int), (2 : Int) ^ m ≤ x → x < 2 ^ (m + 1) → m + 1 ≤ fuel →
      int_log2_loop fuel x l0 = l0 + m + 1 := by
  induction m with
  | zero =>
    intro fuel x l0 h1 h2 hf
    have hx : x = 1 := by
      simp only [pow_zero, zero_add, pow_one] at h1 h2
      omega
    subst hx
    obtain ⟨f, rfl⟩ : ∃ f, fuel = f + 1 := ⟨fuel - 1, by omega⟩
    cases f with
    | zero => simp [int_log2_loop]
    | succ f =>
      have ht : Int.tdiv 1 2 = 0 := by decide
      simp [int_log2_loop, ht]
  | succ m ih =>
    intro fuel x l0 h1 h2 hf
    obtain ⟨f, rfl⟩ : ∃ f, fuel = f + 1 := ⟨fuel - 1, by omega⟩
    have hpos : (0 : Int) < 2 ^ (m + 1) := by positivity
    have hx : x > 0 := by omega
    have e1 : (2 : Int) ^ (m + 1) = 2 * 2 ^ m := by rw [pow_succ]; ring
    have e2 : (2 : Int) ^ (m + 1 + 1) = 2 * 2 ^ (m + 1) := by rw [pow_succ]; ring
    have hd : Int.tdiv x 2 = x / 2 := by
      rw [Int.tdiv_eq_ediv (by omega) (by omega)]
    have h3 : (2 : Int) ^ m ≤ Int.tdiv x 2 := by rw [hd]; omega
    have h4 : Int.tdiv x 2 < 2 ^ (m + 1) := by rw [hd]; omega
    rw [int_log2_loop, if_pos hx, ih f (Int.tdiv x 2) (l0 + 1) h3 h4 (by omega)]
    push_cast
    ring

theorem int_log2_of_level (l i : Nat) (hl : 1 ≤ l) (hi : i < 2 ^ (l - 1)) :
    int_log2 ((2 : Int) ^ (l - 1) + i) = l := by
  unfold int_log2
  have h1 : (2 : Int) ^ (l - 1) ≤ 2 ^ (l - 1) + (i : Int) := by omega
  have h2 : (2 : Int) ^ (l - 1) + (i : Int) < 2 ^ (l - 1 + 1) := by
    have : ((i : Nat) : Int) < ((2 ^ (l - 1) : Nat) : Int) := by exact_mod_cast hi
    rw [pow_succ]
    push_cast at this
    omega
  have h3 : l - 1 + 1 ≤ ((2 : Int) ^ (l - 1) + (i : Int)).toNat + 1 := by
    have h5 : l - 1 < 2 ^ (l - 1) := Nat.lt_two_pow (l - 1)
    have h6 : ((2 : Int) ^ (l - 1) + (i : Int)).toNat = 2 ^ (l - 1) + i := by
      have : (2 : Int) ^ (l - 1) + (i : Int) = ((2 ^ (l - 1) + i : Nat) : Int) := by push_cast; rfl
      rw [this, Int.toNat_natCast]
    omega
  rw [int_log2_loop_of_level (l - 1) _ _ 0 h1 h2 h3]
  omega

theorem cell_interval_of_level (l i : Nat) (hl : 1 ≤ l) (hi : i < 2 ^ (l - 1)) :
    cell_interval ((2 : Int) ^ (l - 1) + i) = ((i : ℚ) * (1 / 2 ^ (l - 1)), 1 / 2 ^ (l - 1)) := by
  unfold cell_interval
  simp only
  rw [int_log2_of_level l i hl hi]
  have hne : ¬ ((l : Int) = 0) := by omega
  have ht : ((l : Int) - 1).toNat = l - 1 := by omega
  rw [if_neg hne, ht]
  have hi2 : (2 : Int) ^ (l - 1) + (i : Int) - 2 ^ (l - 1) = (i : Int) := by ring
  rw [hi2]
  simp

theorem cell_nodes_of_level (lo hi : ℚ) (l i : Nat) (hl : 1 ≤ l) (hi2 : i < 2 ^ (l - 1)) :
    cell_nodes lo hi ((2 : Int) ^ (l - 1) + i)
      = [(i : ℚ) * (1 / 2 ^ (l - 1)) + 1 / 2 ^ (l - 1) * lo,
         (i : ℚ) * (1 / 2 ^ (l - 1)) + 1 / 2 ^ (l - 1) * hi] := by
  unfold cell_nodes
  have hne : ¬ (int_log2 ((2 : Int) ^ (l - 1) + i) = 0) := by
    rw [int_log2_of_level l i hl hi2]
    omega
  rw [if_neg hne]
  simp only
  rw [cell_interval_of_level l i hl hi2]

theorem cell_nodes_length (lo hi : ℚ) (c : Int) : (cell_nodes lo hi c).length = 2 := by
  unfold cell_nodes
  split_ifs <;> rfl

theorem tensor_nodes_rows (nss : List (List ℚ)) (hn : ∀ ns ∈ nss, ns.length = 2) :
    (tensor_nodes nss).length = 2 ^ nss.length ∧
      ∀ row ∈ tensor_nodes nss, row.length = nss.length := by
  induction nss with
  | nil => simp [tensor_nodes]
  | cons ns rest ih =>
    obtain ⟨ih1, ih2⟩ := ih (fun n hn2 => hn n (List.mem_cons_of_mem _ hn2))
    have h2 : ns.length = 2 := hn ns (List.mem_cons_self _ _)
    obtain ⟨a, b, rfl⟩ : ∃ a b, ns = [a, b] := by
      match ns, h2 with
      | [a, b], _ => exact ⟨a, b, rfl⟩
    constructor
    · simp [tensor_nodes, ih1, pow_succ]
      ring
    · intro row hrow
      simp only [tensor_nodes, List.flatMap_cons, List.flatMap_nil, List.append_nil,
        List.mem_append, List.mem_map] at hrow
      rcases hrow with ⟨r, hr, rfl⟩ | ⟨r, hr, rfl⟩
      · simp [ih2 r hr]
      · simp [ih2 r hr]

theorem get_nodes_rows (lo hi : ℚ) (d : Nat) (cells : List (List Int))
    (hd : ∀ c ∈ cells, c.length = d) :
    (get_nodes lo hi cells).length = cells.length * 2 ^ d ∧
      ∀ row ∈ get_nodes lo hi cells, row.length = d := by
  induction cells with
  | nil => simp [get_nodes]
  | cons c rest ih =>
    obtain ⟨ih1, ih2⟩ := ih (fun c hc => hd c (List.mem_cons_of_mem _ hc))
    have hc : c.length = d := hd c (List.mem_cons_self _ _)
    have ht := tensor_nodes_rows (c.map (cell_nodes lo hi)) (by
      intro ns hns
      obtain ⟨x, _, rfl⟩ := List.mem_map.mp hns
      exact cell_nodes_length lo hi x)
    rw [List.length_map, hc] at ht
    unfold get_nodes at ih1 ih2 ⊢
    constructor
    · rw [List.flatMap_cons, List.length_append, ih1, ht.1, List.length_cons]
      ring
    · intro row hrow
      rw [List.flatMap_cons, List.mem_append] at hrow
      rcases hrow with h | h
      · exact ht.2 row h
      · exact ih2 row h

/-- C22 (as stated): with the nodes of a cell of level at least 1 placed at
`x_left + h/3` and `x_left + 2h/3`, the node table of the five cells
`(0,0),(0,1),(0,2),(0,3),(1,0)` is not the gold table of the test: row 4 (the
first node of cell `(0,1)`) is `(1/3, 1/3)`, the gold row is `(1/3, 1/6)`. -/
theorem get_nodes_thirds_not_gold :
    (get_nodes (1 / 3) (2 / 3) (vector2d_strips 2 make_cellsd2p5)).getD 4 [] = [1 / 3, 1 / 3] ∧
    make_nodesd2p5.getD (4 * 2) 0 = 1 / 3 ∧ make_nodesd2p5.getD (4 * 2 + 1) 0 = 1 / 6 ∧
    (get_nodes (1 / 3) (2 / 3) (vector2d_strips 2 make_cellsd2p5)).flatten ≠ make_nodesd2p5 := by
  decide!

/-- C22 (amended): `get_nodes` returns `N * 2^d` rows of `d` coordinates, the
tensor product of the per-dimension nodes of each cell; the nodes of the
level-0 cell are `1/3, 2/3` and those of the cell `(l, i)`, `l >= 1`, with
`x_left = i * 2^-(l-1)` and `h = 2^-(l-1)`, are `x_left + h/6, x_left + 5h/6`.
For the five cells `(0,0),(0,1),(0,2),(0,3),(1,0)` this gives 20 rows, the first
being `(1/3, 1/3)`, equal to the gold table of the test; `1/6` and `5/6` are the
only relative positions for which the table is the gold table. -/
theorem get_nodes_gold_table :
    (∀ (d : Nat) (cells : List (List Int)), (∀ c ∈ cells, c.length = d) →
      (get_nodes (1 / 6) (5 / 6) cells).length = cells.length * 2 ^ d ∧
        ∀ row ∈ get_nodes (1 / 6) (5 / 6) cells, row.length = d) ∧
    cell_nodes (1 / 6) (5 / 6) 0 = [1 / 3, 2 / 3] ∧
    (∀ l i : Nat, 1 ≤ l → i < 2 ^ (l - 1) →
      cell_nodes (1 / 6) (5 / 6) ((2 : Int) ^ (l - 1) + i)
        = [(i : ℚ) * (1 / 2 ^ (l - 1)) + 1 / 2 ^ (l - 1) / 6,
           (i : ℚ) * (1 / 2 ^ (l - 1)) + 5 * (1 / 2 ^ (l - 1)) / 6]) ∧
    (get_nodes (1 / 6) (5 / 6) (vector2d_strips 2 make_cellsd2p5)).length = 20 ∧
    (get_nodes (1 / 6) (5 / 6) (vector2d_strips 2 make_cellsd2p5)).head? = some [1 / 3, 1 / 3] ∧
    (get_nodes (1 / 6) (5 / 6) (vector2d_strips 2 make_cellsd2p5)).flatten = make_nodesd2p5 ∧
    (∀ lo hi : ℚ,
      (get_nodes lo hi (vector2d_strips 2 make_cellsd2p5)).flatten = make_nodesd2p5
        ↔ lo = 1 / 6 ∧ hi = 5 / 6) := by
  refine ⟨fun d cells hd => get_nodes_rows _ _ d cells hd, by decide!, ?_, by decide!, by decide!,
    by decide!, ?_⟩
  · intro l i hl hi
    rw [cell_nodes_of_level _ _ l i hl hi]
    congr 1
    · ring
    · congr 1
      ring
  · intro lo hi
    constructor
    · intro h
      have hc : vector2d_strips 2 make_cellsd2p5 = [[0, 0], [0, 1], [0, 2], [0, 3], [1, 0]] := by
        decide
      have h0 : int_log2 0 = 0 := by decide
      have h1 : int_log2 1 = 1 := by decide
      have i1 : cell_interval 1 = (0, 1) := by decide!
      rw [hc] at h
      have e1 := congrArg (fun t => t.getD 9 0) h
      have e2 := congrArg (fun t => t.getD 11 0) h
      simp [get_nodes, tensor_nodes, cell_nodes, h0, h1, i1, make_nodesd2p5] at e1 e2
      constructor
      · rw [e1]; norm_num
      · rw [e2]
    · rintro ⟨rfl, rfl⟩
      decide!


theorem gmres_run_zero_print_freq (ext : externals)
    (mat : ℚ → List ℚ → ℚ → List ℚ → List ℚ) (x b : List ℚ)
    (precondition : List ℚ → List ℚ) (restart max_iter : Nat) (tolerance : ℚ)
    (hK : 0 < max_iter) (hR : 0 < restart) (hfreq : restart / 3 = 0)
    (hnorm : ext.nrm2 (precondition (mat (-1) x 1 b)) > tolerance) :
    gmres_run ext mat x b precondition restart max_iter tolerance
      = loop_step.done ⟨x, 2, 2, Except.error solver_error.modulo_by_zero⟩ := by
  obtain ⟨k, rfl⟩ : ∃ k : Nat, max_iter = k + 1 := ⟨max_iter - 1, by omega⟩
  obtain ⟨m, rfl⟩ : ∃ m : Nat, restart = m + 1 := ⟨restart - 1, by omega⟩
  unfold gmres_run
  simp only
  rw [hfreq]
  conv_lhs => unfold gmres_outer_loop
  rw [if_pos ⟨by simp [gmres_init], by simp [gmres_init]⟩]
  unfold gmres_outer_body
  conv_lhs => unfold gmres_inner_loop
  rw [if_pos ⟨hnorm, by simp [gmres_outer_start]⟩]
  simp [gmres_inner_body, gmres_outer_start, gmres_init]

/-- C28 (code evaluated at a failing input): on the system `2 x = 1` started at
`x = 0` with `restart = 1`, five outer passes allowed and `tol = 1e-10`, the call
passes its checks (`1 <= restart <= n = 1`) and the first inner iteration
evaluates `inner_iterations % print_freq` with `print_freq = 1 / 3 = 0`: the run
stops there, after two applications of the operator, and returns no iteration
count. -/
theorem simple_gmres_restart_one_no_count :
    solver_checks ext_example [0] [1] 5 (1 / 10 ^ 10) ∧
    restart_accepted ext_example [1] 1 ∧
    (effective_restart ext_example 1 ((([1] : List ℚ).length : Nat) : Int)).toNat / 3 = 0 ∧
    simple_gmres ext_example (dense_matrix_wrapper [[2]]) [0] [1] no_op_preconditioner 1 5
        (1 / 10 ^ 10)
      = ⟨[0], 2, 2, Except.error solver_error.modulo_by_zero⟩ := by
  have hchk : solver_checks ext_example [0] [1] 5 (1 / 10 ^ 10) := by
    unfold solver_checks; decide!
  have hres : restart_accepted ext_example [1] 1 := by
    unfold restart_accepted; decide!
  refine ⟨hchk, hres, by decide!, ?_⟩
  rw [simple_gmres_of_checks ext_example (dense_matrix_wrapper [[2]]) [0] [1]
    no_op_preconditioner 1 5 (1 / 10 ^ 10) hchk hres,
    gmres_run_zero_print_freq ext_example (dense_matrix_wrapper [[2]]) [0] [1]
      no_op_preconditioner _ _ _ (by decide!) (by decide!) (by decide!) (by decide!)]

/-! ## The tridiagonal system in exact arithmetic -/

theorem forLoop_one {σ : Type} (body : Nat → σ → σ) (s : σ) :
    forLoop 1 body s = body 0 s := rfl
theorem forLoop_two {σ : Type} (body : Nat → σ → σ) (s : σ) :
    forLoop 2 body s = body 1 (body 0 s) := rfl
theorem forLoop_three {σ : Type} (body : Nat → σ → σ) (s : σ) :
    forLoop 3 body s = body 2 (body 1 (body 0 s)) := rfl
theorem forLoop_four {σ : Type} (body : Nat → σ → σ) (s : σ) :
    forLoop 4 body s = body 3 (body 2 (body 1 (body 0 s))) := rfl

theorem dot_over_four {K : Type} [LinearOrderedField K] (a0 a1 a2 a3 b0 b1 b2 b3 : K) :
    dot_over [a0, a1, a2, a3] [b0, b1, b2, b3] = a0 * b0 + a1 * b1 + a2 * b2 + a3 * b3 := by
  simp [dot_over, sumLoop_over, forLoop_four, rd_over]

theorem tri4_apply {K : Type} [LinearOrderedField K] (a0 a1 a2 a3 y0 y1 y2 y3 : K) :
    dense_matrix_wrapper_over (tri4_over K) 1 [a0, a1, a2, a3] 0 [y0, y1, y2, y3]
      = [-2 * a0 + a1, a0 - 2 * a1 + a2, a1 - 2 * a2 + a3, a2 - 2 * a3] := by
  simp [dense_matrix_wrapper_over, gemv_n_over, tri4_over, sumLoop_over, forLoop_four, rd_over]
  refine ⟨?_, ?_, ?_⟩ <;> ring

/-- What exact `rotg` returns on `(a, ν)` with `a^2 + ν^2 = k` not zero: `r^2 = k`,
`c = a r / k`, `s = ν r / k`. -/
theorem rotg_exact {K : Type} [LinearOrderedField K] (ext : externals_over K)
    (hex : exact_externals ext) (a ν k : K) (hk : a * a + ν * ν = k) (hk0 : k ≠ 0) :
    (ext.rotg a ν).1 * (ext.rotg a ν).1 = k ∧
    (ext.rotg a ν).2.2.1 = a * (ext.rotg a ν).1 / k ∧
    (ext.rotg a ν).2.2.2 = ν * (ext.rotg a ν).1 / k := by
  obtain ⟨g1, g2, g3, -⟩ := hex.2.1 a ν
  generalize (ext.rotg a ν).1 = r at *
  generalize (ext.rotg a ν).2.2.1 = c at *
  generalize (ext.rotg a ν).2.2.2 = s at *
  have hr : r * r = k := by
    rw [g2]
    linear_combination (a * a + ν * ν) * g1 + hk - (c * ν - s * a) * g3
  have hrc : r * c = a := by
    rw [g2]
    linear_combination a * g1 + s * g3
  have hrs : r * s = ν := by
    rw [g2]
    linear_combination ν * g1 - c * g3
  refine ⟨hr, ?_, ?_⟩
  · field_simp
    linear_combination (-c) * hr + r * hrc
  · field_simp
    linear_combination (-s) * hr + r * hrs


theorem abs_gt_of_sq {K : Type} [LinearOrderedField K] (x k tol : K) (h : x * x = k)
    (hk : 1 ≤ k) (htol : tol < 1) : |x| > tol := by
  have h1 : 1 ≤ |x| := by
    rw [← one_le_sq_iff_one_le_abs, sq, h]
    exact hk
  exact lt_of_lt_of_le htol h1

theorem inv_of_sq {K : Type} [LinearOrderedField K] (x k : K) (h : x * x = k) (hk : k ≠ 0) :
    1 / x = 1 / k * x := by
  have hx : x ≠ 0 := by
    rintro rfl
    exact hk (by rw [← h]; ring)
  field_simp
  linear_combination -h

/-- The first inner iteration on the tridiagonal system: the state after it is the
closed form `tri4_gmres_state` at 1, with the norm `ν` of the orthogonalised vector and
the value `r` of `rotg` satisfying `ν * ν = 7 / 18` and `r * r = 5 / 6`, and its
`inner_res` is above a tolerance below 1. -/
theorem tri4_step0 {K : Type} [LinearOrderedField K] (ext : externals_over K)
    (hex : exact_externals ext) (tol β ν0 ν1 ν2 r0 r1 r2 : K) (htol : tol < 1)
    (hβ : β * β = 30) :
    ∃ ν r : K, ν * ν = 7 / 18 ∧ r * r = 5 / 6 ∧
      tol < (tri4_gmres_state tol β ν ν1 ν2 r r1 r2 1).inner_res ∧
      gmres_inner_body_over ext (dense_matrix_wrapper_over (tri4_over K))
          no_op_preconditioner_over tol 4 1 (tri4_gmres_state tol β ν0 ν1 ν2 r0 r1 r2 0)
        = loop_step_over.next (tri4_gmres_state tol β ν ν1 ν2 r r1 r2 1) := by
  have hu : dense_matrix_wrapper_over (tri4_over K) 1
      [1/30 * β, 1/15 * β, 1/10 * β, 2/15 * β] 0 [0, 0, 0, 0]
      = [0, 0, 0, -(1/6) * β] := by
    rw [tri4_apply]
    simp only [List.cons.injEq, and_true]
    refine ⟨?_, ?_, ?_, ?_⟩ <;> ring
  have hc : gemv_t_over
      [[1/30 * β, 1/15 * β, 1/10 * β, 2/15 * β]]
      [0, 0, 0, -(1/6) * β] [0] 1 0
      = [-(2/3)] := by
    simp only [gemv_t_over, List.length_cons, List.length_nil, Nat.zero_add, Nat.reduceAdd,
      forLoop_one, List.getD_cons_zero, List.getD_cons_succ, List.set_cons_zero,
      List.set_cons_succ, dot_over_four, rd_over, List.cons.injEq, and_true]
    linear_combination ((-1/45)) * hβ
  have hn : gemv_n_over
      [[1/30 * β, 1/15 * β, 1/10 * β, 2/15 * β]]
      [-(2/3)]
      [0, 0, 0, -(1/6) * β] (-1) 1
      = [1/45 * β, 2/45 * β, 1/15 * β, -(7/90) * β] := by
    simp only [gemv_n_over, List.length_cons, List.length_nil, Nat.zero_add, Nat.reduceAdd,
      forLoop_four, forLoop_one, sumLoop_over, List.getD_cons_zero,
      List.getD_cons_succ, List.set_cons_zero, List.set_cons_succ, rd_over, List.cons.injEq,
      and_true]
    refine ⟨?_, ?_, ?_, ?_⟩
    · ring
    · ring
    · ring
    · ring
  obtain ⟨hnn, hsq⟩ := hex.1 [1/45 * β, 2/45 * β, 1/15 * β, -(7/90) * β]
  obtain ⟨ν, hν⟩ : ∃ ν, ext.nrm2 [1/45 * β, 2/45 * β, 1/15 * β, -(7/90) * β] = ν :=
    ⟨_, rfl⟩
  rw [hν] at hnn hsq
  rw [dot_over_four] at hsq
  have hνν : ν * ν = 7 / 18 := by
    rw [hsq]
    linear_combination ((7/540)) * hβ
  have hinv : 1 / ν = 1 / (7 / 18) * ν := inv_of_sq ν (7 / 18) hνν (by norm_num)
  have hsc : scale_over [1/45 * β, 2/45 * β, 1/15 * β, -(7/90) * β] (1 / ν)
      = [2/35 * β * ν, 4/35 * β * ν, 6/35 * β * ν, -(1/5) * β * ν] := by
    rw [hinv]
    simp only [scale_over, List.map_cons, List.map_nil, List.cons.injEq, and_true]
    refine ⟨?_, ?_, ?_, ?_⟩ <;> ring
  have hk : (-(2/3)) * (-(2/3)) + ν * ν = (5 / 6 : K) := by
    linear_combination (1) * hνν
  obtain ⟨hrr, hcos, hsin⟩ := rotg_exact ext hex (-(2/3)) ν (5 / 6) hk (by norm_num)
  obtain ⟨r, hr⟩ : ∃ r, (ext.rotg (-(2/3)) ν).1 = r := ⟨_, rfl⟩
  rw [hr] at hrr hcos hsin
  have hcos2 : (ext.rotg (-(2/3)) ν).2.2.1 = -(4/5) * r := by
    rw [hcos]
    ring
  have hsin2 : (ext.rotg (-(2/3)) ν).2.2.2 = 6/5 * ν * r := by
    rw [hsin]
    ring
  have hcond : (|6/5 * ν * r * (β)| > tol ∧ 0 < 4) = True := by
    refine eq_true ⟨abs_gt_of_sq _ 14 tol ?_ (by norm_num) htol, by decide⟩
    linear_combination ((36/25) * ν * ν * r * r) * hβ + ((216/5) * r * r) * hνν + ((84/5)) *
      hrr
  have hks : rot_entries_over [β, 0, 0, 0, 0] 0 1
      (-(4/5) * r) (6/5 * ν * r)
      = [-(4/5) * β * r, -(6/5) * β * ν * r, 0, 0, 0] := by
    simp only [rot_entries_over, rd_over, List.getD_cons_zero, List.getD_cons_succ,
      List.set_cons_zero, List.set_cons_succ, List.cons.injEq, and_true, true_and]
    refine ⟨?_, ?_⟩
    · ring
    · ring
  refine ⟨ν, r, hνν, hrr, (of_eq_true hcond).1, ?_⟩
  unfold gmres_inner_body_over
  simp only [tri4_gmres_state]
  simp only [List.getD_cons_zero, List.getD_cons_succ, pos_from_indices, List.take_succ_cons,
    List.take_zero, List.drop_zero, List.drop_succ_cons, no_op_preconditioner_over,
    Nat.zero_add, Nat.reduceAdd, Nat.reduceMul, Nat.reduceDiv, Int.reduceAdd, hu]
  simp only [hc, hn, hν, hsc]
  simp only [forLoop_zero, forLoop_one, forLoop_two, Nat.zero_add, Nat.reduceAdd, rd_over,
    List.getD_cons_zero, List.getD_cons_succ, hr, hcos2, hsin2]
  simp only [List.set_cons_zero, List.set_cons_succ, List.getD_cons_zero, List.getD_cons_succ,
    hcond, hks, if_true]
  simp only [one_ne_zero, if_false, List.cons_append, List.nil_append]

/-- The second inner iteration on the tridiagonal system: the state after it is the
closed form `tri4_gmres_state` at 2, with the norm `ν` of the orthogonalised vector and
the value `r` of `rotg` satisfying `ν * ν = 75 / 98` and `r * r = 15 / 7`, and its
`inner_res` is above a tolerance below 1. -/
theorem tri4_step1 {K : Type} [LinearOrderedField K] (ext : externals_over K)
    (hex : exact_externals ext) (tol β ν0 ν1 ν2 r0 r1 r2 : K) (htol : tol < 1)
    (hβ : β * β = 30) (hν0 : ν0 * ν0 = 7 / 18) (hr0 : r0 * r0 = 5 / 6) :
    ∃ ν r : K, ν * ν = 75 / 98 ∧ r * r = 15 / 7 ∧
      tol < (tri4_gmres_state tol β ν0 ν ν2 r0 r r2 2).inner_res ∧
      gmres_inner_body_over ext (dense_matrix_wrapper_over (tri4_over K))
          no_op_preconditioner_over tol 4 1 (tri4_gmres_state tol β ν0 ν1 ν2 r0 r1 r2 1)
        = loop_step_over.next (tri4_gmres_state tol β ν0 ν ν2 r0 r r2 2) := by
  have hu : dense_matrix_wrapper_over (tri4_over K) 1
      [2/35 * β * ν0, 4/35 * β * ν0, 6/35 * β * ν0, -(1/5) * β * ν0] 0 [0, 0, 0, 0]
      = [0, 0, -(3/7) * β * ν0, 4/7 * β * ν0] := by
    rw [tri4_apply]
    simp only [List.cons.injEq, and_true]
    refine ⟨?_, ?_, ?_, ?_⟩ <;> ring
  have hc : gemv_t_over
      [[1/30 * β, 1/15 * β, 1/10 * β, 2/15 * β],
      [2/35 * β * ν0, 4/35 * β * ν0, 6/35 * β * ν0, -(1/5) * β * ν0]]
      [0, 0, -(3/7) * β * ν0, 4/7 * β * ν0] [0, 0] 1 0
      = [ν0, -(46/21)] := by
    simp only [gemv_t_over, List.length_cons, List.length_nil, Nat.zero_add, Nat.reduceAdd,
      forLoop_two, List.getD_cons_zero, List.getD_cons_succ, List.set_cons_zero,
      List.set_cons_succ, dot_over_four, rd_over, List.cons.injEq, and_true]
    refine ⟨?_, ?_⟩
    · linear_combination ((1/30) * ν0) * hβ
    · linear_combination ((-46/245) * ν0 * ν0) * hβ + ((-276/49)) * hν0
  have hn : gemv_n_over
      [[1/30 * β, 1/15 * β, 1/10 * β, 2/15 * β],
      [2/35 * β * ν0, 4/35 * β * ν0, 6/35 * β * ν0, -(1/5) * β * ν0]]
      [ν0, -(46/21)]
      [0, 0, -(3/7) * β * ν0, 4/7 * β * ν0] (-1) 1
      = [9/98 * β * ν0, 9/49 * β * ν0, -(15/98) * β * ν0, 0] := by
    simp only [gemv_n_over, List.length_cons, List.length_nil, Nat.zero_add, Nat.reduceAdd,
      forLoop_four, forLoop_two, sumLoop_over, List.getD_cons_zero,
      List.getD_cons_succ, List.set_cons_zero, List.set_cons_succ, rd_over, List.cons.injEq,
      and_true]
    refine ⟨?_, ?_, ?_, ?_⟩
    · ring
    · ring
    · ring
    · ring
  obtain ⟨hnn, hsq⟩ := hex.1 [9/98 * β * ν0, 9/49 * β * ν0, -(15/98) * β * ν0, 0]
  obtain ⟨ν, hν⟩ : ∃ ν, ext.nrm2 [9/98 * β * ν0, 9/49 * β * ν0, -(15/98) * β * ν0, 0] = ν :=
    ⟨_, rfl⟩
  rw [hν] at hnn hsq
  rw [dot_over_four] at hsq
  have hrot : rot_entries_over [ν0, -(46/21)] 0 1
      (-(4/5) * r0) (6/5 * ν0 * r0)
      = [-(24/7) * ν0 * r0, 9/7 * r0] := by
    simp only [rot_entries_over, rd_over, List.getD_cons_zero, List.getD_cons_succ,
      List.set_cons_zero, List.set_cons_succ, List.cons.injEq, and_true]
    refine ⟨?_, ?_⟩
    · ring
    · linear_combination ((-6/5) * r0) * hν0
  have hνν : ν * ν = 75 / 98 := by
    rw [hsq]
    linear_combination ((45/686) * ν0 * ν0) * hβ + ((675/343)) * hν0
  have hinv : 1 / ν = 1 / (75 / 98) * ν := inv_of_sq ν (75 / 98) hνν (by norm_num)
  have hsc : scale_over [9/98 * β * ν0, 9/49 * β * ν0, -(15/98) * β * ν0, 0] (1 / ν)
      = [3/25 * β * ν0 * ν, 6/25 * β * ν0 * ν, -(1/5) * β * ν0 * ν, 0] := by
    rw [hinv]
    simp only [scale_over, List.map_cons, List.map_nil, List.cons.injEq, and_true]
    refine ⟨?_, ?_, ?_, ?_⟩ <;> ring
  have hk : (9/7 * r0) * (9/7 * r0) + ν * ν = (15 / 7 : K) := by
    linear_combination (1) * hνν + ((81/49)) * hr0
  obtain ⟨hrr, hcos, hsin⟩ := rotg_exact ext hex (9/7 * r0) ν (15 / 7) hk (by norm_num)
  obtain ⟨r, hr⟩ : ∃ r, (ext.rotg (9/7 * r0) ν).1 = r := ⟨_, rfl⟩
  rw [hr] at hrr hcos hsin
  have hcos2 : (ext.rotg (9/7 * r0) ν).2.2.1 = 3/5 * r0 * r := by
    rw [hcos]
    ring
  have hsin2 : (ext.rotg (9/7 * r0) ν).2.2.2 = 7/15 * ν * r := by
    rw [hsin]
    ring
  have hcond : (|7/15 * ν * r * (-(6/5) * β * ν0 * r0)| > tol ∧ 1 < 4) = True := by
    refine eq_true ⟨abs_gt_of_sq _ 5 tol ?_ (by norm_num) htol, by decide⟩
    linear_combination ((196/625) * ν0 * ν0 * ν * ν * r0 * r0 * r * r) * hβ + ((1176/125) * ν
      * ν * r0 * r0 * r * r) * hν0 + ((1372/375) * r0 * r0 * r * r) * hνν + ((14/5) * r * r) *
      hr0 + ((7/3)) * hrr
  have hks : rot_entries_over [-(4/5) * β * r0, -(6/5) * β * ν0 * r0, 0, 0, 0] 1 2
      (3/5 * r0 * r) (7/15 * ν * r)
      = [-(4/5) * β * r0, -(3/5) * β * ν0 * r, 14/25 * β * ν0 * ν * r0 * r, 0, 0] := by
    simp only [rot_entries_over, rd_over, List.getD_cons_zero, List.getD_cons_succ,
      List.set_cons_zero, List.set_cons_succ, List.cons.injEq, and_true, true_and]
    refine ⟨?_, ?_⟩
    · linear_combination ((-18/25) * β * ν0 * r) * hr0
    · ring
  refine ⟨ν, r, hνν, hrr, (of_eq_true hcond).1, ?_⟩
  unfold gmres_inner_body_over
  simp only [tri4_gmres_state]
  simp only [List.getD_cons_zero, List.getD_cons_succ, pos_from_indices, List.take_succ_cons,
    List.take_zero, List.drop_zero, List.drop_succ_cons, no_op_preconditioner_over,
    Nat.zero_add, Nat.reduceAdd, Nat.reduceMul, Nat.reduceDiv, Int.reduceAdd, hu]
  simp only [hc, hn, hν, hsc]
  simp only [forLoop_zero, forLoop_one, forLoop_two, Nat.zero_add, Nat.reduceAdd, rd_over,
    List.getD_cons_zero, List.getD_cons_succ, hrot, hr, hcos2, hsin2]
  simp only [List.set_cons_zero, List.set_cons_succ, List.getD_cons_zero, List.getD_cons_succ,
    hcond, hks, if_true]
  simp only [one_ne_zero, if_false, List.cons_append, List.nil_append]

/-- The third inner iteration on the tridiagonal system: the state after it is the
closed form `tri4_gmres_state` at 3, with the norm `ν` of the orthogonalised vector and
the value `r` of `rotg` satisfying `ν * ν = 14 / 25` and `r * r = 14 / 5`, and its
`inner_res` is above a tolerance below 1. -/
theorem tri4_step2 {K : Type} [LinearOrderedField K] (ext : externals_over K)
    (hex : exact_externals ext) (tol β ν0 ν1 ν2 r0 r1 r2 : K) (htol : tol < 1)
    (hβ : β * β = 30) (hν0 : ν0 * ν0 = 7 / 18) (hr0 : r0 * r0 = 5 / 6)
    (hν1 : ν1 * ν1 = 75 / 98) (hr1 : r1 * r1 = 15 / 7) :
    ∃ ν r : K, ν * ν = 14 / 25 ∧ r * r = 14 / 5 ∧
      tol < (tri4_gmres_state tol β ν0 ν1 ν r0 r1 r 3).inner_res ∧
      gmres_inner_body_over ext (dense_matrix_wrapper_over (tri4_over K))
          no_op_preconditioner_over tol 4 1 (tri4_gmres_state tol β ν0 ν1 ν2 r0 r1 r2 2)
        = loop_step_over.next (tri4_gmres_state tol β ν0 ν1 ν r0 r1 r 3) := by
  have hu : dense_matrix_wrapper_over (tri4_over K) 1
      [3/25 * β * ν0 * ν1, 6/25 * β * ν0 * ν1, -(1/5) * β * ν0 * ν1, 0] 0 [0, 0, 0, 0]
      = [0, -(14/25) * β * ν0 * ν1, 16/25 * β * ν0 * ν1, -(1/5) * β * ν0 * ν1] := by
    rw [tri4_apply]
    simp only [List.cons.injEq, and_true]
    refine ⟨?_, ?_, ?_, ?_⟩ <;> ring
  have hc : gemv_t_over
      [[1/30 * β, 1/15 * β, 1/10 * β, 2/15 * β],
      [2/35 * β * ν0, 4/35 * β * ν0, 6/35 * β * ν0, -(1/5) * β * ν0],
      [3/25 * β * ν0 * ν1, 6/25 * β * ν0 * ν1, -(1/5) * β * ν0 * ν1, 0]]
      [0, -(14/25) * β * ν0 * ν1, 16/25 * β * ν0 * ν1, -(1/5) * β * ν0 * ν1] [0, 0, 0] 1 0
      = [0, ν1, -(82/35)] := by
    simp only [gemv_t_over, List.length_cons, List.length_nil, Nat.zero_add, Nat.reduceAdd,
      forLoop_three, List.getD_cons_zero, List.getD_cons_succ, List.set_cons_zero,
      List.set_cons_succ, dot_over_four, rd_over, List.cons.injEq, and_true]
    refine ⟨?_, ?_, ?_⟩
    · ring
    · linear_combination ((3/35) * ν0 * ν0 * ν1) * hβ + ((18/7) * ν1) * hν0
    · linear_combination ((-164/625) * ν0 * ν0 * ν1 * ν1) * hβ + ((-984/125) * ν1 * ν1) * hν0
        + ((-1148/375)) * hν1
  have hn : gemv_n_over
      [[1/30 * β, 1/15 * β, 1/10 * β, 2/15 * β],
      [2/35 * β * ν0, 4/35 * β * ν0, 6/35 * β * ν0, -(1/5) * β * ν0],
      [3/25 * β * ν0 * ν1, 6/25 * β * ν0 * ν1, -(1/5) * β * ν0 * ν1, 0]]
      [0, ν1, -(82/35)]
      [0, -(14/25) * β * ν0 * ν1, 16/25 * β * ν0 * ν1, -(1/5) * β * ν0 * ν1] (-1) 1
      = [28/125 * β * ν0 * ν1, -(14/125) * β * ν0 * ν1, 0, 0] := by
    simp only [gemv_n_over, List.length_cons, List.length_nil, Nat.zero_add, Nat.reduceAdd,
      forLoop_four, forLoop_three, sumLoop_over, List.getD_cons_zero,
      List.getD_cons_succ, List.set_cons_zero, List.set_cons_succ, rd_over, List.cons.injEq,
      and_true]
    refine ⟨?_, ?_, ?_, ?_⟩
    · ring
    · ring
    · ring
    · ring
  obtain ⟨hnn, hsq⟩ := hex.1 [28/125 * β * ν0 * ν1, -(14/125) * β * ν0 * ν1, 0, 0]
  obtain ⟨ν, hν⟩ : ∃ ν, ext.nrm2 [28/125 * β * ν0 * ν1, -(14/125) * β * ν0 * ν1, 0, 0] = ν :=
    ⟨_, rfl⟩
  rw [hν] at hnn hsq
  rw [dot_over_four] at hsq
  have hrot : rot_entries_over (rot_entries_over [0, ν1, -(82/35)] 0 1
      (-(4/5) * r0) (6/5 * ν0 * r0)) 1 2
      (3/5 * r0 * r1) (7/15 * ν1 * r1)
      = [6/5 * ν0 * ν1 * r0, -(112/75) * ν1 * r1, -(28/25) * r0 * r1] := by
    simp only [rot_entries_over, rd_over, List.getD_cons_zero, List.getD_cons_succ,
      List.set_cons_zero, List.set_cons_succ, List.cons.injEq, and_true]
    refine ⟨?_, ?_, ?_⟩
    · ring
    · linear_combination ((-12/25) * ν1 * r1) * hr0
    · linear_combination ((28/75) * r0 * r1) * hν1
  have hνν : ν * ν = 14 / 25 := by
    rw [hsq]
    linear_combination ((196/3125) * ν0 * ν0 * ν1 * ν1) * hβ + ((1176/625) * ν1 * ν1) * hν0 +
      ((1372/1875)) * hν1
  have hinv : 1 / ν = 1 / (14 / 25) * ν := inv_of_sq ν (14 / 25) hνν (by norm_num)
  have hsc : scale_over [28/125 * β * ν0 * ν1, -(14/125) * β * ν0 * ν1, 0, 0] (1 / ν)
      = [2/5 * β * ν0 * ν1 * ν, -(1/5) * β * ν0 * ν1 * ν, 0, 0] := by
    rw [hinv]
    simp only [scale_over, List.map_cons, List.map_nil, List.cons.injEq, and_true]
    refine ⟨?_, ?_, ?_, ?_⟩ <;> ring
  have hk : (-(28/25) * r0 * r1) * (-(28/25) * r0 * r1) + ν * ν = (14 / 5 : K) := by
    linear_combination (1) * hνν + ((784/625) * r1 * r1) * hr0 + ((392/375)) * hr1
  obtain ⟨hrr, hcos, hsin⟩ := rotg_exact ext hex (-(28/25) * r0 * r1) ν (14 / 5) hk (by norm_num)
  obtain ⟨r, hr⟩ : ∃ r, (ext.rotg (-(28/25) * r0 * r1) ν).1 = r := ⟨_, rfl⟩
  rw [hr] at hrr hcos hsin
  have hcos2 : (ext.rotg (-(28/25) * r0 * r1) ν).2.2.1 = -(2/5) * r0 * r1 * r := by
    rw [hcos]
    ring
  have hsin2 : (ext.rotg (-(28/25) * r0 * r1) ν).2.2.2 = 5/14 * ν * r := by
    rw [hsin]
    ring
  have hcond : (|5/14 * ν * r * (14/25 * β * ν0 * ν1 * r0 * r1)| > tol ∧ 2 < 4) = True := by
    refine eq_true ⟨abs_gt_of_sq _ 1 tol ?_ (by norm_num) htol, by decide⟩
    linear_combination ((1/25) * ν0 * ν0 * ν1 * ν1 * ν * ν * r0 * r0 * r1 * r1 * r * r) * hβ +
      ((6/5) * ν1 * ν1 * ν * ν * r0 * r0 * r1 * r1 * r * r) * hν0 + ((7/15) * ν * ν * r0 * r0 *
      r1 * r1 * r * r) * hν1 + ((5/14) * r0 * r0 * r1 * r1 * r * r) * hνν + ((1/5) * r1 * r1 * r
      * r) * hr0 + ((1/6) * r * r) * hr1 + ((5/14)) * hrr
  have hks : rot_entries_over [-(4/5) * β * r0, -(3/5) * β * ν0 * r1, 14/25 * β * ν0 * ν1 * r0 * r1, 0, 0] 2 3
      (-(2/5) * r0 * r1 * r) (5/14 * ν * r)
      = [-(4/5) * β * r0, -(3/5) * β * ν0 * r1, -(2/5) * β * ν0 * ν1 * r, -(1/5) * β * ν0 * ν1 * ν * r0 * r1 * r, 0] := by
    simp only [rot_entries_over, rd_over, List.getD_cons_zero, List.getD_cons_succ,
      List.set_cons_zero, List.set_cons_succ, List.cons.injEq, and_true, true_and]
    refine ⟨?_, ?_⟩
    · linear_combination ((-28/125) * β * ν0 * ν1 * r1 * r1 * r) * hr0 + ((-14/75) * β * ν0 *
        ν1 * r) * hr1
    · ring
  refine ⟨ν, r, hνν, hrr, (of_eq_true hcond).1, ?_⟩
  unfold gmres_inner_body_over
  simp only [tri4_gmres_state]
  simp only [List.getD_cons_zero, List.getD_cons_succ, pos_from_indices, List.take_succ_cons,
    List.take_zero, List.drop_zero, List.drop_succ_cons, no_op_preconditioner_over,
    Nat.zero_add, Nat.reduceAdd, Nat.reduceMul, Nat.reduceDiv, Int.reduceAdd, hu]
  simp only [hc, hn, hν, hsc]
  simp only [forLoop_zero, forLoop_one, forLoop_two, Nat.zero_add, Nat.reduceAdd, rd_over,
    List.getD_cons_zero, List.getD_cons_succ, hrot, hr, hcos2, hsin2]
  simp only [List.set_cons_zero, List.set_cons_succ, List.getD_cons_zero, List.getD_cons_succ,
    hcond, hks, if_true]
  simp only [one_ne_zero, if_false, List.cons_append, List.nil_append]

/-- The fourth inner iteration on the tridiagonal system: the orthogonalised vector
is zero and so is its norm, `rotg` returns `c = 1`, `s = 0`, and the state after it
is the closed form `tri4_gmres_state` at 4, whose `inner_res` is zero. Line 268
scales the zero vector by `1 / nrm`, which leaves it zero whatever the value of
`1 / 0` in `K`; it is column 4 of `basis`, which no later line reads. -/
theorem tri4_step3 {K : Type} [LinearOrderedField K] (ext : externals_over K)
    (hex : exact_externals ext) (tol β ν0 ν1 ν2 r0 r1 r2 : K) (htol : 0 ≤ tol)
    (hβ : β * β = 30) (hν0 : ν0 * ν0 = 7 / 18) (hr0 : r0 * r0 = 5 / 6)
    (hν1 : ν1 * ν1 = 75 / 98) (hr1 : r1 * r1 = 15 / 7) (hν2 : ν2 * ν2 = 14 / 25)
    (hr2 : r2 * r2 = 14 / 5) :
    gmres_inner_body_over ext (dense_matrix_wrapper_over (tri4_over K))
        no_op_preconditioner_over tol 4 1 (tri4_gmres_state tol β ν0 ν1 ν2 r0 r1 r2 3)
      = loop_step_over.next (tri4_gmres_state tol β ν0 ν1 ν2 r0 r1 r2 4) := by
  have hu : dense_matrix_wrapper_over (tri4_over K) 1
      [2/5 * β * ν0 * ν1 * ν2, -(1/5) * β * ν0 * ν1 * ν2, 0, 0] 0 [0, 0, 0, 0]
      = [-(β * ν0 * ν1 * ν2), 4/5 * β * ν0 * ν1 * ν2, -(1/5) * β * ν0 * ν1 * ν2, 0] := by
    rw [tri4_apply]
    simp only [List.cons.injEq, and_true]
    refine ⟨?_, ?_, ?_, ?_⟩ <;> ring
  have hc : gemv_t_over
      [[1/30 * β, 1/15 * β, 1/10 * β, 2/15 * β],
      [2/35 * β * ν0, 4/35 * β * ν0, 6/35 * β * ν0, -(1/5) * β * ν0],
      [3/25 * β * ν0 * ν1, 6/25 * β * ν0 * ν1, -(1/5) * β * ν0 * ν1, 0],
      [2/5 * β * ν0 * ν1 * ν2, -(1/5) * β * ν0 * ν1 * ν2, 0, 0]]
      [-(β * ν0 * ν1 * ν2), 4/5 * β * ν0 * ν1 * ν2, -(1/5) * β * ν0 * ν1 * ν2, 0] [0, 0, 0, 0] 1 0
      = [0, 0, ν2, -(14/5)] := by
    simp only [gemv_t_over, List.length_cons, List.length_nil, Nat.zero_add, Nat.reduceAdd,
      forLoop_four, List.getD_cons_zero, List.getD_cons_succ, List.set_cons_zero,
      List.set_cons_succ, dot_over_four, rd_over, List.cons.injEq, and_true]
    refine ⟨?_, ?_, ?_, ?_⟩
    · ring
    · ring
    · linear_combination ((14/125) * ν0 * ν0 * ν1 * ν1 * ν2) * hβ + ((84/25) * ν1 * ν1 * ν2) *
        hν0 + ((98/75) * ν2) * hν1
    · linear_combination ((-14/25) * ν0 * ν0 * ν1 * ν1 * ν2 * ν2) * hβ + ((-84/5) * ν1 * ν1 *
        ν2 * ν2) * hν0 + ((-98/15) * ν2 * ν2) * hν1 + ((-5)) * hν2
  have hn : gemv_n_over
      [[1/30 * β, 1/15 * β, 1/10 * β, 2/15 * β],
      [2/35 * β * ν0, 4/35 * β * ν0, 6/35 * β * ν0, -(1/5) * β * ν0],
      [3/25 * β * ν0 * ν1, 6/25 * β * ν0 * ν1, -(1/5) * β * ν0 * ν1, 0],
      [2/5 * β * ν0 * ν1 * ν2, -(1/5) * β * ν0 * ν1 * ν2, 0, 0]]
      [0, 0, ν2, -(14/5)]
      [-(β * ν0 * ν1 * ν2), 4/5 * β * ν0 * ν1 * ν2, -(1/5) * β * ν0 * ν1 * ν2, 0] (-1) 1
      = [0, 0, 0, 0] := by
    simp only [gemv_n_over, List.length_cons, List.length_nil, Nat.zero_add, Nat.reduceAdd,
      forLoop_four, sumLoop_over, List.getD_cons_zero,
      List.getD_cons_succ, List.set_cons_zero, List.set_cons_succ, rd_over, List.cons.injEq,
      and_true]
    refine ⟨?_, ?_, ?_, ?_⟩
    · ring
    · ring
    · ring
    · ring
  obtain ⟨hnn, hsq⟩ := hex.1 [0, 0, 0, 0]
  obtain ⟨ν, hν⟩ : ∃ ν, ext.nrm2 [0, 0, 0, 0] = ν :=
    ⟨_, rfl⟩
  rw [hν] at hnn hsq
  rw [dot_over_four] at hsq
  have hrot : rot_entries_over (rot_entries_over (rot_entries_over [0, 0, ν2, -(14/5)] 0 1
      (-(4/5) * r0) (6/5 * ν0 * r0)) 1 2
      (3/5 * r0 * r1) (7/15 * ν1 * r1)) 2 3
      (-(2/5) * r0 * r1 * r2) (5/14 * ν2 * r2)
      = [0, 7/15 * ν1 * ν2 * r1, -(10/7) * ν2 * r2, r0 * r1 * r2] := by
    simp only [rot_entries_over, rd_over, List.getD_cons_zero, List.getD_cons_succ,
      List.set_cons_zero, List.set_cons_succ, List.cons.injEq, and_true]
    refine ⟨?_, ?_, ?_, ?_⟩
    · ring
    · ring
    · linear_combination ((-6/25) * ν2 * r1 * r1 * r2) * hr0 + ((-1/5) * ν2 * r2) * hr1
    · linear_combination ((-3/14) * r0 * r1 * r2) * hν2
  have hνz : ν = 0 := by
    have h0 : ν * ν = 0 := by
      rw [hsq]
      ring
    exact mul_self_eq_zero.mp h0
  subst hνz
  have hsc : scale_over ([0, 0, 0, 0] : List K) (1 / 0) = [0, 0, 0, 0] := by
    simp only [scale_over, List.map_cons, List.map_nil, zero_mul]
  have ha : r0 * r1 * r2 ≠ 0 := by
    intro h0
    have h1 : (r0 * r1 * r2) * (r0 * r1 * r2) = 5 := by
      linear_combination (1 * r1 * r1 * r2 * r2) * hr0 + ((5/6) * r2 * r2) * hr1 + ((25/14)) *
        hr2
    rw [h0] at h1
    norm_num at h1
  obtain ⟨-, hr, -, h4⟩ := hex.2.1 (r0 * r1 * r2) 0
  obtain ⟨hcos, hsin⟩ := h4 rfl ha
  rw [hcos, hsin] at hr
  have hrv : (ext.rotg (r0 * r1 * r2) 0).1 = r0 * r1 * r2 := by
    rw [hr]
    ring
  have hcond : (|(0 : K) * (-(1/5) * β * ν0 * ν1 * ν2 * r0 * r1 * r2)| > tol ∧ 3 < 4) = False := by
    refine eq_false ?_
    rintro ⟨h, -⟩
    rw [zero_mul, abs_zero] at h
    exact absurd h (not_lt.mpr htol)
  unfold gmres_inner_body_over
  simp only [tri4_gmres_state]
  simp only [List.getD_cons_zero, List.getD_cons_succ, pos_from_indices, List.take_succ_cons,
    List.take_zero, List.drop_zero, List.drop_succ_cons, no_op_preconditioner_over,
    Nat.zero_add, Nat.reduceAdd, Nat.reduceMul, Nat.reduceDiv, Int.reduceAdd, hu]
  simp only [hc, hn, hν, hsc]
  simp only [forLoop_three, Nat.zero_add, Nat.reduceAdd, rd_over,
    List.getD_cons_zero, List.getD_cons_succ, hrot, hrv, hcos, hsin]
  simp only [List.set_cons_zero, List.set_cons_succ, List.getD_cons_zero, List.getD_cons_succ,
    hcond, if_false]
  simp only [one_ne_zero, if_false, List.cons_append, List.nil_append]

theorem ne_zero_of_sq {K : Type} [LinearOrderedField K] (x k : K) (h : x * x = k)
    (hk : k ≠ 0) : x ≠ 0 := by
  rintro rfl
  exact hk (by rw [← h]; ring)

theorem list_length_four {α : Type} (l : List α) (h : l.length = 4) :
    ∃ a b c d, l = [a, b, c, d] := by
  match l, h with
  | [a, b, c, d], _ => exact ⟨a, b, c, d, rfl⟩

/-- One pass of the inner loop whose condition holds and whose body goes on. -/
theorem gmres_inner_loop_over_step {K : Type} [LinearOrderedField K] (ext : externals_over K)
    (mat : K → List K → K → List K → List K) (precondition : List K → List K) (tolerance : K)
    (restart print_freq fuel : Nat) (st st2 : gmres_state_over K)
    (hc : st.inner_res > tolerance ∧ st.inner_iterations < restart)
    (hb : gmres_inner_body_over ext mat precondition tolerance restart print_freq st
      = loop_step_over.next st2) :
    gmres_inner_loop_over ext mat precondition tolerance restart print_freq (fuel + 1) st
      = gmres_inner_loop_over ext mat precondition tolerance restart print_freq fuel st2 := by
  rw [gmres_inner_loop_over, if_pos hc, hb]

/-- Lines 227-237 on the tridiagonal system: the first basis vector is `b / β` with
`β = nrm2 b`, `β * β = 30`. -/
theorem tri4_start {K : Type} [LinearOrderedField K] (ext : externals_over K)
    (hex : exact_externals ext) (tol ν0 ν1 ν2 r0 r1 r2 : K) :
    ∃ β : K, 0 ≤ β ∧ β * β = 30 ∧
      gmres_outer_start_over ext (dense_matrix_wrapper_over (tri4_over K))
          no_op_preconditioner_over [1, 2, 3, 4] (gmres_init_over [0, 0, 0, 0] 4 4 tol)
        = tri4_gmres_state tol β ν0 ν1 ν2 r0 r1 r2 0 := by
  have hres : dense_matrix_wrapper_over (tri4_over K) (-1) [0, 0, 0, 0] 1 [1, 2, 3, 4]
      = [1, 2, 3, 4] := by
    simp only [dense_matrix_wrapper_over, gemv_n_over, tri4_over, List.length_cons,
      List.length_nil, Nat.zero_add, Nat.reduceAdd, forLoop_four, sumLoop_over,
      List.getD_cons_zero, List.getD_cons_succ, List.set_cons_zero, List.set_cons_succ, rd_over,
      List.cons.injEq, and_true]
    refine ⟨?_, ?_, ?_, ?_⟩ <;> ring
  obtain ⟨hnn, hsq⟩ := hex.1 [1, 2, 3, 4]
  obtain ⟨β, hβd⟩ : ∃ β, ext.nrm2 [1, 2, 3, 4] = β := ⟨_, rfl⟩
  rw [hβd] at hnn hsq
  rw [dot_over_four] at hsq
  have hβ : β * β = 30 := by
    rw [hsq]
    norm_num
  have hinv : 1 / β = 1 / 30 * β := inv_of_sq β 30 hβ (by norm_num)
  have hsc : scale_over [1, 2, 3, 4] (1 / β) = [1/30 * β, 1/15 * β, 1/10 * β, 2/15 * β] := by
    rw [hinv]
    simp only [scale_over, List.map_cons, List.map_nil, List.cons.injEq, and_true]
    refine ⟨?_, ?_, ?_, ?_⟩ <;> ring
  have hinit : gmres_init_over ([0, 0, 0, 0] : List K) 4 4 tol =
      { x := [0, 0, 0, 0],
        basis := [[0, 0, 0, 0], [0, 0, 0, 0], [0, 0, 0, 0], [0, 0, 0, 0], [0, 0, 0, 0]],
        krylov_proj := [0, 0, 0, 0, 0, 0, 0, 0, 0, 0],
        sines := [0, 0, 0, 0, 0], cosines := [0, 0, 0, 0, 0], krylov_sol := [0, 0, 0, 0, 0],
        total_iterations := 0, outer_iterations := 0, inner_iterations := 0,
        inner_res := 0, outer_res := tol + 1, mat_calls := 0, prec_calls := 0 } := rfl
  refine ⟨β, hnn, hβ, ?_⟩
  rw [hinit]
  unfold gmres_outer_start_over
  simp only [tri4_gmres_state, no_op_preconditioner_over, hres, hβd, hsc, List.set_cons_zero,
    Nat.zero_add, Int.reduceAdd, Nat.reduceAdd, zero_add]

/-- The inner loop of the first outer pass on the tridiagonal system runs 4 times
and ends in the closed form `tri4_gmres_state` at 4. -/
theorem tri4_inner_loop {K : Type} [LinearOrderedField K] (ext : externals_over K)
    (hex : exact_externals ext) (tol : K) (h0 : 0 ≤ tol) (h1 : tol < 1) :
    ∃ β ν0 ν1 ν2 r0 r1 r2 : K, β * β = 30 ∧ ν0 * ν0 = 7 / 18 ∧ r0 * r0 = 5 / 6 ∧
      ν1 * ν1 = 75 / 98 ∧ r1 * r1 = 15 / 7 ∧ ν2 * ν2 = 14 / 25 ∧ r2 * r2 = 14 / 5 ∧
      gmres_inner_loop_over ext (dense_matrix_wrapper_over (tri4_over K))
          no_op_preconditioner_over tol 4 1 4
          (gmres_outer_start_over ext (dense_matrix_wrapper_over (tri4_over K))
            no_op_preconditioner_over [1, 2, 3, 4] (gmres_init_over [0, 0, 0, 0] 4 4 tol))
        = loop_step_over.next (tri4_gmres_state tol β ν0 ν1 ν2 r0 r1 r2 4) := by
  obtain ⟨β, hβ0, hβ, hs⟩ := tri4_start ext hex tol 0 0 0 0 0 0
  obtain ⟨ν0, r0, hν0, hr0, hi1, hb0⟩ := tri4_step0 ext hex tol β 0 0 0 0 0 0 h1 hβ
  obtain ⟨ν1, r1, hν1, hr1, hi2, hb1⟩ :=
    tri4_step1 ext hex tol β ν0 0 0 r0 0 0 h1 hβ hν0 hr0
  obtain ⟨ν2, r2, hν2, hr2, hi3, hb2⟩ :=
    tri4_step2 ext hex tol β ν0 ν1 0 r0 r1 0 h1 hβ hν0 hr0 hν1 hr1
  have hb3 := tri4_step3 ext hex tol β ν0 ν1 ν2 r0 r1 r2 h0 hβ hν0 hr0 hν1 hr1 hν2 hr2
  have hi0 : tol < (tri4_gmres_state tol β 0 0 0 0 0 0 0).inner_res := by
    have h := abs_gt_of_sq β 30 tol hβ (by norm_num) h1
    rw [abs_of_nonneg hβ0] at h
    exact h
  refine ⟨β, ν0, ν1, ν2, r0, r1, r2, hβ, hν0, hr0, hν1, hr1, hν2, hr2, ?_⟩
  rw [hs,
    gmres_inner_loop_over_step ext _ _ tol 4 1 3 _ _ ⟨hi0, (by decide : (0 : Nat) < 4)⟩ hb0,
    gmres_inner_loop_over_step ext _ _ tol 4 1 2 _ _ ⟨hi1, (by decide : (1 : Nat) < 4)⟩ hb1,
    gmres_inner_loop_over_step ext _ _ tol 4 1 1 _ _ ⟨hi2, (by decide : (2 : Nat) < 4)⟩ hb2,
    gmres_inner_loop_over_step ext _ _ tol 4 1 0 _ _ ⟨hi3, (by decide : (3 : Nat) < 4)⟩ hb3]
  rfl

/-- Lines 300-316 on the tridiagonal system after 4 inner iterations: the triangular
solve and the update give `x = (-4, -7, -8, -6)`, the residual of the pass is 0. -/
theorem tri4_finish {K : Type} [LinearOrderedField K] (ext : externals_over K)
    (hex : exact_externals ext) (tol β ν0 ν1 ν2 r0 r1 r2 : K)
    (hβ : β * β = 30) (hν0 : ν0 * ν0 = 7 / 18) (hr0 : r0 * r0 = 5 / 6)
    (hν1 : ν1 * ν1 = 75 / 98) (hr1 : r1 * r1 = 15 / 7) (hν2 : ν2 * ν2 = 14 / 25)
    (hr2 : r2 * r2 = 14 / 5) :
    (gmres_outer_finish_over ext (tri4_gmres_state tol β ν0 ν1 ν2 r0 r1 r2 4)).x
        = [-4, -7, -8, -6] ∧
      (gmres_outer_finish_over ext (tri4_gmres_state tol β ν0 ν1 ν2 r0 r1 r2 4)).outer_res = 0 ∧
      (gmres_outer_finish_over ext
        (tri4_gmres_state tol β ν0 ν1 ν2 r0 r1 r2 4)).total_iterations = 5 ∧
      (gmres_outer_finish_over ext (tri4_gmres_state tol β ν0 ν1 ν2 r0 r1 r2 4)).mat_calls = 5 ∧
      (gmres_outer_finish_over ext (tri4_gmres_state tol β ν0 ν1 ν2 r0 r1 r2 4)).prec_calls = 5 := by
  have hd3 : r0 * r1 * r2 ≠ 0 := by
    refine ne_zero_of_sq _ 5 ?_ (by norm_num)
    linear_combination (1 * r1 * r1 * r2 * r2) * hr0 + ((5/6) * r2 * r2) * hr1 + ((25/14)) * hr2
  have hdiag : ∀ i, i < 4 →
      rd_over [r0, -(24/7) * ν0 * r0, r1, 6/5 * ν0 * ν1 * r0, -(112/75) * ν1 * r1, r2, 0,
        7/15 * ν1 * ν2 * r1, -(10/7) * ν2 * r2, r0 * r1 * r2] (pos_from_indices i i) ≠ 0 := by
    intro i hi
    interval_cases i
    · exact ne_zero_of_sq r0 _ hr0 (by norm_num)
    · exact ne_zero_of_sq r1 _ hr1 (by norm_num)
    · exact ne_zero_of_sq r2 _ hr2 (by norm_num)
    · exact hd3
  obtain ⟨hlen, hE⟩ := hex.2.2
    [r0, -(24/7) * ν0 * r0, r1, 6/5 * ν0 * ν1 * r0, -(112/75) * ν1 * r1, r2, 0,
      7/15 * ν1 * ν2 * r1, -(10/7) * ν2 * r2, r0 * r1 * r2]
    [-(4/5) * β * r0, -(3/5) * β * ν0 * r1, -(2/5) * β * ν0 * ν1 * r2,
      -(1/5) * β * ν0 * ν1 * ν2 * r0 * r1 * r2] rfl rfl hdiag
  obtain ⟨y0, y1, y2, y3, hy⟩ := list_length_four _ hlen
  rw [hy] at hE
  have E0 := hE 0 (by decide)
  have E1 := hE 1 (by decide)
  have E2 := hE 2 (by decide)
  have E3 := hE 3 (by decide)
  simp only [sumLoop_over, forLoop_four, rd_over, pos_from_indices, List.getD_cons_zero,
    List.getD_cons_succ, Nat.reduceAdd, Nat.reduceMul, Nat.reduceDiv, Nat.reduceLeDiff,
    if_true, if_false, le_refl, Nat.zero_le] at E0 E1 E2 E3
  have hy3 : y3 = -(1/5) * β * ν0 * ν1 * ν2 := by
    linear_combination ((1/5) * r0 * r1 * r2) * E3 + ((-1/25) * β * ν0 * ν1 * ν2 * r1 * r1 * r2 *
      r2 + (-1/5) * r1 * r1 * r2 * r2 * y3) * hr0 + ((-1/30) * β * ν0 * ν1 * ν2 * r2 * r2 + (-1/6)
      * r2 * r2 * y3) * hr1 + ((-1/14) * β * ν0 * ν1 * ν2 + (-5/14) * y3) * hr2
  subst hy3
  have hy2 : y2 = -(14/25) * β * ν0 * ν1 := by
    linear_combination ((5/14) * r2) * E2 + ((-5/49) * β * ν0 * ν1 * r2 * r2) * hν2 + ((-1/5) * β
      * ν0 * ν1 + (-5/14) * y2) * hr2
  subst hy2
  have hy1 : y1 = -(6/5) * β * ν0 := by
    linear_combination ((7/15) * r1) * E1 + ((49/1125) * β * ν0 * ν2 * ν2 * r1 * r1 +
      (-10976/28125) * β * ν0 * r1 * r1) * hν1 + ((1/30) * β * ν0 * r1 * r1) * hν2 + ((-14/25) * β
      * ν0 + (-7/15) * y1) * hr1
  subst hy1
  have hy0 : y0 = -(11/5) * β := by
    linear_combination ((6/5) * r0) * E0 + ((504/625) * β * ν1 * ν1 * r0 * r0 + (-864/175) * β *
      r0 * r0) * hν0 + ((196/625) * β * r0 * r0) * hν1 + ((-66/25) * β + (-6/5) * y0) * hr0
  subst hy0
  have hx : gemv_n_over
      [[1/30 * β, 1/15 * β, 1/10 * β, 2/15 * β],
       [2/35 * β * ν0, 4/35 * β * ν0, 6/35 * β * ν0, -(1/5) * β * ν0],
       [3/25 * β * ν0 * ν1, 6/25 * β * ν0 * ν1, -(1/5) * β * ν0 * ν1, 0],
       [2/5 * β * ν0 * ν1 * ν2, -(1/5) * β * ν0 * ν1 * ν2, 0, 0]]
      [-(11/5) * β, -(6/5) * β * ν0, -(14/25) * β * ν0 * ν1, -(1/5) * β * ν0 * ν1 * ν2]
      [0, 0, 0, 0] 1 1 = [-4, -7, -8, -6] := by
    simp only [gemv_n_over, List.length_cons, List.length_nil, Nat.zero_add, Nat.reduceAdd,
      forLoop_four, sumLoop_over, List.getD_cons_zero, List.getD_cons_succ, List.set_cons_zero,
      List.set_cons_succ, rd_over, List.cons.injEq, and_true]
    refine ⟨?_, ?_, ?_, ?_⟩
    · linear_combination ((-11/150) + (-12/175) * ν0 * ν0 + (-42/625) * ν0 * ν0 * ν1 * ν1 +
        (-2/25) * ν0 * ν0 * ν1 * ν1 * ν2 * ν2) * hβ + ((-72/35) + (-252/125) * ν1 * ν1 + (-12/5) *
        ν1 * ν1 * ν2 * ν2) * hν0 + ((-98/125) + (-14/15) * ν2 * ν2) * hν1 + ((-5/7)) * hν2
    · linear_combination ((-11/75) + (-24/175) * ν0 * ν0 + (-84/625) * ν0 * ν0 * ν1 * ν1 + (1/25)
        * ν0 * ν0 * ν1 * ν1 * ν2 * ν2) * hβ + ((-144/35) + (-504/125) * ν1 * ν1 + (6/5) * ν1 * ν1
        * ν2 * ν2) * hν0 + ((-196/125) + (7/15) * ν2 * ν2) * hν1 + ((5/14)) * hν2
    · linear_combination ((-11/50) + (-36/175) * ν0 * ν0 + (14/125) * ν0 * ν0 * ν1 * ν1) * hβ +
        ((-216/35) + (84/25) * ν1 * ν1) * hν0 + ((98/75)) * hν1
    · linear_combination ((-22/75) + (6/25) * ν0 * ν0) * hβ + ((36/5)) * hν0
  unfold gmres_outer_finish_over
  simp only [tri4_gmres_state, pos_from_indices, Nat.reduceAdd, Nat.reduceMul, Nat.reduceDiv,
    Nat.reduceSub, List.take_succ_cons, List.take_zero, gt_iff_lt, Nat.lt_add_one,
    Nat.reduceLT, if_true, hy, hx, zero_mul, abs_zero, and_self]

/-- The first outer pass on the tridiagonal system gives `x = (-4, -7, -8, -6)`
with residual 0 after 4 inner iterations, 5 calls of `mat` and a count of 5. -/
theorem tri4_outer_body {K : Type} [LinearOrderedField K] (ext : externals_over K)
    (hex : exact_externals ext) (tol : K) (h0 : 0 ≤ tol) (h1 : tol < 1) :
    ∃ st : gmres_state_over K,
      gmres_outer_body_over ext (dense_matrix_wrapper_over (tri4_over K))
          no_op_preconditioner_over [1, 2, 3, 4] tol 4 1 (gmres_init_over [0, 0, 0, 0] 4 4 tol)
        = loop_step_over.next st ∧
      st.x = [-4, -7, -8, -6] ∧ st.outer_res = 0 ∧ st.total_iterations = 5 ∧
      st.mat_calls = 5 ∧ st.prec_calls = 5 := by
  obtain ⟨β, ν0, ν1, ν2, r0, r1, r2, hβ, hν0, hr0, hν1, hr1, hν2, hr2, hl⟩ :=
    tri4_inner_loop ext hex tol h0 h1
  refine ⟨gmres_outer_finish_over ext (tri4_gmres_state tol β ν0 ν1 ν2 r0 r1 r2 4), ?_,
    tri4_finish ext hex tol β ν0 ν1 ν2 r0 r1 r2 hβ hν0 hr0 hν1 hr1 hν2 hr2⟩
  rw [gmres_outer_body_over, hl]

/-- One pass of the outer loop whose condition holds and whose body goes on. -/
theorem gmres_outer_loop_over_step {K : Type} [LinearOrderedField K] (ext : externals_over K)
    (mat : K → List K → K → List K → List K) (precondition : List K → List K) (b : List K)
    (tolerance : K) (restart print_freq max_outer_iterations fuel : Nat)
    (st st2 : gmres_state_over K)
    (hc : st.outer_res > tolerance ∧ st.outer_iterations < max_outer_iterations)
    (hb : gmres_outer_body_over ext mat precondition b tolerance restart print_freq st
      = loop_step_over.next st2) :
    gmres_outer_loop_over ext mat precondition b tolerance restart print_freq
        max_outer_iterations (fuel + 1) st
      = gmres_outer_loop_over ext mat precondition b tolerance restart print_freq
        max_outer_iterations fuel st2 := by
  rw [gmres_outer_loop_over, if_pos hc, hb]

/-- The outer loop stops in a state in which its condition fails. -/
theorem gmres_outer_loop_over_stop {K : Type} [LinearOrderedField K] (ext : externals_over K)
    (mat : K → List K → K → List K → List K) (precondition : List K → List K) (b : List K)
    (tolerance : K) (restart print_freq max_outer_iterations fuel : Nat)
    (st : gmres_state_over K)
    (hc : ¬ (st.outer_res > tolerance ∧ st.outer_iterations < max_outer_iterations)) :
    gmres_outer_loop_over ext mat precondition b tolerance restart print_freq
        max_outer_iterations fuel st = loop_step_over.next st := by
  cases fuel with
  | zero => rfl
  | succ k => rw [gmres_outer_loop_over, if_neg hc]

/-- The loops of `simple_gmres` on the tridiagonal system, for a positive budget of
outer passes: one outer pass, after which the residual 0 ends the outer loop. -/
theorem tri4_run {K : Type} [LinearOrderedField K] (ext : externals_over K)
    (hex : exact_externals ext) (tol : K) (h0 : 0 ≤ tol) (h1 : tol < 1) (m : Nat) :
    ∃ st : gmres_state_over K,
      gmres_run_over ext (dense_matrix_wrapper_over (tri4_over K)) [0, 0, 0, 0] [1, 2, 3, 4]
          no_op_preconditioner_over 4 (m + 1) tol = loop_step_over.next st ∧
      st.x = [-4, -7, -8, -6] ∧ st.outer_res = 0 ∧ st.total_iterations = 5 ∧
      st.mat_calls = 5 ∧ st.prec_calls = 5 := by
  obtain ⟨st, hb, hst⟩ := tri4_outer_body ext hex tol h0 h1
  refine ⟨st, ?_, hst⟩
  have hc : (gmres_init_over ([0, 0, 0, 0] : List K) 4 4 tol).outer_res > tol ∧
      (gmres_init_over ([0, 0, 0, 0] : List K) 4 4 tol).outer_iterations < m + 1 :=
    ⟨lt_add_one tol, Nat.succ_pos m⟩
  have hstop : ¬ (st.outer_res > tol ∧ st.outer_iterations < m + 1) := by
    rintro ⟨h, -⟩
    rw [hst.2.1] at h
    exact absurd h (not_lt.mpr h0)
  show gmres_outer_loop_over ext (dense_matrix_wrapper_over (tri4_over K))
    no_op_preconditioner_over [1, 2, 3, 4] tol 4 1 (m + 1) (m + 1)
    (gmres_init_over [0, 0, 0, 0] 4 4 tol) = loop_step_over.next st
  rw [gmres_outer_loop_over_step ext _ _ _ tol 4 1 (m + 1) m _ st hc hb]
  exact gmres_outer_loop_over_stop ext _ _ _ tol 4 1 (m + 1) m st hstop

/-- C13 (amended): in exact arithmetic (scalars in an ordered field `K`, the
externals `nrm2`, `rotg`, `tpsv` computing exactly), on the 4 x 4 system with matrix
`tridiag(1, -2, 1)` and right-hand side `(1, 2, 3, 4)`, `simple_gmres` started from
`x = 0` with no preconditioner, restart 4 and `tol = 1e-10` returns the exact solution
`x = (-4, -7, -8, -6)` with residual 0 after one outer pass of 4 inner iterations, 5
calls of `mat` and of the preconditioner, and the iteration count of the returned
record is 5 (the outer pass is counted besides the 4 inner iterations), for every
positive budget of outer passes. -/
theorem gmres_tridiagonal_converges {K : Type} [LinearOrderedField K] (ext : externals_over K)
    (max_outer_iterations : Int) (hex : exact_externals ext)
    (htol : (1 / 10 ^ 10 : K) ≠ ext.NO_USER_VALUE_FP) (heps : ext.epsilon ≤ 1 / 10 ^ 10)
    (hrestart : (4 : Int) ≠ ext.NO_USER_VALUE)
    (hmax : 0 < effective_max_iter_over ext max_outer_iterations 4) :
    simple_gmres_over ext (dense_matrix_wrapper_over (tri4_over K)) [0, 0, 0, 0] [1, 2, 3, 4]
        no_op_preconditioner_over 4 max_outer_iterations (1 / 10 ^ 10)
      = ⟨[-4, -7, -8, -6], 5, 5, Except.ok ⟨0, 5⟩⟩ := by
  have h0 : (0 : K) ≤ 1 / 10 ^ 10 := by positivity
  have h1 : (1 / 10 ^ 10 : K) < 1 := by
    rw [div_lt_one (by positivity)]
    norm_num
  obtain ⟨m, hm⟩ : ∃ m : Nat,
      (effective_max_iter_over ext max_outer_iterations 4).toNat = m + 1 := by
    refine ⟨(effective_max_iter_over ext max_outer_iterations 4).toNat - 1, ?_⟩
    omega
  obtain ⟨st, hrun, hx, hres, hit, hmc, hpc⟩ := tri4_run ext hex (1 / 10 ^ 10) h0 h1 m
  have htolE : effective_tolerance_over ext (1 / 10 ^ 10) = 1 / 10 ^ 10 := by
    rw [effective_tolerance_over, if_neg htol]
  have hresE : effective_restart_over ext 4 (4 : Int) = 4 := by
    rw [effective_restart_over, if_neg hrestart]
  have h4 : Int.toNat 4 = 4 := rfl
  unfold simple_gmres_over
  simp only [htolE, List.length_cons, List.length_nil, Nat.zero_add, Nat.reduceAdd, hresE,
    ge_iff_le, heps, not_true_eq_false, if_false, gt_iff_lt, Nat.cast_ofNat, Int.reduceLT,
    lt_self_iff_false, hmax, h4, hm, hrun, hx, hres, hit, hmc, hpc]

theorem dot_over_self_nonneg {K : Type} [LinearOrderedField K] (w : List K) :
    0 ≤ dot_over w w := by
  unfold dot_over sumLoop_over
  generalize w.length = n
  induction n with
  | zero => exact le_refl _
  | succ n ih =>
    rw [forLoop_succ]
    exact add_nonneg ih (mul_self_nonneg _)

/-- The routine `blas_rotg_over` with an exact square root returns an exact rotation. -/
theorem blas_rotg_over_exact {K : Type} [LinearOrderedField K] (sqrt : K → K)
    (hs : ∀ x : K, 0 ≤ x → 0 ≤ sqrt x ∧ sqrt x * sqrt x = x) (a b : K) :
    (blas_rotg_over sqrt a b).2.2.1 * (blas_rotg_over sqrt a b).2.2.1
        + (blas_rotg_over sqrt a b).2.2.2 * (blas_rotg_over sqrt a b).2.2.2 = 1 ∧
      (blas_rotg_over sqrt a b).1
        = (blas_rotg_over sqrt a b).2.2.1 * a + (blas_rotg_over sqrt a b).2.2.2 * b ∧
      (blas_rotg_over sqrt a b).2.2.1 * b - (blas_rotg_over sqrt a b).2.2.2 * a = 0 ∧
      (b = 0 → a ≠ 0 →
        (blas_rotg_over sqrt a b).2.2.1 = 1 ∧ (blas_rotg_over sqrt a b).2.2.2 = 0) := by
  by_cases hsc : |a| + |b| = 0
  · have ha : a = 0 := by
      have h := abs_nonneg a
      have h2 := abs_nonneg b
      exact abs_eq_zero.mp (by linarith)
    have hb : b = 0 := by
      have h := abs_nonneg a
      have h2 := abs_nonneg b
      exact abs_eq_zero.mp (by linarith)
    subst ha
    subst hb
    simp [blas_rotg_over]
  · obtain ⟨hq0, hqq⟩ := hs ((a / (|a| + |b|)) ^ 2 + (b / (|a| + |b|)) ^ 2) (by positivity)
    generalize hqd : sqrt ((a / (|a| + |b|)) ^ 2 + (b / (|a| + |b|)) ^ 2) = q at hq0 hqq
    have hr0 : ((|a| + |b|) * q) * ((|a| + |b|) * q) = a * a + b * b := by
      have : ((|a| + |b|) * q) * ((|a| + |b|) * q) = (|a| + |b|) ^ 2 * (q * q) := by ring
      rw [this, hqq]
      field_simp
      ring
    have hab : a * a + b * b ≠ 0 := by
      intro h
      have h1 : a = 0 := by nlinarith [mul_self_nonneg a, mul_self_nonneg b]
      have h2 : b = 0 := by nlinarith [mul_self_nonneg a, mul_self_nonneg b]
      rw [h1, h2] at hsc
      simp at hsc
    obtain ⟨r, hrd, hrr⟩ : ∃ r : K,
        (if (if |a| > |b| then a else b) < 0 then -((|a| + |b|) * q) else (|a| + |b|) * q) = r ∧
        r * r = a * a + b * b := by
      refine ⟨_, rfl, ?_⟩
      split_ifs
      all_goals first
        | exact hr0
        | (rw [neg_mul_neg]; exact hr0)
    have hr : r ≠ 0 := by
      rintro rfl
      exact hab (by rw [← hrr]; ring)
    have hval : blas_rotg_over sqrt a b
        = (r, (if |a| > |b| then b / r else if a / r ≠ 0 then 1 / (a / r) else 1), a / r,
          b / r) := by
      simp only [blas_rotg_over, if_neg hsc, hqd, hrd]
    rw [hval]
    refine ⟨?_, ?_, ?_, ?_⟩
    · show a / r * (a / r) + b / r * (b / r) = 1
      field_simp
      linear_combination -hrr
    · show r = a / r * a + b / r * b
      field_simp
      linear_combination hrr
    · show a / r * b - b / r * a = 0
      field_simp
      ring
    · intro hb ha
      subst hb
      show a / r = 1 ∧ 0 / r = 0
      have hq1 : q = 1 := by
        have h1 : q * q = 1 := by
          rw [hqq]
          have : |a| ≠ 0 := abs_ne_zero.mpr ha
          field_simp
        have h2 : (q - 1) * (q + 1) = 0 := by linear_combination h1
        rcases mul_eq_zero.mp h2 with h | h
        · linarith
        · linarith
      have hra : r = a := by
        rw [← hrd, hq1]
        have hpos : |a| > |(0 : K)| := by
          rw [abs_zero]
          exact abs_pos.mpr ha
        rw [if_pos hpos, abs_zero, add_zero, mul_one]
        split_ifs with hneg
        · rw [abs_of_neg hneg, neg_neg]
        · exact abs_of_nonneg (not_lt.mp hneg)
      rw [hra]
      exact ⟨div_self ha, zero_div a⟩

theorem list_length_ten {α : Type} (l : List α) (h : l.length = 10) :
    ∃ a0 a1 a2 a3 a4 a5 a6 a7 a8 a9, l = [a0, a1, a2, a3, a4, a5, a6, a7, a8, a9] := by
  match l, h with
  | [a0, a1, a2, a3, a4, a5, a6, a7, a8, a9], _ =>
    exact ⟨a0, a1, a2, a3, a4, a5, a6, a7, a8, a9, rfl⟩

theorem blas_tpsv_column_three {K : Type} [LinearOrderedField K]
    (a0 a1 a2 a3 a4 a5 a6 a7 a8 a9 z0 z1 z2 z3 : K) :
    blas_tpsv_column_over [a0, a1, a2, a3, a4, a5, a6, a7, a8, a9] 4 0 [z0, z1, z2, z3]
      = [z0 - z3 / a9 * a6, z1 - z3 / a9 * a7, z2 - z3 / a9 * a8, z3 / a9] := by
  by_cases h : z3 = 0
  · subst h
    simp [blas_tpsv_column_over, rd_over]
  · simp [blas_tpsv_column_over, rd_over, h, forLoop_three, pos_from_indices]

theorem blas_tpsv_column_two {K : Type} [LinearOrderedField K]
    (a0 a1 a2 a3 a4 a5 a6 a7 a8 a9 z0 z1 z2 z3 : K) :
    blas_tpsv_column_over [a0, a1, a2, a3, a4, a5, a6, a7, a8, a9] 4 1 [z0, z1, z2, z3]
      = [z0 - z2 / a5 * a3, z1 - z2 / a5 * a4, z2 / a5, z3] := by
  by_cases h : z2 = 0
  · subst h
    simp [blas_tpsv_column_over, rd_over]
  · simp [blas_tpsv_column_over, rd_over, h, forLoop_two, pos_from_indices]

theorem blas_tpsv_column_one {K : Type} [LinearOrderedField K]
    (a0 a1 a2 a3 a4 a5 a6 a7 a8 a9 z0 z1 z2 z3 : K) :
    blas_tpsv_column_over [a0, a1, a2, a3, a4, a5, a6, a7, a8, a9] 4 2 [z0, z1, z2, z3]
      = [z0 - z1 / a2 * a1, z1 / a2, z2, z3] := by
  by_cases h : z1 = 0
  · subst h
    simp [blas_tpsv_column_over, rd_over]
  · simp [blas_tpsv_column_over, rd_over, h, forLoop_one, pos_from_indices]

theorem blas_tpsv_column_zero {K : Type} [LinearOrderedField K]
    (a0 a1 a2 a3 a4 a5 a6 a7 a8 a9 z0 z1 z2 z3 : K) :
    blas_tpsv_column_over [a0, a1, a2, a3, a4, a5, a6, a7, a8, a9] 4 3 [z0, z1, z2, z3]
      = [z0 / a0, z1, z2, z3] := by
  by_cases h : z0 = 0
  · subst h
    simp [blas_tpsv_column_over, rd_over]
  · simp [blas_tpsv_column_over, rd_over, h, forLoop_zero, pos_from_indices]

/-- The routine `blas_tpsv_over` solves an upper triangular system of order 4 in
packed storage whose diagonal has no zero. -/
theorem blas_tpsv_over_exact {K : Type} [LinearOrderedField K] (ap x : List K)
    (hx : x.length = 4) (hap : ap.length = 10)
    (hd : ∀ i, i < 4 → rd_over ap (pos_from_indices i i) ≠ 0) :
    (blas_tpsv_over ap x).length = 4 ∧
      ∀ i, i < 4 →
        sumLoop_over 4 (fun j => if i ≤ j then rd_over ap (pos_from_indices i j)
          * rd_over (blas_tpsv_over ap x) j else 0) 0 = rd_over x i := by
  obtain ⟨x0, x1, x2, x3, rfl⟩ := list_length_four x hx
  obtain ⟨a0, a1, a2, a3, a4, a5, a6, a7, a8, a9, rfl⟩ := list_length_ten ap hap
  have h0 : a0 ≠ 0 := hd 0 (by decide)
  have h2 : a2 ≠ 0 := hd 1 (by decide)
  have h5 : a5 ≠ 0 := hd 2 (by decide)
  have h9 : a9 ≠ 0 := hd 3 (by decide)
  have hv : blas_tpsv_over [a0, a1, a2, a3, a4, a5, a6, a7, a8, a9] [x0, x1, x2, x3]
      = [(x0 - x3 / a9 * a6 - (x2 - x3 / a9 * a8) / a5 * a3
            - (x1 - x3 / a9 * a7 - (x2 - x3 / a9 * a8) / a5 * a4) / a2 * a1) / a0,
         (x1 - x3 / a9 * a7 - (x2 - x3 / a9 * a8) / a5 * a4) / a2,
         (x2 - x3 / a9 * a8) / a5,
         x3 / a9] := by
    simp only [blas_tpsv_over, List.length_cons, List.length_nil, Nat.zero_add, Nat.reduceAdd,
      forLoop_four, blas_tpsv_column_three, blas_tpsv_column_two, blas_tpsv_column_one,
      blas_tpsv_column_zero]
  rw [hv]
  refine ⟨rfl, ?_⟩
  intro i hi
  interval_cases i
  all_goals
    simp only [sumLoop_over, forLoop_four, rd_over, pos_from_indices, List.getD_cons_zero,
      List.getD_cons_succ, Nat.reduceAdd, Nat.reduceMul, Nat.reduceDiv, Nat.reduceLeDiff,
      if_true, if_false, le_refl, Nat.zero_le]
    first
      | (field_simp; ring)
      | field_simp

/-- The externals `ext_example_over` compute exactly when the square root does. -/
theorem ext_example_over_exact {K : Type} [LinearOrderedField K] (sqrt : K → K)
    (hs : ∀ x : K, 0 ≤ x → 0 ≤ sqrt x ∧ sqrt x * sqrt x = x) :
    exact_externals (ext_example_over sqrt) :=
  ⟨fun v => hs _ (dot_over_self_nonneg v), blas_rotg_over_exact sqrt hs,
    fun ap x hx hap hd => blas_tpsv_over_exact ap x hx hap hd⟩

/-- The amended C13 at the reference routines over the reals with `Real.sqrt` and a
budget of 100 outer passes. -/
theorem gmres_tridiagonal_converges_witness :
    exact_externals (ext_example_over Real.sqrt) ∧
      (1 / 10 ^ 10 : ℝ) ≠ (ext_example_over Real.sqrt).NO_USER_VALUE_FP ∧
      (ext_example_over Real.sqrt).epsilon ≤ 1 / 10 ^ 10 ∧
      (4 : Int) ≠ (ext_example_over Real.sqrt).NO_USER_VALUE ∧
      0 < effective_max_iter_over (ext_example_over Real.sqrt) 100 4 ∧
      simple_gmres_over (ext_example_over Real.sqrt) (dense_matrix_wrapper_over (tri4_over ℝ))
          [0, 0, 0, 0] [1, 2, 3, 4] no_op_preconditioner_over 4 100 (1 / 10 ^ 10)
        = ⟨[-4, -7, -8, -6], 5, 5, Except.ok ⟨0, 5⟩⟩ := by
  have hex : exact_externals (ext_example_over Real.sqrt) :=
    ext_example_over_exact Real.sqrt
      (fun x hx => ⟨Real.sqrt_nonneg x, Real.mul_self_sqrt hx⟩)
  have htol : (1 / 10 ^ 10 : ℝ) ≠ (ext_example_over Real.sqrt).NO_USER_VALUE_FP := by
    show (1 / 10 ^ 10 : ℝ) ≠ 1 / 2 ^ 1022
    have h1 : (10 : ℝ) ^ 10 < 2 ^ 1022 :=
      calc (10 : ℝ) ^ 10 < 2 ^ 34 := by norm_num
        _ ≤ 2 ^ 1022 := pow_le_pow_right₀ (by norm_num) (by norm_num)
    exact ne_of_gt (one_div_lt_one_div_of_lt (by positivity) h1)
  have heps : (ext_example_over Real.sqrt).epsilon ≤ 1 / 10 ^ 10 := by
    show (1 / 2 ^ 52 : ℝ) ≤ 1 / 10 ^ 10
    norm_num
  have hr : (4 : Int) ≠ (ext_example_over Real.sqrt).NO_USER_VALUE := by
    show (4 : Int) ≠ -1
    decide
  have hmax : 0 < effective_max_iter_over (ext_example_over Real.sqrt) 100 4 := by
    decide
  exact ⟨hex, htol, heps, hr, hmax,
    gmres_tridiagonal_converges (ext_example_over Real.sqrt) 100 hex htol heps hr hmax⟩

/-! ## The model with the scalars in a field, at the rationals -/

/-- The inner loop body of the model with the scalars in `K`, at the rationals, is
the inner loop body of the rational model. -/
theorem gmres_inner_body_over_rat (ext : externals) (mat : ℚ → List ℚ → ℚ → List ℚ → List ℚ)
    (precondition : List ℚ → List ℚ) (tolerance : ℚ) (restart print_freq : Nat)
    (st : gmres_state) :
    gmres_inner_body_over (externals_over_rat ext) mat precondition tolerance restart print_freq
        (gmres_state_over_rat st)
      = gmres_step_over_rat
        (gmres_inner_body ext mat precondition tolerance restart print_freq st) := by
  unfold gmres_inner_body_over gmres_inner_body
  by_cases h : print_freq = 0
  · simp only [if_pos h]
    rfl
  · simp only [if_neg h]
    rfl

/-- The inner loops of the two models agree at the rationals. -/
theorem gmres_inner_loop_over_rat (ext : externals) (mat : ℚ → List ℚ → ℚ → List ℚ → List ℚ)
    (precondition : List ℚ → List ℚ) (tolerance : ℚ) (restart print_freq fuel : Nat)
    (st : gmres_state) :
    gmres_inner_loop_over (externals_over_rat ext) mat precondition tolerance restart print_freq
        fuel (gmres_state_over_rat st)
      = gmres_step_over_rat
        (gmres_inner_loop ext mat precondition tolerance restart print_freq fuel st) := by
  induction fuel generalizing st with
  | zero => rfl
  | succ n ih =>
    rw [gmres_inner_loop_over, gmres_inner_loop]
    by_cases h : st.inner_res > tolerance ∧ st.inner_iterations < restart
    · have h2 : (gmres_state_over_rat st).inner_res > tolerance ∧
          (gmres_state_over_rat st).inner_iterations < restart := h
      rw [if_pos h, if_pos h2, gmres_inner_body_over_rat]
      cases hb : gmres_inner_body ext mat precondition tolerance restart print_freq st with
      | done r => rfl
      | next st2 => exact ih st2
    · have h2 : ¬ ((gmres_state_over_rat st).inner_res > tolerance ∧
          (gmres_state_over_rat st).inner_iterations < restart) := h
      rw [if_neg h, if_neg h2]
      rfl

/-- The outer loop bodies of the two models agree at the rationals. -/
theorem gmres_outer_body_over_rat (ext : externals) (mat : ℚ → List ℚ → ℚ → List ℚ → List ℚ)
    (precondition : List ℚ → List ℚ) (b : List ℚ) (tolerance : ℚ) (restart print_freq : Nat)
    (st : gmres_state) :
    gmres_outer_body_over (externals_over_rat ext) mat precondition b tolerance restart
        print_freq (gmres_state_over_rat st)
      = gmres_step_over_rat
        (gmres_outer_body ext mat precondition b tolerance restart print_freq st) := by
  have hs : gmres_outer_start_over (externals_over_rat ext) mat precondition b
      (gmres_state_over_rat st)
      = gmres_state_over_rat (gmres_outer_start ext mat precondition b st) := rfl
  rw [gmres_outer_body_over, gmres_outer_body, hs, gmres_inner_loop_over_rat]
  cases hb : gmres_inner_loop ext mat precondition tolerance restart print_freq restart
      (gmres_outer_start ext mat precondition b st) with
  | done r => rfl
  | next st2 =>
    show loop_step_over.next (gmres_outer_finish_over (externals_over_rat ext)
      (gmres_state_over_rat st2)) = loop_step_over.next (gmres_state_over_rat
        (gmres_outer_finish ext st2))
    congr 1
    unfold gmres_outer_finish_over gmres_outer_finish
    by_cases hk : st2.inner_iterations > 0
    · have hk2 : (gmres_state_over_rat st2).inner_iterations > 0 := hk
      simp only [if_pos hk, if_pos hk2]
      rfl
    · have hk2 : ¬ (gmres_state_over_rat st2).inner_iterations > 0 := hk
      simp only [if_neg hk, if_neg hk2]
      rfl

/-- The outer loops of the two models agree at the rationals. -/
theorem gmres_outer_loop_over_rat (ext : externals) (mat : ℚ → List ℚ → ℚ → List ℚ → List ℚ)
    (precondition : List ℚ → List ℚ) (b : List ℚ) (tolerance : ℚ)
    (restart print_freq max_outer_iterations fuel : Nat) (st : gmres_state) :
    gmres_outer_loop_over (externals_over_rat ext) mat precondition b tolerance restart
        print_freq max_outer_iterations fuel (gmres_state_over_rat st)
      = gmres_step_over_rat
        (gmres_outer_loop ext mat precondition b tolerance restart print_freq
          max_outer_iterations fuel st) := by
  induction fuel generalizing st with
  | zero => rfl
  | succ n ih =>
    rw [gmres_outer_loop_over, gmres_outer_loop]
    by_cases h : st.outer_res > tolerance ∧ st.outer_iterations < max_outer_iterations
    · have h2 : (gmres_state_over_rat st).outer_res > tolerance ∧
          (gmres_state_over_rat st).outer_iterations < max_outer_iterations := h
      rw [if_pos h, if_pos h2, gmres_outer_body_over_rat]
      cases hb : gmres_outer_body ext mat precondition b tolerance restart print_freq st with
      | done r => rfl
      | next st2 => exact ih st2
    · have h2 : ¬ ((gmres_state_over_rat st).outer_res > tolerance ∧
          (gmres_state_over_rat st).outer_iterations < max_outer_iterations) := h
      rw [if_neg h, if_neg h2]
      rfl

/-- With the rationals for `K` the model `simple_gmres_over` is the model
`simple_gmres`. -/
theorem simple_gmres_over_rat (ext : externals) (mat : ℚ → List ℚ → ℚ → List ℚ → List ℚ)
    (x b : List ℚ) (precondition : List ℚ → List ℚ) (restart max_outer_iterations : Int)
    (tolerance : ℚ) :
    simple_gmres_over (externals_over_rat ext) mat x b precondition restart
        max_outer_iterations tolerance
      = solver_result_over_rat
        (simple_gmres ext mat x b precondition restart max_outer_iterations tolerance) := by
  have hrun : ∀ (r m : Nat) (t : ℚ),
      gmres_run_over (externals_over_rat ext) mat x b precondition r m t
        = gmres_step_over_rat (gmres_run ext mat x b precondition r m t) := by
    intro r m t
    exact gmres_outer_loop_over_rat ext mat precondition b t r (r / 3) m m
      (gmres_init x b.length r t)
  unfold simple_gmres_over simple_gmres
  have e1 : effective_tolerance_over (externals_over_rat ext) tolerance
      = effective_tolerance ext tolerance := rfl
  have e2 : ∀ n, effective_restart_over (externals_over_rat ext) restart n
      = effective_restart ext restart n := fun _ => rfl
  have e3 : ∀ n, effective_max_iter_over (externals_over_rat ext) max_outer_iterations n
      = effective_max_iter ext max_outer_iterations n := fun _ => rfl
  have e4 : (externals_over_rat ext).epsilon = ext.epsilon := rfl
  simp only [e1, e2, e3, e4, hrun]
  split_ifs
  all_goals first
    | rfl
    | (generalize gmres_run ext mat x b precondition
          (effective_restart ext restart (b.length : Int)).toNat
          (effective_max_iter ext max_outer_iterations (b.length : Int)).toNat
          (effective_tolerance ext tolerance) = res
       cases res with
       | done r => rfl
       | next st => rfl)

end Asgard
